import Mathlib

/-!
# Naming-server directory tree, client LRU cache, health registry, replication and protocol

A shallow embedding of `naming_server/src/directory.c`, `client/src/cache.c`,
`naming_server/src/health.c`, the server selection of `naming_server/src/router.c`,
`storage_server/src/replication.c`, the read, write, delete and file information functions of
`storage_server/src/blocks.c`, the READ, WRITE, REPLICATE and GET_FILE_INFO cases of the
dispatcher in `storage_server/src/main.c`, the location lookup and the registration loop of
`naming_server/src/main.c`, the send and receive loops of `common/src/network.c`, and the
functions `get_storage_server`, `ensure_storage_connection`, `client_read`, `client_write` and
`client_get_file_info` of `client/src/operations.c`.

Conventions of the embedding:

* C strings are `List Char` (no NUL inside); `malloc`, `strdup` and `realloc` are assumed to
  succeed, so the `ERR_INTERNAL_ERROR` exits of the allocation checks are not modelled.
* `directory.c` is embedded in two layers. The definitions of the namespace `Libc` are the
  functions with every `pthread_rwlock_*` call they make on the field `lock` of a node; a
  function returns `none` when one of its lock calls does not return. The lock is the
  `pthread_rwlock_t` of glibc (`nptl/pthread_rwlock_common.c`, default attributes) as far as
  it decides what a call made by one thread does while no other thread is inside a call: the
  word `__readers` and whether `__cur_writer` is the caller. This covers the unlock of a lock
  that the caller does not hold, which `directory_lookup_internal` performs at line 155 and
  `directory_register_file` at line 224, and for which glibc runs the unlock of a reader. The
  definitions of the same names outside `Libc` are what a call that returns does to names,
  kinds, metadata and children; `Libc.data` forgets the locks, and each `Libc` function that
  returns agrees with its namesake on `Libc.data` of the tree (`Libc.lookup_loop_data` to
  `Libc.run_ops_data`).
* The mutexes of `cache.c`, `health.c`, `network.c`, `replication.c` and `blocks.c` are not
  modelled: in the functions embedded, each `pthread_mutex_lock` is followed on every path by
  the `pthread_mutex_unlock` of the same mutex, and no function locks a mutex it holds.
* Heap lifetime is modelled where a pointer can outlive its target: the root of the directory
  tree (`directory_delete` can free it, and no tree exists after the call) and the
  entries of the cache list. A function of `cache.c` returns `none` when the call has no defined
  result: an access through a pointer to freed memory, or a list walk that does not end.
* The directory tree is a value of type `DirectoryEntry`; a `DirectoryEntry *` into the tree is
  the list of child indices leading from the root to the node (`[]` is the root itself), and
  `entry->parent` is that list without its last index.
* The functions of `directory.c` are modelled for calls made after `directory_init` succeeded
  (`root` is not `NULL`).
* The health table is the list of the records `servers_list[0 .. server_count)`; the value of
  `time(NULL)` is an argument `now` of the functions that read the clock, and one pass of the
  monitor loop is one function call.
* The list of secondaries is a `List SecondaryServer`, head first, and a secondary is named by
  its position in that list. The outcome of the socket and file calls is an argument: `send i k`
  is the value the `k`-th `network_socket_send` on secondary `i` returns, and a `FileIO` tells
  how the calls on the local file end. What is sent to the secondaries is returned as a list.
  `network_socket_send` calls `send(fd, .., 0)` and no program installs a handler for
  `SIGPIPE`, so a send on a connection that the peer has shut down terminates the process. The
  replication functions of the namespace `Libc` take a `send i k` of type `Option Int`, `none`
  for that signal, and return `none` when the process is terminated; the functions of the same
  names outside `Libc` are the case in which every send returns
  (`Libc.replication_returns`, `Libc.handlers_return`).
* The byte order of the host is an argument `little_endian` where `ntohl` is applied.
* What travels on a socket is a `List Nat` of bytes. An object is sent as the bytes of its
  storage in the byte order of the host (`store_bytes`, `MessageHeader.bytes`,
  `WriteRequest.bytes`) and read back from the bytes received (`load_bytes`,
  `MessageHeader.load`, `WriteRequest.load`); bytes of an object that no assignment writes are
  an argument. `network_socket_receive stream length` takes up to `length` bytes from what
  arrives until the peer closes the connection; whether a `network_socket_send` completes is
  an argument.
* The functions of `operations.c` return the `ErrorCode` object as the integer it holds, since
  the four bytes read from the wire need not be the value of an enumerator.
-/

namespace NFS

/-! ## errors.h -/

/-- The enumeration `ErrorCode` of `errors.h`. -/
inductive ErrorCode where
  | ERR_SUCCESS
  | ERR_UNKNOWN
  | ERR_INVALID_ARGUMENT
  | ERR_NOT_FOUND
  | ERR_ACCESS_DENIED
  | ERR_IO_ERROR
  | ERR_NETWORK_FAILURE
  | ERR_TIMEOUT
  | ERR_PROTOCOL_ERROR
  | ERR_INTERNAL_ERROR
  | ERR_FILE_NOT_FOUND
deriving DecidableEq, Repr

open ErrorCode

/-- The integer value of each enumerator in `errors.h`. -/
def ErrorCode.code : ErrorCode → Int
  | ERR_SUCCESS => 0
  | ERR_UNKNOWN => -1
  | ERR_INVALID_ARGUMENT => -2
  | ERR_NOT_FOUND => -3
  | ERR_ACCESS_DENIED => -4
  | ERR_IO_ERROR => -5
  | ERR_NETWORK_FAILURE => -6
  | ERR_TIMEOUT => -7
  | ERR_PROTOCOL_ERROR => -8
  | ERR_INTERNAL_ERROR => -9
  | ERR_FILE_NOT_FOUND => -10

/-! ## protocol.h / directory.h -/

/-- The struct `FileMetadata` of `protocol.h`. The `char *storage_server_ip` is represented by the
string it points to. -/
structure FileMetadata where
  storage_server_ip : List Char
  storage_server_port : Nat
  size : Nat
  permissions : Nat
deriving DecidableEq, Repr

/-- The struct `DirectoryEntry` of `directory.h`: `name`, `is_directory`, `metadata` (`none` is
`NULL`) and the array `children` of length `child_count`. The `parent` back pointer is implicit in
the tree shape. This is the node without its field `lock`; `Libc.DirectoryEntry` is the node
with it. -/
inductive DirectoryEntry where
  | mk (name : List Char) (is_directory : Int) (metadata : Option FileMetadata)
      (children : List DirectoryEntry)
deriving Repr

namespace DirectoryEntry

/-- Field `name`. -/
def name : DirectoryEntry → List Char
  | mk n _ _ _ => n

/-- Field `is_directory`. -/
def is_directory : DirectoryEntry → Int
  | mk _ d _ _ => d

/-- Field `metadata`. -/
def metadata : DirectoryEntry → Option FileMetadata
  | mk _ _ m _ => m

/-- Field `children` (with `child_count` its length). -/
def children : DirectoryEntry → List DirectoryEntry
  | mk _ _ _ c => c

/-- Assignment to the `children` array of a node. -/
def set_children : DirectoryEntry → List DirectoryEntry → DirectoryEntry
  | mk n d m _, c => mk n d m c

/-- Assignment `entry->metadata = m`. -/
def set_metadata : DirectoryEntry → Option FileMetadata → DirectoryEntry
  | mk n d _ c, m => mk n d m c

end DirectoryEntry

/-! ## directory.c: what a call that returns does to the tree

The definitions of this section are the functions of `directory.c` without their lock calls:
the effect on names, kinds, metadata and children of a call all of whose `pthread_rwlock_*`
calls return. Whether a call returns is decided by the lock calls; the functions with them
are in the section on `directory.c` with its lock calls, under the same names in the
namespace `Libc`. -/

/-- The tree built by `directory_init`: a root named "/" with `is_directory = 1`, no metadata and
no children. -/
def directory_init : DirectoryEntry :=
  .mk ['/'] 1 none []

/-- The `strtok(.., "/")` loop of `split_path`; `cur` is the token scanned so far. Runs of `/`
produce no token, and a token ends at the next `/` or at the end of the string. -/
def split_path_loop : List Char → List Char → List (List Char)
  | [], cur => if cur = [] then [] else [cur]
  | c :: cs, cur =>
    if c = '/' then
      if cur = [] then split_path_loop cs [] else cur :: split_path_loop cs []
    else split_path_loop cs (cur ++ [c])

/-- Function `split_path`: the tokens of `path` (their number is `*count`). -/
def split_path (path : List Char) : List (List Char) :=
  split_path_loop path []

/-- The inner search loop of `directory_lookup_internal` (lines 107-112): the index and the value
of the first child whose name equals `token`. -/
def find_child : List DirectoryEntry → List Char → Option (Nat × DirectoryEntry)
  | [], _ => none
  | c :: cs, token =>
    if c.name = token then some (0, c)
    else (find_child cs token).map (fun r => (r.1 + 1, r.2))

/-- The node allocated at lines 117-128 for a missing component: `last` says that the component
is the final one (`i = tokens_count - 1`). -/
def new_child (token : List Char) (last : Bool) (is_directory : Int) : DirectoryEntry :=
  .mk token (if (!last) || is_directory != 0 then 1 else 0) none []

/-- The outer loop of `directory_lookup_internal` (lines 102-153), started at node `current` with
the tokens still to be consumed. Returns the error code, the subtree of `current` after the call,
and the pointer (relative to `current`) stored in `*result`; the pointer is meaningful only
when the code is `ERR_SUCCESS`. The lock calls of lines 103, 143, 148, 151 and 155 are in
`Libc.lookup_loop`; this is the loop when they all return. -/
def lookup_loop (create : Bool) (is_directory : Int) :
    List (List Char) → DirectoryEntry → ErrorCode × DirectoryEntry × List Nat
  | [], current => (ERR_SUCCESS, current, [])
  | token :: rest, current =>
    match find_child current.children token with
    | some (j, child) =>
      let r := lookup_loop create is_directory rest child
      (r.1, current.set_children (current.children.set j r.2.1), j :: r.2.2)
    | none =>
      if create then
        let r := lookup_loop create is_directory rest
          (new_child token rest.isEmpty is_directory)
        (r.1, current.set_children (current.children ++ [r.2.1]),
          current.children.length :: r.2.2)
      else (ERR_NOT_FOUND, current, [])

/-- Function `directory_lookup_internal`, on the tree `root`, when its lock calls return
(`Libc.directory_lookup_internal` has them). -/
def directory_lookup_internal (path : List Char) (create : Bool) (is_directory : Int)
    (root : DirectoryEntry) : ErrorCode × DirectoryEntry × List Nat :=
  let tokens := split_path path
  if tokens.length = 0 ∧ path ≠ ['/'] then (ERR_INVALID_ARGUMENT, root, [])
  else lookup_loop create is_directory tokens root

/-- Dereference of a node pointer. -/
def entry_at : List Nat → DirectoryEntry → Option DirectoryEntry
  | [], e => some e
  | i :: rest, e =>
    match e.children[i]? with
    | some c => entry_at rest c
    | none => none

/-- Write through a node pointer: the node `ptr` points to is replaced by `f` of it. -/
def update_at (f : DirectoryEntry → DirectoryEntry) : List Nat → DirectoryEntry → DirectoryEntry
  | [], e => f e
  | i :: rest, e =>
    match e.children[i]? with
    | some c => e.set_children (e.children.set i (update_at f rest c))
    | none => e

/-- Lines 184-203 of `directory_delete` for a node with a parent: the slot of the entry in
`parent->children` is closed by shifting the later children down and `child_count` drops by
one. -/
def unlink_entry : List Nat → DirectoryEntry → DirectoryEntry
  | [], e => e
  | [i], parent => parent.set_children (parent.children.eraseIdx i)
  | i :: j :: rest, e =>
    match e.children[i]? with
    | some c => e.set_children (e.children.set i (unlink_entry (j :: rest) c))
    | none => e

/-- Function `directory_lookup`: error code and `*entry`. The tree is returned as well, so that
the absence of any effect is a statement about the code. -/
def directory_lookup (path : List Char) (root : DirectoryEntry) :
    ErrorCode × DirectoryEntry × List Nat :=
  directory_lookup_internal path false 0 root

/-- Function `directory_create`: error code and tree after the call. -/
def directory_create (path : List Char) (root : DirectoryEntry) : ErrorCode × DirectoryEntry :=
  let r := directory_lookup_internal path true 1 root
  (r.1, r.2.1)

/-- Function `directory_delete`: error code and tree after the call, when its lock calls
return (`Libc.directory_delete` has them, among them the write locks of lines 178 and 33 that
the call for `/` has to get through). The tree is `none` when the call released the root node
itself (`entry->parent` is `NULL`, nothing is unlinked, and `directory_free(entry)` frees the
node that the global `root` still points to). -/
def directory_delete (path : List Char) (root : DirectoryEntry) :
    ErrorCode × Option DirectoryEntry :=
  let r := directory_lookup path root
  if r.1 ≠ ERR_SUCCESS then (r.1, some r.2.1)
  else
    match entry_at r.2.2 r.2.1 with
    | none => (ERR_UNKNOWN, some r.2.1)
    | some entry =>
      if entry.children.length > 0 then (ERR_INVALID_ARGUMENT, some r.2.1)
      else
        match r.2.2 with
        | [] => (ERR_SUCCESS, none)
        | i :: rest => (ERR_SUCCESS, some (unlink_entry (i :: rest) r.2.1))

/-- Function `directory_register_file`: error code and tree after the call. -/
def directory_register_file (path : List Char) (metadata : FileMetadata)
    (root : DirectoryEntry) : ErrorCode × DirectoryEntry :=
  let r := directory_lookup_internal path true 0 root
  if r.1 ≠ ERR_SUCCESS then (r.1, r.2.1)
  else (ERR_SUCCESS, update_at (fun e => e.set_metadata (some metadata)) r.2.2 r.2.1)

/-- Function `directory_get_metadata`: error code and the copy stored in `*metadata`. -/
def directory_get_metadata (path : List Char) (root : DirectoryEntry) :
    ErrorCode × Option FileMetadata :=
  let r := directory_lookup path root
  if r.1 ≠ ERR_SUCCESS then (r.1, none)
  else
    match (entry_at r.2.2 r.2.1).bind DirectoryEntry.metadata with
    | none => (ERR_NOT_FOUND, none)
    | some m => (ERR_SUCCESS, some m)

/-! ## Call sequences and specification-side vocabulary for the directory tree -/

/-- A call of one of the three mutating functions of `directory.h`. -/
inductive DirOp where
  | create (path : List Char)
  | register_file (path : List Char) (metadata : FileMetadata)
  | delete (path : List Char)
deriving Repr

/-- Tree after one call; `none` when the call freed the root node, after which the global `root`
dangles and no tree exists any more. -/
def DirOp.apply : DirOp → DirectoryEntry → Option DirectoryEntry
  | .create p, t => some (directory_create p t).2
  | .register_file p m, t => some (directory_register_file p m t).2
  | .delete p, t => (directory_delete p t).2

/-- Tree after a sequence of calls started in tree `t`. -/
def run_ops : List DirOp → DirectoryEntry → Option DirectoryEntry
  | [], t => some t
  | op :: ops, t => (op.apply t).bind (run_ops ops)

/-- The node a list of components leads to, taking at each step the first child of that name (the
node `directory_lookup` returns); `none` when a component is missing. -/
def resolve : List (List Char) → DirectoryEntry → Option DirectoryEntry
  | [], e => some e
  | t :: ts, e =>
    match find_child e.children t with
    | some (_, c) => resolve ts c
    | none => none

/-- All nodes whose chain of names from the root is the given list of components. -/
def nodes_at : List (List Char) → DirectoryEntry → List DirectoryEntry
  | [], e => [e]
  | t :: ts, e => (e.children.filter (fun c => c.name = t)).flatMap (nodes_at ts)

mutual
/-- Every node of the tree satisfies `p`. -/
def all_nodes (p : DirectoryEntry → Bool) : DirectoryEntry → Bool
  | .mk n d m cs => p (.mk n d m cs) && all_nodes_list p cs
/-- Every node of every tree of the list satisfies `p`. -/
def all_nodes_list (p : DirectoryEntry → Bool) : List DirectoryEntry → Bool
  | [] => true
  | c :: cs => all_nodes p c && all_nodes_list p cs
end

/-- No two children of the node have the same name. -/
def children_distinct (e : DirectoryEntry) : Bool :=
  decide (e.children.map DirectoryEntry.name).Nodup

/-- No node of the tree has two children with the same name. -/
def names_unique (t : DirectoryEntry) : Bool :=
  all_nodes children_distinct t

/-- A node of kind directory has no metadata record. -/
def dir_no_metadata (e : DirectoryEntry) : Bool :=
  decide (e.is_directory = 1 → e.metadata = none)

/-! ## Resolution by the code and registered paths -/

/-- The path `ts` resolves in `t` to the node at `ptr`. -/
def Resolves (ts : List (List Char)) (t : DirectoryEntry) (ptr : List Nat) : Prop :=
  lookup_loop false 0 ts t = (ERR_SUCCESS, t, ptr)

/-- Every metadata record in the tree sits at a path listed in `S`. -/
def MetadataWithin (S : List (List (List Char))) (t : DirectoryEntry) : Prop :=
  ∀ q n, resolve q t = some n → n.metadata ≠ none → q ∈ S

/-- The component lists of the paths passed to `directory_register_file` in a call sequence. -/
def registered_paths : List DirOp → List (List (List Char))
  | [] => []
  | .register_file p _ :: ops => split_path p :: registered_paths ops
  | _ :: ops => registered_paths ops

/-! ## client/src/cache.c -/

/-- The struct `CacheEntry` of `cache.c`. The links `prev` and `next` hold addresses of entries,
`none` being `NULL`; `data` is the content of the buffer `data` points to. -/
structure CacheEntry where
  filepath : List Char
  offset : Nat
  data : List Nat
  length : Nat
  prev : Option Nat
  next : Option Nat
deriving DecidableEq, Repr

/-- The struct `Cache` of `cache.c` together with the heap cells of its entries: `mem a` is the
entry stored at address `a`, `none` when nothing is allocated there (never allocated, or freed).
`brk` is the address the next `malloc` returns; addresses are not handed out twice, so a pointer
to a freed entry stays dangling. -/
structure Cache where
  mem : Nat → Option CacheEntry
  brk : Nat
  head : Option Nat
  tail : Option Nat
  capacity : Nat
  size : Nat

/-- Store through an entry pointer: `none` (undefined behaviour) when the cell is not
allocated. -/
def Cache.modify (c : Cache) (a : Nat) (f : CacheEntry → CacheEntry) : Option Cache :=
  match c.mem a with
  | some e => some { c with mem := fun b => if b = a then some (f e) else c.mem b }
  | none => none

/-- The guarded store `if (q) q->field = v;`: nothing happens when `q` is `NULL`. -/
def Cache.modify_if (c : Cache) (q : Option Nat) (f : CacheEntry → CacheEntry) : Option Cache :=
  match q with
  | some p => c.modify p f
  | none => some c

/-- Library call `free` on the address of an entry. -/
def Cache.free (c : Cache) (a : Nat) : Cache :=
  { c with mem := fun b => if b = a then none else c.mem b }

/-- Function `cache_init`. -/
def cache_init (capacity : Nat) : Cache :=
  { mem := fun _ => none, brk := 1, head := none, tail := none, capacity := capacity, size := 0 }

/-- Function `move_to_head`; every statement reads the fields of `entry` afresh. -/
def move_to_head (entry : Nat) (c : Cache) : Option Cache :=
  if c.head = some entry then some c
  else do
    -- if (entry->prev) entry->prev->next = entry->next;
    let e ← c.mem entry
    let c ← c.modify_if e.prev (fun x => { x with next := e.next })
    -- if (entry->next) entry->next->prev = entry->prev;
    let e ← c.mem entry
    let c ← c.modify_if e.next (fun x => { x with prev := e.prev })
    -- if (entry == cache->tail) cache->tail = entry->prev;
    let e ← c.mem entry
    let c := if c.tail = some entry then { c with tail := e.prev } else c
    -- entry->prev = NULL; entry->next = cache->head;
    let c ← c.modify entry (fun x => { x with prev := none, next := c.head })
    -- if (cache->head) cache->head->prev = entry;
    let c ← c.modify_if c.head (fun x => { x with prev := some entry })
    -- cache->head = entry; if (!cache->tail) cache->tail = entry;
    let c := { c with head := some entry }
    some (if c.tail = none then { c with tail := some entry } else c)

/-- Function `remove_tail`. -/
def remove_tail (c : Cache) : Option Cache :=
  match c.tail with
  | none => some c
  | some tail => do
    -- if (tail->prev) tail->prev->next = NULL;
    let t ← c.mem tail
    let c ← c.modify_if t.prev (fun x => { x with next := none })
    -- cache->tail = tail->prev;
    let t ← c.mem tail
    let c := { c with tail := t.prev }
    -- free(tail); cache->size--;
    let c := c.free tail
    some { c with size := (c.size + 2 ^ 64 - 1) % 2 ^ 64 }

/-- The loops `while (entry) { if (hit) ...; entry = entry->next; }` of `cache_get`, `cache_put`
and `cache_invalidate`: the address of the first entry from `entry` on that satisfies `hit`, or
`NULL`. The result is `none` when the walk reads a cell that is not allocated, or when it is
still running after `fuel` entries. -/
def find_entry (c : Cache) (hit : CacheEntry → Bool) : Nat → Option Nat → Option (Option Nat)
  | _, none => some none
  | 0, some _ => none
  | fuel + 1, some a =>
    match c.mem a with
    | none => none
    | some e => if hit e then some (some a) else find_entry c hit fuel e.next

/-- Function `cache_get`: error code, the bytes copied to `buffer`, `*bytes_read` and the cache
after the call. All allocated addresses are below `brk`, so a walk that is still running after
`brk` entries is in a cycle and never returns. -/
def cache_get (filepath : List Char) (offset : Nat) (length : Nat) (c : Cache) :
    Option (ErrorCode × List Nat × Nat × Cache) :=
  match find_entry c (fun e => e.filepath = filepath && e.offset = offset && e.length ≥ length)
      c.brk c.head with
  | none => none
  | some none => some (ERR_NOT_FOUND, [], 0, c)
  | some (some entry) => do
    let e ← c.mem entry
    let c1 ← move_to_head entry c
    some (ERR_SUCCESS, e.data.take length, length, c1)

/-- Lines 125-149 of `cache_put`: a new entry is allocated, filled, linked in front of
`cache->head` and counted. -/
def insert_head (filepath : List Char) (offset : Nat) (data : List Nat) (length : Nat)
    (c : Cache) : Option Cache := do
  -- entry = malloc(..); fields; entry->prev = NULL; entry->next = cache->head;
  let entry := c.brk
  let c := { c with
    mem := fun b => if b = entry then
      some { filepath := filepath, offset := offset, data := data.take length,
             length := length, prev := none, next := c.head }
      else c.mem b,
    brk := c.brk + 1 }
  -- if (cache->head) cache->head->prev = entry;
  let c ← c.modify_if c.head (fun x => { x with prev := some entry })
  -- cache->head = entry; if (!cache->tail) cache->tail = entry; cache->size++;
  let c := { c with head := some entry }
  let c := if c.tail = none then { c with tail := some entry } else c
  some { c with size := (c.size + 1) % 2 ^ 64 }

/-- Function `cache_put`: error code and cache after the call. -/
def cache_put (filepath : List Char) (offset : Nat) (data : List Nat) (length : Nat)
    (c : Cache) : Option (ErrorCode × Cache) :=
  match find_entry c (fun e => e.filepath = filepath && e.offset = offset) c.brk c.head with
  | none => none
  | some (some entry) => do
    let c1 ← c.modify entry (fun x => { x with data := data.take length, length := length })
    let c2 ← move_to_head entry c1
    some (ERR_SUCCESS, c2)
  | some none => do
    -- if (cache->size >= cache->capacity) remove_tail();
    let c1 ← if c.size ≥ c.capacity then remove_tail c else some c
    let c2 ← insert_head filepath offset data length c1
    some (ERR_SUCCESS, c2)

/-- Function `cache_invalidate`: error code and cache after the call. -/
def cache_invalidate (filepath : List Char) (offset : Nat) (c : Cache) :
    Option (ErrorCode × Cache) :=
  match find_entry c (fun e => e.filepath = filepath && e.offset = offset) c.brk c.head with
  | none => none
  | some none => some (ERR_SUCCESS, c)
  | some (some entry) => do
    -- if (entry->prev) entry->prev->next = entry->next;
    let e ← c.mem entry
    let c ← c.modify_if e.prev (fun x => { x with next := e.next })
    -- if (entry->next) entry->next->prev = entry->prev;
    let e ← c.mem entry
    let c ← c.modify_if e.next (fun x => { x with prev := e.prev })
    -- if (entry == cache->head) cache->head = entry->next;
    let e ← c.mem entry
    let c := if c.head = some entry then { c with head := e.next } else c
    -- if (entry == cache->tail) cache->tail = entry->prev;
    let c := if c.tail = some entry then { c with tail := e.prev } else c
    -- free(entry); cache->size--;
    let c := c.free entry
    some (ERR_SUCCESS, { c with size := (c.size + 2 ^ 64 - 1) % 2 ^ 64 })

/-- The keys of the entries from `head` along `next`, `none` under the conditions of
`find_entry`. -/
def cache_keys (c : Cache) : Nat → Option Nat → Option (List (List Char × Nat))
  | _, none => some []
  | 0, some _ => none
  | fuel + 1, some a =>
    match c.mem a with
    | none => none
    | some e => (cache_keys c fuel e.next).map (fun l => (e.filepath, e.offset) :: l)

/-! ## Well-formed cache lists -/

/-- Key and payload of an entry: path, offset, bytes and length. -/
def CacheEntry.item (e : CacheEntry) : List Char × Nat × List Nat × Nat :=
  (e.filepath, e.offset, e.data, e.length)

/-- The cells at the addresses `l` are linked into a list that starts after `prev`: each is
allocated, its `prev` is the address before it and its `next` the address after it, `NULL` at
the end. -/
def chain (c : Cache) : Option Nat → List Nat → Prop
  | _, [] => True
  | prev, a :: rest =>
    ∃ e, c.mem a = some e ∧ e.prev = prev ∧ e.next = rest.head? ∧ chain c (some a) rest

/-- The cache is the well-formed doubly linked list of the cells at the addresses `l`, from
`head` to `tail`, and nothing else is allocated. -/
structure cache_wf (c : Cache) (l : List Nat) : Prop where
  nodup : l.Nodup
  below : ∀ a ∈ l, a < c.brk
  alloc : ∀ a, c.mem a ≠ none → a ∈ l
  links : chain c none l
  head_eq : c.head = l.head?
  tail_eq : c.tail = l.getLast?
  size_eq : c.size = l.length

/-- The cache is well formed and holds exactly the items `xs`, most recently used first. -/
def cache_holds (c : Cache) (xs : List (List Char × Nat × List Nat × Nat)) : Prop :=
  ∃ l, cache_wf c l ∧ List.Forall₂ (fun a x => ∃ e, c.mem a = some e ∧ e.item = x) l xs

/-- The key of an item: path and offset. -/
def item_key (x : List Char × Nat × List Nat × Nat) : List Char × Nat :=
  (x.1, x.2.1)

/-- The item `cache_put` stores for the arguments `(filepath, offset, data, length)`. -/
def stored_item (x : List Char × Nat × List Nat × Nat) : List Char × Nat × List Nat × Nat :=
  (x.1, x.2.1, x.2.2.1.take x.2.2.2, x.2.2.2)

/-- A sequence of `cache_put` calls, one per element `(filepath, offset, data, length)`. -/
def cache_puts : List (List Char × Nat × List Nat × Nat) → Cache → Option Cache
  | [], c => some c
  | x :: xs, c => (cache_put x.1 x.2.1 x.2.2.1 x.2.2.2 c).bind (fun r => cache_puts xs r.2)

/-- Every pointer stored in the cache (the head and the links of the allocated cells) is `NULL`
or the address of an allocated cell. -/
def ptr_closed (c : Cache) : Prop :=
  (∀ h, c.head = some h → c.mem h ≠ none) ∧
  ∀ a e, c.mem a = some e →
    (∀ p, e.prev = some p → c.mem p ≠ none) ∧ (∀ n, e.next = some n → c.mem n ≠ none)

/-! ## naming_server: health.h / health.c -/

/-- The struct `StorageServer` of `health.h`; `host` and `port` are the strings held by the
arrays `char host[256]` and `char port[32]`. -/
structure StorageServer where
  host : List Char
  port : List Char
  last_heartbeat : Int
  load : Int
  active : Int
deriving DecidableEq, Repr

/-- Constant `MAX_SERVERS` of `health.c`. -/
def MAX_SERVERS : Nat := 100

/-- Constant `HEARTBEAT_TIMEOUT` of `health.c`, in seconds. -/
def HEARTBEAT_TIMEOUT : Int := 15

/-- The first loop of `health_receive_heartbeat` (lines 37-46) on the records
`servers_list[0 .. server_count)`: the first record whose host and port both compare equal gets
`last_heartbeat = time(NULL)`, `load` and `active = 1`; `none` when no record matches. -/
def heartbeat_update (host port : List Char) (load now : Int) :
    List StorageServer → Option (List StorageServer)
  | [] => none
  | s :: rest =>
    if s.host = host ∧ s.port = port then
      some ({ s with last_heartbeat := now, load := load, active := 1 } :: rest)
    else (heartbeat_update host port load now rest).map (fun r => s :: r)

/-- Function `health_receive_heartbeat`, with `now` the value `time(NULL)` returns. The table is
the list of the records `servers_list[0 .. server_count)`. A new record is written into a slot of
the zero-initialised static array that was never used before, so the two `strncpy` calls leave
the first 255 bytes of `host` and the first 31 bytes of `port` there. -/
def health_receive_heartbeat (host port : List Char) (load now : Int)
    (servers : List StorageServer) : List StorageServer :=
  match heartbeat_update host port load now servers with
  | some updated => updated
  | none =>
    if servers.length < MAX_SERVERS then
      servers ++ [{ host := host.take 255, port := port.take 31, last_heartbeat := now,
                    load := load, active := 1 }]
    else servers

/-- The copy loop of `health_get_servers` (lines 85-89): the records with a non-zero `active`, in
table order. -/
def active_servers : List StorageServer → List StorageServer
  | [] => []
  | s :: rest => if s.active ≠ 0 then s :: active_servers rest else active_servers rest

/-- Function `health_get_servers`: error code, the table after the call, and the values stored
in `*servers_out` and `*count_out` (`none` when the function returns before writing them). -/
def health_get_servers (servers : List StorageServer) :
    ErrorCode × List StorageServer × Option (List StorageServer × Nat) :=
  let active_count := (active_servers servers).length
  if active_count = 0 then (ERR_NOT_FOUND, servers, none)
  else (ERR_SUCCESS, servers, some (active_servers servers, active_count))

/-- One pass of the loop body of `health_monitor` (lines 102-109), with `now` the value
`time(NULL)` returns. -/
def health_monitor_pass (now : Int) : List StorageServer → List StorageServer
  | [] => []
  | s :: rest =>
    (if s.active ≠ 0 ∧ now - s.last_heartbeat > HEARTBEAT_TIMEOUT then { s with active := 0 }
      else s) :: health_monitor_pass now rest

/-- An event on the health registry: a heartbeat received at time `now`, or a pass of the monitor
at time `now`. -/
inductive HealthOp where
  | heartbeat (host port : List Char) (load now : Int)
  | monitor (now : Int)
deriving Repr

/-- Table after one event. -/
def HealthOp.apply : HealthOp → List StorageServer → List StorageServer
  | .heartbeat host port load now, servers => health_receive_heartbeat host port load now servers
  | .monitor now, servers => health_monitor_pass now servers

/-- Table after a sequence of events, started from the table `servers`; the table of a fresh
process is empty (`server_count = 0`). -/
def run_health : List HealthOp → List StorageServer → List StorageServer
  | [], servers => servers
  | op :: ops, servers => run_health ops (op.apply servers)

/-- Every record has `active` equal to 0 or 1. -/
def active_flags_ok (servers : List StorageServer) : Prop :=
  ∀ s ∈ servers, s.active = 0 ∨ s.active = 1

/-! ## naming_server: router.c -/

/-- The selection loop of `select_storage_server` (lines 106-113) from index `i` on, with the
loop variables `min_load` and `selected_index`; returns `selected_index` after the loop. -/
def select_loop : List StorageServer → Int → Int → Int → Int
  | [], _, _, selected_index => selected_index
  | s :: rest, i, min_load, selected_index =>
    if s.active ≠ 0 then
      if min_load = -1 ∨ s.load < min_load then select_loop rest (i + 1) s.load i
      else select_loop rest (i + 1) min_load selected_index
    else select_loop rest (i + 1) min_load selected_index

/-- Function `select_storage_server` on the health table: error code and the strings copied to
`host` and `port` by `strncpy` (at most 255 and 31 bytes). -/
def select_storage_server (registry : List StorageServer) :
    ErrorCode × Option (List Char × List Char) :=
  match health_get_servers registry with
  | (ERR_SUCCESS, _, some (servers, server_count)) =>
    if server_count = 0 then (ERR_NOT_FOUND, none)
    else
      let selected_index := select_loop servers 0 (-1) (-1)
      if selected_index = -1 then (ERR_NOT_FOUND, none)
      else
        match servers[selected_index.toNat]? with
        | some s => (ERR_SUCCESS, some (s.host.take 255, s.port.take 31))
        | none => (ERR_NOT_FOUND, none)
  | _ => (ERR_NOT_FOUND, none)

/-! ## storage_server: replication.c, blocks.c and the dispatcher of main.c -/

/-- Host byte order conversions `ntohl` and `htonl` on a 32-bit value: the identity on a
big-endian host, the reversal of the four bytes on a little-endian host. -/
def ntohl (little_endian : Bool) (x : Nat) : Nat :=
  if little_endian then
    (x % 256) * 2 ^ 24 + (x / 2 ^ 8 % 256) * 2 ^ 16 + (x / 2 ^ 16 % 256) * 2 ^ 8 + x / 2 ^ 24 % 256
  else x % 2 ^ 32

/-- The struct `MessageHeader` of `protocol.h`. -/
structure MessageHeader where
  request_id : Nat
  type : Nat
  payload_size : Nat
deriving DecidableEq, Repr

/-- The struct `WriteRequest` of `protocol.h` (also the layout of `ReadRequest`); `filepath` is
the string held by `char filepath[256]`. -/
structure WriteRequest where
  header : MessageHeader
  filepath : List Char
  offset : Nat
  length : Nat
deriving DecidableEq, Repr

/-- The struct `DeleteRequest` of `protocol.h`. -/
structure DeleteRequest where
  header : MessageHeader
  filepath : List Char
deriving DecidableEq, Repr

/-- Message type constants of `protocol.h` used by the storage server. -/
def MSG_TYPE_WRITE : Nat := 2
/-- Enumerator `MSG_TYPE_DELETE`. -/
def MSG_TYPE_DELETE : Nat := 4
/-- Enumerator `MSG_TYPE_ERROR`. -/
def MSG_TYPE_ERROR : Nat := 8
/-- Enumerator `MSG_TYPE_REPLICATE_WRITE`. -/
def MSG_TYPE_REPLICATE_WRITE : Nat := 10
/-- Enumerator `MSG_TYPE_REPLICATE_DELETE`. -/
def MSG_TYPE_REPLICATE_DELETE : Nat := 11

/-- Value of `sizeof(WriteRequest)`: 12 bytes of header, 256 of path, 4 of padding, 8 of offset,
4 of length and 4 of tail padding. -/
def SIZEOF_WRITE_REQUEST : Int := 288

/-- Value of `sizeof(DeleteRequest)`: 12 bytes of header and 256 of path. -/
def SIZEOF_DELETE_REQUEST : Int := 268

/-- The struct `SecondaryServer` of `replication.c` without its socket, lock and link; the list
`secondaries` is a `List SecondaryServer`, head first. -/
structure SecondaryServer where
  host : List Char
  port : List Char
  is_alive : Int
deriving DecidableEq, Repr

/-- A call of `network_socket_send` on the socket of the secondary at position `dest` of the
list: what was handed to the call. -/
inductive Sent where
  | write_request (dest : Nat) (request : WriteRequest)
  | data (dest : Nat) (bytes : List Nat)
  | delete_request (dest : Nat) (request : DeleteRequest)
deriving DecidableEq, Repr

/-- The secondary a send was addressed to. -/
def Sent.dest : Sent → Nat
  | .write_request d _ => d
  | .data d _ => d
  | .delete_request d _ => d

/-- The conversion `(ssize_t)length` of a `size_t`. -/
def to_ssize_t (length : Nat) : Int :=
  if length % 2 ^ 64 < 2 ^ 63 then (length % 2 ^ 64 : Nat) else (length % 2 ^ 64 : Nat) - 2 ^ 64

/-- The loop of `replication_replicate_write` (lines 106-135) from the secondary at position
`i` on, when every send returns. `send i k` is the value the `k`-th `network_socket_send` on
that secondary returns (`k = 0` for the request, `k = 1` for the data). Returns the secondaries
after the loop and the sends made, in order. A send that raises `SIGPIPE` instead of returning
is part of `Libc.replicate_write_loop`. -/
def replicate_write_loop (send : Nat → Nat → Int) (request : WriteRequest) (buffer : List Nat)
    (length : Nat) : Nat → List SecondaryServer → List SecondaryServer × List Sent
  | _, [] => ([], [])
  | i, s :: rest =>
    let r := replicate_write_loop send request buffer length (i + 1) rest
    if s.is_alive ≠ 0 then
      if send i 0 ≠ SIZEOF_WRITE_REQUEST then
        ({ s with is_alive := 0 } :: r.1, Sent.write_request i request :: r.2)
      else if send i 1 ≠ to_ssize_t length then
        ({ s with is_alive := 0 } :: r.1,
          Sent.write_request i request :: Sent.data i (buffer.take length) :: r.2)
      else (s :: r.1, Sent.write_request i request :: Sent.data i (buffer.take length) :: r.2)
    else (s :: r.1, r.2)

/-- Function `replication_replicate_write` when every send returns
(`Libc.replication_replicate_write` has the signal of `send`): error code, secondaries after
the call and the sends made. The request is zero-initialised, then `type`, `filepath` (by `strncpy` of at most 255
bytes), `offset` and `length` (a `uint32_t`) are assigned, all in host representation. -/
def replication_replicate_write (send : Nat → Nat → Int) (filepath : List Char) (offset : Nat)
    (buffer : List Nat) (length : Nat) (secondaries : List SecondaryServer) :
    ErrorCode × List SecondaryServer × List Sent :=
  let request : WriteRequest :=
    { header := { request_id := 0, type := MSG_TYPE_REPLICATE_WRITE, payload_size := 0 },
      filepath := filepath.take 255, offset := offset, length := length % 2 ^ 32 }
  let r := replicate_write_loop send request buffer length 0 secondaries
  (ERR_SUCCESS, r.1, r.2)

/-- The loop of `replication_replicate_delete` (lines 144-163) from position `i` on, when every
send returns. -/
def replicate_delete_loop (send : Nat → Nat → Int) (request : DeleteRequest) :
    Nat → List SecondaryServer → List SecondaryServer × List Sent
  | _, [] => ([], [])
  | i, s :: rest =>
    let r := replicate_delete_loop send request (i + 1) rest
    if s.is_alive ≠ 0 then
      if send i 0 ≠ SIZEOF_DELETE_REQUEST then
        ({ s with is_alive := 0 } :: r.1, Sent.delete_request i request :: r.2)
      else (s :: r.1, Sent.delete_request i request :: r.2)
    else (s :: r.1, r.2)

/-- Function `replication_replicate_delete` when every send returns
(`Libc.replication_replicate_delete` has the signal of `send`): error code, secondaries after
the call and the sends made. -/
def replication_replicate_delete (send : Nat → Nat → Int) (filepath : List Char)
    (secondaries : List SecondaryServer) : ErrorCode × List SecondaryServer × List Sent :=
  let request : DeleteRequest :=
    { header := { request_id := 0, type := MSG_TYPE_REPLICATE_DELETE, payload_size := 0 },
      filepath := filepath.take 255 }
  let r := replicate_delete_loop send request 0 secondaries
  (ERR_SUCCESS, r.1, r.2)

/-- Outcome of the C library calls that `storage_write` makes on the local file: whether
`fopen(.., "r+b")`, `fopen(.., "w+b")` and `fseek` succeed, and the count `fwrite` returns. -/
structure FileIO where
  fopen_update : Bool
  fopen_create : Bool
  fseek_ok : Bool
  fwrite_count : Nat
deriving DecidableEq, Repr

/-- Function `storage_write` of `blocks.c`: error code, secondaries after the call and the sends
made to secondaries. The load counter and the file content are not part of the model. -/
def storage_write (io : FileIO) (send : Nat → Nat → Int) (filepath : List Char) (offset : Nat)
    (buffer : List Nat) (length : Nat) (secondaries : List SecondaryServer) :
    ErrorCode × List SecondaryServer × List Sent :=
  if !io.fopen_update && !io.fopen_create then (ERR_IO_ERROR, secondaries, [])
  else if !io.fseek_ok then (ERR_IO_ERROR, secondaries, [])
  else if io.fwrite_count < length then (ERR_IO_ERROR, secondaries, [])
  else
    let r := replication_replicate_write send filepath offset buffer length secondaries
    (ERR_SUCCESS, r.2.1, r.2.2)

/-- Function `storage_delete_file` of `blocks.c`, with `removed` telling whether `remove`
returned 0. -/
def storage_delete_file (removed : Bool) (send : Nat → Nat → Int) (filepath : List Char)
    (secondaries : List SecondaryServer) : ErrorCode × List SecondaryServer × List Sent :=
  if !removed then (ERR_IO_ERROR, secondaries, [])
  else
    let r := replication_replicate_delete send filepath secondaries
    (ERR_SUCCESS, r.2.1, r.2.2)

/-- What the dispatcher sends back on the socket of the request. -/
inductive Reply where
  | header (h : MessageHeader)
  | error_code (code : ErrorCode)
deriving DecidableEq, Repr

/-- Function `send_error_response` of the storage server: an `ERROR` header, then the code. -/
def send_error_response (code : ErrorCode) : List Reply :=
  [Reply.header { request_id := 0, type := MSG_TYPE_ERROR, payload_size := 0 },
   Reply.error_code code]

/-- The path built by `snprintf(full_filepath, 256, "%s/%s", server_data_dir, filepath)`. -/
def full_filepath (server_data_dir filepath : List Char) : List Char :=
  (server_data_dir ++ '/' :: filepath).take 255

/-- What `handle_client_request` leaves behind: replies on the request socket, secondaries and
sends to secondaries. -/
structure Handled where
  replies : List Reply
  secondaries : List SecondaryServer
  sent : List Sent

/-- Case `MSG_TYPE_WRITE` of `handle_client_request` (lines 105-151). `request` is the struct as
received, `received` and `data` are the result and the bytes of the second
`network_socket_receive`. -/
def handle_write (little_endian : Bool) (server_data_dir : List Char) (io : FileIO)
    (send : Nat → Nat → Int) (request : WriteRequest) (received : Int) (data : List Nat)
    (secondaries : List SecondaryServer) : Handled :=
  let length := ntohl little_endian request.length
  let offset := ntohl little_endian (request.offset % 2 ^ 32)
  if received ≠ length then
    { replies := send_error_response ERR_NETWORK_FAILURE, secondaries := secondaries, sent := [] }
  else
    let r := storage_write io send (full_filepath server_data_dir request.filepath) offset data
      length secondaries
    if r.1 = ERR_SUCCESS then
      { replies := [Reply.header { request_id := 0, type := MSG_TYPE_WRITE, payload_size := 0 }],
        secondaries := r.2.1, sent := r.2.2 }
    else { replies := send_error_response r.1, secondaries := r.2.1, sent := r.2.2 }

/-- Case `MSG_TYPE_REPLICATE_WRITE` of `handle_client_request` (lines 190-223). -/
def handle_replicate_write (little_endian : Bool) (server_data_dir : List Char) (io : FileIO)
    (send : Nat → Nat → Int) (request : WriteRequest) (received : Int) (data : List Nat)
    (secondaries : List SecondaryServer) : Handled :=
  let length := ntohl little_endian request.length
  let offset := ntohl little_endian (request.offset % 2 ^ 32)
  if received ≠ length then { replies := [], secondaries := secondaries, sent := [] }
  else
    let r := storage_write io send (full_filepath server_data_dir request.filepath) offset data
      length secondaries
    { replies := [], secondaries := r.2.1, sent := r.2.2 }

/-- Case `MSG_TYPE_REPLICATE_DELETE` of `handle_client_request` (lines 225-244). -/
def handle_replicate_delete (server_data_dir : List Char) (removed : Bool)
    (send : Nat → Nat → Int) (request : DeleteRequest) (secondaries : List SecondaryServer) :
    Handled :=
  let r := storage_delete_file removed send (full_filepath server_data_dir request.filepath)
    secondaries
  { replies := [], secondaries := r.2.1, sent := r.2.2 }

/-! ## Path components, specification side -/

/-- Specification-side reading of a path string: the string is split at every `/` and the empty
pieces are dropped, which leaves the sequence of its non-empty components. This is the list the
specification speaks of; `split_path` is the code. -/
def spec_components (path : List Char) : List (List Char) :=
  (path.splitOn '/').filter (fun t => t ≠ [])

/-! ## Call sequences on the client cache -/

/-- A call of the cache interface of `client_cache.h`. -/
inductive CacheOp where
  | put (filepath : List Char) (offset : Nat) (data : List Nat) (length : Nat)
  | get (filepath : List Char) (offset : Nat) (length : Nat)
  | invalidate (filepath : List Char) (offset : Nat)
deriving Repr

/-- Cache after one call; `none` when the call has no defined result. -/
def CacheOp.apply : CacheOp → Cache → Option Cache
  | .put filepath offset data length, c => (cache_put filepath offset data length c).map (·.2)
  | .get filepath offset length, c => (cache_get filepath offset length c).map (·.2.2.2)
  | .invalidate filepath offset, c => (cache_invalidate filepath offset c).map (·.2)

/-- Cache after a sequence of calls. -/
def run_cache_ops : List CacheOp → Cache → Option Cache
  | [], c => some c
  | op :: ops, c => (op.apply c).bind (run_cache_ops ops)

/-! ## Objects on the wire: protocol.h, network.c and the byte order functions -/

/-- The `n` bytes of an unsigned integer object of value `v`, lowest address first, on a host of
the given byte order. -/
def store_bytes (little_endian : Bool) (n v : Nat) : List Nat :=
  if little_endian then (List.range n).map (fun i => v / 256 ^ i % 256)
  else (List.range n).map (fun i => v / 256 ^ (n - 1 - i) % 256)

/-- The value of the unsigned integer object made of `bytes`, lowest address first. -/
def load_bytes (little_endian : Bool) (bytes : List Nat) : Nat :=
  if little_endian then bytes.foldr (fun b acc => b + 256 * acc) 0
  else bytes.foldl (fun acc b => 256 * acc + b) 0

/-- Library function `htonl`; it is the same function of the value as `ntohl`. -/
def htonl (little_endian : Bool) (x : Nat) : Nat := ntohl little_endian x

/-- Library function `ntohs` on a 16-bit value. -/
def ntohs (little_endian : Bool) (x : Nat) : Nat :=
  if little_endian then (x % 256) * 256 + x / 256 % 256 else x % 2 ^ 16

/-- Library function `htons`. -/
def htons (little_endian : Bool) (x : Nat) : Nat := ntohs little_endian x

/-- The value of an `int` (or `ErrorCode`) object with the 32-bit pattern `x`. -/
def to_int32 (x : Nat) : Int :=
  if x % 2 ^ 32 < 2 ^ 31 then (x % 2 ^ 32 : Nat) else (x % 2 ^ 32 : Nat) - 2 ^ 32

/-- The conversion of an `int` to `uint32_t`. -/
def to_uint32 (i : Int) : Nat := (i % 2 ^ 32).toNat

/-- The bytes of a C string, without the terminator. -/
def c_bytes (s : List Char) : List Nat := s.map Char.toNat

/-- The C string that starts at the first of `bytes`: everything before the first zero byte. -/
def c_string (bytes : List Nat) : List Char :=
  (bytes.takeWhile (fun b => b ≠ 0)).map Char.ofNat

/-- The `n - 1` bytes that `strncpy(array, s, n - 1)` writes into a `char array[n]`: the string,
cut at `n - 1` bytes, then zero bytes. -/
def strncpy_bytes (n : Nat) (s : List Char) : List Nat :=
  c_bytes (s.take (n - 1)) ++ List.replicate (n - 1 - (s.take (n - 1)).length) 0

/-- Enumerator `MSG_TYPE_READ`. -/
def MSG_TYPE_READ : Nat := 1
/-- Enumerator `MSG_TYPE_GET_LOCATION`. -/
def MSG_TYPE_GET_LOCATION : Nat := 6
/-- Enumerator `MSG_TYPE_LOCATION`. -/
def MSG_TYPE_LOCATION : Nat := 7
/-- Enumerator `MSG_TYPE_GET_FILE_INFO`. -/
def MSG_TYPE_GET_FILE_INFO : Nat := 20
/-- Enumerator `MSG_TYPE_GET_FILE_INFO_RESPONSE`. -/
def MSG_TYPE_GET_FILE_INFO_RESPONSE : Nat := 21

/-- Constant `INET_ADDRSTRLEN` of `netinet/in.h`. -/
def INET_ADDRSTRLEN : Nat := 16

/-- Constant `MAX_BUFFER_SIZE` of the storage server's `main.c`. -/
def MAX_BUFFER_SIZE : Nat := 4096

/-- The 12 bytes of a `MessageHeader` object: `request_id`, `type` and `payload_size`, each a
4-byte integer in the byte order of the host. -/
def MessageHeader.bytes (little_endian : Bool) (h : MessageHeader) : List Nat :=
  store_bytes little_endian 4 h.request_id ++ store_bytes little_endian 4 h.type ++
    store_bytes little_endian 4 h.payload_size

/-- The `MessageHeader` object whose storage holds the given 12 bytes. -/
def MessageHeader.load (little_endian : Bool) (b : List Nat) : MessageHeader :=
  { request_id := load_bytes little_endian (b.take 4),
    type := load_bytes little_endian ((b.drop 4).take 4),
    payload_size := load_bytes little_endian ((b.drop 8).take 4) }

/-- The 288 bytes of a `WriteRequest` or `ReadRequest` object: the header at offset 0, the
`filepath` array at 12, four bytes of padding at 268, `offset` at 272, `length` at 280 and four
bytes of padding at 284. `filepath` has been written by `strncpy(.., 255)`; `other` gives the
nine bytes no assignment writes (the last byte of the array and the padding), all zero when the
object was initialised with `= {0}`. -/
def WriteRequest.bytes (little_endian : Bool) (r : WriteRequest) (other : List Nat) : List Nat :=
  MessageHeader.bytes little_endian r.header ++ strncpy_bytes 256 r.filepath ++
    (other ++ List.replicate 9 0).take 5 ++ store_bytes little_endian 8 r.offset ++
    store_bytes little_endian 4 r.length ++ ((other ++ List.replicate 9 0).drop 5).take 4

/-- The `WriteRequest` or `ReadRequest` object whose storage holds the given 288 bytes; the
field `filepath` is read as a C string, as `snprintf("%s")` does. -/
def WriteRequest.load (little_endian : Bool) (b : List Nat) : WriteRequest :=
  { header := MessageHeader.load little_endian (b.take 12),
    filepath := c_string (b.drop 12),
    offset := load_bytes little_endian ((b.drop 272).take 8),
    length := load_bytes little_endian ((b.drop 280).take 4) }

/-- The `DeleteRequest` object whose storage holds the given 268 bytes. -/
def DeleteRequest.load (little_endian : Bool) (b : List Nat) : DeleteRequest :=
  { header := MessageHeader.load little_endian (b.take 12),
    filepath := c_string (b.drop 12) }

/-- Function `network_socket_send` of `network.c`: `total_sent`, which has reached `length`,
converted to the return type `ssize_t` when the loop over `send` completes (`ok`), and -1
otherwise. -/
def network_socket_send (ok : Bool) (length : Nat) : Int :=
  if ok then to_ssize_t length else -1

/-- Function `network_socket_receive` of `network.c` for a request of `length` bytes, where
`stream` is what arrives on the socket until the peer closes it: the return value, the bytes
stored and the rest of the stream. Errors of `recv` are not modelled. While the peer keeps the
connection open without sending, a call that finds fewer than `length` bytes does not return. -/
def network_socket_receive (stream : List Nat) (length : Nat) : Int × List Nat × List Nat :=
  (((stream.take length).length : Nat), stream.take length, stream.drop length)

/-- The bytes the storage server sends for one item of its reply: a header, or an `ErrorCode`
object. -/
def Reply.bytes (little_endian : Bool) : Reply → List Nat
  | .header h => MessageHeader.bytes little_endian h
  | .error_code code => store_bytes little_endian 4 (to_uint32 code.code)

/-- The bytes of a sequence of reply items. -/
def replies_bytes (little_endian : Bool) : List Reply → List Nat
  | [] => []
  | r :: rest => Reply.bytes little_endian r ++ replies_bytes little_endian rest

/-! ## naming_server: the request handlers of main.c -/

/-- Function `handle_client_request` of the naming server (the `GET_LOCATION` handler), called
with the header it was dispatched on: the bytes sent on the socket and the tree after the call,
when the call returns. What can keep it from returning is in `Libc.handle_client_request`: the
size `payload_size + 1` of the allocation, computed in `uint32_t`, the lock calls of
`directory_lookup`, and the signal of `send`. `stream` is what arrives on the socket after the
header. The host is sent as
`INET_ADDRSTRLEN` bytes starting at `metadata->storage_server_ip`, a string allocated by
`strdup`: the bytes behind its terminator are whatever follows the string in memory, given by
`after`. -/
def handle_client_request (little_endian : Bool) (after : Nat → Nat) (header : MessageHeader)
    (stream : List Nat) (root : DirectoryEntry) : List Nat × DirectoryEntry :=
  let request_id := header.request_id
  let payload_size := ntohl little_endian header.payload_size
  let received := network_socket_receive stream payload_size
  if received.1 ≠ (payload_size : Int) then ([], root)
  else
    let path := c_string received.2.1
    let l := directory_lookup path root
    match (if l.1 = ERR_SUCCESS then (entry_at l.2.2 l.2.1).bind DirectoryEntry.metadata
        else none) with
    | some metadata =>
      (MessageHeader.bytes little_endian
          { request_id := request_id, type := MSG_TYPE_LOCATION,
            payload_size := htonl little_endian (INET_ADDRSTRLEN + 2) } ++
        (c_bytes metadata.storage_server_ip ++
          0 :: (List.range INET_ADDRSTRLEN).map after).take INET_ADDRSTRLEN ++
        store_bytes little_endian 2 (htons little_endian metadata.storage_server_port),
       l.2.1)
    | none =>
      (MessageHeader.bytes little_endian
          { request_id := request_id, type := MSG_TYPE_ERROR,
            payload_size := htonl little_endian 4 } ++
        store_bytes little_endian 4 (htonl little_endian (to_uint32 ERR_FILE_NOT_FOUND.code)),
       l.2.1)

/-- The registration loop of `handle_storage_server_registration` (lines 201-236) over the
paths received from the peer `ip`, with `port` the value of `reg_msg.port` after `ntohs`. Each
path is registered with a fresh `FileMetadata` whose `storage_server_ip` and
`storage_server_port` are assigned; `size` and `permissions` are the values found in the fields
the code leaves unassigned. The result of `directory_register_file` is only logged. -/
def handle_storage_server_registration (ip : List Char) (port size permissions : Nat) :
    List (List Char) → DirectoryEntry → DirectoryEntry
  | [], root => root
  | path :: rest, root =>
    handle_storage_server_registration ip port size permissions rest
      (directory_register_file path
        { storage_server_ip := ip, storage_server_port := port, size := size,
          permissions := permissions } root).2

/-! ## client: operations.c -/

/-- The state of the client process that the operations can reach: the static counter of
`generate_request_id` and the LRU cache of `cache.c`. -/
structure ClientState where
  request_counter : Nat
  cache : Cache

/-- What the network does during one client operation: whether each `network_socket_send` to
the naming server and to the storage server completes, what each of the two servers sends back
on its connection, and whether `network_socket_create` to the storage server succeeds. -/
structure Network where
  ns_send_ok : Nat → Bool
  ns_reply : List Nat
  connect_ok : Bool
  ss_send_ok : Nat → Bool
  ss_reply : List Nat

/-- Function `generate_request_id`: the identifier returned and the state after the call. -/
def generate_request_id (s : ClientState) : Nat × ClientState :=
  (s.request_counter % 2 ^ 32, { s with request_counter := (s.request_counter + 1) % 2 ^ 32 })

/-- Function `get_storage_server`: the value returned (an `ErrorCode` object, which after an
`ERROR` reply holds whatever four bytes were received), the strings stored in `host` and `port`
on success, and the bytes sent to the naming server by the sends that completed. -/
def get_storage_server (little_endian : Bool) (request_id : Nat) (filepath : List Char)
    (net : Network) : Int × Option (List Char × List Char) × List Nat :=
  let path_len := (filepath.length + 1) % 2 ^ 32
  let request : MessageHeader :=
    { request_id := request_id, type := MSG_TYPE_GET_LOCATION,
      payload_size := htonl little_endian path_len }
  if network_socket_send (net.ns_send_ok 0) 12 ≠ 12 then (ERR_NETWORK_FAILURE.code, none, [])
  else
    let sent0 := MessageHeader.bytes little_endian request
    if network_socket_send (net.ns_send_ok 1) path_len ≠ (path_len : Int) then
      (ERR_NETWORK_FAILURE.code, none, sent0)
    else
      let sent1 := sent0 ++ (c_bytes filepath ++ [0]).take path_len
      let r0 := network_socket_receive net.ns_reply 12
      if r0.1 ≠ 12 then (ERR_NETWORK_FAILURE.code, none, sent1)
      else
        let response_header := MessageHeader.load little_endian r0.2.1
        if response_header.type = MSG_TYPE_ERROR then
          let r1 := network_socket_receive r0.2.2 4
          if r1.1 ≠ 4 then (ERR_NETWORK_FAILURE.code, none, sent1)
          else (to_int32 (load_bytes little_endian r1.2.1), none, sent1)
        else
          let r1 := network_socket_receive r0.2.2 INET_ADDRSTRLEN
          if r1.1 ≠ (INET_ADDRSTRLEN : Int) then (ERR_NETWORK_FAILURE.code, none, sent1)
          else
            let response_host := c_string (r1.2.1 ++ [0])
            let r2 := network_socket_receive r1.2.2 2
            let response_port := ntohs little_endian (load_bytes little_endian r2.2.1)
            if r2.1 ≠ 2 then (ERR_NETWORK_FAILURE.code, none, sent1)
            else (ERR_SUCCESS.code, some (response_host, (Nat.repr response_port).toList), sent1)

/-- Function `ensure_storage_connection`: the value returned and the state after the call. -/
def ensure_storage_connection (little_endian : Bool) (filepath : List Char) (net : Network)
    (s : ClientState) : Int × ClientState :=
  let id := generate_request_id s
  let err := (get_storage_server little_endian id.1 filepath net).1
  if err ≠ ERR_SUCCESS.code then (err, id.2)
  else if !net.connect_ok then (ERR_NETWORK_FAILURE.code, id.2)
  else (ERR_SUCCESS.code, id.2)

/-- Function `client_read` (arguments not `NULL`): the value returned, the bytes stored in
`buffer` with `*bytes_read` their number (on success), the bytes sent to the storage server by
the sends that completed, and the state after the call. `other` gives the bytes of the
`ReadRequest` object that no assignment writes, `stale` the former content of `error_code`. -/
def client_read (little_endian : Bool) (filepath : List Char) (offset length : Nat)
    (other stale : List Nat) (net : Network) (s : ClientState) :
    Int × List Nat × List Nat × ClientState :=
  let c := ensure_storage_connection little_endian filepath net s
  if c.1 ≠ ERR_SUCCESS.code then (c.1, [], [], c.2)
  else
    let id := generate_request_id c.2
    let header : MessageHeader :=
      { request_id := id.1, type := MSG_TYPE_READ, payload_size := 288 }
    let read_request : WriteRequest :=
      { header := { request_id := id.1, type := MSG_TYPE_READ,
                    payload_size := htonl little_endian 288 },
        filepath := filepath.take 255,
        offset := htonl little_endian (offset % 2 ^ 32),
        length := htonl little_endian (length % 2 ^ 32) }
    if network_socket_send (net.ss_send_ok 0) 12 ≠ 12 then
      (ERR_NETWORK_FAILURE.code, [], [], id.2)
    else
      let sent0 := MessageHeader.bytes little_endian header
      if network_socket_send (net.ss_send_ok 1) 288 ≠ 288 then
        (ERR_NETWORK_FAILURE.code, [], sent0, id.2)
      else
        let sent1 := sent0 ++ WriteRequest.bytes little_endian read_request other
        let r0 := network_socket_receive net.ss_reply 12
        if r0.1 ≠ 12 then (ERR_NETWORK_FAILURE.code, [], sent1, id.2)
        else
          let response := MessageHeader.load little_endian r0.2.1
          if response.type = MSG_TYPE_ERROR then
            let r1 := network_socket_receive r0.2.2 4
            (to_int32 (load_bytes little_endian (r1.2.1 ++ (stale.drop r1.2.1.length).take
              (4 - r1.2.1.length))), [], sent1, id.2)
          else
            let r1 := network_socket_receive r0.2.2 length
            (ERR_SUCCESS.code, r1.2.1, sent1, id.2)

/-- Function `client_write` (arguments not `NULL`): the value returned, the bytes sent to the
storage server by the sends that completed, and the state after the call. The function makes no
call into `cache.c`. -/
def client_write (little_endian : Bool) (filepath : List Char) (offset : Nat)
    (buffer : List Nat) (length : Nat) (net : Network) (s : ClientState) :
    Int × List Nat × ClientState :=
  let c := ensure_storage_connection little_endian filepath net s
  if c.1 ≠ ERR_SUCCESS.code then (c.1, [], c.2)
  else
    let id := generate_request_id c.2
    let request : WriteRequest :=
      { header := { request_id := id.1, type := MSG_TYPE_WRITE, payload_size := 0 },
        filepath := filepath.take 255, offset := offset % 2 ^ 64, length := length % 2 ^ 32 }
    if network_socket_send (net.ss_send_ok 0) 288 ≠ 288 then
      (ERR_NETWORK_FAILURE.code, [], id.2)
    else
      let sent0 := WriteRequest.bytes little_endian request []
      if network_socket_send (net.ss_send_ok 1) length ≠ to_ssize_t length then
        (ERR_NETWORK_FAILURE.code, sent0, id.2)
      else
        let sent1 := sent0 ++ buffer.take length
        let r := network_socket_receive net.ss_reply 4
        if r.1 ≠ 4 then (ERR_NETWORK_FAILURE.code, sent1, id.2)
        else (to_int32 (load_bytes little_endian r.2.1), sent1, id.2)

/-- Function `client_get_file_info` (arguments not `NULL`): the value returned, the values
stored in `*file_size` and `*permissions` on success, the bytes sent to the storage server by
the sends that completed, and the state after the call. -/
def client_get_file_info (little_endian : Bool) (filepath : List Char) (stale : List Nat)
    (net : Network) (s : ClientState) : Int × Option (Nat × Nat) × List Nat × ClientState :=
  let c := ensure_storage_connection little_endian filepath net s
  if c.1 ≠ ERR_SUCCESS.code then (c.1, none, [], c.2)
  else
    let id := generate_request_id c.2
    let header : MessageHeader :=
      { request_id := htonl little_endian id.1, type := MSG_TYPE_GET_FILE_INFO,
        payload_size := htonl little_endian 256 }
    if network_socket_send (net.ss_send_ok 0) 12 ≠ 12 then
      (ERR_NETWORK_FAILURE.code, none, [], id.2)
    else
      let sent0 := MessageHeader.bytes little_endian header
      if network_socket_send (net.ss_send_ok 1) 256 ≠ 256 then
        (ERR_NETWORK_FAILURE.code, none, sent0, id.2)
      else
        let sent1 := sent0 ++ strncpy_bytes 256 filepath ++ [0]
        let r0 := network_socket_receive net.ss_reply 12
        if r0.1 ≠ 12 then (ERR_NETWORK_FAILURE.code, none, sent1, id.2)
        else
          let response_header := MessageHeader.load little_endian r0.2.1
          if response_header.type = MSG_TYPE_ERROR then
            let r1 := network_socket_receive r0.2.2 4
            (to_int32 (load_bytes little_endian (r1.2.1 ++ (stale.drop r1.2.1.length).take
              (4 - r1.2.1.length))), none, sent1, id.2)
          else if response_header.type ≠ MSG_TYPE_GET_FILE_INFO_RESPONSE then
            (ERR_PROTOCOL_ERROR.code, none, sent1, id.2)
          else
            let r1 := network_socket_receive r0.2.2 12
            if r1.1 ≠ 12 then (ERR_NETWORK_FAILURE.code, none, sent1, id.2)
            else
              let file_size := ntohl little_endian (load_bytes little_endian (r1.2.1.take 8)
                % 2 ^ 32)
              let permissions := ntohl little_endian
                (load_bytes little_endian ((r1.2.1.drop 8).take 4))
              (ERR_SUCCESS.code, some (file_size, permissions), sent1, id.2)

/-! ## storage_server: receiving a request, READ and GET_FILE_INFO -/

/-- What `handle_client_request` of the storage server has received when it reaches the body of
a `case`: the header (lines 61-63) and the request object of that case, as stored by
`network_socket_receive`; for a `WRITE` or `REPLICATE_WRITE` also the return value and the
bytes of the receive of the data, which asks for `ntohl(request.length)` bytes. `nothing` stands
for an incomplete header or request object, after which the function returns without a reply
(`GET_FILE_INFO` apart, which answers `ERR_PROTOCOL_ERROR`). -/
inductive Received where
  | nothing
  | read (header : MessageHeader) (request : WriteRequest)
  | write (header : MessageHeader) (request : WriteRequest) (received : Int) (data : List Nat)
  | replicate_write (header : MessageHeader) (request : WriteRequest) (received : Int)
      (data : List Nat)
  | delete (header : MessageHeader) (request : DeleteRequest)
  | replicate_delete (header : MessageHeader) (request : DeleteRequest)
  | get_file_info (header : MessageHeader) (filepath : Option (List Char))
  | other (header : MessageHeader)
deriving DecidableEq, Repr

/-- The receiving part of `handle_client_request` of the storage server: the header, the
`switch` on `header.type`, and the receives at the top of the cases `READ`, `WRITE`,
`REPLICATE_WRITE`, `REPLICATE_DELETE`, `DELETE` and `GET_FILE_INFO`. `stream` is what arrives
on the socket. -/
def receive_request (little_endian : Bool) (stream : List Nat) : Received :=
  let r0 := network_socket_receive stream 12
  if r0.1 ≠ 12 then Received.nothing
  else
    let header := MessageHeader.load little_endian r0.2.1
    if header.type = MSG_TYPE_READ then
      let r1 := network_socket_receive r0.2.2 288
      if r1.1 ≠ 288 then Received.nothing
      else Received.read header (WriteRequest.load little_endian r1.2.1)
    else if header.type = MSG_TYPE_WRITE then
      let r1 := network_socket_receive r0.2.2 288
      if r1.1 ≠ 288 then Received.nothing
      else
        let request := WriteRequest.load little_endian r1.2.1
        let r2 := network_socket_receive r1.2.2 (ntohl little_endian request.length)
        Received.write header request r2.1 r2.2.1
    else if header.type = MSG_TYPE_REPLICATE_WRITE then
      let r1 := network_socket_receive r0.2.2 288
      if r1.1 ≠ 288 then Received.nothing
      else
        let request := WriteRequest.load little_endian r1.2.1
        let r2 := network_socket_receive r1.2.2 (ntohl little_endian request.length)
        Received.replicate_write header request r2.1 r2.2.1
    else if header.type = MSG_TYPE_REPLICATE_DELETE then
      let r1 := network_socket_receive r0.2.2 268
      if r1.1 ≠ 268 then Received.nothing
      else Received.replicate_delete header (DeleteRequest.load little_endian r1.2.1)
    else if header.type = MSG_TYPE_DELETE then
      let r1 := network_socket_receive r0.2.2 268
      if r1.1 ≠ 268 then Received.nothing
      else Received.delete header (DeleteRequest.load little_endian r1.2.1)
    else if header.type = MSG_TYPE_GET_FILE_INFO then
      let r1 := network_socket_receive r0.2.2 256
      if r1.1 ≠ 256 then Received.get_file_info header none
      else Received.get_file_info header (some (c_string r1.2.1))
    else Received.other header

/-- Function `storage_read` of `blocks.c`: error code and the bytes `fread` stores from the
start of `buffer` on (their number is `*bytes_read`). `file` is the content of the file when
`fopen` succeeds; a read error of the stream is not modelled. -/
def storage_read (file : Option (List Nat)) (fseek_ok : Bool) (offset length : Nat) :
    ErrorCode × List Nat :=
  match file with
  | none => (ERR_NOT_FOUND, [])
  | some content =>
    if !fseek_ok then (ERR_IO_ERROR, [])
    else (ERR_SUCCESS, (content.drop offset).take length)

/-- Lines 76-77 of the `READ` case: the values of `request.offset` and `request.length` after
the assignments `request.length = ntohl(request.length)` and `request.offset =
ntohl(request.offset)`; `ntohl` takes the low 32 bits of the 64-bit field `offset`. These are
the arguments passed to `storage_read`. -/
def read_arguments (little_endian : Bool) (request : WriteRequest) : Nat × Nat :=
  (ntohl little_endian (request.offset % 2 ^ 32), ntohl little_endian request.length)

/-- Case `MSG_TYPE_READ` of `handle_client_request` (lines 68-103) for a request object as
received: the bytes sent back. `files` gives the content of the file `fopen` finds at a path.
The result is `none` when `fread` stores past the end of `buffer[MAX_BUFFER_SIZE]`, where the
call has no defined result. -/
def handle_read (little_endian : Bool) (server_data_dir : List Char)
    (files : List Char → Option (List Nat)) (fseek_ok : Bool) (request : WriteRequest) :
    Option (List Nat) :=
  let a := read_arguments little_endian request
  let r := storage_read (files (full_filepath server_data_dir request.filepath)) fseek_ok a.1
    a.2
  if r.2.length > MAX_BUFFER_SIZE then none
  else if r.1 = ERR_SUCCESS then
    some (MessageHeader.bytes little_endian
      { request_id := 0, type := MSG_TYPE_READ, payload_size := 0 } ++ r.2)
  else some (replies_bytes little_endian (send_error_response r.1))

/-- Function `storage_get_file_info` of `blocks.c`; `st` is the pair `(st_size, st_mode)` when
`stat` succeeds. The mask `0777` is 511. -/
def storage_get_file_info (st : Option (Nat × Nat)) : ErrorCode × Nat × Nat :=
  match st with
  | none => (ERR_NOT_FOUND, 0, 0)
  | some (st_size, st_mode) => (ERR_SUCCESS, st_size % 2 ^ 64, st_mode % 2 ^ 32 &&& 511)

/-- Case `MSG_TYPE_GET_FILE_INFO` of `handle_client_request` (lines 270-303): the bytes sent
back. `filepath` is the string of the request object, `none` when the object was not received
in full; `stat` gives the result of the call `stat` for a path. -/
def handle_get_file_info (little_endian : Bool) (server_data_dir : List Char)
    (stat : List Char → Option (Nat × Nat)) (header : MessageHeader)
    (filepath : Option (List Char)) : List Nat :=
  match filepath with
  | none => replies_bytes little_endian (send_error_response ERR_PROTOCOL_ERROR)
  | some path =>
    let info := storage_get_file_info (stat ((server_data_dir ++ '/' :: path).take 511))
    if info.1 ≠ ERR_SUCCESS then replies_bytes little_endian (send_error_response info.1)
    else
      MessageHeader.bytes little_endian
        { request_id := header.request_id, type := MSG_TYPE_GET_FILE_INFO_RESPONSE,
          payload_size := htonl little_endian 12 } ++
      store_bytes little_endian 8 (htonl little_endian (info.2.1 % 2 ^ 32)) ++
      store_bytes little_endian 4 (htonl little_endian info.2.2)

/-- The 276 bytes of a `WriteRequest` or `ReadRequest` object behind its header (see
`WriteRequest.bytes`). -/
def request_body (little_endian : Bool) (r : WriteRequest) (other : List Nat) : List Nat :=
  strncpy_bytes 256 r.filepath ++
    ((other ++ List.replicate 9 0).take 5 ++ (store_bytes little_endian 8 r.offset ++
    (store_bytes little_endian 4 r.length ++ ((other ++ List.replicate 9 0).drop 5).take 4)))

/-! ## The read-write locks of glibc, as one thread sees them -/

namespace Libc

/-- The state of a `pthread_rwlock_t` of glibc (`nptl/pthread_rwlock_common.c`) that decides
what a call made by one thread does: the word `__readers`, whose bit 0 is
`PTHREAD_RWLOCK_WRPHASE`, bit 1 `PTHREAD_RWLOCK_WRLOCKED`, bit 2 `PTHREAD_RWLOCK_RWAITING` and
whose bits from `PTHREAD_RWLOCK_READER_SHIFT = 3` on count the readers, and whether
`__cur_writer` is the calling thread. The lock has the default attributes (readers
preferred). -/
structure RwLock where
  readers : Nat
  cur_writer : Bool
deriving DecidableEq, Repr

/-- Whether the bit of weight `b` (a power of two) is set in `r`. -/
def bit_set (r b : Nat) : Bool := r / b % 2 = 1

/-- The word `r | b` for a single bit `b`. -/
def or_bit (r b : Nat) : Nat := if bit_set r b then r else r + b

/-- The word `r ^ b` for a single bit `b`. -/
def xor_bit (r b : Nat) : Nat := if bit_set r b then r - b else r + b

/-- The word `r & ~b` for a single bit `b`. -/
def clear_bit (r b : Nat) : Nat := if bit_set r b then r - b else r

/-- Function `pthread_rwlock_init` with a `NULL` attribute: the lock is idle, in a read
phase. -/
def pthread_rwlock_init : RwLock := { readers := 0, cur_writer := false }

/-- Function `pthread_rwlock_rdlock`: the lock after the call, `none` when the call does not
return. The caller that holds the write lock gets `EDEADLK`. Otherwise the reader is
registered by adding `1 << 3` to `__readers` (an `unsigned int`); a result of `2 ^ 31` or more
is an overflow, the addition is taken back and the call returns `EAGAIN`. In a read phase the
lock is acquired; in a write phase without a primary writer the caller starts a read phase
(`r ^ WRPHASE`); in a write phase with a primary writer it waits for the writer to hand
over. -/
def pthread_rwlock_rdlock (l : RwLock) : Option RwLock :=
  if l.cur_writer then some l
  else
    let r := (l.readers + 8) % 2 ^ 32
    if r ≥ 2 ^ 31 then some l
    else if !bit_set r 1 then some { readers := r, cur_writer := false }
    else if !bit_set r 2 then some { readers := xor_bit r 1, cur_writer := false }
    else none

/-- Function `pthread_rwlock_wrlock`: the lock after the call, `none` when the call does not
return. The caller that holds the write lock gets `EDEADLK`. Otherwise `WRLOCKED` is set; if it
was set already the caller waits for the other writer. As primary writer the caller has the
lock when the lock is in a write phase, or when it is in a read phase without readers, where
it starts a write phase (`r | WRPHASE`); in a read phase with readers it waits for the last
reader to hand over. -/
def pthread_rwlock_wrlock (l : RwLock) : Option RwLock :=
  if l.cur_writer then some l
  else
    let r := l.readers
    if bit_set r 2 then none
    else if bit_set r 1 then some { readers := or_bit r 2, cur_writer := true }
    else if r / 8 = 0 then some { readers := or_bit (or_bit r 2) 1, cur_writer := true }
    else none

/-- Function `pthread_rwlock_unlock`: the lock after the call, which always returns. When
`__cur_writer` is the caller this is `__pthread_rwlock_wrunlock`, which stores
`(r ^ WRLOCKED) ^ (readers == 0 ? 0 : WRPHASE)`. Otherwise it is `__pthread_rwlock_rdunlock`,
also for a caller that holds no lock at all: `1 << 3` is subtracted from `__readers` in
`unsigned int` arithmetic, and if no reader is left `WRPHASE` is set when `WRLOCKED` is and
`RWAITING` is cleared. -/
def pthread_rwlock_unlock (l : RwLock) : RwLock :=
  if l.cur_writer then
    { readers := xor_bit (if l.readers / 8 = 0 then l.readers else xor_bit l.readers 1) 2,
      cur_writer := false }
  else
    let rnew := (l.readers + 2 ^ 32 - 8) % 2 ^ 32
    { readers :=
        if rnew / 8 = 0 then clear_bit (if bit_set rnew 2 then or_bit rnew 1 else rnew) 4
        else rnew,
      cur_writer := false }

end Libc

/-! ## directory.c with its lock calls -/

namespace Libc

/-- The struct `DirectoryEntry` of `directory.h` with its field `lock`. The `parent` back
pointer is implicit in the tree shape. -/
inductive DirectoryEntry where
  | mk (name : List Char) (is_directory : Int) (metadata : Option FileMetadata)
      (lock : RwLock) (children : List DirectoryEntry)
deriving Repr

namespace DirectoryEntry

/-- Field `name`. -/
def name : DirectoryEntry → List Char
  | mk n _ _ _ _ => n

/-- Field `is_directory`. -/
def is_directory : DirectoryEntry → Int
  | mk _ d _ _ _ => d

/-- Field `metadata`. -/
def metadata : DirectoryEntry → Option FileMetadata
  | mk _ _ m _ _ => m

/-- Field `lock`. -/
def lock : DirectoryEntry → RwLock
  | mk _ _ _ l _ => l

/-- Field `children` (with `child_count` its length). -/
def children : DirectoryEntry → List DirectoryEntry
  | mk _ _ _ _ c => c

/-- Assignment to the `children` array of a node. -/
def set_children : DirectoryEntry → List DirectoryEntry → DirectoryEntry
  | mk n d m l _, c => mk n d m l c

/-- Assignment `entry->metadata = m`. -/
def set_metadata : DirectoryEntry → Option FileMetadata → DirectoryEntry
  | mk n d _ l c, m => mk n d m l c

/-- The node after a call on its lock has left the lock in state `l`. -/
def set_lock : DirectoryEntry → RwLock → DirectoryEntry
  | mk n d m _ c, l => mk n d m l c

end DirectoryEntry

mutual
/-- The tree without its locks. -/
def data : DirectoryEntry → NFS.DirectoryEntry
  | .mk n d m _ cs => NFS.DirectoryEntry.mk n d m (data_list cs)
/-- The trees of a list without their locks. -/
def data_list : List DirectoryEntry → List NFS.DirectoryEntry
  | [] => []
  | c :: cs => data c :: data_list cs
end

/-- The tree built by `directory_init`: the root with a lock initialised by
`pthread_rwlock_init`. -/
def directory_init : DirectoryEntry :=
  .mk ['/'] 1 none pthread_rwlock_init []

/-- The inner search loop of `directory_lookup_internal` (lines 107-112). -/
def find_child : List DirectoryEntry → List Char → Option (Nat × DirectoryEntry)
  | [], _ => none
  | c :: cs, token =>
    if c.name = token then some (0, c)
    else (find_child cs token).map (fun r => (r.1 + 1, r.2))

/-- The node allocated at lines 117-129 for a missing component, with its lock initialised. -/
def new_child (token : List Char) (last : Bool) (is_directory : Int) : DirectoryEntry :=
  .mk token (if (!last) || is_directory != 0 then 1 else 0) none pthread_rwlock_init []

/-- The loop of `directory_lookup_internal` (lines 102-153) with the unlock that follows it
(line 155), started at node `current` with the tokens still to be consumed. Each iteration
write-locks `current` (line 103), read-locks a child that was found (line 148) and unlocks
`current` (line 151, or 143 before `ERR_NOT_FOUND`); a child that is created is not locked.
After the last token the node reached is unlocked (line 155). The result is `none` when a lock
call does not return; otherwise it is the error code, the subtree of `current` after the call
and the pointer stored in `*result`. -/
def lookup_loop (create : Bool) (is_directory : Int) :
    List (List Char) → DirectoryEntry → Option (ErrorCode × DirectoryEntry × List Nat)
  | [], current =>
    some (ERR_SUCCESS, current.set_lock (pthread_rwlock_unlock current.lock), [])
  | token :: rest, current =>
    match pthread_rwlock_wrlock current.lock with
    | none => none
    | some held =>
      match find_child current.children token with
      | some (j, child) =>
        match pthread_rwlock_rdlock child.lock with
        | none => none
        | some l =>
          match lookup_loop create is_directory rest (child.set_lock l) with
          | none => none
          | some r =>
            some (r.1,
              (current.set_lock (pthread_rwlock_unlock held)).set_children
                (current.children.set j r.2.1),
              j :: r.2.2)
      | none =>
        if create then
          match lookup_loop create is_directory rest
              (new_child token rest.isEmpty is_directory) with
          | none => none
          | some r =>
            some (r.1,
              (current.set_lock (pthread_rwlock_unlock held)).set_children
                (current.children ++ [r.2.1]),
              current.children.length :: r.2.2)
        else some (ERR_NOT_FOUND, current.set_lock (pthread_rwlock_unlock held), [])

/-- Function `directory_lookup_internal`, on the tree `root`; `none` when the call does not
return. -/
def directory_lookup_internal (path : List Char) (create : Bool) (is_directory : Int)
    (root : DirectoryEntry) : Option (ErrorCode × DirectoryEntry × List Nat) :=
  let tokens := split_path path
  if tokens.length = 0 ∧ path ≠ ['/'] then some (ERR_INVALID_ARGUMENT, root, [])
  else lookup_loop create is_directory tokens root

/-- Dereference of a node pointer. -/
def entry_at : List Nat → DirectoryEntry → Option DirectoryEntry
  | [], e => some e
  | i :: rest, e =>
    match e.children[i]? with
    | some c => entry_at rest c
    | none => none

/-- Write through a node pointer: the node `ptr` points to is replaced by `f` of it. -/
def update_at (f : DirectoryEntry → DirectoryEntry) : List Nat → DirectoryEntry → DirectoryEntry
  | [], e => f e
  | i :: rest, e =>
    match e.children[i]? with
    | some c => e.set_children (e.children.set i (update_at f rest c))
    | none => e

/-- Lines 190-200 of `directory_delete`: the slot of the entry in `parent->children` is closed
and `child_count` drops by one. -/
def unlink_entry : List Nat → DirectoryEntry → DirectoryEntry
  | [], e => e
  | [i], parent => parent.set_children (parent.children.eraseIdx i)
  | i :: j :: rest, e =>
    match e.children[i]? with
    | some c => e.set_children (e.children.set i (unlink_entry (j :: rest) c))
    | none => e

/-- Function `directory_lookup`. -/
def directory_lookup (path : List Char) (root : DirectoryEntry) :
    Option (ErrorCode × DirectoryEntry × List Nat) :=
  directory_lookup_internal path false 0 root

/-- Function `directory_create`: error code and tree after the call, `none` when the call does
not return. -/
def directory_create (path : List Char) (root : DirectoryEntry) :
    Option (ErrorCode × DirectoryEntry) :=
  (directory_lookup_internal path true 1 root).map (fun r => (r.1, r.2.1))

mutual
/-- Function `directory_free`: whether the call returns. It write-locks the entry (line 33)
before it frees the children and the entry itself. -/
def directory_free : DirectoryEntry → Bool
  | .mk _ _ _ l cs =>
    match pthread_rwlock_wrlock l with
    | none => false
    | some _ => directory_free_list cs
/-- The loop of `directory_free` over the children (lines 34-36). -/
def directory_free_list : List DirectoryEntry → Bool
  | [] => true
  | c :: cs => directory_free c && directory_free_list cs
end

/-- Function `directory_delete`: error code and tree after the call, `none` when the call does
not return. The tree is `none` when the call released the root node itself (`entry->parent` is
`NULL`, nothing is unlinked, and `directory_free(entry)` frees the node that the global `root`
still points to). The entry is write-locked at line 178 and the parent at line 187. -/
def directory_delete (path : List Char) (root : DirectoryEntry) :
    Option (ErrorCode × Option DirectoryEntry) :=
  match directory_lookup path root with
  | none => none
  | some r =>
    if r.1 ≠ ERR_SUCCESS then some (r.1, some r.2.1)
    else
      match entry_at r.2.2 r.2.1 with
      | none => some (ERR_UNKNOWN, some r.2.1)
      | some entry =>
        match pthread_rwlock_wrlock entry.lock with
        | none => none
        | some held =>
          if entry.children.length > 0 then
            some (ERR_INVALID_ARGUMENT,
              some (update_at (fun e => e.set_lock (pthread_rwlock_unlock held)) r.2.2 r.2.1))
          else
            match r.2.2 with
            | [] =>
              if directory_free (entry.set_lock (pthread_rwlock_unlock held)) then
                some (ERR_SUCCESS, none)
              else none
            | i :: rest =>
              match entry_at (i :: rest).dropLast r.2.1 with
              | none => some (ERR_UNKNOWN, some r.2.1)
              | some parent =>
                match pthread_rwlock_wrlock parent.lock with
                | none => none
                | some parent_held =>
                  if directory_free (entry.set_lock (pthread_rwlock_unlock held)) then
                    some (ERR_SUCCESS,
                      some (update_at
                        (fun p => p.set_lock (pthread_rwlock_unlock parent_held))
                        (i :: rest).dropLast (unlink_entry (i :: rest) r.2.1)))
                  else none

/-- Function `directory_register_file`: error code and tree after the call, `none` when the
call does not return. After the lookup the entry is unlocked once more (line 224). -/
def directory_register_file (path : List Char) (metadata : FileMetadata)
    (root : DirectoryEntry) : Option (ErrorCode × DirectoryEntry) :=
  match directory_lookup_internal path true 0 root with
  | none => none
  | some r =>
    if r.1 ≠ ERR_SUCCESS then some (r.1, r.2.1)
    else
      some (ERR_SUCCESS,
        update_at
          (fun e => (e.set_metadata (some metadata)).set_lock (pthread_rwlock_unlock e.lock))
          r.2.2 r.2.1)

/-- Function `directory_get_metadata`: error code, the copy stored in `*metadata` and the tree
after the call, `none` when the call does not return. The entry is read-locked at line 234 and
unlocked at line 236 or 245. -/
def directory_get_metadata (path : List Char) (root : DirectoryEntry) :
    Option (ErrorCode × Option FileMetadata × DirectoryEntry) :=
  match directory_lookup path root with
  | none => none
  | some r =>
    if r.1 ≠ ERR_SUCCESS then some (r.1, none, r.2.1)
    else
      match entry_at r.2.2 r.2.1 with
      | none => some (ERR_NOT_FOUND, none, r.2.1)
      | some entry =>
        match pthread_rwlock_rdlock entry.lock with
        | none => none
        | some l =>
          match entry.metadata with
          | none =>
            some (ERR_NOT_FOUND, none,
              update_at (fun e => e.set_lock (pthread_rwlock_unlock l)) r.2.2 r.2.1)
          | some m =>
            some (ERR_SUCCESS, some m,
              update_at (fun e => e.set_lock (pthread_rwlock_unlock l)) r.2.2 r.2.1)

/-- How a sequence of calls ends: a call did not return, a call freed the root node (after
which the global `root` dangles), or every call returned and left the tree `root`. -/
inductive Outcome where
  | blocked
  | root_freed
  | state (root : DirectoryEntry)
deriving Repr

/-- One call of `directory_create`, `directory_register_file` or `directory_delete`. -/
def run_op : DirOp → DirectoryEntry → Outcome
  | .create p, t =>
    match directory_create p t with
    | none => Outcome.blocked
    | some r => Outcome.state r.2
  | .register_file p m, t =>
    match directory_register_file p m t with
    | none => Outcome.blocked
    | some r => Outcome.state r.2
  | .delete p, t =>
    match directory_delete p t with
    | none => Outcome.blocked
    | some (_, none) => Outcome.root_freed
    | some (_, some t2) => Outcome.state t2

/-- A sequence of calls started in tree `t`. -/
def run_ops : List DirOp → DirectoryEntry → Outcome
  | [], t => Outcome.state t
  | op :: ops, t =>
    match run_op op t with
    | Outcome.state t2 => run_ops ops t2
    | o => o

end Libc

namespace Libc

/-- What holds of the lock of the root between two calls, after calls that unlocked it at most
`K` times without holding it: no thread is its writer, the bits `WRLOCKED` and `RWAITING` are
clear, and the reader count is `- k` modulo `2 ^ 29` for a number `k ≤ K` of such unlocks. -/
def root_lock_inv (K : Nat) (l : RwLock) : Prop :=
  l.cur_writer = false ∧ l.readers < 4294967296 ∧ l.readers % 8 ≤ 1 ∧
    ∃ k, k ≤ K ∧ (l.readers / 8 + k) % 536870912 = 0

end Libc

/-! ## naming_server: the request handlers of main.c on the locked tree -/

namespace Libc

/-- Function `handle_client_request` of the naming server (the `GET_LOCATION` handler) on the
tree with its locks: the bytes sent on the socket and the tree after the call. The result is
`none` when the call has no reply to report: a store goes outside the block that
`malloc(payload_size + 1)` returned, where `payload_size + 1` is computed in `uint32_t` and is 0
for a `payload_size` of `2 ^ 32 - 1`; or `directory_lookup` does not return; or a `send` of the
reply finds the connection shut down by the peer and raises `SIGPIPE`, for which the naming
server installs no handler and which `send(fd, .., 0)` does not suppress. `sigpipe k` says so
of the `k`-th `network_socket_send` of the reply. -/
def handle_client_request (little_endian : Bool) (after : Nat → Nat) (sigpipe : Nat → Bool)
    (header : MessageHeader) (stream : List Nat) (root : DirectoryEntry) :
    Option (List Nat × DirectoryEntry) :=
  let request_id := header.request_id
  let payload_size := ntohl little_endian header.payload_size
  let allocated := (payload_size + 1) % 2 ^ 32
  let received := network_socket_receive stream payload_size
  if allocated < received.2.1.length then none
  else if received.1 ≠ (payload_size : Int) then some ([], root)
  else if allocated ≤ payload_size then none
  else
    let path := c_string received.2.1
    match directory_lookup path root with
    | none => none
    | some l =>
      match (if l.1 = ERR_SUCCESS then (entry_at l.2.2 l.2.1).bind DirectoryEntry.metadata
          else none) with
      | some metadata =>
        if sigpipe 0 || sigpipe 1 || sigpipe 2 then none
        else
          some (MessageHeader.bytes little_endian
              { request_id := request_id, type := MSG_TYPE_LOCATION,
                payload_size := htonl little_endian (INET_ADDRSTRLEN + 2) } ++
            (c_bytes metadata.storage_server_ip ++
              0 :: (List.range INET_ADDRSTRLEN).map after).take INET_ADDRSTRLEN ++
            store_bytes little_endian 2 (htons little_endian metadata.storage_server_port),
           l.2.1)
      | none =>
        if sigpipe 0 || sigpipe 1 then none
        else
          some (MessageHeader.bytes little_endian
              { request_id := request_id, type := MSG_TYPE_ERROR,
                payload_size := htonl little_endian 4 } ++
            store_bytes little_endian 4
              (htonl little_endian (to_uint32 ERR_FILE_NOT_FOUND.code)),
           l.2.1)

/-- The registration loop of `handle_storage_server_registration` (lines 201-236) on the tree
with its locks, over the path payloads received from the peer `ip`; each payload has the
`path_len` bytes announced for it. The result is `none` when `malloc(path_len+1)`, computed
in `uint32_t`, is too small for the payload and its terminator, or when a
`directory_register_file` does not return. -/
def handle_storage_server_registration (ip : List Char) (port size permissions : Nat) :
    List (List Nat) → DirectoryEntry → Option DirectoryEntry
  | [], root => some root
  | payload :: rest, root =>
    if (payload.length + 1) % 2 ^ 32 ≤ payload.length then none
    else
      match directory_register_file (c_string payload)
          { storage_server_ip := ip, storage_server_port := port, size := size,
            permissions := permissions } root with
      | none => none
      | some r => handle_storage_server_registration ip port size permissions rest r.2

end Libc

/-! ## storage_server: the sends to secondaries with `SIGPIPE` -/

namespace Libc

/-- The loop of `replication_replicate_write` (lines 106-135) from the secondary at position
`i` on, with the signal of `send`. `send i k` is what the `k`-th `network_socket_send` on that
secondary does (`k = 0` for the request, `k = 1` for the data): `some v` when it returns `v`,
and `none` when the peer has shut the connection down, so that `send(fd, .., 0)` raises
`SIGPIPE`; the storage server installs handlers for `SIGINT` and `SIGTERM` only, and the
signal terminates the process. The result is `none` then; otherwise it is the secondaries after
the loop and the sends made, in order. -/
def replicate_write_loop (send : Nat → Nat → Option Int) (request : WriteRequest)
    (buffer : List Nat) (length : Nat) :
    Nat → List SecondaryServer → Option (List SecondaryServer × List Sent)
  | _, [] => some ([], [])
  | i, s :: rest =>
    if s.is_alive ≠ 0 then
      match send i 0 with
      | none => none
      | some sent =>
        if sent ≠ SIZEOF_WRITE_REQUEST then
          (replicate_write_loop send request buffer length (i + 1) rest).map (fun r =>
            ({ s with is_alive := 0 } :: r.1, Sent.write_request i request :: r.2))
        else
          match send i 1 with
          | none => none
          | some sent2 =>
            if sent2 ≠ to_ssize_t length then
              (replicate_write_loop send request buffer length (i + 1) rest).map (fun r =>
                ({ s with is_alive := 0 } :: r.1,
                  Sent.write_request i request :: Sent.data i (buffer.take length) :: r.2))
            else
              (replicate_write_loop send request buffer length (i + 1) rest).map (fun r =>
                (s :: r.1,
                  Sent.write_request i request :: Sent.data i (buffer.take length) :: r.2))
    else
      (replicate_write_loop send request buffer length (i + 1) rest).map (fun r =>
        (s :: r.1, r.2))

/-- Function `replication_replicate_write` with the signal of `send`: `none` when the process
is terminated, otherwise the error code, the secondaries after the call and the sends made. -/
def replication_replicate_write (send : Nat → Nat → Option Int) (filepath : List Char)
    (offset : Nat) (buffer : List Nat) (length : Nat) (secondaries : List SecondaryServer) :
    Option (ErrorCode × List SecondaryServer × List Sent) :=
  let request : WriteRequest :=
    { header := { request_id := 0, type := MSG_TYPE_REPLICATE_WRITE, payload_size := 0 },
      filepath := filepath.take 255, offset := offset, length := length % 2 ^ 32 }
  (replicate_write_loop send request buffer length 0 secondaries).map (fun r =>
    (ERR_SUCCESS, r.1, r.2))

/-- The loop of `replication_replicate_delete` (lines 144-163) from position `i` on, with the
signal of `send`. -/
def replicate_delete_loop (send : Nat → Nat → Option Int) (request : DeleteRequest) :
    Nat → List SecondaryServer → Option (List SecondaryServer × List Sent)
  | _, [] => some ([], [])
  | i, s :: rest =>
    if s.is_alive ≠ 0 then
      match send i 0 with
      | none => none
      | some sent =>
        if sent ≠ SIZEOF_DELETE_REQUEST then
          (replicate_delete_loop send request (i + 1) rest).map (fun r =>
            ({ s with is_alive := 0 } :: r.1, Sent.delete_request i request :: r.2))
        else
          (replicate_delete_loop send request (i + 1) rest).map (fun r =>
            (s :: r.1, Sent.delete_request i request :: r.2))
    else (replicate_delete_loop send request (i + 1) rest).map (fun r => (s :: r.1, r.2))

/-- Function `replication_replicate_delete` with the signal of `send`. -/
def replication_replicate_delete (send : Nat → Nat → Option Int) (filepath : List Char)
    (secondaries : List SecondaryServer) :
    Option (ErrorCode × List SecondaryServer × List Sent) :=
  let request : DeleteRequest :=
    { header := { request_id := 0, type := MSG_TYPE_REPLICATE_DELETE, payload_size := 0 },
      filepath := filepath.take 255 }
  (replicate_delete_loop send request 0 secondaries).map (fun r => (ERR_SUCCESS, r.1, r.2))

/-- Function `storage_write` of `blocks.c` with the signal of `send`: `none` when the process
is terminated inside `replication_replicate_write`, after the local write. -/
def storage_write (io : FileIO) (send : Nat → Nat → Option Int) (filepath : List Char)
    (offset : Nat) (buffer : List Nat) (length : Nat) (secondaries : List SecondaryServer) :
    Option (ErrorCode × List SecondaryServer × List Sent) :=
  if !io.fopen_update && !io.fopen_create then some (ERR_IO_ERROR, secondaries, [])
  else if !io.fseek_ok then some (ERR_IO_ERROR, secondaries, [])
  else if io.fwrite_count < length then some (ERR_IO_ERROR, secondaries, [])
  else
    (replication_replicate_write send filepath offset buffer length secondaries).map (fun r =>
      (ERR_SUCCESS, r.2.1, r.2.2))

/-- Function `storage_delete_file` of `blocks.c` with the signal of `send`. -/
def storage_delete_file (removed : Bool) (send : Nat → Nat → Option Int)
    (filepath : List Char) (secondaries : List SecondaryServer) :
    Option (ErrorCode × List SecondaryServer × List Sent) :=
  if !removed then some (ERR_IO_ERROR, secondaries, [])
  else
    (replication_replicate_delete send filepath secondaries).map (fun r =>
      (ERR_SUCCESS, r.2.1, r.2.2))

/-- Case `MSG_TYPE_WRITE` of `handle_client_request` (lines 105-151) with the signal of `send`:
`none` when the process is terminated, by a send to a secondary inside `storage_write` or by a
send of the reply on a connection that the client has shut down. `sigpipe k` says of the
`k`-th `network_socket_send` of the reply that it raises the signal. -/
def handle_write (little_endian : Bool) (server_data_dir : List Char) (io : FileIO)
    (send : Nat → Nat → Option Int) (sigpipe : Nat → Bool) (request : WriteRequest)
    (received : Int) (data : List Nat) (secondaries : List SecondaryServer) :
    Option Handled :=
  let length := ntohl little_endian request.length
  let offset := ntohl little_endian (request.offset % 2 ^ 32)
  if received ≠ length then
    if sigpipe 0 || sigpipe 1 then none
    else
      some { replies := send_error_response ERR_NETWORK_FAILURE, secondaries := secondaries,
             sent := [] }
  else
    match storage_write io send (full_filepath server_data_dir request.filepath) offset data
        length secondaries with
    | none => none
    | some r =>
      if r.1 = ERR_SUCCESS then
        if sigpipe 0 then none
        else
          some { replies :=
                   [Reply.header
                     { request_id := 0, type := MSG_TYPE_WRITE, payload_size := 0 }],
                 secondaries := r.2.1, sent := r.2.2 }
      else if sigpipe 0 || sigpipe 1 then none
      else some { replies := send_error_response r.1, secondaries := r.2.1, sent := r.2.2 }

/-- Case `MSG_TYPE_REPLICATE_WRITE` of `handle_client_request` (lines 190-223) with the signal
of `send`. -/
def handle_replicate_write (little_endian : Bool) (server_data_dir : List Char) (io : FileIO)
    (send : Nat → Nat → Option Int) (request : WriteRequest) (received : Int)
    (data : List Nat) (secondaries : List SecondaryServer) : Option Handled :=
  let length := ntohl little_endian request.length
  let offset := ntohl little_endian (request.offset % 2 ^ 32)
  if received ≠ length then some { replies := [], secondaries := secondaries, sent := [] }
  else
    (storage_write io send (full_filepath server_data_dir request.filepath) offset data
      length secondaries).map (fun r => { replies := [], secondaries := r.2.1, sent := r.2.2 })

/-- Case `MSG_TYPE_REPLICATE_DELETE` of `handle_client_request` (lines 225-244) with the signal
of `send`. -/
def handle_replicate_delete (server_data_dir : List Char) (removed : Bool)
    (send : Nat → Nat → Option Int) (request : DeleteRequest)
    (secondaries : List SecondaryServer) : Option Handled :=
  (storage_delete_file removed send (full_filepath server_data_dir request.filepath)
    secondaries).map (fun r => { replies := [], secondaries := r.2.1, sent := r.2.2 })

end Libc

/-! ## Sample data for the instances -/

/-- A metadata record: storage server 10.0.0.1, port 9100. -/
def sample_metadata_1 : FileMetadata :=
  ⟨"10.0.0.1".toList, 9100, 0, 0⟩

/-- A metadata record: storage server 10.0.0.2, port 9200. -/
def sample_metadata_2 : FileMetadata :=
  ⟨"10.0.0.2".toList, 9200, 0, 0⟩

/-- The tree after `directory_create("/d")` and `directory_create("/d/x")`. -/
def sample_tree : DirectoryEntry :=
  .mk ['/'] 1 none [.mk ['d'] 1 none [.mk ['x'] 1 none []]]

/-- The tree after registering "/a/b" and "/a/c". -/
def sample_siblings : DirectoryEntry :=
  .mk ['/'] 1 none [.mk ['a'] 1 none
    [.mk ['b'] 0 (some sample_metadata_1) [], .mk ['c'] 0 (some sample_metadata_2) []]]

/-- A health record: 10.0.0.1:9100, last heartbeat at time 0, load -1, active. -/
def sample_server_1 : StorageServer :=
  ⟨"10.0.0.1".toList, "9100".toList, 0, -1, 1⟩

/-- A health record: 10.0.0.2:9200, last heartbeat at time 0, load 5, active. -/
def sample_server_2 : StorageServer :=
  ⟨"10.0.0.2".toList, "9200".toList, 0, 5, 1⟩

/-- A health record: 10.0.0.3:9300, last heartbeat at time 0, load 5, active. -/
def sample_server_3 : StorageServer :=
  ⟨"10.0.0.3".toList, "9300".toList, 0, 5, 1⟩

/-- Heartbeats of two servers at times 0 and 1, then a monitor pass at time 16. -/
def sample_health_ops : List HealthOp :=
  [HealthOp.heartbeat "10.0.0.1".toList "9100".toList 3 0,
   HealthOp.heartbeat "10.0.0.2".toList "9200".toList 5 1,
   HealthOp.monitor 16]

/-- A secondary 10.0.0.9:9101 that is alive. -/
def sample_secondary : SecondaryServer :=
  ⟨"10.0.0.9".toList, "9101".toList, 1⟩

/-- A secondary 10.0.0.8:9102 that is marked dead. -/
def sample_secondary_dead : SecondaryServer :=
  ⟨"10.0.0.8".toList, "9102".toList, 0⟩

/-- Local file calls that all succeed, with `fwrite` writing 5 bytes. -/
def sample_io : FileIO := ⟨true, true, true, 5⟩

/-- Sends that all return the full size, for a write of 5 bytes. -/
def sample_send_ok : Nat → Nat → Int := fun _ k => if k = 0 then 288 else 5

/-- Sends that all return -1. -/
def sample_send_fail : Nat → Nat → Int := fun _ _ => -1

/-- The five bytes of "hello". -/
def sample_bytes : List Nat := [104, 101, 108, 108, 111]

/-- The `WriteRequest` of a client WRITE of 5 bytes at offset 0 of `a.txt`, as it arrives on a
host of the given byte order (offset and length in network order). -/
def sample_write_request (little_endian : Bool) : WriteRequest :=
  ⟨⟨7, MSG_TYPE_WRITE, 0⟩, "a.txt".toList, 0, ntohl little_endian 5⟩

/-- The `WriteRequest` of a REPLICATE_WRITE of 5 bytes at offset 0 of `a.txt`. -/
def sample_replicate_request (little_endian : Bool) : WriteRequest :=
  ⟨⟨0, MSG_TYPE_REPLICATE_WRITE, 0⟩, "a.txt".toList, 0, ntohl little_endian 5⟩

/-- Two `cache_put` calls: one byte `A` at offset 0 and one byte `B` at offset 1 of `p`. -/
def sample_puts : List (List Char × Nat × List Nat × Nat) :=
  [("p".toList, 0, [65], 1), ("p".toList, 1, [66], 1)]

/-- The header of a `GET_LOCATION` request with identifier 7 for a path of 5 bytes, as loaded on
a little-endian naming server (`payload_size` is `htonl(6)`). -/
def sample_location_header : MessageHeader :=
  { request_id := 7, type := MSG_TYPE_GET_LOCATION, payload_size := 100663296 }

/-- A client state: the request counter at 1 and an empty cache of capacity 2. -/
def sample_client : ClientState := { request_counter := 1, cache := cache_init 2 }

/-- A network on which every send completes and the naming server, holding the empty tree,
answers the location request for `a.txt`. -/
def sample_network_not_found : Network :=
  { ns_send_ok := fun _ => true,
    ns_reply := (handle_client_request true (fun _ => 0) sample_location_header
      (c_bytes "a.txt".toList ++ 0 :: []) directory_init).1,
    connect_ok := true,
    ss_send_ok := fun _ => true,
    ss_reply := [] }

/-- A network on which every send completes, the naming server answers the location request for
`a.txt` after a registration from 10.0.0.1 with port 9100, the connection to the storage server
is made, and the storage server sends `ss_reply`. -/
def sample_network (ss_reply : List Nat) : Network :=
  { ns_send_ok := fun _ => true,
    ns_reply := (handle_client_request true (fun _ => 0) sample_location_header
      (c_bytes "a.txt".toList ++ 0 :: [])
      (handle_storage_server_registration "10.0.0.1".toList 9100 0 0 ["a.txt".toList]
        directory_init)).1,
    connect_ok := true,
    ss_send_ok := fun _ => true,
    ss_reply := ss_reply }

/-- Local file calls of which `fopen` fails in both modes. -/
def sample_io_fail : FileIO := ⟨false, false, true, 0⟩

/-- The bytes of the `WRITE` header with which a little-endian storage server answers a write
that succeeded. -/
def sample_write_reply : List Nat :=
  replies_bytes true [Reply.header { request_id := 0, type := MSG_TYPE_WRITE, payload_size := 0 }]

/-- A `stat` that finds every file with a size of `2 ^ 32` bytes and the mode `0100644`. -/
def sample_stat : List Char → Option (Nat × Nat) := fun _ => some (4294967296, 33188)

/-- A data directory in which every file holds 8192 zero bytes. -/
def sample_files : List Char → Option (List Nat) := fun _ => some (List.replicate 8192 0)

/-- A call sequence on the cache: three `cache_put` calls on offsets 0, 1 and 2 of `p`, a
`cache_get` of offset 1 and a `cache_invalidate` of offset 2. -/
def sample_cache_ops : List CacheOp :=
  [CacheOp.put "p".toList 0 [65] 1, CacheOp.put "p".toList 1 [66] 1,
   CacheOp.put "p".toList 2 [67] 1, CacheOp.get "p".toList 1 1,
   CacheOp.invalidate "p".toList 2]

/-- The tree, with its lock words, after `directory_register_file("/c", sample_metadata_2)` on
the tree of `directory_init`. -/
def sample_registered : Libc.DirectoryEntry :=
  .mk ['/'] 1 none ⟨1, false⟩ [.mk ['c'] 0 (some sample_metadata_2) ⟨0xFFFFFFF0, false⟩ []]

/-- The tree, with its lock words, after `directory_register_file("/a.txt", sample_metadata_1)`
on the tree of `directory_init`. -/
def sample_registered_file : Libc.DirectoryEntry :=
  .mk ['/'] 1 none ⟨1, false⟩
    [.mk "a.txt".toList 0 (some sample_metadata_1) ⟨0xFFFFFFF0, false⟩ []]

/-- The tree, with its lock words, after a registration from 10.0.0.1 with port 9100 that lists
`a.txt`, on the tree of `directory_init`. -/
def sample_registered_location : Libc.DirectoryEntry :=
  .mk ['/'] 1 none ⟨1, false⟩
    [.mk "a.txt".toList 0 (some ⟨"10.0.0.1".toList, 9100, 0, 0⟩) ⟨0xFFFFFFF0, false⟩ []]

/-- The header of a `GET_LOCATION` request with identifier 7 for a path of 9 bytes, as loaded on
a little-endian naming server (`payload_size` is `htonl(10)`). -/
def sample_location_header_deep : MessageHeader :=
  { request_id := 7, type := MSG_TYPE_GET_LOCATION, payload_size := 167772160 }

/-- The reply to `GET_LOCATION("a.txt")` with identifier 7 on `sample_registered_location` by a
little-endian naming server, and the tree after it. -/
def sample_location_reply : List Nat × Libc.DirectoryEntry :=
  ([7, 0, 0, 0, 7, 0, 0, 0, 0, 0, 0, 18,
    49, 48, 46, 48, 46, 48, 46, 49, 0, 0, 0, 0, 0, 0, 0, 0, 35, 140],
   .mk ['/'] 1 none ⟨1, false⟩
    [.mk "a.txt".toList 0 (some ⟨"10.0.0.1".toList, 9100, 0, 0⟩) ⟨0xFFFFFFE8, false⟩ []])

/-- Sends to a secondary whose peer has shut the connection down: the first, of the request,
returns the full size, and the second, of the data, raises `SIGPIPE`. -/
def sample_send_sigpipe : Nat → Nat → Option Int := fun _ k => if k = 0 then some 288 else none

/-! # Lemmas -/

/-! ## Field lemmas -/

@[simp] theorem name_set_children (e : DirectoryEntry) (c : List DirectoryEntry) :
    (e.set_children c).name = e.name := by cases e; rfl

@[simp] theorem children_set_children (e : DirectoryEntry) (c : List DirectoryEntry) :
    (e.set_children c).children = c := by cases e; rfl

@[simp] theorem metadata_set_children (e : DirectoryEntry) (c : List DirectoryEntry) :
    (e.set_children c).metadata = e.metadata := by cases e; rfl

@[simp] theorem is_directory_set_children (e : DirectoryEntry) (c : List DirectoryEntry) :
    (e.set_children c).is_directory = e.is_directory := by cases e; rfl

@[simp] theorem name_set_metadata (e : DirectoryEntry) (m : Option FileMetadata) :
    (e.set_metadata m).name = e.name := by cases e; rfl

@[simp] theorem children_set_metadata (e : DirectoryEntry) (m : Option FileMetadata) :
    (e.set_metadata m).children = e.children := by cases e; rfl

@[simp] theorem metadata_set_metadata (e : DirectoryEntry) (m : Option FileMetadata) :
    (e.set_metadata m).metadata = m := by cases e; rfl

@[simp] theorem is_directory_set_metadata (e : DirectoryEntry) (m : Option FileMetadata) :
    (e.set_metadata m).is_directory = e.is_directory := by cases e; rfl

@[simp] theorem set_children_children (e : DirectoryEntry) :
    e.set_children e.children = e := by cases e; rfl

/-! ## find_child -/

theorem find_child_some {cs : List DirectoryEntry} {t : List Char} {j : Nat}
    {c : DirectoryEntry} (h : find_child cs t = some (j, c)) :
    cs[j]? = some c ∧ c.name = t := by
  induction cs generalizing j c with
  | nil => simp [find_child] at h
  | cons d ds ih =>
    unfold find_child at h
    split at h
    · rename_i hd
      simp only [Option.some.injEq, Prod.mk.injEq] at h
      obtain ⟨rfl, rfl⟩ := h
      exact ⟨by simp, hd⟩
    · cases hf : find_child ds t with
      | none => simp [hf] at h
      | some r =>
        obtain ⟨j', c'⟩ := r
        simp only [hf, Option.map_some', Option.some.injEq, Prod.mk.injEq] at h
        obtain ⟨rfl, rfl⟩ := h
        simpa using ih hf

theorem find_child_none {cs : List DirectoryEntry} {t : List Char} :
    find_child cs t = none ↔ ∀ c ∈ cs, c.name ≠ t := by
  induction cs with
  | nil => simp [find_child]
  | cons d ds ih =>
    unfold find_child
    by_cases hd : d.name = t
    · simp [hd]
    · simp [hd, ih]

theorem find_child_set {cs : List DirectoryEntry} {t : List Char} {j : Nat}
    {c d : DirectoryEntry} (h : find_child cs t = some (j, c)) (hn : d.name = c.name) :
    find_child (cs.set j d) t = some (j, d) := by
  induction cs generalizing j c with
  | nil => simp [find_child] at h
  | cons x xs ih =>
    unfold find_child at h
    split at h
    · rename_i hx
      simp only [Option.some.injEq, Prod.mk.injEq] at h
      obtain ⟨rfl, rfl⟩ := h
      simp [find_child, hn, hx]
    · rename_i hx
      cases hf : find_child xs t with
      | none => simp [hf] at h
      | some r =>
        obtain ⟨j', c'⟩ := r
        simp only [hf, Option.map_some', Option.some.injEq, Prod.mk.injEq] at h
        obtain ⟨rfl, rfl⟩ := h
        simp [find_child, hx, ih hf hn]

theorem find_child_append {cs : List DirectoryEntry} {t : List Char} {d : DirectoryEntry}
    (h : find_child cs t = none) (hn : d.name = t) :
    find_child (cs ++ [d]) t = some (cs.length, d) := by
  induction cs with
  | nil => simp [find_child, hn]
  | cons x xs ih =>
    unfold find_child at h
    split at h
    · simp at h
    · rename_i hx
      simp only [Option.map_eq_none'] at h
      simp [find_child, hx, ih h]

theorem set_self_of_find_child {cs : List DirectoryEntry} {t : List Char} {j : Nat}
    {c : DirectoryEntry} (h : find_child cs t = some (j, c)) : cs.set j c = cs := by
  have h1 := (find_child_some h).1
  apply List.ext_getElem?
  intro i
  by_cases hi : j = i
  · subst hi
    rw [h1]
    have hlt : j < cs.length := by
      by_contra hge
      rw [List.getElem?_eq_none (by omega)] at h1
      simp at h1
    simp [List.getElem?_set, hlt]
  · simp [List.getElem?_set, hi]

/-! ## lookup_loop -/

theorem lookup_loop_name (create : Bool) (d : Int) (ts : List (List Char))
    (cur : DirectoryEntry) : (lookup_loop create d ts cur).2.1.name = cur.name := by
  cases ts with
  | nil => rfl
  | cons t rest =>
    unfold lookup_loop
    split
    · simp
    · split <;> simp

/-- Without `create` the walk never changes the tree. -/
theorem lookup_loop_nocreate (d : Int) (ts : List (List Char)) (cur : DirectoryEntry) :
    (lookup_loop false d ts cur).2.1 = cur := by
  induction ts generalizing cur with
  | nil => rfl
  | cons t rest ih =>
    unfold lookup_loop
    split
    · rename_i j child hf
      simp [ih, set_self_of_find_child hf]
    · simp

/-- With `create` the walk always succeeds. -/
theorem lookup_loop_create_success (d : Int) (ts : List (List Char)) (cur : DirectoryEntry) :
    (lookup_loop true d ts cur).1 = ERR_SUCCESS := by
  induction ts generalizing cur with
  | nil => rfl
  | cons t rest ih =>
    unfold lookup_loop
    split
    · simp [ih]
    · simp [ih]

theorem resolves_cons {tok : List Char} {rest : List (List Char)} {t : DirectoryEntry}
    {j : Nat} {child : DirectoryEntry} {ptr : List Nat}
    (hf : find_child t.children tok = some (j, child)) (h : Resolves rest child ptr) :
    Resolves (tok :: rest) t (j :: ptr) := by
  unfold Resolves at *
  unfold lookup_loop
  simp [hf, h, set_self_of_find_child hf]

theorem resolves_cons_inv {tok : List Char} {rest : List (List Char)} {t : DirectoryEntry}
    {p : List Nat} (h : Resolves (tok :: rest) t p) :
    ∃ j child ptr, p = j :: ptr ∧ find_child t.children tok = some (j, child) ∧
      Resolves rest child ptr := by
  unfold Resolves at h
  unfold lookup_loop at h
  split at h
  · rename_i j child hf
    simp only [Prod.mk.injEq] at h
    refine ⟨j, child, (lookup_loop false 0 rest child).2.2, h.2.2.symm, hf, ?_⟩
    unfold Resolves
    have := lookup_loop_nocreate 0 rest child
    ext <;> simp [h.1, this]
  · simp at h

/-- The flag `is_directory` plays no role when nothing is created. -/
theorem lookup_loop_nocreate_flag (d : Int) (ts : List (List Char)) (cur : DirectoryEntry) :
    lookup_loop false d ts cur = lookup_loop false 0 ts cur := by
  induction ts generalizing cur with
  | nil => rfl
  | cons t rest ih =>
    unfold lookup_loop
    split
    · simp [ih]
    · simp

/-- After a creating walk the path resolves to the pointer the walk returned. -/
theorem create_resolves (d : Int) (ts : List (List Char)) (cur : DirectoryEntry) :
    Resolves ts (lookup_loop true d ts cur).2.1 (lookup_loop true d ts cur).2.2 := by
  induction ts generalizing cur with
  | nil => rfl
  | cons t rest ih =>
    unfold lookup_loop
    split
    · rename_i j child hf
      simp only
      apply resolves_cons _ (ih child)
      simp [find_child_set hf (lookup_loop_name true d rest child)]
    · rename_i hf
      simp only [if_true]
      apply resolves_cons _ (ih _)
      simp only [children_set_children]
      apply find_child_append hf
      rw [lookup_loop_name]
      rfl

/-- On a path that resolves, a creating walk changes nothing and returns the same node. -/
theorem resolves_create (d : Int) {ts : List (List Char)} {t : DirectoryEntry} {ptr : List Nat}
    (h : Resolves ts t ptr) : lookup_loop true d ts t = (ERR_SUCCESS, t, ptr) := by
  induction ts generalizing t ptr with
  | nil => simpa [Resolves, lookup_loop] using h
  | cons tok rest ih =>
    obtain ⟨j, child, p, rfl, hf, hr⟩ := resolves_cons_inv h
    unfold lookup_loop
    simp [hf, ih hr, set_self_of_find_child hf]

theorem resolves_entry_at {ts : List (List Char)} {t : DirectoryEntry} {ptr : List Nat}
    (h : Resolves ts t ptr) : ∃ e, entry_at ptr t = some e := by
  induction ts generalizing t ptr with
  | nil =>
    simp only [Resolves, lookup_loop, Prod.mk.injEq, true_and] at h
    subst h
    exact ⟨t, rfl⟩
  | cons tok rest ih =>
    obtain ⟨j, child, p, rfl, hf, hr⟩ := resolves_cons_inv h
    obtain ⟨e, he⟩ := ih hr
    exact ⟨e, by simp [entry_at, (find_child_some hf).1, he]⟩

theorem update_at_name {f : DirectoryEntry → DirectoryEntry} (hf : ∀ e, (f e).name = e.name)
    (ptr : List Nat) (t : DirectoryEntry) : (update_at f ptr t).name = t.name := by
  cases ptr with
  | nil => exact hf t
  | cons i rest =>
    unfold update_at
    split <;> simp

theorem resolves_update_at {f : DirectoryEntry → DirectoryEntry}
    (hn : ∀ e, (f e).name = e.name) {ts : List (List Char)} {t : DirectoryEntry}
    {ptr : List Nat} (h : Resolves ts t ptr) : Resolves ts (update_at f ptr t) ptr := by
  induction ts generalizing t ptr with
  | nil =>
    simp only [Resolves, lookup_loop, Prod.mk.injEq, true_and] at h
    subst h
    rfl
  | cons tok rest ih =>
    obtain ⟨j, child, p, rfl, hf, hr⟩ := resolves_cons_inv h
    unfold update_at
    simp only [(find_child_some hf).1]
    apply resolves_cons _ (ih hr)
    simp [find_child_set hf (update_at_name hn p child)]

theorem entry_at_update_at (f : DirectoryEntry → DirectoryEntry) {ptr : List Nat}
    {t e : DirectoryEntry} (h : entry_at ptr t = some e) :
    entry_at ptr (update_at f ptr t) = some (f e) := by
  induction ptr generalizing t with
  | nil =>
    simp only [entry_at, Option.some.injEq] at h
    subst h
    rfl
  | cons i rest ih =>
    unfold entry_at at h
    split at h
    · rename_i c hc
      have hlt : i < t.children.length := by
        by_contra hge
        rw [List.getElem?_eq_none (by omega)] at hc
        simp at hc
      unfold update_at
      simp [hc, entry_at, List.getElem?_set, hlt, ih h]
    · simp at h

/-! ## resolve -/

theorem resolves_resolve {ts : List (List Char)} {t : DirectoryEntry} {ptr : List Nat}
    (h : Resolves ts t ptr) : resolve ts t = entry_at ptr t ∧ ptr.length = ts.length := by
  induction ts generalizing t ptr with
  | nil =>
    simp only [Resolves, lookup_loop, Prod.mk.injEq, true_and] at h
    subst h
    exact ⟨rfl, rfl⟩
  | cons tok rest ih =>
    obtain ⟨j, child, p, rfl, hf, hr⟩ := resolves_cons_inv h
    simp [resolve, hf, entry_at, (find_child_some hf).1, ih hr]

theorem resolve_some {ts : List (List Char)} {t e : DirectoryEntry}
    (h : resolve ts t = some e) : ∃ ptr, Resolves ts t ptr ∧ entry_at ptr t = some e := by
  induction ts generalizing t with
  | nil =>
    simp only [resolve, Option.some.injEq] at h
    subst h
    exact ⟨[], rfl, rfl⟩
  | cons tok rest ih =>
    unfold resolve at h
    split at h
    · rename_i j c hf
      obtain ⟨ptr, hr, he⟩ := ih h
      exact ⟨j :: ptr, resolves_cons hf hr, by simp [entry_at, (find_child_some hf).1, he]⟩
    · simp at h

theorem resolve_none {ts : List (List Char)} {t : DirectoryEntry} (d : Int)
    (h : resolve ts t = none) : (lookup_loop false d ts t).1 = ERR_NOT_FOUND := by
  induction ts generalizing t with
  | nil => simp [resolve] at h
  | cons tok rest ih =>
    unfold resolve at h
    unfold lookup_loop
    split at h
    · rename_i j c hf
      simp [hf, ih h]
    · rename_i hf
      simp [hf]

theorem lookup_loop_nocreate_code (d : Int) (ts : List (List Char)) (t : DirectoryEntry) :
    (lookup_loop false d ts t).1 = ERR_SUCCESS ∨ (lookup_loop false d ts t).1 = ERR_NOT_FOUND := by
  cases h : resolve ts t with
  | none => exact Or.inr (resolve_none d h)
  | some e =>
    obtain ⟨ptr, hr, _⟩ := resolve_some h
    left
    rw [lookup_loop_nocreate_flag, hr]

theorem resolves_of_success {d : Int} {ts : List (List Char)} {t : DirectoryEntry}
    (h : (lookup_loop false d ts t).1 = ERR_SUCCESS) :
    Resolves ts t (lookup_loop false d ts t).2.2 := by
  cases hr : resolve ts t with
  | none => rw [resolve_none d hr] at h; cases h
  | some e =>
    obtain ⟨ptr, hp, _⟩ := resolve_some hr
    rw [lookup_loop_nocreate_flag, hp]
    exact hp

/-! ## all_nodes -/

theorem all_nodes_list_iff (p : DirectoryEntry → Bool) (cs : List DirectoryEntry) :
    all_nodes_list p cs = true ↔ ∀ c ∈ cs, all_nodes p c = true := by
  induction cs with
  | nil => simp [all_nodes_list]
  | cons c cs ih => simp [all_nodes_list, ih]

theorem all_nodes_iff (p : DirectoryEntry → Bool) (t : DirectoryEntry) :
    all_nodes p t = true ↔ p t = true ∧ ∀ c ∈ t.children, all_nodes p c = true := by
  cases t with
  | mk n d m cs =>
    simp [all_nodes, all_nodes_list_iff, DirectoryEntry.children]

theorem names_unique_iff (t : DirectoryEntry) :
    names_unique t = true ↔
      (t.children.map DirectoryEntry.name).Nodup ∧ ∀ c ∈ t.children, names_unique c = true := by
  unfold names_unique
  rw [all_nodes_iff]
  simp [children_distinct]

theorem map_name_set {cs : List DirectoryEntry} {j : Nat} {c d : DirectoryEntry}
    (h : cs[j]? = some c) (hn : d.name = c.name) :
    (cs.set j d).map DirectoryEntry.name = cs.map DirectoryEntry.name := by
  apply List.ext_getElem?
  intro i
  by_cases hi : j = i
  · subst hi
    have hlt : j < cs.length := by
      by_contra hge
      rw [List.getElem?_eq_none (by omega)] at h
      simp at h
    obtain ⟨_, h2⟩ := List.getElem?_eq_some.1 h
    simp [List.getElem?_set, hlt, hn, h2]
  · simp [List.getElem?_set, hi]

theorem names_unique_set {t : DirectoryEntry} {j : Nat} {c d : DirectoryEntry}
    (ht : names_unique t = true) (h : t.children[j]? = some c) (hn : d.name = c.name)
    (hd : names_unique d = true) :
    names_unique (t.set_children (t.children.set j d)) = true := by
  rw [names_unique_iff] at ht ⊢
  simp only [children_set_children]
  refine ⟨by rw [map_name_set h hn]; exact ht.1, ?_⟩
  intro x hx
  rcases List.mem_or_eq_of_mem_set hx with hx | hx
  · exact ht.2 x hx
  · exact hx ▸ hd

theorem names_unique_new_child (tok : List Char) (l : Bool) (d : Int) :
    names_unique (new_child tok l d) = true := by
  rw [names_unique_iff]
  simp [new_child, DirectoryEntry.children]

theorem names_unique_lookup_loop (c : Bool) (d : Int) (ts : List (List Char))
    {t : DirectoryEntry} (ht : names_unique t = true) :
    names_unique (lookup_loop c d ts t).2.1 = true := by
  induction ts generalizing t with
  | nil => exact ht
  | cons tok rest ih =>
    unfold lookup_loop
    split
    · rename_i j child hf
      have hc := (find_child_some hf).1
      exact names_unique_set ht hc (lookup_loop_name c d rest child)
        (ih ((names_unique_iff t).1 ht |>.2 child (List.getElem?_mem hc)))
    · rename_i hf
      split
      · have hnew := ih (t := new_child tok rest.isEmpty d) (names_unique_new_child _ _ _)
        rw [names_unique_iff] at ht ⊢
        simp only [children_set_children, List.map_append, List.map_cons, List.map_nil]
        refine ⟨?_, ?_⟩
        · rw [List.nodup_append]
          refine ⟨ht.1, by simp, ?_⟩
          intro a ha hb
          simp only [List.mem_singleton] at hb
          rw [lookup_loop_name] at hb
          obtain ⟨x, hx, hxa⟩ := List.mem_map.1 ha
          exact (find_child_none.1 hf x hx) (by rw [hxa, hb]; rfl)
        · intro x hx
          rcases List.mem_append.1 hx with hx | hx
          · exact ht.2 x hx
          · simp only [List.mem_singleton] at hx
            exact hx ▸ hnew
      · exact ht

theorem names_unique_update_at {f : DirectoryEntry → DirectoryEntry}
    (hn : ∀ e, (f e).name = e.name)
    (hu : ∀ e, names_unique e = true → names_unique (f e) = true)
    (ptr : List Nat) {t : DirectoryEntry} (ht : names_unique t = true) :
    names_unique (update_at f ptr t) = true := by
  induction ptr generalizing t with
  | nil => exact hu t ht
  | cons i rest ih =>
    unfold update_at
    split
    · rename_i c hc
      exact names_unique_set ht hc (update_at_name hn rest c)
        (ih ((names_unique_iff t).1 ht |>.2 c (List.getElem?_mem hc)))
    · exact ht

theorem names_unique_set_metadata (m : Option FileMetadata) {e : DirectoryEntry}
    (h : names_unique e = true) : names_unique (e.set_metadata m) = true := by
  rw [names_unique_iff] at h ⊢
  simpa using h

theorem unlink_entry_name (ptr : List Nat) (t : DirectoryEntry) :
    (unlink_entry ptr t).name = t.name := by
  match ptr with
  | [] => rfl
  | [i] => simp [unlink_entry]
  | i :: j :: rest =>
    unfold unlink_entry
    split <;> simp

theorem names_unique_unlink_entry (ptr : List Nat) {t : DirectoryEntry}
    (ht : names_unique t = true) : names_unique (unlink_entry ptr t) = true := by
  induction ptr generalizing t with
  | nil => exact ht
  | cons i rest ih =>
    cases rest with
    | nil =>
      rw [names_unique_iff] at ht ⊢
      simp only [unlink_entry, children_set_children]
      refine ⟨(List.eraseIdx_sublist _ _).map _ |>.nodup ht.1, ?_⟩
      intro x hx
      exact ht.2 x ((List.eraseIdx_sublist _ _).subset hx)
    | cons j rest =>
      unfold unlink_entry
      split
      · rename_i c hc
        exact names_unique_set ht hc (unlink_entry_name _ c)
          (ih ((names_unique_iff t).1 ht |>.2 c (List.getElem?_mem hc)))
      · exact ht

/-! ## API level -/

theorem lookup_internal_valid {p : List Char} (hp : split_path p ≠ [] ∨ p = ['/'])
    (c : Bool) (d : Int) (root : DirectoryEntry) :
    directory_lookup_internal p c d root = lookup_loop c d (split_path p) root := by
  unfold directory_lookup_internal
  have : ¬ ((split_path p).length = 0 ∧ p ≠ ['/']) := by
    rintro ⟨h1, h2⟩
    rcases hp with hp | hp
    · exact hp (List.length_eq_zero.mp h1)
    · exact h2 hp
  simp only [this, if_false]

theorem lookup_internal_invalid {p : List Char} (hp : ¬ (split_path p ≠ [] ∨ p = ['/']))
    (c : Bool) (d : Int) (root : DirectoryEntry) :
    directory_lookup_internal p c d root = (ERR_INVALID_ARGUMENT, root, []) := by
  unfold directory_lookup_internal
  have : (split_path p).length = 0 ∧ p ≠ ['/'] := by
    push_neg at hp
    exact ⟨by simp [hp.1], hp.2⟩
  rw [if_pos this]

theorem directory_lookup_tree (p : List Char) (t : DirectoryEntry) :
    (directory_lookup p t).2.1 = t := by
  unfold directory_lookup
  by_cases hp : split_path p ≠ [] ∨ p = ['/']
  · rw [lookup_internal_valid hp, lookup_loop_nocreate]
  · rw [lookup_internal_invalid hp]

theorem directory_lookup_resolves {p : List Char} {t : DirectoryEntry}
    (h : (directory_lookup p t).1 = ERR_SUCCESS) :
    (split_path p ≠ [] ∨ p = ['/']) ∧ Resolves (split_path p) t (directory_lookup p t).2.2 := by
  unfold directory_lookup at h ⊢
  by_cases hp : split_path p ≠ [] ∨ p = ['/']
  · rw [lookup_internal_valid hp] at h ⊢
    exact ⟨hp, resolves_of_success h⟩
  · rw [lookup_internal_invalid hp] at h
    cases h

theorem lookup_of_resolves {p : List Char} (hp : split_path p ≠ [] ∨ p = ['/'])
    {t : DirectoryEntry} {ptr : List Nat} (h : Resolves (split_path p) t ptr) :
    directory_lookup p t = (ERR_SUCCESS, t, ptr) := by
  unfold directory_lookup
  rw [lookup_internal_valid hp]
  exact h

theorem names_unique_create (p : List Char) {t : DirectoryEntry}
    (ht : names_unique t = true) : names_unique (directory_create p t).2 = true := by
  unfold directory_create
  by_cases hp : split_path p ≠ [] ∨ p = ['/']
  · rw [lookup_internal_valid hp]
    exact names_unique_lookup_loop _ _ _ ht
  · rw [lookup_internal_invalid hp]
    exact ht

theorem names_unique_register_file (p : List Char) (m : FileMetadata) {t : DirectoryEntry}
    (ht : names_unique t = true) : names_unique (directory_register_file p m t).2 = true := by
  unfold directory_register_file
  by_cases hp : split_path p ≠ [] ∨ p = ['/']
  · rw [lookup_internal_valid hp]
    simp only [lookup_loop_create_success, ne_eq, not_true_eq_false, if_false]
    exact names_unique_update_at (fun e => by simp) (fun e => names_unique_set_metadata _) _
      (names_unique_lookup_loop _ _ _ ht)
  · rw [lookup_internal_invalid hp]
    simpa using ht

theorem names_unique_delete (p : List Char) {t t' : DirectoryEntry}
    (ht : names_unique t = true) (h : (directory_delete p t).2 = some t') :
    names_unique t' = true := by
  unfold directory_delete at h
  simp only [directory_lookup_tree] at h
  split at h
  · simp only [Option.some.injEq] at h; exact h ▸ ht
  · split at h
    · simp only [Option.some.injEq] at h; exact h ▸ ht
    · split at h
      · simp only [Option.some.injEq] at h; exact h ▸ ht
      · split at h
        · simp at h
        · simp only [Option.some.injEq] at h
          exact h ▸ names_unique_unlink_entry _ ht

theorem names_unique_apply (op : DirOp) {t t' : DirectoryEntry}
    (ht : names_unique t = true) (h : op.apply t = some t') : names_unique t' = true := by
  cases op with
  | create p =>
    simp only [DirOp.apply, Option.some.injEq] at h
    exact h ▸ names_unique_create p ht
  | register_file p m =>
    simp only [DirOp.apply, Option.some.injEq] at h
    exact h ▸ names_unique_register_file p m ht
  | delete p => exact names_unique_delete p ht h

theorem names_unique_run_ops (ops : List DirOp) {t t' : DirectoryEntry}
    (ht : names_unique t = true) (h : run_ops ops t = some t') : names_unique t' = true := by
  induction ops generalizing t with
  | nil =>
    simp only [run_ops, Option.some.injEq] at h
    exact h ▸ ht
  | cons op ops ih =>
    simp only [run_ops] at h
    cases ha : op.apply t with
    | none => simp [ha] at h
    | some t1 =>
      rw [ha] at h
      exact ih (names_unique_apply op ht ha) h

theorem names_unique_reachable {ops : List DirOp} {t : DirectoryEntry}
    (h : run_ops ops directory_init = some t) : names_unique t = true :=
  names_unique_run_ops ops (by decide) h

/-! ## directory_delete -/

theorem directory_delete_nonempty_eq {t e : DirectoryEntry} {p : List Char}
    (hl : (directory_lookup p t).1 = ERR_SUCCESS)
    (he : entry_at (directory_lookup p t).2.2 t = some e)
    (hc : 0 < e.children.length) :
    directory_delete p t = (ERR_INVALID_ARGUMENT, some t) := by
  unfold directory_delete
  simp only [directory_lookup_tree, hl, he, hc]
  simp

theorem getElem?_lt {α : Type} {l : List α} {i : Nat} {a : α} (h : l[i]? = some a) :
    i < l.length := by
  by_contra hge
  rw [List.getElem?_eq_none (by omega)] at h
  simp at h

theorem find_child_eraseIdx_self {cs : List DirectoryEntry} {tok : List Char} {j : Nat}
    {c : DirectoryEntry} (hn : (cs.map DirectoryEntry.name).Nodup)
    (hf : find_child cs tok = some (j, c)) : find_child (cs.eraseIdx j) tok = none := by
  rw [find_child_none]
  intro x hx hxn
  obtain ⟨i, hij, hi⟩ := List.mem_eraseIdx_iff_getElem?.1 hx
  obtain ⟨hj, hcn⟩ := find_child_some hf
  have hil := getElem?_lt hi
  have hjl := getElem?_lt hj
  have hil2 : i < (cs.map DirectoryEntry.name).length := by simpa using hil
  have hjl2 : j < (cs.map DirectoryEntry.name).length := by simpa using hjl
  have h1 : (cs.map DirectoryEntry.name)[i] = x.name := by
    obtain ⟨_, h⟩ := List.getElem?_eq_some.1 hi
    simp [h]
  have h2 : (cs.map DirectoryEntry.name)[j] = c.name := by
    obtain ⟨_, h⟩ := List.getElem?_eq_some.1 hj
    simp [h]
  have : i = j := by
    apply (List.Nodup.getElem_inj_iff hn).1
    rw [h1, h2, hxn, hcn]
  exact hij this

theorem resolve_unlink_entry {ts : List (List Char)} {t : DirectoryEntry} {ptr : List Nat}
    (hu : names_unique t = true) (hne : ts ≠ []) (h : Resolves ts t ptr) :
    resolve ts (unlink_entry ptr t) = none := by
  induction ts generalizing t ptr with
  | nil => exact absurd rfl hne
  | cons tok rest ih =>
    obtain ⟨j, child, p, rfl, hf, hr⟩ := resolves_cons_inv h
    have hlen := (resolves_resolve hr).2
    cases rest with
    | nil =>
      have : p = [] := List.length_eq_zero.1 hlen
      subst this
      simp only [unlink_entry, resolve, children_set_children]
      rw [find_child_eraseIdx_self ((names_unique_iff t).1 hu).1 hf]
    | cons tok2 rest =>
      cases p with
      | nil => simp at hlen
      | cons j2 p =>
        have hc := (find_child_some hf).1
        simp only [unlink_entry, hc, resolve, children_set_children]
        rw [find_child_set hf (unlink_entry_name _ child)]
        exact ih ((names_unique_iff t).1 hu |>.2 child (List.getElem?_mem hc))
          (by simp) hr

theorem parent_unlink_entry {ts : List (List Char)} {t : DirectoryEntry} {ptr : List Nat}
    (hne : ts ≠ []) (h : Resolves ts t ptr) :
    ∃ parent parent', entry_at ptr.dropLast t = some parent ∧
      entry_at ptr.dropLast (unlink_entry ptr t) = some parent' ∧
      parent'.children.length + 1 = parent.children.length := by
  induction ts generalizing t ptr with
  | nil => exact absurd rfl hne
  | cons tok rest ih =>
    obtain ⟨j, child, p, rfl, hf, hr⟩ := resolves_cons_inv h
    have hlen := (resolves_resolve hr).2
    have hc := (find_child_some hf).1
    have hj := getElem?_lt hc
    cases rest with
    | nil =>
      have : p = [] := List.length_eq_zero.1 hlen
      subst this
      refine ⟨t, t.set_children (t.children.eraseIdx j), rfl, rfl, ?_⟩
      rw [children_set_children, List.length_eraseIdx_of_lt hj]
      omega
    | cons tok2 rest =>
      cases p with
      | nil => simp at hlen
      | cons j2 p =>
        obtain ⟨par, par', h1, h2, h3⟩ := ih (by simp) hr
        refine ⟨par, par', ?_, ?_, h3⟩
        · simp [List.dropLast, entry_at, hc, h1]
        · simp [List.dropLast, unlink_entry, entry_at, hc, List.getElem?_set, hj, h2]

theorem directory_delete_leaf_eq {t e : DirectoryEntry} {p : List Char}
    (hp : split_path p ≠ [])
    (hl : (directory_lookup p t).1 = ERR_SUCCESS)
    (he : entry_at (directory_lookup p t).2.2 t = some e)
    (hc : e.children = []) :
    directory_delete p t = (ERR_SUCCESS, some (unlink_entry (directory_lookup p t).2.2 t)) := by
  have hr := (directory_lookup_resolves hl).2
  have hlen := (resolves_resolve hr).2
  unfold directory_delete
  simp only [directory_lookup_tree, hl, he, hc]
  cases hq : (directory_lookup p t).2.2 with
  | nil =>
    rw [hq] at hlen
    exact absurd (List.length_eq_zero.1 hlen.symm) hp
  | cons i rest => simp

/-! ## split_path -/

theorem split_path_loop_token {b : List Char} (hb : '/' ∉ b) (cur : List Char)
    (hne : cur ++ b ≠ []) : split_path_loop b cur = [cur ++ b] := by
  induction b generalizing cur with
  | nil =>
    have : cur ≠ [] := by simpa using hne
    simp [split_path_loop, this]
  | cons x xs ih =>
    have hx : x ≠ '/' := fun h => hb (by simp [h])
    have hxs : '/' ∉ xs := fun h => hb (by simp [h])
    simp only [split_path_loop, hx, if_false]
    rw [ih hxs (cur ++ [x]) (by simp)]
    simp

theorem split_path_loop_append {b : List Char} (hb : '/' ∉ b) (hne : b ≠ [])
    (a cur : List Char) :
    split_path_loop (a ++ '/' :: b) cur = split_path_loop a cur ++ [b] := by
  induction a generalizing cur with
  | nil =>
    have h := split_path_loop_token hb [] (by simpa using hne)
    simp only [List.nil_append] at h
    by_cases hc : cur = [] <;> simp [split_path_loop, hc, h]
  | cons x xs ih =>
    by_cases hx : x = '/'
    · by_cases hc : cur = [] <;> simp [split_path_loop, hx, hc, ih]
    · simp [split_path_loop, hx, ih]

theorem split_path_append {b : List Char} (hb : '/' ∉ b) (hne : b ≠ []) (a : List Char) :
    split_path (a ++ '/' :: b) = split_path a ++ [b] :=
  split_path_loop_append hb hne a []

/-! ## resolve and metadata queries -/

theorem resolve_cons (tok : List Char) (ts : List (List Char)) (e : DirectoryEntry) :
    resolve (tok :: ts) e = ((find_child e.children tok).map Prod.snd).bind (resolve ts) := by
  cases hf : find_child e.children tok with
  | none => simp [resolve, hf]
  | some r => simp [resolve, hf]

theorem get_metadata_eq {p : List Char} (hp : split_path p ≠ [] ∨ p = ['/'])
    (t : DirectoryEntry) :
    directory_get_metadata p t =
      match (resolve (split_path p) t).bind DirectoryEntry.metadata with
      | some m => (ERR_SUCCESS, some m)
      | none => (ERR_NOT_FOUND, none) := by
  cases hr : resolve (split_path p) t with
  | none =>
    unfold directory_get_metadata directory_lookup
    rw [lookup_internal_valid hp]
    simp [resolve_none 0 hr]
  | some e =>
    obtain ⟨ptr, hres, he⟩ := resolve_some hr
    unfold directory_get_metadata
    rw [lookup_of_resolves hp hres]
    cases hm : e.metadata <;> simp [he, hm]

theorem find_child_eraseIdx_ne {cs : List DirectoryEntry} {b c : List Char} {j : Nat}
    {x : DirectoryEntry} (hf : find_child cs b = some (j, x)) (hbc : b ≠ c) :
    (find_child (cs.eraseIdx j) c).map Prod.snd = (find_child cs c).map Prod.snd := by
  induction cs generalizing j with
  | nil => simp [find_child] at hf
  | cons y ys ih =>
    unfold find_child at hf
    split at hf
    · rename_i hy
      simp only [Option.some.injEq, Prod.mk.injEq] at hf
      obtain ⟨rfl, rfl⟩ := hf
      have : ¬ y.name = c := fun h => hbc (hy.symm.trans h)
      simp [find_child, this, Function.comp_def]
    · rename_i hy
      cases hg : find_child ys b with
      | none => simp [hg] at hf
      | some r =>
        obtain ⟨j', x'⟩ := r
        simp only [hg, Option.map_some', Option.some.injEq, Prod.mk.injEq] at hf
        obtain ⟨rfl, rfl⟩ := hf
        by_cases hyc : y.name = c
        · simp [find_child, hyc]
        · simp [find_child, hyc, Function.comp_def]
          simpa [Function.comp_def] using ih hg

theorem resolve_unlink_sibling {us : List (List Char)} {b c : List Char} (hbc : b ≠ c)
    {t : DirectoryEntry} {ptr : List Nat} (h : Resolves (us ++ [b]) t ptr) :
    resolve (us ++ [c]) (unlink_entry ptr t) = resolve (us ++ [c]) t := by
  induction us generalizing t ptr with
  | nil =>
    obtain ⟨j, child, p, rfl, hf, hr⟩ := resolves_cons_inv h
    have : p = [] := List.length_eq_zero.1 (resolves_resolve hr).2
    subst this
    simp only [List.nil_append, unlink_entry, resolve_cons, children_set_children]
    rw [find_child_eraseIdx_ne hf hbc]
  | cons u us ih =>
    obtain ⟨j, child, p, rfl, hf, hr⟩ := resolves_cons_inv h
    have hlen := (resolves_resolve hr).2
    cases p with
    | nil => simp at hlen
    | cons j2 p =>
      have hc := (find_child_some hf).1
      simp only [List.cons_append, unlink_entry, hc, resolve_cons, children_set_children]
      rw [find_child_set hf (unlink_entry_name _ child), hf]
      simpa using ih hr

theorem directory_delete_cases {p : List Char} (hp : split_path p ≠ []) (t : DirectoryEntry) :
    (directory_delete p t).2 = some t ∨
    ∃ ptr, Resolves (split_path p) t ptr ∧ (directory_delete p t).2 = some (unlink_entry ptr t) := by
  by_cases hl : (directory_lookup p t).1 = ERR_SUCCESS
  · have hr := (directory_lookup_resolves hl).2
    obtain ⟨e, he⟩ := resolves_entry_at hr
    by_cases hc : e.children = []
    · right
      exact ⟨_, hr, by rw [directory_delete_leaf_eq hp hl he hc]⟩
    · left
      rw [directory_delete_nonempty_eq hl he (List.length_pos.2 hc)]
  · left
    unfold directory_delete
    simp [directory_lookup_tree, hl]

/-! ## nodes_at -/

theorem filter_name_length_le {cs : List DirectoryEntry} (tok : List Char)
    (hn : (cs.map DirectoryEntry.name).Nodup) :
    (cs.filter (fun c => c.name = tok)).length ≤ 1 := by
  induction cs with
  | nil => simp
  | cons y ys ih =>
    simp only [List.map_cons, List.nodup_cons] at hn
    by_cases hy : y.name = tok
    · have : ys.filter (fun c => c.name = tok) = [] := by
        rw [List.filter_eq_nil_iff]
        intro x hx hxn
        simp only [decide_eq_true_eq] at hxn
        exact hn.1 (List.mem_map.2 ⟨x, hx, hxn.trans hy.symm⟩)
      simp [List.filter_cons, hy, this]
    · simpa [List.filter_cons, hy] using ih hn.2

theorem nodes_at_length_le (ts : List (List Char)) {t : DirectoryEntry}
    (hu : names_unique t = true) : (nodes_at ts t).length ≤ 1 := by
  induction ts generalizing t with
  | nil => simp [nodes_at]
  | cons tok ts ih =>
    have hl := filter_name_length_le tok ((names_unique_iff t).1 hu).1
    unfold nodes_at
    match hf : t.children.filter (fun c => c.name = tok) with
    | [] => simp [hf]
    | [c] =>
      have hc : c ∈ t.children := by
        have : c ∈ t.children.filter (fun c => c.name = tok) := by rw [hf]; simp
        exact (List.mem_filter.1 this).1
      simpa [hf] using ih ((names_unique_iff t).1 hu |>.2 c hc)
    | a :: b :: l =>
      rw [hf] at hl
      simp at hl

/-! ## Nodes along a creating walk -/

theorem lookup_loop_is_directory (create : Bool) (d : Int) (ts : List (List Char))
    (cur : DirectoryEntry) : (lookup_loop create d ts cur).2.1.is_directory = cur.is_directory := by
  cases ts with
  | nil => rfl
  | cons t rest =>
    unfold lookup_loop
    split
    · simp
    · split <;> simp

theorem lookup_loop_metadata (create : Bool) (d : Int) (ts : List (List Char))
    (cur : DirectoryEntry) : (lookup_loop create d ts cur).2.1.metadata = cur.metadata := by
  cases ts with
  | nil => rfl
  | cons t rest =>
    unfold lookup_loop
    split
    · simp
    · split <;> simp

theorem resolve_new_child {ts : List (List Char)} (hne : ts ≠ []) (tok : List Char) (l : Bool)
    (d : Int) : resolve ts (new_child tok l d) = none := by
  cases ts with
  | nil => exact absurd rfl hne
  | cons u us => simp [resolve, new_child, DirectoryEntry.children, find_child]

/-- The node at a prefix `us` of the path walked with `create`: it exists afterwards, and when it
did not exist before it has no metadata and is a directory unless it is the final component, whose
kind is given by the flag. -/
theorem create_walk_node (d : Int) (us rest : List (List Char)) (t : DirectoryEntry) :
    ∃ n, resolve us (lookup_loop true d (us ++ rest) t).2.1 = some n ∧
      (resolve us t = none → n.metadata = none ∧ (rest ≠ [] → n.is_directory = 1) ∧
        (rest = [] → n.is_directory = (if d ≠ 0 then 1 else 0) ∧ n.children = [])) := by
  induction us generalizing t with
  | nil => exact ⟨_, rfl, by simp [resolve]⟩
  | cons u us ih =>
    simp only [List.cons_append]
    unfold lookup_loop
    split
    · rename_i j child hf
      obtain ⟨n, hn, hnew⟩ := ih child
      refine ⟨n, ?_, ?_⟩
      · simp only [resolve_cons, children_set_children]
        rw [find_child_set hf (lookup_loop_name _ _ _ _)]
        simpa using hn
      · intro hnone
        apply hnew
        simpa [resolve_cons, hf] using hnone
    · rename_i hf
      simp only [if_true]
      obtain ⟨n, hn, hnew⟩ := ih (new_child u (us ++ rest).isEmpty d)
      refine ⟨n, ?_, ?_⟩
      · simp only [resolve_cons, children_set_children]
        rw [find_child_append hf (by rw [lookup_loop_name]; rfl)]
        simpa using hn
      · intro _
        cases us with
        | nil =>
          simp only [resolve, Option.some.injEq] at hn
          subst hn
          simp only [List.nil_append] at *
          rw [lookup_loop_metadata, lookup_loop_is_directory]
          refine ⟨rfl, ?_, ?_⟩
          · intro hr
            cases rest with
            | nil => exact absurd rfl hr
            | cons r rs => simp [new_child, DirectoryEntry.is_directory]
          · intro hr
            subst hr
            refine ⟨?_, rfl⟩
            by_cases hd : d = 0 <;> simp [new_child, DirectoryEntry.is_directory, hd]
        | cons v vs => exact hnew (resolve_new_child (by simp) _ _ _)

theorem find_child_set_ne {cs : List DirectoryEntry} {tok u : List Char} {j : Nat}
    {c d : DirectoryEntry} (hf : find_child cs tok = some (j, c)) (hn : d.name = c.name)
    (hu : u ≠ tok) :
    (find_child (cs.set j d) u).map Prod.snd = (find_child cs u).map Prod.snd := by
  induction cs generalizing j with
  | nil => simp [find_child] at hf
  | cons y ys ih =>
    unfold find_child at hf
    split at hf
    · rename_i hy
      simp only [Option.some.injEq, Prod.mk.injEq] at hf
      obtain ⟨rfl, rfl⟩ := hf
      have h1 : ¬ d.name = u := fun h => hu (by rw [← h, hn, hy])
      have h2 : ¬ y.name = u := fun h => hu (by rw [← h, hy])
      simp [find_child, h1, h2]
    · rename_i hy
      cases hg : find_child ys tok with
      | none => simp [hg] at hf
      | some r =>
        obtain ⟨j', x'⟩ := r
        simp only [hg, Option.map_some', Option.some.injEq, Prod.mk.injEq] at hf
        obtain ⟨rfl, rfl⟩ := hf
        by_cases hyu : y.name = u
        · simp [find_child, hyu]
        · simp [find_child, hyu, Function.comp_def]
          simpa [Function.comp_def] using ih hg

/-- Reading a field `g` that does not depend on the children, at any path `q`, after a write
through the pointer of the path `ts`. -/
theorem resolve_update_at {α : Type} (g : DirectoryEntry → α)
    (hg : ∀ e cs, g (e.set_children cs) = g e)
    {f : DirectoryEntry → DirectoryEntry} (hn : ∀ e, (f e).name = e.name)
    (hc : ∀ e, (f e).children = e.children)
    {ts : List (List Char)} {t : DirectoryEntry} {ptr : List Nat} (h : Resolves ts t ptr)
    (q : List (List Char)) :
    (resolve q (update_at f ptr t)).map g =
      if q = ts then (resolve q t).map (fun e => g (f e)) else (resolve q t).map g := by
  induction ts generalizing t ptr q with
  | nil =>
    simp only [Resolves, lookup_loop, Prod.mk.injEq, true_and] at h
    subst h
    cases q with
    | nil => simp [update_at, resolve]
    | cons u q => simp [update_at, resolve_cons, hc]
  | cons tok rest ih =>
    obtain ⟨j, child, p, rfl, hf, hr⟩ := resolves_cons_inv h
    have hcj := (find_child_some hf).1
    cases q with
    | nil => simp [update_at, hcj, resolve, hg]
    | cons u q =>
      simp only [update_at, hcj, resolve_cons, children_set_children]
      by_cases hu : u = tok
      · subst hu
        rw [find_child_set hf (update_at_name hn _ _), hf]
        simpa using ih hr q
      · rw [find_child_set_ne hf (update_at_name hn _ _) hu]
        simp [hu]

/-- Result of `directory_lookup` on a valid path, in terms of `resolve`. -/
theorem directory_lookup_spec {q : List Char} (hq : split_path q ≠ [] ∨ q = ['/'])
    (t : DirectoryEntry) :
    ((directory_lookup q t).1 = ERR_SUCCESS ∧
      ∃ n, resolve (split_path q) t = some n ∧ entry_at (directory_lookup q t).2.2 t = some n) ∨
    ((directory_lookup q t).1 = ERR_NOT_FOUND ∧ resolve (split_path q) t = none) := by
  cases hr : resolve (split_path q) t with
  | none =>
    right
    unfold directory_lookup
    rw [lookup_internal_valid hq]
    exact ⟨resolve_none 0 hr, rfl⟩
  | some n =>
    left
    obtain ⟨ptr, hres, he⟩ := resolve_some hr
    rw [lookup_of_resolves hq hres]
    exact ⟨rfl, n, rfl, he⟩

theorem directory_lookup_of_resolve {q : List Char} (hq : split_path q ≠ [] ∨ q = ['/'])
    {t n : DirectoryEntry} (hr : resolve (split_path q) t = some n) :
    (directory_lookup q t).1 = ERR_SUCCESS ∧ entry_at (directory_lookup q t).2.2 t = some n := by
  rcases directory_lookup_spec hq t with ⟨h1, m, h2, h3⟩ | ⟨_, h2⟩
  · rw [hr] at h2
    simp only [Option.some.injEq] at h2
    exact ⟨h1, h2 ▸ h3⟩
  · rw [hr] at h2; cases h2

theorem resolve_none_of_not_found {q : List Char} {t : DirectoryEntry}
    (h : (directory_lookup q t).1 = ERR_NOT_FOUND) : resolve (split_path q) t = none := by
  by_cases hq : split_path q ≠ [] ∨ q = ['/']
  · rcases directory_lookup_spec hq t with ⟨h1, _⟩ | ⟨_, h2⟩
    · rw [h1] at h; cases h
    · exact h2
  · unfold directory_lookup at h
    rw [lookup_internal_invalid hq] at h
    cases h

/-! ## directory_register_file and directory_create -/

theorem register_file_eq {p : List Char} (hp : split_path p ≠ [] ∨ p = ['/'])
    (m : FileMetadata) (root : DirectoryEntry) :
    directory_register_file p m root =
      (ERR_SUCCESS, update_at (fun e => e.set_metadata (some m))
        (lookup_loop true 0 (split_path p) root).2.2
        (lookup_loop true 0 (split_path p) root).2.1) := by
  unfold directory_register_file
  rw [lookup_internal_valid hp]
  simp [lookup_loop_create_success]

theorem directory_create_eq {p : List Char} (hp : split_path p ≠ [] ∨ p = ['/'])
    (root : DirectoryEntry) :
    directory_create p root = (ERR_SUCCESS, (lookup_loop true 1 (split_path p) root).2.1) := by
  unfold directory_create
  rw [lookup_internal_valid hp]
  simp only [lookup_loop_create_success]

/-- The kind and the metadata of the node at `q` after `directory_register_file` on a path with
components `ts`, read off the tree the creating walk left. -/
theorem resolve_register {ts : List (List Char)} {t : DirectoryEntry} {ptr : List Nat}
    (h : Resolves ts t ptr) (m : FileMetadata) (q : List (List Char)) {n : DirectoryEntry}
    (hn : resolve q t = some n) :
    ∃ e, resolve q (update_at (fun e => e.set_metadata (some m)) ptr t) = some e ∧
      e.is_directory = n.is_directory ∧
      e.metadata = if q = ts then some m else n.metadata := by
  have h1 := resolve_update_at (fun e => (e.is_directory, e.metadata)) (fun e cs => by simp)
    (f := fun e => e.set_metadata (some m)) (fun e => by simp) (fun e => by simp) h q
  rw [hn] at h1
  cases hr : resolve q (update_at (fun e => e.set_metadata (some m)) ptr t) with
  | none =>
    rw [hr] at h1
    by_cases hq : q = ts <;> simp [hq] at h1
  | some e =>
    rw [hr] at h1
    refine ⟨e, rfl, ?_⟩
    by_cases hq : q = ts
    · simp only [hq, if_true, Option.map_some', Option.some.injEq, Prod.mk.injEq,
        is_directory_set_metadata, metadata_set_metadata] at h1 ⊢
      exact h1
    · simp only [hq, if_false, Option.map_some', Option.some.injEq, Prod.mk.injEq] at h1 ⊢
      exact h1

theorem register_file_resolves {p : List Char} (hp : split_path p ≠ [] ∨ p = ['/'])
    (m : FileMetadata) (root : DirectoryEntry) :
    ∃ ptr e, Resolves (split_path p) (directory_register_file p m root).2 ptr ∧
      entry_at ptr (directory_register_file p m root).2 = some e ∧ e.metadata = some m := by
  rw [register_file_eq hp]
  have hr := create_resolves 0 (split_path p) root
  obtain ⟨e, he⟩ := resolves_entry_at hr
  refine ⟨_, _, resolves_update_at (fun e => by simp) hr, entry_at_update_at _ he, by simp⟩

theorem get_metadata_of_resolves {p : List Char} (hp : split_path p ≠ [] ∨ p = ['/'])
    {t e : DirectoryEntry} {ptr : List Nat} {m : FileMetadata}
    (h : Resolves (split_path p) t ptr) (he : entry_at ptr t = some e)
    (hm : e.metadata = some m) :
    directory_get_metadata p t = (ERR_SUCCESS, some m) := by
  unfold directory_get_metadata
  rw [lookup_of_resolves hp h]
  simp [he, hm]

/-! ## Metadata records and registrations -/

theorem find_child_append_ne {cs : List DirectoryEntry} {u : List Char} {d : DirectoryEntry}
    (hd : d.name ≠ u) : find_child (cs ++ [d]) u = find_child cs u := by
  induction cs with
  | nil => simp [find_child, hd]
  | cons y ys ih =>
    by_cases hy : y.name = u
    · simp [find_child, hy]
    · simp [find_child, hy, ih]

/-- A creating walk neither adds nor changes a metadata record. -/
theorem create_walk_metadata (d : Int) (ts : List (List Char)) (t : DirectoryEntry)
    (q : List (List Char)) :
    (resolve q (lookup_loop true d ts t).2.1).bind DirectoryEntry.metadata =
      (resolve q t).bind DirectoryEntry.metadata := by
  induction ts generalizing t q with
  | nil => rfl
  | cons tok rest ih =>
    cases q with
    | nil => simp [resolve, lookup_loop_metadata]
    | cons u q =>
      unfold lookup_loop
      split
      · rename_i j child hf
        simp only [resolve_cons, children_set_children]
        by_cases hu : u = tok
        · subst hu
          rw [find_child_set hf (lookup_loop_name _ _ _ _), hf]
          simpa using ih child q
        · rw [find_child_set_ne hf (lookup_loop_name _ _ _ _) hu]
      · rename_i hf
        simp only [if_true, resolve_cons, children_set_children]
        by_cases hu : u = tok
        · subst hu
          rw [find_child_append hf (by rw [lookup_loop_name]; rfl), hf]
          simp only [Option.map_some', Option.some_bind, Option.map_none', Option.none_bind]
          rw [ih]
          cases q with
          | nil => simp [resolve, new_child, DirectoryEntry.metadata]
          | cons v q => rw [resolve_new_child (by simp)]; rfl
        · rw [find_child_append_ne (by rw [lookup_loop_name]; exact fun h => hu h.symm)]

/-- After unlinking the node at `ts`, a path either no longer resolves or leads to a node with the
same child-independent fields as before. -/
theorem resolve_unlink_frame {α : Type} (g : DirectoryEntry → α)
    (hg : ∀ e cs, g (e.set_children cs) = g e)
    {ts : List (List Char)} {t : DirectoryEntry} {ptr : List Nat}
    (hu : names_unique t = true) (hne : ts ≠ []) (h : Resolves ts t ptr)
    (q : List (List Char)) :
    resolve q (unlink_entry ptr t) = none ∨
      (resolve q (unlink_entry ptr t)).map g = (resolve q t).map g := by
  induction ts generalizing t ptr q with
  | nil => exact absurd rfl hne
  | cons tok rest ih =>
    obtain ⟨j, child, p, rfl, hf, hr⟩ := resolves_cons_inv h
    have hlen := (resolves_resolve hr).2
    have hcj := (find_child_some hf).1
    cases rest with
    | nil =>
      have : p = [] := List.length_eq_zero.1 hlen
      subst this
      cases q with
      | nil => right; simp [unlink_entry, resolve, hg]
      | cons u q =>
        simp only [unlink_entry, resolve_cons, children_set_children]
        by_cases hut : u = tok
        · subst hut
          left
          rw [find_child_eraseIdx_self ((names_unique_iff t).1 hu).1 hf]
          rfl
        · right
          rw [find_child_eraseIdx_ne hf (fun h => hut h.symm)]
    | cons tok2 rest =>
      cases p with
      | nil => simp at hlen
      | cons j2 p =>
        cases q with
        | nil => right; simp [unlink_entry, hcj, resolve, hg]
        | cons u q =>
          simp only [unlink_entry, hcj, resolve_cons, children_set_children]
          by_cases hut : u = tok
          · subst hut
            rw [find_child_set hf (unlink_entry_name _ _), hf]
            simpa using ih ((names_unique_iff t).1 hu |>.2 child (List.getElem?_mem hcj))
              (by simp) hr q
          · right
            rw [find_child_set_ne hf (unlink_entry_name _ _) hut]

theorem metadata_within_of_bind {S : List (List (List Char))} {t t' : DirectoryEntry}
    (h : MetadataWithin S t)
    (hb : ∀ q, resolve q t' = none ∨ (resolve q t').map DirectoryEntry.metadata =
      (resolve q t).map DirectoryEntry.metadata) : MetadataWithin S t' := by
  intro q n hq hm
  rcases hb q with h0 | h1
  · rw [hq] at h0; cases h0
  · rw [hq] at h1
    cases hr : resolve q t with
    | none => rw [hr] at h1; cases h1
    | some n0 =>
      rw [hr] at h1
      simp only [Option.map_some', Option.some.injEq] at h1
      exact h q n0 hr (h1 ▸ hm)

theorem metadata_within_create (p : List Char) {S : List (List (List Char))}
    {t : DirectoryEntry} (h : MetadataWithin S t) : MetadataWithin S (directory_create p t).2 := by
  by_cases hp : split_path p ≠ [] ∨ p = ['/']
  · rw [directory_create_eq hp]
    intro q n hq hm
    have h1 := create_walk_metadata 1 (split_path p) t q
    rw [hq] at h1
    cases hr : resolve q t with
    | none => rw [hr] at h1; simp at h1; exact absurd h1 hm
    | some n0 =>
      rw [hr] at h1
      simp only [Option.some_bind] at h1
      exact h q n0 hr (h1 ▸ hm)
  · unfold directory_create
    rw [lookup_internal_invalid hp]
    exact h

theorem metadata_within_register_file (p : List Char) (m : FileMetadata)
    {S : List (List (List Char))} {t : DirectoryEntry} (h : MetadataWithin S t) :
    MetadataWithin (split_path p :: S) (directory_register_file p m t).2 := by
  by_cases hp : split_path p ≠ [] ∨ p = ['/']
  · rw [register_file_eq hp]
    intro q n hq hm
    by_cases hqp : q = split_path p
    · simp [hqp]
    · right
      have hres := create_resolves 0 (split_path p) t
      have h1 := resolve_update_at DirectoryEntry.metadata (fun e cs => by simp)
        (f := fun e => e.set_metadata (some m)) (fun e => by simp) (fun e => by simp) hres q
      simp only [hq, if_neg hqp, Option.map_some'] at h1
      have h2 := create_walk_metadata 0 (split_path p) t q
      cases hr : resolve q (lookup_loop true 0 (split_path p) t).2.1 with
      | none => rw [hr] at h1; cases h1
      | some n1 =>
        rw [hr] at h1 h2
        simp only [Option.map_some', Option.some.injEq] at h1
        simp only [Option.some_bind] at h2
        cases hr0 : resolve q t with
        | none => rw [hr0] at h2; simp at h2; rw [h2] at h1; exact absurd h1 hm
        | some n0 =>
          rw [hr0] at h2
          simp only [Option.some_bind] at h2
          exact h q n0 hr0 (by rw [← h2, ← h1]; exact hm)
  · unfold directory_register_file
    rw [lookup_internal_invalid hp]
    intro q n hq hm
    exact List.mem_cons_of_mem _ (h q n hq hm)

theorem metadata_within_delete (p : List Char) {S : List (List (List Char))}
    {t t' : DirectoryEntry} (hu : names_unique t = true) (h : MetadataWithin S t)
    (hd : (directory_delete p t).2 = some t') : MetadataWithin S t' := by
  by_cases hp : split_path p = []
  · have : (directory_delete p t).2 = some t ∨ (directory_delete p t).2 = none := by
      unfold directory_delete
      simp only [directory_lookup_tree]
      split
      · exact Or.inl rfl
      · split
        · exact Or.inl rfl
        · split
          · exact Or.inl rfl
          · rename_i hl _ _ _ _
            have hl' : (directory_lookup p t).1 = ERR_SUCCESS := by simpa using hl
            have hlen := (resolves_resolve (directory_lookup_resolves hl').2).2
            rw [hp] at hlen
            have := List.length_eq_zero.1 hlen
            split
            · exact Or.inr rfl
            · rename_i hq; rw [hq] at this; cases this
    rcases this with h1 | h1
    · rw [h1] at hd
      simp only [Option.some.injEq] at hd
      exact hd ▸ h
    · rw [h1] at hd; cases hd
  · rcases directory_delete_cases hp t with h1 | ⟨ptr, hr, h1⟩
    · rw [h1] at hd
      simp only [Option.some.injEq] at hd
      exact hd ▸ h
    · rw [h1] at hd
      simp only [Option.some.injEq] at hd
      subst hd
      exact metadata_within_of_bind h
        (resolve_unlink_frame DirectoryEntry.metadata (fun e cs => by simp) hu hp hr)

theorem metadata_within_mono {S S' : List (List (List Char))} {t : DirectoryEntry}
    (hs : ∀ q, q ∈ S → q ∈ S') (h : MetadataWithin S t) : MetadataWithin S' t :=
  fun q n hq hm => hs q (h q n hq hm)

theorem metadata_within_run_ops (ops : List DirOp) {S : List (List (List Char))}
    {t t' : DirectoryEntry} (hu : names_unique t = true) (h : MetadataWithin S t)
    (hr : run_ops ops t = some t') : MetadataWithin (registered_paths ops ++ S) t' := by
  induction ops generalizing t S with
  | nil =>
    simp only [run_ops, Option.some.injEq] at hr
    subst hr
    simpa [registered_paths] using h
  | cons op ops ih =>
    simp only [run_ops] at hr
    cases ha : op.apply t with
    | none => simp [ha] at hr
    | some t1 =>
      rw [ha] at hr
      have hu1 := names_unique_apply op hu ha
      cases op with
      | create p =>
        simp only [DirOp.apply, Option.some.injEq] at ha
        subst ha
        exact ih hu1 (metadata_within_create p h) hr
      | register_file p m =>
        simp only [DirOp.apply, Option.some.injEq] at ha
        subst ha
        refine metadata_within_mono ?_ (ih hu1 (metadata_within_register_file p m h) hr)
        intro q hq
        simp only [registered_paths, List.mem_append, List.mem_cons] at hq ⊢
        tauto
      | delete p =>
        exact ih hu1 (metadata_within_delete p hu h ha) hr

theorem mem_registered_paths {ops : List DirOp} {q : List (List Char)}
    (h : q ∈ registered_paths ops) :
    ∃ p m, DirOp.register_file p m ∈ ops ∧ split_path p = q := by
  induction ops with
  | nil => simp [registered_paths] at h
  | cons op ops ih =>
    cases op with
    | create p =>
      obtain ⟨p', m, h1, h2⟩ := ih (by simpa [registered_paths] using h)
      exact ⟨p', m, List.mem_cons_of_mem _ h1, h2⟩
    | delete p =>
      obtain ⟨p', m, h1, h2⟩ := ih (by simpa [registered_paths] using h)
      exact ⟨p', m, List.mem_cons_of_mem _ h1, h2⟩
    | register_file p m =>
      simp only [registered_paths, List.mem_cons] at h
      rcases h with h | h
      · exact ⟨p, m, List.mem_cons_self _ _, h.symm⟩
      · obtain ⟨p', m', h1, h2⟩ := ih h
        exact ⟨p', m', List.mem_cons_of_mem _ h1, h2⟩

/-! ## The cache list -/

theorem chain_congr {c c2 : Cache} {l : List Nat} (h : ∀ a ∈ l, c2.mem a = c.mem a)
    {prev : Option Nat} (hc : chain c prev l) : chain c2 prev l := by
  induction l generalizing prev with
  | nil => trivial
  | cons a rest ih =>
    obtain ⟨e, h1, h2, h3, h4⟩ := hc
    exact ⟨e, by rw [h a (by simp), h1], h2, h3,
      ih (fun b hb => h b (List.mem_cons_of_mem _ hb)) h4⟩

theorem chain_mem {c : Cache} {l : List Nat} {prev : Option Nat} (hc : chain c prev l)
    {a : Nat} (ha : a ∈ l) : ∃ e, c.mem a = some e := by
  induction l generalizing prev with
  | nil => cases ha
  | cons b rest ih =>
    obtain ⟨e, h1, _, _, h4⟩ := hc
    rcases List.mem_cons.1 ha with rfl | h
    · exact ⟨e, h1⟩
    · exact ih h4 h

theorem nodup_length_le {l : List Nat} {n : Nat} (hn : l.Nodup) (hb : ∀ a ∈ l, a < n) :
    l.length ≤ n := by
  have h1 : l.toFinset ⊆ Finset.range n := by
    intro a ha
    simpa using hb a (by simpa using ha)
  have h2 := Finset.card_le_card h1
  rwa [List.toFinset_card_of_nodup hn, Finset.card_range] at h2

/-- A walk along a chain ends: it reports no entry when none satisfies `hit`, and otherwise an
entry of the chain that satisfies `hit`. -/
theorem find_entry_chain {c : Cache} (hit : CacheEntry → Bool) {l : List Nat}
    {prev : Option Nat} (hc : chain c prev l) (fuel : Nat) (hf : l.length ≤ fuel) :
    (find_entry c hit fuel l.head? = some none ∧
      ∀ a ∈ l, ∀ e, c.mem a = some e → hit e = false) ∨
    (∃ a e, find_entry c hit fuel l.head? = some (some a) ∧ a ∈ l ∧ c.mem a = some e ∧
      hit e = true) := by
  induction l generalizing prev fuel with
  | nil =>
    left
    cases fuel <;> simp [find_entry]
  | cons a rest ih =>
    obtain ⟨e, h1, _, h3, h4⟩ := hc
    cases fuel with
    | zero => simp at hf
    | succ fuel =>
      simp only [List.head?_cons, find_entry, h1]
      by_cases hh : hit e = true
      · right
        exact ⟨a, e, by simp [hh], by simp, h1, hh⟩
      · simp only [hh, Bool.false_eq_true, if_false, h3]
        rcases ih h4 fuel (by simpa using hf) with ⟨r1, r2⟩ | ⟨b, eb, r1, r2, r3, r4⟩
        · left
          refine ⟨r1, ?_⟩
          intro x hx ex hex
          rcases List.mem_cons.1 hx with rfl | hx
          · rw [h1] at hex
            simp only [Option.some.injEq] at hex
            subst hex
            simpa using hh
          · exact r2 x hx ex hex
        · right
          exact ⟨b, eb, r1, List.mem_cons_of_mem _ r2, r3, r4⟩

theorem cache_wf_fuel {c : Cache} {l : List Nat} (h : cache_wf c l) : l.length ≤ c.brk :=
  nodup_length_le h.nodup h.below

theorem cache_wf_init (capacity : Nat) : cache_wf (cache_init capacity) [] where
  nodup := List.nodup_nil
  below := by simp
  alloc := by simp [cache_init]
  links := trivial
  head_eq := rfl
  tail_eq := rfl
  size_eq := rfl

theorem modify_some {c : Cache} {a : Nat} {e : CacheEntry} (h : c.mem a = some e)
    (f : CacheEntry → CacheEntry) :
    c.modify a f = some { c with mem := fun b => if b = a then some (f e) else c.mem b } := by
  simp [Cache.modify, h]

/-- The last cell of a chain: it is allocated, its `next` is `NULL` and its `prev` is the cell
before it. -/
theorem chain_last {c : Cache} {l : List Nat} {t : Nat} {prev : Option Nat}
    (hc : chain c prev (l ++ [t])) :
    ∃ e, c.mem t = some e ∧ e.next = none ∧ e.prev = (if l = [] then prev else l.getLast?) := by
  induction l generalizing prev with
  | nil =>
    obtain ⟨e, h1, h2, h3, _⟩ := hc
    exact ⟨e, h1, by simpa using h3, by simpa using h2⟩
  | cons a rest ih =>
    obtain ⟨e, h1, h2, h3, h4⟩ := hc
    obtain ⟨et, g1, g2, g3⟩ := ih h4
    refine ⟨et, g1, g2, ?_⟩
    rw [g3]
    by_cases hr : rest = []
    · simp [hr]
    · simp [hr, List.getLast?_cons_cons, List.getLast?_eq_getLast, List.getLast_cons hr]

/-- Cutting the last cell off a chain, once the `next` link of the cell before it is cleared. -/
theorem chain_dropLast {c c2 : Cache} {l : List Nat} {t : Nat} {prev : Option Nat}
    (hn : l.Nodup) (hc : chain c prev (l ++ [t]))
    (h2 : ∀ a ∈ l, ∀ e, c.mem a = some e →
      c2.mem a = some (if some a = l.getLast? then { e with next := none } else e)) :
    chain c2 prev l := by
  induction l generalizing prev with
  | nil => trivial
  | cons a rest ih =>
    obtain ⟨e, h1, hp, hnx, h4⟩ := hc
    have ha := h2 a (by simp) e h1
    simp only [List.nodup_cons] at hn
    by_cases hr : rest = []
    · subst hr
      simp only [List.getLast?_singleton, if_true] at ha
      exact ⟨_, ha, hp, rfl, trivial⟩
    · have hlast : (a :: rest).getLast? = rest.getLast? := by
        cases rest with
        | nil => exact absurd rfl hr
        | cons b bs => simp [List.getLast?_cons_cons]
      have hane : some a ≠ rest.getLast? := by
        intro h
        exact hn.1 (List.mem_of_getLast?_eq_some h.symm)
      rw [hlast, if_neg hane] at ha
      refine ⟨e, ha, hp, ?_, ?_⟩
      · rw [hnx]
        cases rest with
        | nil => exact absurd rfl hr
        | cons b bs => rfl
      · apply ih hn.2 h4
        intro b hb eb heb
        have := h2 b (List.mem_cons_of_mem _ hb) eb heb
        rwa [hlast] at this

/-- Eviction from a well-formed list of at least two entries: `remove_tail` returns, the list
loses its last cell and the other entries keep key and payload. -/
theorem remove_tail_wf {c : Cache} {l : List Nat} {t : Nat} (h : cache_wf c (l ++ [t]))
    (hne : l ≠ []) (hs : c.size < 2 ^ 64) :
    ∃ c2, remove_tail c = some c2 ∧ cache_wf c2 l ∧ c2.capacity = c.capacity ∧
      c2.brk = c.brk ∧ c2.size + 1 = c.size ∧
      ∀ a ∈ l, ∀ e, c.mem a = some e → ∃ e2, c2.mem a = some e2 ∧ e2.item = e.item := by
  obtain ⟨et, ht, htn, htp⟩ := chain_last h.links
  rw [if_neg hne] at htp
  obtain ⟨p, hp⟩ : ∃ p, l.getLast? = some p := by
    cases hl : l.getLast? with
    | none => exact absurd (List.getLast?_eq_none_iff.1 hl) hne
    | some p => exact ⟨p, rfl⟩
  have hpl : p ∈ l := List.mem_of_getLast?_eq_some hp
  have hnd := List.nodup_append.1 h.nodup
  have htl : t ∉ l := fun hm => hnd.2.2 hm (by simp)
  have hpt : t ≠ p := fun e => htl (e ▸ hpl)
  obtain ⟨ep, hep⟩ := chain_mem h.links (List.mem_append_left _ hpl)
  have htail : c.tail = some t := by rw [h.tail_eq]; simp
  have hsz : c.size = l.length + 1 := by rw [h.size_eq]; simp
  have hrt : remove_tail c = some
      { mem := fun b => if b = t then none
          else if b = p then some { ep with next := none } else c.mem b,
        brk := c.brk, head := c.head, tail := some p, capacity := c.capacity,
        size := (c.size + 2 ^ 64 - 1) % 2 ^ 64 } := by
    unfold remove_tail
    simp only [htail, ht, htp, hp, Cache.modify_if, modify_some hep, Option.bind_eq_bind,
      Option.some_bind, if_neg hpt, Option.pure_def]
    rfl
  refine ⟨_, hrt, ?_, ?_, ?_, ?_, ?_⟩
  · constructor
    · exact hnd.1
    · intro a ha
      exact h.below a (List.mem_append_left _ ha)
    · intro a ha
      simp only at ha
      by_cases hat : a = t
      · simp [hat] at ha
      · simp only [hat, if_false] at ha
        by_cases hap : a = p
        · exact hap ▸ hpl
        · simp only [hap, if_false] at ha
          have := h.alloc a ha
          simpa [hat] using this
    · apply chain_dropLast hnd.1 h.links
      intro a ha e hae
      have hat : a ≠ t := fun e => htl (e ▸ ha)
      simp only [hat, if_false]
      by_cases hap : a = p
      · subst hap
        rw [hep] at hae
        simp only [Option.some.injEq] at hae
        subst hae
        simp [hp]
      · have : some a ≠ l.getLast? := by rw [hp]; simpa using hap
        simp [hap, this, hae]
    · show c.head = l.head?
      rw [h.head_eq]
      cases l with
      | nil => exact absurd rfl hne
      | cons b bs => rfl
    · exact hp.symm
    · show (c.size + 2 ^ 64 - 1) % 2 ^ 64 = l.length
      rw [hsz] at hs ⊢
      omega
  · rfl
  · rfl
  · show (c.size + 2 ^ 64 - 1) % 2 ^ 64 + 1 = c.size
    rw [hsz] at hs ⊢
    omega
  · intro a ha e hae
    have hat : a ≠ t := fun e => htl (e ▸ ha)
    simp only [hat, if_false]
    by_cases hap : a = p
    · subst hap
      rw [hep] at hae
      simp only [Option.some.injEq] at hae
      subst hae
      exact ⟨{ ep with next := none }, by simp, rfl⟩
    · exact ⟨e, by simp [hap, hae], rfl⟩

/-- Insertion in front of a well-formed list: `insert_head` returns, the new cell is the first
of the list and the other entries keep key and payload. -/
theorem insert_head_wf {c : Cache} {l : List Nat} (h : cache_wf c l)
    (hs : c.size + 1 < 2 ^ 64) (fp : List Char) (off : Nat) (data : List Nat) (len : Nat) :
    ∃ c2, insert_head fp off data len c = some c2 ∧ cache_wf c2 (c.brk :: l) ∧
      c2.capacity = c.capacity ∧ c2.brk = c.brk + 1 ∧ c2.size = c.size + 1 ∧
      (∃ e, c2.mem c.brk = some e ∧ e.item = (fp, off, data.take len, len)) ∧
      ∀ a ∈ l, ∀ e, c.mem a = some e → ∃ e2, c2.mem a = some e2 ∧ e2.item = e.item := by
  have hfresh : c.brk ∉ l := fun hm => Nat.lt_irrefl _ (h.below _ hm)
  cases l with
  | nil =>
    have hh : c.head = none := h.head_eq
    have ht : c.tail = none := h.tail_eq
    have hins : insert_head fp off data len c = some
        { mem := fun b => if b = c.brk then
            some { filepath := fp, offset := off, data := data.take len, length := len,
                   prev := none, next := none }
            else c.mem b,
          brk := c.brk + 1, head := some c.brk, tail := some c.brk,
          capacity := c.capacity, size := (c.size + 1) % 2 ^ 64 } := by
      unfold insert_head
      simp [hh, ht, Cache.modify_if]
    refine ⟨_, hins, ?_, rfl, rfl, Nat.mod_eq_of_lt hs,
      ⟨{ filepath := fp, offset := off, data := data.take len, length := len,
         prev := none, next := none }, by simp, rfl⟩, by simp⟩
    constructor
    · simp
    · simp
    · intro a ha
      simp only at ha
      by_cases hab : a = c.brk
      · simp [hab]
      · simp only [hab, if_false] at ha
        exact absurd (h.alloc a ha) (by simp)
    · exact ⟨{ filepath := fp, offset := off, data := data.take len, length := len,
               prev := none, next := none }, by simp, rfl, rfl, trivial⟩
    · rfl
    · rfl
    · show (c.size + 1) % 2 ^ 64 = 1
      rw [Nat.mod_eq_of_lt hs, h.size_eq]
      rfl
  | cons hd rest =>
    have hh : c.head = some hd := h.head_eq
    have hhb : hd ≠ c.brk := fun e => hfresh (e ▸ List.mem_cons_self _ _)
    obtain ⟨eh, heh, hehp, hehn, hrest⟩ := h.links
    have htl : c.tail ≠ none := by
      rw [h.tail_eq]
      simp [List.getLast?_eq_getLast]
    have hnd := List.nodup_cons.1 h.nodup
    have hins : insert_head fp off data len c = some
        { mem := fun b => if b = hd then some { eh with prev := some c.brk }
            else if b = c.brk then
              some { filepath := fp, offset := off, data := data.take len, length := len,
                     prev := none, next := some hd }
            else c.mem b,
          brk := c.brk + 1, head := some c.brk, tail := c.tail,
          capacity := c.capacity, size := (c.size + 1) % 2 ^ 64 } := by
      unfold insert_head
      simp [hh, htl, Cache.modify_if, Cache.modify, hhb, heh]
    refine ⟨_, hins, ?_, rfl, rfl, Nat.mod_eq_of_lt hs,
      ⟨{ filepath := fp, offset := off, data := data.take len, length := len,
         prev := none, next := some hd }, by simp [hhb.symm], rfl⟩, ?_⟩
    · constructor
      · exact List.nodup_cons.2 ⟨hfresh, h.nodup⟩
      · intro a ha
        rcases List.mem_cons.1 ha with rfl | ha
        · exact Nat.lt_succ_self _
        · exact Nat.lt_succ_of_lt (h.below a ha)
      · intro a ha
        simp only at ha
        by_cases hab : a = c.brk
        · simp [hab]
        · by_cases hah : a = hd
          · simp [hah]
          · simp only [hah, hab, if_false] at ha
            exact List.mem_cons_of_mem _ (h.alloc a ha)
      · refine ⟨{ filepath := fp, offset := off, data := data.take len, length := len,
                  prev := none, next := some hd }, by simp [hhb.symm], rfl, rfl,
          ⟨{ eh with prev := some c.brk }, by simp, rfl, hehn, ?_⟩⟩
        apply chain_congr _ hrest
        intro a ha
        have h1 : a ≠ hd := fun e => hnd.1 (e ▸ ha)
        have h2 : a ≠ c.brk := fun e => hfresh (e ▸ List.mem_cons_of_mem _ ha)
        simp [h1, h2]
      · rfl
      · show c.tail = (c.brk :: hd :: rest).getLast?
        rw [h.tail_eq]
        simp [List.getLast?_cons_cons]
      · show (c.size + 1) % 2 ^ 64 = (c.brk :: hd :: rest).length
        rw [Nat.mod_eq_of_lt hs, h.size_eq]
        rfl
    · intro a ha e hae
      have h2 : a ≠ c.brk := fun e => hfresh (e ▸ ha)
      by_cases hah : a = hd
      · subst hah
        rw [heh] at hae
        simp only [Option.some.injEq] at hae
        subst hae
        exact ⟨{ eh with prev := some c.brk }, by simp, rfl⟩
      · exact ⟨e, by simp [hah, h2, hae], rfl⟩

theorem forall2_transfer {c c2 : Cache} {l : List Nat}
    {xs : List (List Char × Nat × List Nat × Nat)}
    (h : List.Forall₂ (fun a x => ∃ e, c.mem a = some e ∧ e.item = x) l xs)
    (ht : ∀ a ∈ l, ∀ e, c.mem a = some e → ∃ e2, c2.mem a = some e2 ∧ e2.item = e.item) :
    List.Forall₂ (fun a x => ∃ e, c2.mem a = some e ∧ e.item = x) l xs := by
  induction h with
  | nil => exact List.Forall₂.nil
  | cons hax _ ih =>
    obtain ⟨e, he, hex⟩ := hax
    obtain ⟨e2, he2, hi⟩ := ht _ (List.mem_cons_self _ _) e he
    exact List.Forall₂.cons ⟨e2, he2, hi.trans hex⟩
      (ih (fun a ha => ht a (List.mem_cons_of_mem _ ha)))

theorem forall2_mem_left {c : Cache} {l : List Nat}
    {xs : List (List Char × Nat × List Nat × Nat)}
    (h : List.Forall₂ (fun a x => ∃ e, c.mem a = some e ∧ e.item = x) l xs)
    {a : Nat} (ha : a ∈ l) : ∃ e, c.mem a = some e ∧ e.item ∈ xs := by
  induction h with
  | nil => cases ha
  | cons hax _ ih =>
    rcases List.mem_cons.1 ha with rfl | ha
    · obtain ⟨e, he, hex⟩ := hax
      exact ⟨e, he, hex ▸ List.mem_cons_self _ _⟩
    · obtain ⟨e, he, hex⟩ := ih ha
      exact ⟨e, he, List.mem_cons_of_mem _ hex⟩

theorem forall2_mem_right {c : Cache} {l : List Nat}
    {xs : List (List Char × Nat × List Nat × Nat)}
    (h : List.Forall₂ (fun a x => ∃ e, c.mem a = some e ∧ e.item = x) l xs)
    {x : List Char × Nat × List Nat × Nat} (hx : x ∈ xs) :
    ∃ a e, a ∈ l ∧ c.mem a = some e ∧ e.item = x := by
  induction h with
  | nil => cases hx
  | cons hax _ ih =>
    rcases List.mem_cons.1 hx with rfl | hx
    · obtain ⟨e, he, hex⟩ := hax
      exact ⟨_, e, List.mem_cons_self _ _, he, hex⟩
    · obtain ⟨a, e, ha, he, hex⟩ := ih hx
      exact ⟨a, e, List.mem_cons_of_mem _ ha, he, hex⟩

/-- A `cache_put` with a key the cache does not hold: the call returns `ERR_SUCCESS`, the new
item is first, and the last item is dropped exactly when the cache was full. -/
theorem cache_put_fresh {c : Cache} {xs : List (List Char × Nat × List Nat × Nat)}
    (h : cache_holds c xs) (hcap : 2 ≤ c.capacity) (hc64 : c.capacity < 2 ^ 64)
    (hle : xs.length ≤ c.capacity) (fp : List Char) (off : Nat) (data : List Nat) (len : Nat)
    (hnew : ∀ x ∈ xs, item_key x ≠ (fp, off)) :
    ∃ c2, cache_put fp off data len c = some (ERR_SUCCESS, c2) ∧
      cache_holds c2 ((fp, off, data.take len, len) ::
        (if xs.length < c.capacity then xs else xs.dropLast)) ∧
      c2.capacity = c.capacity := by
  obtain ⟨l, hwf, hrel⟩ := h
  have hlen := hrel.length_eq
  have hfind : find_entry c (fun e => e.filepath = fp && e.offset = off) c.brk c.head
      = some none := by
    rw [hwf.head_eq]
    rcases find_entry_chain (fun e => e.filepath = fp && e.offset = off) hwf.links c.brk
      (cache_wf_fuel hwf) with ⟨r, _⟩ | ⟨a, e, _, ha, he, hhit⟩
    · exact r
    · obtain ⟨e2, he2, hmem⟩ := forall2_mem_left hrel ha
      rw [he] at he2
      simp only [Option.some.injEq] at he2
      subst he2
      exfalso
      apply hnew _ hmem
      simp only [Bool.and_eq_true, decide_eq_true_eq] at hhit
      simp [item_key, CacheEntry.item, hhit.1, hhit.2]
  unfold cache_put
  simp only [hfind]
  by_cases hfull : c.size ≥ c.capacity
  · have hsz : l.length = c.capacity := by
      have := hwf.size_eq
      omega
    have hlne : l ≠ [] := by
      intro hl
      rw [hl] at hsz
      simp at hsz
      omega
    obtain ⟨init, t, rfl⟩ : ∃ init t, l = init ++ [t] :=
      ⟨l.dropLast, l.getLast hlne, (List.dropLast_append_getLast hlne).symm⟩
    have hinit : init ≠ [] := by
      intro hi
      rw [hi] at hsz
      simp at hsz
      omega
    obtain ⟨c1, hrt, hwf1, hcap1, hbrk1, hsz1, hitems1⟩ :=
      remove_tail_wf hwf hinit (by have := hwf.size_eq; omega)
    obtain ⟨c2, hins, hwf2, hcap2, hbrk2, hsz2, hnewe, hitems2⟩ :=
      insert_head_wf hwf1 (by have := hwf.size_eq; omega) fp off data len
    refine ⟨c2, ?_, ⟨c1.brk :: init, hwf2, ?_⟩, by rw [hcap2, hcap1]⟩
    · simp [hfull, hrt, hins]
    · have hnlt : ¬ xs.length < c.capacity := by omega
      rw [if_neg hnlt]
      refine List.Forall₂.cons hnewe ?_
      have h1 : List.Forall₂ (fun a x => ∃ e, c.mem a = some e ∧ e.item = x) init
          xs.dropLast := by
        have := List.forall₂_take (init.length) hrel
        rw [List.take_left'  rfl] at this
        rw [List.dropLast_eq_take]
        have hx : xs.length - 1 = init.length := by
          rw [← hlen]; simp
        rwa [hx]
      exact forall2_transfer (forall2_transfer h1 hitems1) hitems2
  · have hlt : c.size < c.capacity := by omega
    obtain ⟨c2, hins, hwf2, hcap2, hbrk2, hsz2, hnewe, hitems2⟩ :=
      insert_head_wf hwf (by omega) fp off data len
    refine ⟨c2, ?_, ⟨c.brk :: l, hwf2, ?_⟩, hcap2⟩
    · simp [hfull, hins]
    · have hxlt : xs.length < c.capacity := by
        have := hwf.size_eq
        omega
      rw [if_pos hxlt]
      exact List.Forall₂.cons hnewe (forall2_transfer hrel hitems2)

theorem take_append_take {α : Type} (A B : List α) (n : Nat) :
    (A ++ B.take n).take n = (A ++ B).take n := by
  rw [List.take_append_eq_append_take, List.take_append_eq_append_take, List.take_take]
  congr 2
  omega

theorem cons_take_eq {α : Type} (x : α) (xs : List α) {n : Nat} (hn : 1 ≤ n)
    (hle : xs.length ≤ n) :
    (x :: (if xs.length < n then xs else xs.dropLast)) = (x :: xs).take n := by
  obtain ⟨m, rfl⟩ : ∃ m, n = m + 1 := ⟨n - 1, by omega⟩
  rw [List.take_succ_cons]
  congr 1
  split
  · rw [List.take_of_length_le (by omega)]
  · rw [List.dropLast_eq_take]
    congr 1
    omega

/-- A sequence of `cache_put` calls with pairwise distinct keys, none of them in the cache, at
a capacity of at least two: all calls return and the cache then holds the new items, latest
first, followed by the old ones, cut at the capacity. -/
theorem cache_puts_holds (puts : List (List Char × Nat × List Nat × Nat)) {c : Cache}
    {xs : List (List Char × Nat × List Nat × Nat)}
    (h : cache_holds c xs) (hcap : 2 ≤ c.capacity) (hc64 : c.capacity < 2 ^ 64)
    (hle : xs.length ≤ c.capacity)
    (hnd : (puts.map item_key).Nodup)
    (hnew : ∀ p ∈ puts, ∀ x ∈ xs, item_key x ≠ item_key p) :
    ∃ s, cache_puts puts c = some s ∧ s.capacity = c.capacity ∧
      cache_holds s (((puts.map stored_item).reverse ++ xs).take c.capacity) := by
  induction puts generalizing c xs with
  | nil =>
    refine ⟨c, rfl, rfl, ?_⟩
    simpa [List.take_of_length_le hle] using h
  | cons p rest ih =>
    simp only [List.map_cons, List.nodup_cons] at hnd
    obtain ⟨c2, hput, hholds, hcap2⟩ := cache_put_fresh h hcap hc64 hle p.1 p.2.1 p.2.2.1
      p.2.2.2 (fun x hx => hnew p (List.mem_cons_self _ _) x hx)
    rw [cons_take_eq _ _ (by omega) hle] at hholds
    have hle2 : (((p.1, p.2.1, p.2.2.1.take p.2.2.2, p.2.2.2) :: xs).take c.capacity).length
        ≤ c2.capacity := by
      rw [hcap2, List.length_take]
      exact Nat.min_le_left _ _
    obtain ⟨s, hs, hscap, hsh⟩ := ih hholds (by omega) (by omega) hle2 hnd.2 (by
      intro q hq x hx
      rcases List.mem_cons.1 (List.mem_of_mem_take hx) with rfl | hx
      · intro hk
        apply hnd.1
        rw [List.mem_map]
        exact ⟨q, hq, hk.symm⟩
      · exact hnew q (List.mem_cons_of_mem _ hq) x hx)
    refine ⟨s, ?_, by rw [hscap, hcap2], ?_⟩
    · simp [cache_puts, hput, hs]
    · rw [hcap2, take_append_take] at hsh
      simpa [stored_item] using hsh

theorem chain_ptrs {c : Cache} {l : List Nat} {prev : Option Nat} (hc : chain c prev l)
    (hp : ∀ p, prev = some p → c.mem p ≠ none) {a : Nat} (ha : a ∈ l) {e : CacheEntry}
    (he : c.mem a = some e) :
    (∀ p, e.prev = some p → c.mem p ≠ none) ∧ (∀ n, e.next = some n → c.mem n ≠ none) := by
  induction l generalizing prev with
  | nil => cases ha
  | cons b rest ih =>
    obtain ⟨eb, h1, h2, h3, h4⟩ := hc
    rcases List.mem_cons.1 ha with rfl | ha
    · rw [h1] at he
      simp only [Option.some.injEq] at he
      subst he
      refine ⟨fun p hpp => hp p (h2 ▸ hpp), fun n hn => ?_⟩
      rw [h3] at hn
      obtain ⟨en, hen⟩ := chain_mem h4 (List.mem_of_mem_head? hn)
      simp [hen]
    · exact ih h4 (fun p hpp => by
        simp only [Option.some.injEq] at hpp
        subst hpp
        simp [h1]) ha

theorem cache_wf_closed {c : Cache} {l : List Nat} (h : cache_wf c l) : ptr_closed c := by
  constructor
  · intro hd hh
    rw [h.head_eq] at hh
    obtain ⟨e, he⟩ := chain_mem h.links (List.mem_of_mem_head? hh)
    simp [he]
  · intro a e he
    exact chain_ptrs h.links (by simp) (h.alloc a (by simp [he])) he

/-- A store of pointers that are `NULL` or allocated, through an allocated pointer, is defined
and keeps `ptr_closed`, the head and the set of allocated cells. -/
theorem modify_closed {c : Cache} (hc : ptr_closed c) {a : Nat} (ha : c.mem a ≠ none)
    (f : CacheEntry → CacheEntry)
    (hp : ∀ e, c.mem a = some e → ∀ p, (f e).prev = some p → c.mem p ≠ none)
    (hn : ∀ e, c.mem a = some e → ∀ n, (f e).next = some n → c.mem n ≠ none) :
    ∃ c2, c.modify a f = some c2 ∧ ptr_closed c2 ∧ c2.head = c.head ∧ c2.tail = c.tail ∧
      ∀ b, c2.mem b ≠ none ↔ c.mem b ≠ none := by
  cases he : c.mem a with
  | none => exact absurd he ha
  | some e =>
    have hiff : ∀ b, (if b = a then some (f e) else c.mem b) ≠ none ↔ c.mem b ≠ none := by
      intro b
      by_cases hb : b = a
      · simp [hb, he]
      · simp [hb]
    refine ⟨_, modify_some he f, ⟨?_, ?_⟩, rfl, rfl, hiff⟩
    · intro h hh
      exact (hiff h).2 (hc.1 h hh)
    · intro b eb hb
      simp only at hb
      by_cases hba : b = a
      · simp only [hba, if_true, Option.some.injEq] at hb
        subst hb
        exact ⟨fun p hpp => (hiff p).2 (hp e he p hpp), fun n hnn => (hiff n).2 (hn e he n hnn)⟩
      · simp only [hba, if_false] at hb
        exact ⟨fun p hpp => (hiff p).2 ((hc.2 b eb hb).1 p hpp),
          fun n hnn => (hiff n).2 ((hc.2 b eb hb).2 n hnn)⟩

/-- A guarded store of valid pointers is defined and keeps `ptr_closed`, the head, the tail and
the set of allocated cells. -/
theorem modify_if_closed {c : Cache} (hc : ptr_closed c) (q : Option Nat)
    (hq : ∀ p, q = some p → c.mem p ≠ none) (f : CacheEntry → CacheEntry)
    (hp : ∀ a e, c.mem a = some e → ∀ p, (f e).prev = some p → c.mem p ≠ none)
    (hn : ∀ a e, c.mem a = some e → ∀ n, (f e).next = some n → c.mem n ≠ none) :
    ∃ c2, c.modify_if q f = some c2 ∧ ptr_closed c2 ∧ c2.head = c.head ∧ c2.tail = c.tail ∧
      ∀ b, c2.mem b ≠ none ↔ c.mem b ≠ none := by
  cases q with
  | none => exact ⟨c, rfl, hc, rfl, rfl, fun _ => Iff.rfl⟩
  | some p => exact modify_closed hc (hq p rfl) f (hp p) (hn p)

theorem ptr_closed_set_tail {c : Cache} (hc : ptr_closed c) (t : Option Nat) :
    ptr_closed { c with tail := t } :=
  ⟨hc.1, hc.2⟩

/-- On a cache whose pointers are all valid, `move_to_head` of an allocated entry returns. -/
theorem move_to_head_some {c : Cache} (hc : ptr_closed c) (entry : Nat)
    (ha : c.mem entry ≠ none) : ∃ c2, move_to_head entry c = some c2 := by
  unfold move_to_head
  by_cases hh : c.head = some entry
  · exact ⟨c, by simp [hh]⟩
  · simp only [hh, if_false, Option.bind_eq_bind, Option.pure_def]
    obtain ⟨e1, he1⟩ : ∃ e, c.mem entry = some e := Option.ne_none_iff_exists'.1 ha
    obtain ⟨c1, hs1, hc1, hh1, -, ha1⟩ := modify_if_closed hc e1.prev
      (fun p hp => (hc.2 entry e1 he1).1 p hp) (fun x => { x with next := e1.next })
      (fun a e hae p hp => (hc.2 a e hae).1 p hp)
      (fun a e _ n hn => (hc.2 entry e1 he1).2 n hn)
    simp only [he1, Option.some_bind, hs1]
    obtain ⟨e2, he2⟩ : ∃ e, c1.mem entry = some e :=
      Option.ne_none_iff_exists'.1 ((ha1 entry).2 ha)
    obtain ⟨c2, hs2, hc2, hh2, -, ha2⟩ := modify_if_closed hc1 e2.next
      (fun p hp => (hc1.2 entry e2 he2).2 p hp) (fun x => { x with prev := e2.prev })
      (fun a e _ p hp => (hc1.2 entry e2 he2).1 p hp)
      (fun a e hae n hn => (hc1.2 a e hae).2 n hn)
    simp only [he2, Option.some_bind, hs2]
    have ha2e : c2.mem entry ≠ none := (ha2 entry).2 ((ha1 entry).2 ha)
    obtain ⟨e3, he3⟩ : ∃ e, c2.mem entry = some e := Option.ne_none_iff_exists'.1 ha2e
    simp only [he3, Option.some_bind]
    have hc3 : ptr_closed (if c2.tail = some entry then { c2 with tail := e3.prev } else c2) := by
      split
      · exact ptr_closed_set_tail hc2 _
      · exact hc2
    have hm3 : (if c2.tail = some entry then { c2 with tail := e3.prev } else c2).mem = c2.mem := by
      split <;> rfl
    have hd3 : (if c2.tail = some entry then { c2 with tail := e3.prev } else c2).head
        = c2.head := by
      split <;> rfl
    obtain ⟨c4, hs4, hc4, hh4, -, ha4⟩ := modify_closed hc3 (a := entry) (by rw [hm3]; exact ha2e)
      (fun x => { x with prev := none,
                         next := (if c2.tail = some entry then { c2 with tail := e3.prev }
                            else c2).head })
      (fun e _ p hp => by simp at hp)
      (fun e _ n hn => by
        rw [hm3]
        simp only [hd3] at hn
        exact hc2.1 n hn)
    simp only [hs4, Option.some_bind]
    obtain ⟨c5, hs5, -, -, -, -⟩ := modify_if_closed hc4 c4.head
      (fun p hp => hc4.1 p hp) (fun x => { x with prev := some entry })
      (fun a e _ p hp => by
        simp only [Option.some.injEq] at hp
        subst hp
        exact (ha4 _).2 (by rw [hm3]; exact ha2e))
      (fun a e hae n hn => (hc4.2 a e hae).2 n hn)
    simp only [hs5, Option.some_bind]
    exact ⟨_, rfl⟩

/-- A `cache_get` with a key the cache does not hold misses and leaves the cache as it is. -/
theorem cache_get_miss {c : Cache} {xs : List (List Char × Nat × List Nat × Nat)}
    (h : cache_holds c xs) (fp : List Char) (off len : Nat)
    (hnew : ∀ x ∈ xs, item_key x ≠ (fp, off)) :
    cache_get fp off len c = some (ERR_NOT_FOUND, [], 0, c) := by
  obtain ⟨l, hwf, hrel⟩ := h
  have hfind : find_entry c
      (fun e => e.filepath = fp && e.offset = off && e.length ≥ len) c.brk c.head
      = some none := by
    rw [hwf.head_eq]
    rcases find_entry_chain (fun e => e.filepath = fp && e.offset = off && e.length ≥ len)
      hwf.links c.brk (cache_wf_fuel hwf) with ⟨r, _⟩ | ⟨a, e, _, ha, he, hhit⟩
    · exact r
    · obtain ⟨e2, he2, hmem⟩ := forall2_mem_left hrel ha
      rw [he] at he2
      simp only [Option.some.injEq] at he2
      subst he2
      exfalso
      apply hnew _ hmem
      simp only [Bool.and_eq_true, decide_eq_true_eq] at hhit
      simp [item_key, CacheEntry.item, hhit.1.1, hhit.1.2]
  unfold cache_get
  simp only [hfind]

/-- A `cache_get` with the key of a held item and a length within the stored length hits and
copies the first bytes of that item. -/
theorem cache_get_hit {c : Cache} {xs : List (List Char × Nat × List Nat × Nat)}
    (h : cache_holds c xs) (hnd : (xs.map item_key).Nodup)
    {x : List Char × Nat × List Nat × Nat} (hx : x ∈ xs) {len : Nat} (hlen : len ≤ x.2.2.2) :
    ∃ c2, cache_get x.1 x.2.1 len c = some (ERR_SUCCESS, x.2.2.1.take len, len, c2) := by
  obtain ⟨l, hwf, hrel⟩ := h
  rcases find_entry_chain (fun e => e.filepath = x.1 && e.offset = x.2.1 && e.length ≥ len)
    hwf.links c.brk (cache_wf_fuel hwf) with ⟨_, r⟩ | ⟨a, e, hfind, ha, he, hhit⟩
  · exfalso
    obtain ⟨a, e, ha, he, hex⟩ := forall2_mem_right hrel hx
    have := r a ha e he
    subst hex
    simp [CacheEntry.item] at this hlen
    omega
  · obtain ⟨e2, he2, hmem⟩ := forall2_mem_left hrel ha
    rw [he] at he2
    simp only [Option.some.injEq] at he2
    subst he2
    simp only [Bool.and_eq_true, decide_eq_true_eq] at hhit
    have hkey : item_key e.item = item_key x := by
      simp only [item_key, CacheEntry.item, hhit.1.1, hhit.1.2]
    have hex : e.item = x := List.inj_on_of_nodup_map hnd hmem hx hkey
    obtain ⟨c2, hmv⟩ := move_to_head_some (cache_wf_closed hwf) a (by simp [he])
    refine ⟨c2, ?_⟩
    unfold cache_get
    rw [← hwf.head_eq] at hfind
    simp only [hfind, he, hmv, Option.bind_eq_bind, Option.some_bind, Option.pure_def]
    rw [← hex]
    rfl

theorem cache_keys_chain {c : Cache} {l : List Nat}
    {xs : List (List Char × Nat × List Nat × Nat)} {prev : Option Nat}
    (hc : chain c prev l)
    (hrel : List.Forall₂ (fun a x => ∃ e, c.mem a = some e ∧ e.item = x) l xs)
    (fuel : Nat) (hf : l.length ≤ fuel) :
    cache_keys c fuel l.head? = some (xs.map item_key) := by
  induction hrel generalizing prev fuel with
  | nil => cases fuel <;> rfl
  | cons hax _ ih =>
    obtain ⟨e, he, hex⟩ := hax
    obtain ⟨e2, h1, _, h3, h4⟩ := hc
    rw [he] at h1
    simp only [Option.some.injEq] at h1
    subst h1
    cases fuel with
    | zero => simp at hf
    | succ fuel =>
      simp only [List.head?_cons, cache_keys, he, h3, ih h4 fuel (by simpa using hf),
        Option.map_some', List.map_cons]
      rw [← hex]
      rfl

/-- The keys read from the head of a well-formed cache are the keys of the items it holds. -/
theorem cache_keys_holds {c : Cache} {xs : List (List Char × Nat × List Nat × Nat)}
    (h : cache_holds c xs) : cache_keys c c.brk c.head = some (xs.map item_key) := by
  obtain ⟨l, hwf, hrel⟩ := h
  rw [hwf.head_eq]
  exact cache_keys_chain hwf.links hrel c.brk (cache_wf_fuel hwf)

/-- LRU behaviour at a capacity `C` of at least two (and below `2 ^ 64`): after `cache_init(C)`
and any number of calls of `cache_put` with pairwise distinct keys, all of which return, the
entries from the head are the last `C` keys, latest first; `cache_get` misses on each earlier
key and hits on each of the last `C` keys, for every length within the stored one. -/
theorem cache_lru_capacity_ge_two (C : Nat) (hC : 2 ≤ C) (hC64 : C < 2 ^ 64)
    (puts : List (List Char × Nat × List Nat × Nat))
    (hnd : (puts.map item_key).Nodup) :
    ∃ s, cache_puts puts (cache_init C) = some s ∧
      cache_keys s s.brk s.head = some ((puts.map item_key).reverse.take C) ∧
      (∀ p ∈ puts.take (puts.length - C), ∀ len,
        cache_get p.1 p.2.1 len s = some (ERR_NOT_FOUND, [], 0, s)) ∧
      (∀ p ∈ puts.drop (puts.length - C), ∀ len, len ≤ p.2.2.2 →
        ∃ s2, cache_get p.1 p.2.1 len s
          = some (ERR_SUCCESS, (p.2.2.1.take p.2.2.2).take len, len, s2)) := by
  have hinit : cache_holds (cache_init C) [] := ⟨[], cache_wf_init C, List.Forall₂.nil⟩
  obtain ⟨s, hs, -, hholds⟩ := cache_puts_holds puts hinit hC hC64 (by simp) hnd (by simp)
  have hcap : (cache_init C).capacity = C := rfl
  rw [hcap, List.append_nil, List.take_reverse, List.length_map, ← List.map_drop] at hholds
  have hkeys : ∀ (ys : List (List Char × Nat × List Nat × Nat)),
      (ys.map stored_item).map item_key = ys.map item_key := by
    intro ys
    simp [item_key, stored_item, Function.comp_def]
  have hnd2 : (((puts.drop (puts.length - C)).map stored_item).reverse.map item_key).Nodup := by
    rw [List.map_reverse, List.nodup_reverse, hkeys, List.map_drop]
    exact (List.drop_sublist _ _).nodup hnd
  refine ⟨s, hs, ?_, ?_, ?_⟩
  · rw [cache_keys_holds hholds, List.map_reverse, hkeys, List.take_reverse, List.length_map,
      List.map_drop]
  · intro p hp len
    apply cache_get_miss hholds
    intro x hx hk
    rw [List.mem_reverse, List.mem_map] at hx
    obtain ⟨q, hq, rfl⟩ := hx
    have hdis := List.disjoint_take_drop hnd (Nat.le_refl (puts.length - C))
    rw [← List.map_take, ← List.map_drop] at hdis
    apply hdis (List.mem_map.2 ⟨p, hp, rfl⟩) (List.mem_map.2 ⟨q, hq, ?_⟩)
    simpa [item_key, stored_item] using hk
  · intro p hp len hlen
    have hmem : stored_item p ∈ ((puts.drop (puts.length - C)).map stored_item).reverse := by
      rw [List.mem_reverse]
      exact List.mem_map.2 ⟨p, hp, rfl⟩
    exact cache_get_hit hholds hnd2 hmem (by simpa [stored_item] using hlen)

/-- Instance at capacity 2 with three calls: the scenario of the specification. -/
theorem cache_lru_capacity_ge_two_witness :
    ∃ s, cache_puts [("p".toList, 0, [65], 1), ("p".toList, 1, [66], 1),
        ("p".toList, 2, [67], 1)] (cache_init 2) = some s ∧
      cache_keys s s.brk s.head = some [("p".toList, 2), ("p".toList, 1)] := by
  obtain ⟨s, h1, h2, -, -⟩ := cache_lru_capacity_ge_two 2 (by decide) (by decide)
    [("p".toList, 0, [65], 1), ("p".toList, 1, [66], 1), ("p".toList, 2, [67], 1)]
    (by decide)
  exact ⟨s, h1, h2⟩

/-- The fallback code of the dereference in `directory_delete` is never produced: the call
returns the code of the lookup, `ERR_INVALID_ARGUMENT` or `ERR_SUCCESS`. -/
theorem directory_delete_code (p : List Char) (t : DirectoryEntry) :
    (directory_delete p t).1 = ERR_SUCCESS ∨ (directory_delete p t).1 = ERR_INVALID_ARGUMENT ∨
      (directory_delete p t).1 = ERR_NOT_FOUND := by
  by_cases hl : (directory_lookup p t).1 = ERR_SUCCESS
  · obtain ⟨e, he⟩ := resolves_entry_at (directory_lookup_resolves hl).2
    unfold directory_delete
    simp only [directory_lookup_tree, hl, he]
    by_cases hc : e.children.length > 0
    · simp [hc]
    · cases (directory_lookup p t).2.2 <;> simp [hc]
  · have h1 : (directory_delete p t).1 = (directory_lookup p t).1 := by
      unfold directory_delete
      simp [hl]
    rw [h1]
    unfold directory_lookup at hl ⊢
    by_cases hp : split_path p ≠ [] ∨ p = ['/']
    · rw [lookup_internal_valid hp] at hl ⊢
      rcases lookup_loop_nocreate_code 0 (split_path p) t with h | h
      · exact absurd h hl
      · exact Or.inr (Or.inr h)
    · rw [lookup_internal_invalid hp]
      exact Or.inr (Or.inl rfl)

/-- On every tree `directory_lookup("/")` returns the root and `directory_lookup("")` is
refused, both without changing the tree. -/
theorem directory_lookup_root_and_empty (t : DirectoryEntry) :
    directory_lookup ['/'] t = (ERR_SUCCESS, t, []) ∧
      directory_lookup [] t = (ERR_INVALID_ARGUMENT, t, []) :=
  ⟨rfl, rfl⟩

/-! ## The health registry -/

theorem heartbeat_update_none {host port : List Char} {load now : Int}
    {servers : List StorageServer} :
    heartbeat_update host port load now servers = none ↔
      ∀ s ∈ servers, ¬ (s.host = host ∧ s.port = port) := by
  induction servers with
  | nil => simp [heartbeat_update]
  | cons s rest ih =>
    unfold heartbeat_update
    by_cases h : s.host = host ∧ s.port = port
    · simp [h]
    · simp only [h, if_false, Option.map_eq_none', ih, List.mem_cons, forall_eq_or_imp,
        not_false_eq_true, true_and]

theorem heartbeat_update_split {host port : List Char} {load now : Int}
    {pre post : List StorageServer} {s : StorageServer}
    (hpre : ∀ q ∈ pre, ¬ (q.host = host ∧ q.port = port))
    (hs : s.host = host ∧ s.port = port) :
    heartbeat_update host port load now (pre ++ s :: post) =
      some (pre ++ { s with last_heartbeat := now, load := load, active := 1 } :: post) := by
  induction pre with
  | nil => simp [heartbeat_update, hs]
  | cons q rest ih =>
    have hq := hpre q (List.mem_cons_self _ _)
    have hrec := ih (fun x hx => hpre x (List.mem_cons_of_mem _ hx))
    simp [heartbeat_update, hq, hrec]

theorem active_servers_eq_filter (servers : List StorageServer) :
    active_servers servers = servers.filter (fun s => s.active ≠ 0) := by
  induction servers with
  | nil => rfl
  | cons s rest ih =>
    by_cases h : s.active = 0 <;> simp [active_servers, List.filter_cons, h, ih]

theorem active_flags_heartbeat_update {host port : List Char} {load now : Int}
    {servers updated : List StorageServer} (h : active_flags_ok servers)
    (hu : heartbeat_update host port load now servers = some updated) :
    active_flags_ok updated := by
  induction servers generalizing updated with
  | nil => simp [heartbeat_update] at hu
  | cons s rest ih =>
    unfold heartbeat_update at hu
    split at hu
    · simp only [Option.some.injEq] at hu
      subst hu
      intro x hx
      rcases List.mem_cons.1 hx with rfl | hx
      · exact Or.inr rfl
      · exact h x (List.mem_cons_of_mem _ hx)
    · cases hr : heartbeat_update host port load now rest with
      | none => simp [hr] at hu
      | some r =>
        simp only [hr, Option.map_some', Option.some.injEq] at hu
        subst hu
        intro x hx
        rcases List.mem_cons.1 hx with rfl | hx
        · exact h x (List.mem_cons_self _ _)
        · exact ih (fun y hy => h y (List.mem_cons_of_mem _ hy)) hr x hx

theorem active_flags_heartbeat (host port : List Char) (load now : Int)
    {servers : List StorageServer} (h : active_flags_ok servers) :
    active_flags_ok (health_receive_heartbeat host port load now servers) := by
  unfold health_receive_heartbeat
  split
  · rename_i updated hu
    exact active_flags_heartbeat_update h hu
  · split
    · intro x hx
      rcases List.mem_append.1 hx with hx | hx
      · exact h x hx
      · simp only [List.mem_singleton] at hx
        subst hx
        exact Or.inr rfl
    · exact h

theorem active_flags_monitor (now : Int) {servers : List StorageServer}
    (h : active_flags_ok servers) : active_flags_ok (health_monitor_pass now servers) := by
  induction servers with
  | nil => intro x hx; cases hx
  | cons s rest ih =>
    intro x hx
    unfold health_monitor_pass at hx
    rcases List.mem_cons.1 hx with rfl | hx
    · split
      · exact Or.inl rfl
      · exact h s (List.mem_cons_self _ _)
    · exact ih (fun y hy => h y (List.mem_cons_of_mem _ hy)) x hx

theorem active_flags_run_health (ops : List HealthOp) {servers : List StorageServer}
    (h : active_flags_ok servers) : active_flags_ok (run_health ops servers) := by
  induction ops generalizing servers with
  | nil => exact h
  | cons op ops ih =>
    apply ih
    cases op with
    | heartbeat host port load now => exact active_flags_heartbeat host port load now h
    | monitor now => exact active_flags_monitor now h

theorem filter_active_eq {servers : List StorageServer} (h : active_flags_ok servers) :
    servers.filter (fun s => s.active ≠ 0) = servers.filter (fun s => s.active = 1) := by
  apply List.filter_congr
  intro s hs
  rcases h s hs with h0 | h1
  · simp [h0]
  · simp [h1]

theorem health_monitor_pass_getElem? (now : Int) (servers : List StorageServer) (i : Nat) :
    (health_monitor_pass now servers)[i]? =
      (servers[i]?).map (fun s =>
        if s.active ≠ 0 ∧ now - s.last_heartbeat > HEARTBEAT_TIMEOUT then { s with active := 0 }
        else s) := by
  induction servers generalizing i with
  | nil => simp [health_monitor_pass]
  | cons s rest ih =>
    cases i with
    | zero => simp [health_monitor_pass]
    | succ i => simp [health_monitor_pass, ih]

theorem health_monitor_pass_length (now : Int) (servers : List StorageServer) :
    (health_monitor_pass now servers).length = servers.length := by
  induction servers with
  | nil => rfl
  | cons s rest ih => simp [health_monitor_pass, ih]

theorem heartbeat_update_first {servers : List StorageServer} {i : Nat} {r : StorageServer}
    (hi : servers[i]? = some r)
    (hfirst : ∀ j q, j < i → servers[j]? = some q → ¬ (q.host = r.host ∧ q.port = r.port))
    (load now : Int) :
    ∃ updated, heartbeat_update r.host r.port load now servers = some updated ∧
      updated[i]? = some { r with last_heartbeat := now, load := load, active := 1 } := by
  induction servers generalizing i with
  | nil => simp at hi
  | cons s rest ih =>
    cases i with
    | zero =>
      simp only [List.getElem?_cons_zero, Option.some.injEq] at hi
      subst hi
      exact ⟨{ s with last_heartbeat := now, load := load, active := 1 } :: rest,
        by simp [heartbeat_update], by simp⟩
    | succ i =>
      have hs : ¬ (s.host = r.host ∧ s.port = r.port) :=
        hfirst 0 s (Nat.succ_pos _) (by simp)
      obtain ⟨u, hu, hui⟩ := ih (i := i) (by simpa using hi)
        (fun j q hj hq => hfirst (j + 1) q (by omega) (by simpa using hq))
      exact ⟨s :: u, by simp [heartbeat_update, hs, hu], by simpa using hui⟩

theorem heartbeat_first_match {servers : List StorageServer} {i : Nat} {r : StorageServer}
    (hi : servers[i]? = some r)
    (hfirst : ∀ j q, j < i → servers[j]? = some q → ¬ (q.host = r.host ∧ q.port = r.port))
    (load now : Int) :
    (health_receive_heartbeat r.host r.port load now servers)[i]? =
      some { r with last_heartbeat := now, load := load, active := 1 } := by
  obtain ⟨u, hu, hui⟩ := heartbeat_update_first hi hfirst load now
  unfold health_receive_heartbeat
  rw [hu]
  exact hui

/-! ## select_storage_server -/

theorem active_servers_active (servers : List StorageServer) :
    ∀ s ∈ active_servers servers, s.active ≠ 0 := by
  rw [active_servers_eq_filter]
  intro s hs
  simpa using (List.mem_filter.1 hs).2

/-- The selection loop entered with a load already recorded (`min_load` not the sentinel), over
active records none of which has load -1: it keeps the recorded index when no record is
strictly lighter, and otherwise returns the first record of least load. -/
theorem select_loop_recorded (servers : List StorageServer) (i min_load selected_index : Int)
    (hmin : min_load ≠ -1) (hact : ∀ s ∈ servers, s.active ≠ 0)
    (hload : ∀ s ∈ servers, s.load ≠ -1) :
    (select_loop servers i min_load selected_index = selected_index ∧
      ∀ s ∈ servers, min_load ≤ s.load) ∨
    (∃ (j : Nat) (s : StorageServer), servers[j]? = some s ∧
      select_loop servers i min_load selected_index = i + j ∧ s.load < min_load ∧
      (∀ t ∈ servers, s.load ≤ t.load) ∧
      ∀ (k : Nat) (t : StorageServer), k < j → servers[k]? = some t → s.load < t.load) := by
  induction servers generalizing i min_load selected_index with
  | nil => left; simp [select_loop]
  | cons s rest ih =>
    have hs := hact s (List.mem_cons_self _ _)
    have hrest := fun t ht => hact t (List.mem_cons_of_mem _ ht)
    have hlrest := fun t ht => hload t (List.mem_cons_of_mem _ ht)
    unfold select_loop
    simp only [hs, ne_eq, not_false_eq_true, if_true, hmin, false_or]
    by_cases hlt : s.load < min_load
    · simp only [hlt, if_true]
      right
      rcases ih (i + 1) s.load i (hload s (List.mem_cons_self _ _)) hrest hlrest with
        ⟨h1, h2⟩ | ⟨j, s2, h1, h2, h3, h4, h5⟩
      · refine ⟨0, s, by simp, by simp [h1], hlt, ?_, by simp⟩
        intro t ht
        rcases List.mem_cons.1 ht with rfl | ht
        · exact le_refl _
        · exact h2 t ht
      · refine ⟨j + 1, s2, by simpa using h1, by rw [h2]; push_cast; ring, by omega, ?_, ?_⟩
        · intro t ht
          rcases List.mem_cons.1 ht with rfl | ht
          · omega
          · exact h4 t ht
        · intro k t hk ht
          cases k with
          | zero =>
            simp only [List.getElem?_cons_zero, Option.some.injEq] at ht
            subst ht
            exact h3
          | succ k => exact h5 k t (by omega) (by simpa using ht)
    · simp only [hlt, if_false]
      rcases ih (i + 1) min_load selected_index hmin hrest hlrest with
        ⟨h1, h2⟩ | ⟨j, s2, h1, h2, h3, h4, h5⟩
      · left
        refine ⟨h1, ?_⟩
        intro t ht
        rcases List.mem_cons.1 ht with rfl | ht
        · omega
        · exact h2 t ht
      · right
        refine ⟨j + 1, s2, by simpa using h1, by rw [h2]; push_cast; ring, h3, ?_, ?_⟩
        · intro t ht
          rcases List.mem_cons.1 ht with rfl | ht
          · omega
          · exact h4 t ht
        · intro k t hk ht
          cases k with
          | zero =>
            simp only [List.getElem?_cons_zero, Option.some.injEq] at ht
            subst ht
            omega
          | succ k => exact h5 k t (by omega) (by simpa using ht)

/-- The selection loop from its initial state, over a non-empty list of active records none of
which has load -1, returns the index of the first record of least load. -/
theorem select_loop_first_min (servers : List StorageServer) (hne : servers ≠ [])
    (hact : ∀ s ∈ servers, s.active ≠ 0) (hload : ∀ s ∈ servers, s.load ≠ -1) :
    ∃ (j : Nat) (s : StorageServer), servers[j]? = some s ∧
      select_loop servers 0 (-1) (-1) = j ∧
      (∀ t ∈ servers, s.load ≤ t.load) ∧
      ∀ (k : Nat) (t : StorageServer), k < j → servers[k]? = some t → s.load < t.load := by
  cases servers with
  | nil => exact absurd rfl hne
  | cons s rest =>
    have hs := hact s (List.mem_cons_self _ _)
    have hsl := hload s (List.mem_cons_self _ _)
    have hstep : select_loop (s :: rest) 0 (-1) (-1) = select_loop rest 1 s.load 0 := by
      simp [select_loop, hs]
    rw [hstep]
    rcases select_loop_recorded rest 1 s.load 0 hsl
        (fun t ht => hact t (List.mem_cons_of_mem _ ht))
        (fun t ht => hload t (List.mem_cons_of_mem _ ht)) with
      ⟨h1, h2⟩ | ⟨j, s2, h1, h2, h3, h4, h5⟩
    · refine ⟨0, s, by simp, by simp [h1], ?_, by simp⟩
      intro t ht
      rcases List.mem_cons.1 ht with rfl | ht
      · exact le_refl _
      · exact h2 t ht
    · refine ⟨j + 1, s2, by simpa using h1, by rw [h2]; push_cast; ring, ?_, ?_⟩
      · intro t ht
        rcases List.mem_cons.1 ht with rfl | ht
        · omega
        · exact h4 t ht
      · intro k t hk ht
        cases k with
        | zero =>
          simp only [List.getElem?_cons_zero, Option.some.injEq] at ht
          subst ht
          exact h3
        | succ k => exact h5 k t (by omega) (by simpa using ht)

/-- Selection over the active records of a table in which no active record has load -1:
`select_storage_server` returns the host and port of the first active record of least load, and
`ERR_NOT_FOUND` when no record is active. -/
theorem select_storage_server_min (registry : List StorageServer)
    (hload : ∀ s ∈ active_servers registry, s.load ≠ -1) :
    (active_servers registry = [] → select_storage_server registry = (ERR_NOT_FOUND, none)) ∧
    (active_servers registry ≠ [] →
      ∃ (j : Nat) (s : StorageServer), (active_servers registry)[j]? = some s ∧
        select_storage_server registry = (ERR_SUCCESS, some (s.host.take 255, s.port.take 31)) ∧
        (∀ t ∈ active_servers registry, s.load ≤ t.load) ∧
        ∀ (k : Nat) (t : StorageServer), k < j → (active_servers registry)[k]? = some t →
          s.load < t.load) := by
  constructor
  · intro h
    simp [select_storage_server, health_get_servers, h]
  · intro hne
    obtain ⟨j, s, h1, h2, h3, h4⟩ :=
      select_loop_first_min _ hne (active_servers_active registry) hload
    refine ⟨j, s, h1, ?_, h3, h4⟩
    have hlen : (active_servers registry).length ≠ 0 := by
      simpa [List.length_eq_zero] using hne
    simp [select_storage_server, health_get_servers, hlen, h2, h1]

/-! ## Replication fan-out -/

/-- Secondary `j` after the loop of `replication_replicate_write`: marked dead when it was alive
and one of its two sends did not return the full size, otherwise as before. -/
theorem replicate_write_loop_getElem? (send : Nat → Nat → Int) (request : WriteRequest)
    (buffer : List Nat) (length : Nat) (k : Nat) (secondaries : List SecondaryServer) (j : Nat) :
    (replicate_write_loop send request buffer length k secondaries).1[j]? =
      secondaries[j]?.map (fun s =>
        if s.is_alive ≠ 0 ∧
            (send (k + j) 0 ≠ SIZEOF_WRITE_REQUEST ∨ send (k + j) 1 ≠ to_ssize_t length) then
          { s with is_alive := 0 }
        else s) := by
  induction secondaries generalizing k j with
  | nil => simp [replicate_write_loop]
  | cons s rest ih =>
    cases j with
    | zero =>
      unfold replicate_write_loop
      by_cases ha : s.is_alive = 0
      · simp [ha]
      · by_cases h0 : send k 0 = SIZEOF_WRITE_REQUEST
        · by_cases h1 : send k 1 = to_ssize_t length <;> simp [ha, h0, h1]
        · simp [ha, h0]
    | succ j =>
      have hrec := ih (k + 1) j
      have hk : k + 1 + j = k + (j + 1) := by omega
      rw [hk] at hrec
      unfold replicate_write_loop
      by_cases ha : s.is_alive = 0
      · simpa [ha] using hrec
      · by_cases h0 : send k 0 = SIZEOF_WRITE_REQUEST
        · by_cases h1 : send k 1 = to_ssize_t length <;> simpa [ha, h0, h1] using hrec
        · simpa [ha, h0] using hrec

/-- Every send of the write loop is the request or the data for a secondary that was alive on
entry. -/
theorem replicate_write_loop_sent (send : Nat → Nat → Int) (request : WriteRequest)
    (buffer : List Nat) (length : Nat) (k : Nat) (secondaries : List SecondaryServer)
    (m : Sent) (hm : m ∈ (replicate_write_loop send request buffer length k secondaries).2) :
    ∃ (j : Nat) (s : SecondaryServer), secondaries[j]? = some s ∧ s.is_alive ≠ 0 ∧
      (m = Sent.write_request (k + j) request ∨
        m = Sent.data (k + j) (buffer.take length)) := by
  induction secondaries generalizing k with
  | nil => simp [replicate_write_loop] at hm
  | cons s rest ih =>
    have hrest : m ∈ (replicate_write_loop send request buffer length (k + 1) rest).2 →
        ∃ (j : Nat) (s2 : SecondaryServer), (s :: rest)[j]? = some s2 ∧ s2.is_alive ≠ 0 ∧
          (m = Sent.write_request (k + j) request ∨
            m = Sent.data (k + j) (buffer.take length)) := by
      intro h
      obtain ⟨j, s2, h1, h2, h3⟩ := ih (k + 1) h
      have hk : k + 1 + j = k + (j + 1) := by omega
      rw [hk] at h3
      exact ⟨j + 1, s2, by simpa using h1, h2, h3⟩
    unfold replicate_write_loop at hm
    by_cases ha : s.is_alive = 0
    · simp only [ha, ne_eq, not_true_eq_false, if_false] at hm
      exact hrest hm
    · have hhere : ∀ x, (x = Sent.write_request (k + 0) request ∨
          x = Sent.data (k + 0) (buffer.take length)) →
          m = x → ∃ (j : Nat) (s2 : SecondaryServer), (s :: rest)[j]? = some s2 ∧
            s2.is_alive ≠ 0 ∧ (m = Sent.write_request (k + j) request ∨
              m = Sent.data (k + j) (buffer.take length)) := by
        intro x hx hmx
        subst hmx
        exact ⟨0, s, by simp, ha, hx⟩
      by_cases h0 : send k 0 = SIZEOF_WRITE_REQUEST
      · by_cases h1 : send k 1 = to_ssize_t length
        · simp only [ha, h0, h1, ne_eq, not_false_eq_true, not_true_eq_false, if_true, if_false,
            List.mem_cons] at hm
          rcases hm with hm | hm | hm
          · exact hhere _ (Or.inl rfl) hm
          · exact hhere _ (Or.inr rfl) hm
          · exact hrest hm
        · simp only [ha, h0, h1, ne_eq, not_false_eq_true, not_true_eq_false, if_true, if_false,
            List.mem_cons] at hm
          rcases hm with hm | hm | hm
          · exact hhere _ (Or.inl rfl) hm
          · exact hhere _ (Or.inr rfl) hm
          · exact hrest hm
      · simp only [ha, h0, ne_eq, not_false_eq_true, if_true, List.mem_cons] at hm
        rcases hm with hm | hm
        · exact hhere _ (Or.inl rfl) hm
        · exact hrest hm

/-- Every secondary alive on entry is sent the request by the write loop. -/
theorem replicate_write_loop_sends (send : Nat → Nat → Int) (request : WriteRequest)
    (buffer : List Nat) (length : Nat) (k : Nat) (secondaries : List SecondaryServer)
    (j : Nat) (s : SecondaryServer) (hj : secondaries[j]? = some s) (ha : s.is_alive ≠ 0) :
    Sent.write_request (k + j) request ∈
      (replicate_write_loop send request buffer length k secondaries).2 := by
  induction secondaries generalizing k j with
  | nil => simp at hj
  | cons t rest ih =>
    cases j with
    | zero =>
      simp only [List.getElem?_cons_zero, Option.some.injEq] at hj
      subst hj
      unfold replicate_write_loop
      by_cases h0 : send k 0 = SIZEOF_WRITE_REQUEST
      · by_cases h1 : send k 1 = to_ssize_t length <;> simp [ha, h0, h1]
      · simp [ha, h0]
    | succ j =>
      have hrec := ih (k + 1) j (by simpa using hj)
      have hk : k + 1 + j = k + (j + 1) := by omega
      rw [hk] at hrec
      unfold replicate_write_loop
      by_cases hta : t.is_alive = 0
      · simpa [hta] using hrec
      · by_cases h0 : send k 0 = SIZEOF_WRITE_REQUEST
        · by_cases h1 : send k 1 = to_ssize_t length <;> simp [hta, h0, h1, hrec]
        · simp [hta, h0, hrec]

/-- With every secondary alive and every send returning the full size, the write loop leaves the
secondaries as they are and sends, to each in list order, the request and then the data. -/
theorem replicate_write_loop_all_ok (send : Nat → Nat → Int) (request : WriteRequest)
    (buffer : List Nat) (length : Nat) (k : Nat) (secondaries : List SecondaryServer)
    (halive : ∀ s ∈ secondaries, s.is_alive ≠ 0)
    (hsend : ∀ j, j < secondaries.length →
      send (k + j) 0 = SIZEOF_WRITE_REQUEST ∧ send (k + j) 1 = to_ssize_t length) :
    (replicate_write_loop send request buffer length k secondaries).1 = secondaries ∧
    (replicate_write_loop send request buffer length k secondaries).2.length
      = 2 * secondaries.length ∧
    ∀ j, j < secondaries.length →
      (replicate_write_loop send request buffer length k secondaries).2[2 * j]?
        = some (Sent.write_request (k + j) request) ∧
      (replicate_write_loop send request buffer length k secondaries).2[2 * j + 1]?
        = some (Sent.data (k + j) (buffer.take length)) := by
  induction secondaries generalizing k with
  | nil => simp [replicate_write_loop]
  | cons s rest ih =>
    have ha := halive s (List.mem_cons_self _ _)
    have h0 := hsend 0 (by simp)
    simp only [Nat.add_zero] at h0
    obtain ⟨r1, r2, r3⟩ := ih (k + 1) (fun t ht => halive t (List.mem_cons_of_mem _ ht))
      (fun j hj => by
        have := hsend (j + 1) (by simpa using hj)
        have hk : k + 1 + j = k + (j + 1) := by omega
        rw [hk]
        exact this)
    unfold replicate_write_loop
    simp only [ha, h0.1, h0.2, ne_eq, not_false_eq_true, not_true_eq_false, if_true, if_false]
    refine ⟨by rw [r1], by simp [r2]; omega, ?_⟩
    intro j hj
    cases j with
    | zero => simp
    | succ j =>
      have h3 := r3 j (by simpa using hj)
      have hk : k + 1 + j = k + (j + 1) := by omega
      rw [hk] at h3
      have e1 : 2 * (j + 1) = 2 * j + 1 + 1 := by omega
      rw [e1]
      simpa using h3

/-- Secondary `j` after the loop of `replication_replicate_delete`. -/
theorem replicate_delete_loop_getElem? (send : Nat → Nat → Int) (request : DeleteRequest)
    (k : Nat) (secondaries : List SecondaryServer) (j : Nat) :
    (replicate_delete_loop send request k secondaries).1[j]? =
      secondaries[j]?.map (fun s =>
        if s.is_alive ≠ 0 ∧ send (k + j) 0 ≠ SIZEOF_DELETE_REQUEST then { s with is_alive := 0 }
        else s) := by
  induction secondaries generalizing k j with
  | nil => simp [replicate_delete_loop]
  | cons s rest ih =>
    cases j with
    | zero =>
      unfold replicate_delete_loop
      by_cases ha : s.is_alive = 0
      · simp [ha]
      · by_cases h0 : send k 0 = SIZEOF_DELETE_REQUEST <;> simp [ha, h0]
    | succ j =>
      have hrec := ih (k + 1) j
      have hk : k + 1 + j = k + (j + 1) := by omega
      rw [hk] at hrec
      unfold replicate_delete_loop
      by_cases ha : s.is_alive = 0
      · simpa [ha] using hrec
      · by_cases h0 : send k 0 = SIZEOF_DELETE_REQUEST <;> simpa [ha, h0] using hrec

/-- Every send of the delete loop is the request for a secondary that was alive on entry. -/
theorem replicate_delete_loop_sent (send : Nat → Nat → Int) (request : DeleteRequest)
    (k : Nat) (secondaries : List SecondaryServer)
    (m : Sent) (hm : m ∈ (replicate_delete_loop send request k secondaries).2) :
    ∃ (j : Nat) (s : SecondaryServer), secondaries[j]? = some s ∧ s.is_alive ≠ 0 ∧
      m = Sent.delete_request (k + j) request := by
  induction secondaries generalizing k with
  | nil => simp [replicate_delete_loop] at hm
  | cons s rest ih =>
    have hrest : m ∈ (replicate_delete_loop send request (k + 1) rest).2 →
        ∃ (j : Nat) (s2 : SecondaryServer), (s :: rest)[j]? = some s2 ∧ s2.is_alive ≠ 0 ∧
          m = Sent.delete_request (k + j) request := by
      intro h
      obtain ⟨j, s2, h1, h2, h3⟩ := ih (k + 1) h
      have hk : k + 1 + j = k + (j + 1) := by omega
      rw [hk] at h3
      exact ⟨j + 1, s2, by simpa using h1, h2, h3⟩
    unfold replicate_delete_loop at hm
    by_cases ha : s.is_alive = 0
    · simp only [ha, ne_eq, not_true_eq_false, if_false] at hm
      exact hrest hm
    · have hcase : m = Sent.delete_request k request ∨
          m ∈ (replicate_delete_loop send request (k + 1) rest).2 := by
        by_cases h0 : send k 0 = SIZEOF_DELETE_REQUEST
        · simpa [ha, h0] using hm
        · simpa [ha, h0] using hm
      rcases hcase with hm | hm
      · exact ⟨0, s, by simp, ha, by simpa using hm⟩
      · exact hrest hm

/-- Every secondary alive on entry is sent the request by the delete loop. -/
theorem replicate_delete_loop_sends (send : Nat → Nat → Int) (request : DeleteRequest)
    (k : Nat) (secondaries : List SecondaryServer)
    (j : Nat) (s : SecondaryServer) (hj : secondaries[j]? = some s) (ha : s.is_alive ≠ 0) :
    Sent.delete_request (k + j) request ∈
      (replicate_delete_loop send request k secondaries).2 := by
  induction secondaries generalizing k j with
  | nil => simp at hj
  | cons t rest ih =>
    cases j with
    | zero =>
      simp only [List.getElem?_cons_zero, Option.some.injEq] at hj
      subst hj
      unfold replicate_delete_loop
      by_cases h0 : send k 0 = SIZEOF_DELETE_REQUEST <;> simp [ha, h0]
    | succ j =>
      have hrec := ih (k + 1) j (by simpa using hj)
      have hk : k + 1 + j = k + (j + 1) := by omega
      rw [hk] at hrec
      unfold replicate_delete_loop
      by_cases hta : t.is_alive = 0
      · simpa [hta] using hrec
      · by_cases h0 : send k 0 = SIZEOF_DELETE_REQUEST <;> simp [hta, h0, hrec]

/-- A client WRITE that is received in full and applied locally, with every secondary alive and
every send returning the full size: the reply is a `WRITE` header, the secondaries are left as
they are, and each secondary is sent, in list order, one REPLICATE_WRITE request followed by the
data. The request carries the offset, the length and the path `server_data_dir/filepath` that
the handler passed to `storage_write`. -/
theorem handle_write_fan_out (little_endian : Bool) (server_data_dir : List Char) (io : FileIO)
    (send : Nat → Nat → Int) (request : WriteRequest) (received : Int) (data : List Nat)
    (secondaries : List SecondaryServer)
    (hrecv : received = ntohl little_endian request.length)
    (hopen : io.fopen_update = true ∨ io.fopen_create = true) (hseek : io.fseek_ok = true)
    (hwrite : ntohl little_endian request.length ≤ io.fwrite_count)
    (halive : ∀ s ∈ secondaries, s.is_alive ≠ 0)
    (hsend : ∀ j, j < secondaries.length → send j 0 = SIZEOF_WRITE_REQUEST ∧
      send j 1 = to_ssize_t (ntohl little_endian request.length)) :
    (handle_write little_endian server_data_dir io send request received data
        secondaries).replies
      = [Reply.header { request_id := 0, type := MSG_TYPE_WRITE, payload_size := 0 }] ∧
    (handle_write little_endian server_data_dir io send request received data
        secondaries).secondaries = secondaries ∧
    (handle_write little_endian server_data_dir io send request received data
        secondaries).sent.length = 2 * secondaries.length ∧
    ∀ j, j < secondaries.length →
      (handle_write little_endian server_data_dir io send request received data
          secondaries).sent[2 * j]?
        = some (Sent.write_request j
            { header := { request_id := 0, type := MSG_TYPE_REPLICATE_WRITE, payload_size := 0 },
              filepath := full_filepath server_data_dir request.filepath,
              offset := ntohl little_endian (request.offset % 2 ^ 32),
              length := ntohl little_endian request.length % 2 ^ 32 }) ∧
      (handle_write little_endian server_data_dir io send request received data
          secondaries).sent[2 * j + 1]?
        = some (Sent.data j (data.take (ntohl little_endian request.length))) := by
  have hio1 : (!io.fopen_update && !io.fopen_create) = false := by
    rcases hopen with h | h <;> simp [h]
  have hio3 : ¬ io.fwrite_count < ntohl little_endian request.length := by omega
  have hpath : (full_filepath server_data_dir request.filepath).take 255
      = full_filepath server_data_dir request.filepath := by
    simp [full_filepath, List.take_take]
  obtain ⟨r1, r2, r3⟩ := replicate_write_loop_all_ok send
    { header := { request_id := 0, type := MSG_TYPE_REPLICATE_WRITE, payload_size := 0 },
      filepath := full_filepath server_data_dir request.filepath,
      offset := ntohl little_endian (request.offset % 2 ^ 32),
      length := ntohl little_endian request.length % 2 ^ 32 }
    data (ntohl little_endian request.length) 0 secondaries halive
    (fun j hj => by simpa using hsend j hj)
  simp only [Nat.zero_add] at r3
  simp only [handle_write, storage_write, replication_replicate_write, hrecv, ne_eq,
    not_true_eq_false, if_false, hio1, hseek, hio3, Bool.not_true, Bool.false_eq_true, if_true,
    hpath]
  exact ⟨trivial, r1, r2, r3⟩

/-! ## Unlinking a cell of the cache list -/

/-- A cell inside a chain: it is allocated, its `prev` is the cell before it and its `next` the
cell after it. -/
theorem chain_mid {c : Cache} {l1 l2 : List Nat} {a : Nat} {prev : Option Nat}
    (hc : chain c prev (l1 ++ a :: l2)) :
    ∃ e, c.mem a = some e ∧ e.prev = (if l1 = [] then prev else l1.getLast?) ∧
      e.next = l2.head? := by
  induction l1 generalizing prev with
  | nil =>
    obtain ⟨e, h1, h2, h3, _⟩ := hc
    exact ⟨e, h1, by simpa using h2, h3⟩
  | cons b rest ih =>
    obtain ⟨_, _, _, _, h4⟩ := hc
    obtain ⟨e, g1, g2, g3⟩ := ih h4
    refine ⟨e, g1, ?_, g3⟩
    rw [g2]
    cases rest with
    | nil => simp
    | cons d ds => simp [List.getLast?_cons_cons]

/-- A chain whose first cell gets another `prev`. -/
theorem chain_set_prev {c c2 : Cache} {l : List Nat} {prev q : Option Nat}
    (hn : l.Nodup) (hc : chain c prev l)
    (h2 : ∀ b ∈ l, ∀ e, c.mem b = some e →
      c2.mem b = some (if some b = l.head? then { e with prev := q } else e)) :
    chain c2 q l := by
  cases l with
  | nil => trivial
  | cons a rest =>
    obtain ⟨e, h1, _, h3, h4⟩ := hc
    have ha := h2 a (by simp) e h1
    simp only [List.head?_cons, if_true] at ha
    simp only [List.nodup_cons] at hn
    refine ⟨_, ha, rfl, h3, ?_⟩
    apply chain_congr _ h4
    intro b hb
    obtain ⟨eb, heb⟩ := chain_mem h4 hb
    have hne : some b ≠ (a :: rest).head? := by
      simp only [List.head?_cons, ne_eq, Option.some.injEq]
      rintro rfl
      exact hn.1 hb
    rw [h2 b (List.mem_cons_of_mem _ hb) eb heb, if_neg hne, heb]

/-- Cutting a cell out of a chain, once the `next` link of the cell before it and the `prev`
link of the cell after it skip it. -/
theorem chain_unlink {c c2 : Cache} {l1 l2 : List Nat} {a : Nat} {prev : Option Nat}
    (hn : (l1 ++ a :: l2).Nodup) (hc : chain c prev (l1 ++ a :: l2))
    (h2 : ∀ b ∈ l1 ++ l2, ∀ e, c.mem b = some e →
      c2.mem b = some { e with
        next := if some b = l1.getLast? then l2.head? else e.next,
        prev := if some b = l2.head? then (if l1 = [] then prev else l1.getLast?)
          else e.prev }) :
    chain c2 prev (l1 ++ l2) := by
  induction l1 generalizing prev with
  | nil =>
    obtain ⟨ea, _, _, _, h4⟩ := hc
    simp only [List.nil_append, List.nodup_cons] at hn
    simp only [List.nil_append]
    apply chain_set_prev hn.2 h4
    intro b hb e he
    rw [h2 b (by simpa using hb) e he]
    have hnone : ¬ some b = ([] : List Nat).getLast? := by simp
    by_cases hbh : some b = l2.head?
    · rw [if_pos hbh, if_pos hbh, if_neg hnone, if_pos rfl]
    · rw [if_neg hbh, if_neg hbh, if_neg hnone]
  | cons b rest ih =>
    obtain ⟨eb, hb1, hb2, hb3, hb4⟩ := hc
    have hn2 : (rest ++ a :: l2).Nodup := (List.nodup_cons.1 hn).2
    have hbn : b ∉ rest ++ a :: l2 := (List.nodup_cons.1 hn).1
    have hbr : b ∉ rest := fun h => hbn (List.mem_append_left _ h)
    have hbl : b ∉ l2 := fun h => hbn (List.mem_append_right _ (List.mem_cons_of_mem _ h))
    have hb := h2 b (by simp) eb hb1
    have hbh : some b ≠ l2.head? := by
      intro h
      exact hbl (List.mem_of_mem_head? h.symm)
    rw [if_neg hbh] at hb
    refine ⟨_, hb, hb2, ?_, ?_⟩
    · show (if some b = (b :: rest).getLast? then l2.head? else eb.next)
        = (rest ++ l2).head?
      cases rest with
      | nil => simp
      | cons d ds =>
        have : some b ≠ (b :: d :: ds).getLast? := by
          intro h
          rw [List.getLast?_cons_cons] at h
          exact hbr (List.mem_of_getLast?_eq_some h.symm)
        rw [if_neg this, hb3]
        rfl
    · apply ih hn2 hb4
      intro x hx e he
      have hxb : x ≠ b := by
        rintro rfl
        rcases List.mem_append.1 hx with h | h
        · exact hbr h
        · exact hbl h
      rw [h2 x (by
        rcases List.mem_append.1 hx with h | h
        · exact List.mem_append_left _ (List.mem_cons_of_mem _ h)
        · exact List.mem_append_right _ h) e he]
      cases rest with
      | nil =>
        have h1 : some x ≠ some b := by simpa using hxb
        simp [h1]
      | cons d ds => simp [List.getLast?_cons_cons]

/-- The two guarded stores that start `move_to_head` and `cache_invalidate`, on a cell of a
well-formed list: both are defined, the cell itself is not touched, the other cells form the
list without it and keep key and payload. -/
theorem unlink_stores {c : Cache} {l1 l2 : List Nat} {a : Nat}
    (h : cache_wf c (l1 ++ a :: l2)) :
    ∃ ea c1 c2, c.mem a = some ea ∧
      ea.prev = (if l1 = [] then none else l1.getLast?) ∧ ea.next = l2.head? ∧
      c.modify_if ea.prev (fun x => { x with next := ea.next }) = some c1 ∧
      c1.mem a = some ea ∧
      c1.modify_if ea.next (fun x => { x with prev := ea.prev }) = some c2 ∧
      c2.mem a = some ea ∧
      c2.brk = c.brk ∧ c2.head = c.head ∧ c2.tail = c.tail ∧ c2.capacity = c.capacity ∧
      c2.size = c.size ∧
      chain c2 none (l1 ++ l2) ∧
      (∀ x, c2.mem x ≠ none → c.mem x ≠ none) ∧
      (∀ b ∈ l1 ++ l2, ∀ e, c.mem b = some e → ∃ e2, c2.mem b = some e2 ∧ e2.item = e.item) := by
  obtain ⟨ea, hea, hprev, hnext⟩ := chain_mid h.links
  have hnd := h.nodup
  have hal1 : a ∉ l1 := by
    intro hm
    have := (List.nodup_append.1 hnd).2.2 hm (List.mem_cons_self _ _)
    exact this
  have hal2 : a ∉ l2 := by
    have := (List.nodup_append.1 hnd).2.1
    exact (List.nodup_cons.1 this).1
  -- first store
  have hs1 : ∃ c1, c.modify_if ea.prev (fun x => { x with next := ea.next }) = some c1 ∧
      c1.brk = c.brk ∧ c1.head = c.head ∧ c1.tail = c.tail ∧ c1.capacity = c.capacity ∧
      c1.size = c.size ∧
      ∀ x, c1.mem x = (c.mem x).map (fun e =>
        if some x = l1.getLast? then { e with next := l2.head? } else e) := by
    rw [hprev, hnext]
    by_cases hl1 : l1 = []
    · subst hl1
      refine ⟨c, rfl, rfl, rfl, rfl, rfl, rfl, ?_⟩
      intro x
      cases c.mem x <;> simp
    · obtain ⟨p, hp⟩ : ∃ p, l1.getLast? = some p := by
        cases hl : l1.getLast? with
        | none => exact absurd (List.getLast?_eq_none_iff.1 hl) hl1
        | some p => exact ⟨p, rfl⟩
      have hpl : p ∈ l1 := List.mem_of_getLast?_eq_some hp
      obtain ⟨ep, hep⟩ := chain_mem h.links (List.mem_append_left _ hpl)
      rw [if_neg hl1, hp]
      refine ⟨{ c with mem := fun b =>
          if b = p then some { ep with next := l2.head? } else c.mem b },
        by simp only [Cache.modify_if]; exact modify_some hep _, rfl, rfl, rfl, rfl, rfl, ?_⟩
      intro x
      by_cases hxp : x = p
      · subst hxp
        simp [hep, hp]
      · have : some x ≠ some p := by simpa using hxp
        simp only [hxp, if_false, this, hp]
        cases c.mem x <;> simp
  obtain ⟨c1, hc1, hb1, hh1, ht1, hcap1, hsz1, hm1⟩ := hs1
  have hc1a : c1.mem a = some ea := by
    rw [hm1 a, hea]
    have : some a ≠ l1.getLast? := fun hh => hal1 (List.mem_of_getLast?_eq_some hh.symm)
    simp [this]
  -- second store
  have hs2 : ∃ c2, c1.modify_if ea.next (fun x => { x with prev := ea.prev }) = some c2 ∧
      c2.brk = c1.brk ∧ c2.head = c1.head ∧ c2.tail = c1.tail ∧ c2.capacity = c1.capacity ∧
      c2.size = c1.size ∧
      ∀ x, c2.mem x = (c1.mem x).map (fun e =>
        if some x = l2.head? then { e with prev := ea.prev } else e) := by
    rw [hnext]
    cases hl2 : l2.head? with
    | none =>
      refine ⟨c1, rfl, rfl, rfl, rfl, rfl, rfl, ?_⟩
      intro x
      cases c1.mem x <;> simp
    | some n =>
      have hnl : n ∈ l2 := List.mem_of_mem_head? hl2
      obtain ⟨en, hen⟩ := chain_mem h.links
        (List.mem_append_right _ (List.mem_cons_of_mem _ hnl))
      have hen1 : ∃ en1, c1.mem n = some en1 := by
        rw [hm1 n, hen]
        exact ⟨_, rfl⟩
      obtain ⟨en1, hen1⟩ := hen1
      refine ⟨{ c1 with mem := fun b =>
          if b = n then some { en1 with prev := ea.prev } else c1.mem b },
        by simp only [Cache.modify_if]; exact modify_some hen1 _, rfl, rfl, rfl, rfl, rfl, ?_⟩
      intro x
      by_cases hxn : x = n
      · subst hxn
        simp [hen1]
      · have : some x ≠ some n := by simpa using hxn
        simp only [hxn, if_false, this]
        cases c1.mem x <;> simp
  obtain ⟨c2, hc2, hb2, hh2, ht2, hcap2, hsz2, hm2⟩ := hs2
  have hc2a : c2.mem a = some ea := by
    rw [hm2 a, hc1a]
    have : some a ≠ l2.head? := fun hh => hal2 (List.mem_of_mem_head? hh.symm)
    simp [this]
  refine ⟨ea, c1, c2, hea, hprev, hnext, hc1, hc1a, hc2, hc2a, by rw [hb2, hb1],
    by rw [hh2, hh1], by rw [ht2, ht1], by rw [hcap2, hcap1], by rw [hsz2, hsz1], ?_, ?_, ?_⟩
  · apply chain_unlink hnd h.links
    intro b hb e he
    rw [hm2 b, hm1 b, he, hprev]
    simp only [Option.map_some']
    by_cases g1 : some b = l1.getLast?
    · by_cases g2 : some b = l2.head?
      · simp only [if_pos g1, if_pos g2]
      · simp only [if_pos g1, if_neg g2]
    · by_cases g2 : some b = l2.head?
      · simp only [if_neg g1, if_pos g2]
      · simp only [if_neg g1, if_neg g2]
  · intro x hx
    rw [hm2 x, hm1 x] at hx
    intro hc
    simp [hc] at hx
  · intro b hb e he
    rw [hm2 b, hm1 b, he]
    simp only [Option.map_some']
    by_cases g1 : some b = l1.getLast?
    · by_cases g2 : some b = l2.head?
      · exact ⟨_, rfl, by simp only [if_pos g1, if_pos g2, CacheEntry.item]⟩
      · exact ⟨_, rfl, by simp only [if_pos g1, if_neg g2, CacheEntry.item]⟩
    · by_cases g2 : some b = l2.head?
      · exact ⟨_, rfl, by simp only [if_neg g1, if_pos g2, CacheEntry.item]⟩
      · exact ⟨_, rfl, by simp only [if_neg g1, if_neg g2, CacheEntry.item]⟩

theorem getLast?_append_cons {α : Type} (l1 l2 : List α) (a : α) :
    (l1 ++ a :: l2).getLast? = (a :: l2).getLast? := by
  rw [List.getLast?_append]
  cases h : (a :: l2).getLast? with
  | none => simp at h
  | some x => rfl

theorem getLast?_append_ne_nil {α : Type} (l1 l2 : List α) (h : l2 ≠ []) :
    (l1 ++ l2).getLast? = l2.getLast? := by
  cases l2 with
  | nil => exact absurd rfl h
  | cons a rest => exact getLast?_append_cons l1 rest a

/-- Function `move_to_head` on a cell of a well-formed list: it returns, the cell is first, the
other cells follow in their former order, and every cell keeps key and payload. -/
theorem move_to_head_wf {c : Cache} {l1 l2 : List Nat} {a : Nat}
    (h : cache_wf c (l1 ++ a :: l2)) :
    ∃ c2, move_to_head a c = some c2 ∧ cache_wf c2 (a :: (l1 ++ l2)) ∧
      c2.capacity = c.capacity ∧ c2.brk = c.brk ∧ c2.size = c.size ∧
      ∀ b ∈ l1 ++ a :: l2, ∀ e, c.mem b = some e →
        ∃ e2, c2.mem b = some e2 ∧ e2.item = e.item := by
  cases l1 with
  | nil =>
    have hh : c.head = some a := by rw [h.head_eq]; rfl
    exact ⟨c, by simp [move_to_head, hh], h, rfl, rfl, rfl, fun b _ e he => ⟨e, he, rfl⟩⟩
  | cons hd l1 =>
    obtain ⟨ea, c1, c2, hea, hprev, hnext, hc1, hc1a, hc2, hc2a, hbrk, hhead, htail, hcap, hsz,
      hchain, halloc, hitems⟩ := unlink_stores h
    have hnd := h.nodup
    have hhd : c.head = some hd := by rw [h.head_eq]; rfl
    have hane : a ≠ hd := by
      rintro rfl
      have := (List.nodup_cons.1 hnd).1
      exact this (by simp)
    have hh : ¬ c.head = some a := by
      rw [hhd]
      simpa using fun e => hane e.symm
    have hal : a ∉ (hd :: l1) ++ l2 := by
      intro hm
      rcases List.mem_append.1 hm with h1 | h2
      · exact (List.nodup_append.1 hnd).2.2 h1 (List.mem_cons_self _ _)
      · exact (List.nodup_cons.1 (List.nodup_append.1 hnd).2.1).1 h2
    obtain ⟨ehd, hehd⟩ := chain_mem hchain (a := hd) (by simp)
    have hprev2 : ea.prev = (hd :: l1).getLast? := by rw [hprev]; simp
    have hprevne : ea.prev ≠ none := by
      rw [hprev2]
      intro hn
      exact absurd (List.getLast?_eq_none_iff.1 hn) (by simp)
    -- the state after `if (entry == cache->tail) cache->tail = entry->prev;`
    have hm3 : (if c2.tail = some a then { c2 with tail := ea.prev } else c2).mem = c2.mem := by
      split <;> rfl
    have hd3 : (if c2.tail = some a then { c2 with tail := ea.prev } else c2).head
        = some hd := by
      rw [← hhd, ← hhead]
      split <;> rfl
    have ht2 : c2.tail = (a :: l2).getLast? := by
      rw [htail, h.tail_eq, getLast?_append_cons]
    have ht3 : (if c2.tail = some a then { c2 with tail := ea.prev } else c2).tail
        = ((hd :: l1) ++ l2).getLast? := by
      by_cases hl2 : l2 = []
      · subst hl2
        have : c2.tail = some a := by rw [ht2]; rfl
        rw [if_pos this, List.append_nil]
        exact hprev2
      · have e1 : (a :: l2).getLast? = l2.getLast? := getLast?_append_ne_nil [a] l2 hl2
        have hne : ¬ c2.tail = some a := by
          rw [ht2, e1]
          intro hl
          exact hal (List.mem_append_right _ (List.mem_of_getLast?_eq_some hl))
        rw [if_neg hne, ht2, e1, getLast?_append_ne_nil _ _ hl2]
    have hb3 : (if c2.tail = some a then { c2 with tail := ea.prev } else c2).brk = c.brk := by
      rw [← hbrk]
      split <;> rfl
    have hcap3 : (if c2.tail = some a then { c2 with tail := ea.prev } else c2).capacity
        = c.capacity := by
      rw [← hcap]
      split <;> rfl
    have hsz3 : (if c2.tail = some a then { c2 with tail := ea.prev } else c2).size
        = c.size := by
      rw [← hsz]
      split <;> rfl
    have hmv0 : move_to_head a c =
        ((if c2.tail = some a then { c2 with tail := ea.prev } else c2).modify a
          (fun x => { x with
            prev := none
            next := (if c2.tail = some a then { c2 with tail := ea.prev } else c2).head })).bind
          (fun c4 => (c4.modify_if c4.head (fun x => { x with prev := some a })).bind
            (fun c5 => some (if c5.tail = none then
              { c5 with head := some a, tail := some a } else { c5 with head := some a }))) := by
      unfold move_to_head
      simp only [hh, if_false, Option.bind_eq_bind, Option.pure_def, hea, Option.some_bind, hc1,
        hc1a, hc2, hc2a]
    generalize (if c2.tail = some a then { c2 with tail := ea.prev } else c2) = c3
      at hm3 hd3 ht3 hb3 hcap3 hsz3 hmv0
    have h3a : c3.mem a = some ea := by rw [hm3]; exact hc2a
    have h3hd : c3.mem hd = some ehd := by rw [hm3]; exact hehd
    have htne : ¬ c3.tail = none := by
      rw [ht3]
      intro hn
      exact absurd (List.getLast?_eq_none_iff.1 hn) (by simp)
    have hmv : move_to_head a c = some
        { mem := fun b => if b = hd then some { ehd with prev := some a }
            else if b = a then some { ea with prev := none, next := some hd } else c3.mem b,
          brk := c3.brk, head := some a, tail := c3.tail, capacity := c3.capacity,
          size := c3.size } := by
      have hda : ¬ hd = a := fun e => hane e.symm
      rw [hmv0, modify_some h3a]
      simp only [Option.some_bind, hd3, Cache.modify_if, Cache.modify, if_neg hda, h3hd, htne,
        if_false]
    refine ⟨_, hmv, ?_, hcap3, hb3, hsz3, ?_⟩
    · constructor
      · refine List.nodup_cons.2 ⟨hal, ?_⟩
        have hp : (hd :: l1 ++ a :: l2).Perm (a :: (hd :: l1 ++ l2)) := List.perm_middle
        exact (List.nodup_cons.1 (hp.nodup_iff.1 hnd)).2
      · intro b hb
        show b < c3.brk
        rw [hb3]
        apply h.below
        rcases List.mem_cons.1 hb with rfl | hb
        · simp
        · rcases List.mem_append.1 hb with g | g
          · exact List.mem_append_left _ g
          · exact List.mem_append_right _ (List.mem_cons_of_mem _ g)
      · intro b hb
        simp only at hb
        by_cases hbh : b = hd
        · subst hbh
          simp
        · by_cases hba : b = a
          · subst hba
            simp
          · simp only [hbh, hba, if_false] at hb
            rw [hm3] at hb
            have := h.alloc b (halloc b hb)
            rcases List.mem_append.1 this with g | g
            · exact List.mem_cons_of_mem _ (List.mem_append_left _ g)
            · rcases List.mem_cons.1 g with g | g
              · exact absurd g hba
              · exact List.mem_cons_of_mem _ (List.mem_append_right _ g)
      · refine ⟨{ ea with prev := none, next := some hd }, ?_, rfl, rfl, ?_⟩
        · show (if a = hd then _ else if a = a then _ else _) = _
          rw [if_neg hane, if_pos rfl]
        · apply chain_set_prev _ hchain
          · intro b hb e he
            show (if b = hd then _ else if b = a then _ else _) = _
            by_cases hbh : b = hd
            · subst hbh
              rw [hehd] at he
              simp only [Option.some.injEq] at he
              subst he
              simp
            · have hba : b ≠ a := fun e => hal (e ▸ hb)
              have hne : some b ≠ (hd :: l1 ++ l2).head? := by simpa using hbh
              rw [if_neg hbh, if_neg hba, if_neg hne, hm3, he]
          · have hp : (hd :: l1 ++ a :: l2).Perm (a :: (hd :: l1 ++ l2)) := List.perm_middle
            exact (List.nodup_cons.1 (hp.nodup_iff.1 hnd)).2
      · rfl
      · show c3.tail = (a :: (hd :: l1 ++ l2)).getLast?
        rw [ht3]
        exact (getLast?_append_ne_nil [a] _ (by simp)).symm
      · show c3.size = (a :: (hd :: l1 ++ l2)).length
        rw [hsz3, h.size_eq]
        simp
        omega
    · intro b hb e he
      show ∃ e2, (if b = hd then _ else if b = a then _ else _) = some e2 ∧ _
      by_cases hba : b = a
      · subst hba
        rw [hea] at he
        simp only [Option.some.injEq] at he
        subst he
        rw [if_neg hane, if_pos rfl]
        exact ⟨_, rfl, rfl⟩
      · have hb2 : b ∈ hd :: l1 ++ l2 := by
          rcases List.mem_append.1 hb with g | g
          · exact List.mem_append_left _ g
          · rcases List.mem_cons.1 g with g | g
            · exact absurd g hba
            · exact List.mem_append_right _ g
        obtain ⟨e2, he2, hi2⟩ := hitems b hb2 e he
        by_cases hbh : b = hd
        · subst hbh
          rw [hehd] at he2
          simp only [Option.some.injEq] at he2
          subst he2
          rw [if_pos rfl]
          exact ⟨_, rfl, hi2⟩
        · rw [if_neg hbh, if_neg hba, hm3]
          exact ⟨e2, he2, hi2⟩
/-- A walk along the list of a cache that holds the items `xs`, with a test that only looks at
key and payload: it ends, and it reports the cell of the first item that passes the test, or no
cell when no item passes. -/
theorem find_entry_split {c : Cache} (hit : CacheEntry → Bool)
    (p : List Char × Nat × List Nat × Nat → Bool) (hp : ∀ e, hit e = p e.item)
    {l : List Nat} {xs : List (List Char × Nat × List Nat × Nat)} {prev : Option Nat}
    (hc : chain c prev l)
    (hrel : List.Forall₂ (fun a x => ∃ e, c.mem a = some e ∧ e.item = x) l xs)
    (fuel : Nat) (hf : l.length ≤ fuel) :
    (find_entry c hit fuel l.head? = some none ∧ ∀ x ∈ xs, p x = false) ∨
    (∃ l1 a l2 xs1 x xs2, l = l1 ++ a :: l2 ∧ xs = xs1 ++ x :: xs2 ∧
      List.Forall₂ (fun a x => ∃ e, c.mem a = some e ∧ e.item = x) l1 xs1 ∧
      (∃ e, c.mem a = some e ∧ e.item = x) ∧
      List.Forall₂ (fun a x => ∃ e, c.mem a = some e ∧ e.item = x) l2 xs2 ∧
      p x = true ∧ (∀ y ∈ xs1, p y = false) ∧
      find_entry c hit fuel l.head? = some (some a)) := by
  induction hrel generalizing prev fuel with
  | nil =>
    left
    cases fuel <;> simp [find_entry]
  | @cons a x rest xs' hax hrest ih =>
    obtain ⟨e, h1, _, h3, h4⟩ := hc
    obtain ⟨e2, he2, hex⟩ := hax
    rw [h1] at he2
    simp only [Option.some.injEq] at he2
    subst he2
    cases fuel with
    | zero => simp at hf
    | succ fuel =>
      simp only [List.head?_cons, find_entry, h1]
      by_cases hh : hit e = true
      · right
        exact ⟨[], a, rest, [], x, xs', rfl, rfl, List.Forall₂.nil, ⟨e, h1, hex⟩, hrest,
          by rw [← hex, ← hp]; exact hh, by simp, by simp [hh]⟩
      · simp only [hh, Bool.false_eq_true, if_false, h3]
        have hpx : p x = false := by
          rw [← hex, ← hp]
          simpa using hh
        rcases ih h4 fuel (by simpa using hf) with
          ⟨r1, r2⟩ | ⟨l1, b, l2, xs1, y, xs2, g1, g2, g3, g4, g5, g6, g7, g8⟩
        · left
          refine ⟨r1, ?_⟩
          intro y hy
          rcases List.mem_cons.1 hy with rfl | hy
          · exact hpx
          · exact r2 y hy
        · right
          refine ⟨a :: l1, b, l2, x :: xs1, y, xs2, by rw [g1]; rfl, by rw [g2]; rfl,
            List.Forall₂.cons ⟨e, h1, hex⟩ g3, g4, g5, g6, ?_, g8⟩
          intro z hz
          rcases List.mem_cons.1 hz with rfl | hz
          · exact hpx
          · exact g7 z hz

/-- A chain survives stores that keep the links of its cells. -/
theorem chain_congr_links {c c2 : Cache} {l : List Nat}
    (h : ∀ a ∈ l, ∀ e, c.mem a = some e →
      ∃ e2, c2.mem a = some e2 ∧ e2.prev = e.prev ∧ e2.next = e.next)
    {prev : Option Nat} (hc : chain c prev l) : chain c2 prev l := by
  induction l generalizing prev with
  | nil => trivial
  | cons a rest ih =>
    obtain ⟨e, h1, h2, h3, h4⟩ := hc
    obtain ⟨e2, g1, g2, g3⟩ := h a (by simp) e h1
    exact ⟨e2, g1, g2.trans h2, g3.trans h3,
      ih (fun b hb => h b (List.mem_cons_of_mem _ hb)) h4⟩

/-- Replacing the payload of a cell of a well-formed list keeps the list. -/
theorem modify_payload_wf {c : Cache} {l : List Nat} (h : cache_wf c l) {a : Nat}
    {ea : CacheEntry} (ha : c.mem a = some ea) (data : List Nat) (length : Nat) :
    ∃ c1, c.modify a (fun x => { x with data := data, length := length }) = some c1 ∧
      cache_wf c1 l ∧ c1.capacity = c.capacity ∧ c1.brk = c.brk ∧ c1.size = c.size ∧
      c1.mem a = some { ea with data := data, length := length } ∧
      ∀ b, b ≠ a → c1.mem b = c.mem b := by
  refine ⟨_, modify_some ha _, ?_, rfl, rfl, rfl, by simp, ?_⟩
  · constructor
    · exact h.nodup
    · exact h.below
    · intro b hb
      apply h.alloc
      simp only at hb
      by_cases hba : b = a
      · subst hba
        simp [ha]
      · simpa [hba] using hb
    · apply chain_congr_links _ h.links
      intro b _ e he
      by_cases hba : b = a
      · subst hba
        rw [ha] at he
        simp only [Option.some.injEq] at he
        subst he
        exact ⟨{ ea with data := data, length := length }, by simp, rfl, rfl⟩
      · exact ⟨e, by simp [hba, he], rfl, rfl⟩
    · exact h.head_eq
    · exact h.tail_eq
    · exact h.size_eq
  · intro b hba
    simp [hba]

/-- The unlinking block of `cache_invalidate` on a cell of a well-formed list: the call
returns `ERR_SUCCESS`, the list loses that cell and the other cells keep their order, key and
payload. -/
theorem cache_invalidate_at {c : Cache} {l1 l2 : List Nat} {a : Nat}
    (h : cache_wf c (l1 ++ a :: l2)) (hs : c.size < 2 ^ 64) (fp : List Char) (off : Nat)
    (hfind : find_entry c (fun e => e.filepath = fp && e.offset = off) c.brk c.head
      = some (some a)) :
    ∃ c2, cache_invalidate fp off c = some (ERR_SUCCESS, c2) ∧ cache_wf c2 (l1 ++ l2) ∧
      c2.capacity = c.capacity ∧ c2.brk = c.brk ∧ c2.size + 1 = c.size ∧
      ∀ b ∈ l1 ++ l2, ∀ e, c.mem b = some e →
        ∃ e2, c2.mem b = some e2 ∧ e2.item = e.item := by
  obtain ⟨ea, c1, c2, hea, hprev, hnext, hc1, hc1a, hc2, hc2a, hbrk, hhead, htail, hcap, hsz,
    hchain, halloc, hitems⟩ := unlink_stores h
  have hnd := h.nodup
  have hal : a ∉ l1 ++ l2 := by
    intro hm
    rcases List.mem_append.1 hm with h1 | h2
    · exact (List.nodup_append.1 hnd).2.2 h1 (List.mem_cons_self _ _)
    · exact (List.nodup_cons.1 (List.nodup_append.1 hnd).2.1).1 h2
  have hsize : c.size = l1.length + l2.length + 1 := by
    rw [h.size_eq]
    simp
    omega
  -- the head after `if (entry == cache->head) cache->head = entry->next;`
  have hh3 : (if c2.head = some a then { c2 with head := ea.next } else c2).head
      = (l1 ++ l2).head? := by
    rw [hhead, h.head_eq]
    cases l1 with
    | nil =>
      simp only [List.nil_append, List.head?_cons, if_true]
      exact hnext
    | cons b bs =>
      have : ¬ some b = some a := by
        intro e
        apply hal
        simp only [Option.some.injEq] at e
        subst e
        simp
      simp only [List.cons_append, List.head?_cons, if_neg this]
      rw [hhead, h.head_eq]
      rfl
  have ht2 : c2.tail = (a :: l2).getLast? := by
    rw [htail, h.tail_eq, getLast?_append_cons]
  have ht3 : (if c2.tail = some a then ea.prev else c2.tail) = (l1 ++ l2).getLast? := by
    by_cases hl2 : l2 = []
    · subst hl2
      have : c2.tail = some a := by rw [ht2]; rfl
      rw [if_pos this, List.append_nil, hprev]
      by_cases hl1 : l1 = []
      · simp [hl1]
      · simp [hl1]
    · have e1 : (a :: l2).getLast? = l2.getLast? := getLast?_append_ne_nil [a] l2 hl2
      have hne : ¬ c2.tail = some a := by
        rw [ht2, e1]
        intro hl
        exact hal (List.mem_append_right _ (List.mem_of_getLast?_eq_some hl))
      rw [if_neg hne, ht2, e1, getLast?_append_ne_nil _ _ hl2]
  have hres : cache_invalidate fp off c = some (ERR_SUCCESS,
      { mem := fun b => if b = a then none else c2.mem b,
        brk := c2.brk, head := (l1 ++ l2).head?, tail := (l1 ++ l2).getLast?,
        capacity := c2.capacity, size := (c2.size + 2 ^ 64 - 1) % 2 ^ 64 }) := by
    unfold cache_invalidate
    simp only [hfind, Option.bind_eq_bind, Option.pure_def, hea, Option.some_bind, hc1, hc1a,
      hc2, hc2a]
    rw [← hh3, ← ht3]
    by_cases g1 : c2.head = some a <;> by_cases g2 : c2.tail = some a <;>
      simp only [g1, g2, if_true, if_false, Cache.free]
  refine ⟨_, hres, ?_, hcap, hbrk, ?_, ?_⟩
  · constructor
    · have hp : (l1 ++ a :: l2).Perm (a :: (l1 ++ l2)) := List.perm_middle
      exact (List.nodup_cons.1 (hp.nodup_iff.1 hnd)).2
    · intro b hb
      show b < c2.brk
      rw [hbrk]
      apply h.below
      rcases List.mem_append.1 hb with g | g
      · exact List.mem_append_left _ g
      · exact List.mem_append_right _ (List.mem_cons_of_mem _ g)
    · intro b hb
      simp only at hb
      by_cases hba : b = a
      · simp [hba] at hb
      · simp only [hba, if_false] at hb
        have := h.alloc b (halloc b hb)
        rcases List.mem_append.1 this with g | g
        · exact List.mem_append_left _ g
        · rcases List.mem_cons.1 g with g | g
          · exact absurd g hba
          · exact List.mem_append_right _ g
    · apply chain_congr _ hchain
      intro b hb
      have hba : b ≠ a := fun e => hal (e ▸ hb)
      simp [hba]
    · rfl
    · rfl
    · show (c2.size + 2 ^ 64 - 1) % 2 ^ 64 = (l1 ++ l2).length
      rw [hsz, hsize, List.length_append]
      rw [hsize] at hs
      omega
  · show (c2.size + 2 ^ 64 - 1) % 2 ^ 64 + 1 = c.size
    rw [hsz]
    rw [hsize] at hs ⊢
    omega
  · intro b hb e he
    have hba : b ≠ a := fun e => hal (e ▸ hb)
    obtain ⟨e2, he2, hi2⟩ := hitems b hb e he
    exact ⟨e2, by simp [hba, he2], hi2⟩

/-- The first element of a list that passes a test is where the list splits into a part that
fails the test, an element that passes, and a rest. -/
theorem first_split_unique {α : Type} (p : α → Bool) {xs1 xs2 ys1 ys2 : List α} {x y : α}
    (h : xs1 ++ x :: xs2 = ys1 ++ y :: ys2) (hx : p x = true) (hy : p y = true)
    (hxs : ∀ z ∈ xs1, p z = false) (hys : ∀ z ∈ ys1, p z = false) :
    xs1 = ys1 ∧ x = y ∧ xs2 = ys2 := by
  induction xs1 generalizing ys1 with
  | nil =>
    cases ys1 with
    | nil =>
      simp only [List.nil_append, List.cons.injEq] at h
      exact ⟨rfl, h.1, h.2⟩
    | cons b bs =>
      simp only [List.nil_append, List.cons_append, List.cons.injEq] at h
      have := hys b (by simp)
      rw [← h.1, hx] at this
      cases this
  | cons a as ih =>
    cases ys1 with
    | nil =>
      simp only [List.nil_append, List.cons_append, List.cons.injEq] at h
      have := hxs a (by simp)
      rw [h.1, hy] at this
      cases this
    | cons b bs =>
      simp only [List.cons_append, List.cons.injEq] at h
      obtain ⟨r1, r2, r3⟩ := ih h.2 (fun z hz => hxs z (List.mem_cons_of_mem _ hz))
        (fun z hz => hys z (List.mem_cons_of_mem _ hz))
      exact ⟨by rw [h.1, r1], r2, r3⟩

theorem find?_first_split {α : Type} (p : α → Bool) {xs1 xs2 : List α} {x : α}
    (hx : p x = true) (hxs : ∀ z ∈ xs1, p z = false) :
    (xs1 ++ x :: xs2).find? p = some x := by
  induction xs1 with
  | nil => simp [List.find?, hx]
  | cons a as ih =>
    have ha := hxs a (by simp)
    simp only [List.cons_append, List.find?, ha]
    exact ih (fun z hz => hxs z (List.mem_cons_of_mem _ hz))

/-- Function `move_to_head` on the cell of an item of a cache that holds `xs1 ++ x :: xs2`: it
returns, and the cache then holds `x :: (xs1 ++ xs2)`. -/
theorem move_to_head_holds {c : Cache} {l1 l2 : List Nat} {a : Nat}
    {xs1 xs2 : List (List Char × Nat × List Nat × Nat)} {x : List Char × Nat × List Nat × Nat}
    (h : cache_wf c (l1 ++ a :: l2))
    (h1 : List.Forall₂ (fun a x => ∃ e, c.mem a = some e ∧ e.item = x) l1 xs1)
    (ha : ∃ e, c.mem a = some e ∧ e.item = x)
    (h2 : List.Forall₂ (fun a x => ∃ e, c.mem a = some e ∧ e.item = x) l2 xs2) :
    ∃ c2, move_to_head a c = some c2 ∧ cache_holds c2 (x :: (xs1 ++ xs2)) ∧
      c2.capacity = c.capacity ∧ c2.brk = c.brk ∧ c2.size = c.size := by
  obtain ⟨c2, hmv, hwf, hcap, hbrk, hsz, hitems⟩ := move_to_head_wf h
  refine ⟨c2, hmv, ⟨a :: (l1 ++ l2), hwf, ?_⟩, hcap, hbrk, hsz⟩
  obtain ⟨e, he, hex⟩ := ha
  obtain ⟨e2, he2, hi2⟩ := hitems a (by simp) e he
  refine List.Forall₂.cons ⟨e2, he2, hi2.trans hex⟩ ?_
  apply List.rel_append
  · exact forall2_transfer h1 (fun b hb => hitems b (List.mem_append_left _ hb))
  · exact forall2_transfer h2
      (fun b hb => hitems b (List.mem_append_right _ (List.mem_cons_of_mem _ hb)))

/-! ## split_path and the components of a path -/

theorem modifyHead_modifyHead {α : Type} (f g : α → α) (l : List α) :
    (l.modifyHead g).modifyHead f = l.modifyHead (f ∘ g) := by
  cases l <;> rfl

/-- The scanning loop of `split_path` yields the non-empty pieces between the `/` characters,
the first piece being prefixed by the token scanned so far. -/
theorem split_path_loop_eq (cs cur : List Char) :
    split_path_loop cs cur
      = ((cs.splitOn '/').modifyHead (fun t => cur ++ t)).filter (fun t => t ≠ []) := by
  induction cs generalizing cur with
  | nil =>
    by_cases hc : cur = [] <;> simp [split_path_loop, List.splitOn, List.splitOnP_nil,
      List.modifyHead, hc]
  | cons c cs ih =>
    unfold split_path_loop
    simp only [List.splitOn] at ih ⊢
    rw [List.splitOnP_cons]
    by_cases hs : c = '/'
    · have h0 := ih []
      simp only [List.nil_append] at h0
      have hid : (List.splitOnP (fun x => x == '/') cs).modifyHead (fun t => t)
          = List.splitOnP (fun x => x == '/') cs := by
        cases List.splitOnP (fun x => x == '/') cs <;> rfl
      rw [hid] at h0
      by_cases hc : cur = [] <;> simp [hs, hc, List.modifyHead, h0]
    · have h1 := ih (cur ++ [c])
      have hb : ((c == '/') = true) = False := by simp [hs]
      simp only [hs, if_false, hb, modifyHead_modifyHead]
      rw [h1]
      congr 2
      funext t
      simp

/-- Refinement: the tokens `split_path` produces are the non-empty components of the path. -/
theorem split_path_eq_components (path : List Char) :
    split_path path = spec_components path := by
  unfold split_path spec_components
  rw [split_path_loop_eq]
  congr 1
  cases List.splitOn '/' path <;> simp [List.modifyHead]

/-! ## Call sequences on the cache -/

/-- One call of `cache_put` on a cache that holds at most `capacity` items, at a capacity of at
least two: the call returns and the cache again holds at most `capacity` items. -/
theorem cache_put_holds {c : Cache} {xs : List (List Char × Nat × List Nat × Nat)}
    (h : cache_holds c xs) (hcap : 2 ≤ c.capacity) (hc64 : c.capacity < 2 ^ 64)
    (hle : xs.length ≤ c.capacity) (fp : List Char) (off : Nat) (data : List Nat) (len : Nat) :
    ∃ c2 ys, cache_put fp off data len c = some (ERR_SUCCESS, c2) ∧ cache_holds c2 ys ∧
      ys.length ≤ c.capacity ∧ c2.capacity = c.capacity := by
  obtain ⟨l, hwf, hrel⟩ := h
  have hsplit := find_entry_split
    (fun e => e.filepath = fp && e.offset = off)
    (fun x => x.1 = fp && x.2.1 = off) (fun _ => rfl)
    hwf.links hrel c.brk (cache_wf_fuel hwf)
  rw [← hwf.head_eq] at hsplit
  rcases hsplit with ⟨_, r2⟩ | ⟨l1, a, l2, xs1, x, xs2, g1, g2, g3, g4, g5, g6, g7, g8⟩
  · obtain ⟨c2, h1, h2, h3⟩ := cache_put_fresh ⟨l, hwf, hrel⟩ hcap hc64 hle fp off data len
      (fun x hx hk => by
        have := r2 x hx
        simp only [item_key, Prod.mk.injEq] at hk
        simp [hk.1, hk.2] at this)
    refine ⟨c2, _, h1, h2, ?_, h3⟩
    by_cases hlt : xs.length < c.capacity
    · simp only [hlt, if_true, List.length_cons]
      omega
    · simp only [hlt, if_false, List.length_cons, List.length_dropLast]
      omega
  · subst g1 g2
    obtain ⟨ea, hea, hex⟩ := g4
    obtain ⟨c1, hmod, hwf1, hcap1, -, hsz1, hma, hmb⟩ :=
      modify_payload_wf hwf hea (data.take len) len
    have hnd := hwf.nodup
    have hal1 : a ∉ l1 := fun hm =>
      (List.nodup_append.1 hnd).2.2 hm (List.mem_cons_self _ _)
    have hal2 : a ∉ l2 := (List.nodup_cons.1 (List.nodup_append.1 hnd).2.1).1
    have t1 : List.Forall₂ (fun a x => ∃ e, c1.mem a = some e ∧ e.item = x) l1 xs1 :=
      forall2_transfer g3 (fun b hb e he =>
        ⟨e, by rw [hmb b (fun e => hal1 (e ▸ hb))]; exact he, rfl⟩)
    have t2 : List.Forall₂ (fun a x => ∃ e, c1.mem a = some e ∧ e.item = x) l2 xs2 :=
      forall2_transfer g5 (fun b hb e he =>
        ⟨e, by rw [hmb b (fun e => hal2 (e ▸ hb))]; exact he, rfl⟩)
    obtain ⟨c2, hmv, hholds, hcap2, -, -⟩ :=
      move_to_head_holds hwf1 t1 ⟨_, hma, rfl⟩ t2
    refine ⟨c2, _, ?_, hholds, ?_, by rw [hcap2, hcap1]⟩
    · unfold cache_put
      simp only [g8, hmod, hmv, Option.bind_eq_bind, Option.some_bind, Option.pure_def]
    · simp only [List.length_cons, List.length_append] at hle ⊢
      omega

/-- One call of `cache_get` on a cache that holds `xs`: the call returns and the cache holds as
many items as before. -/
theorem cache_get_holds {c : Cache} {xs : List (List Char × Nat × List Nat × Nat)}
    (h : cache_holds c xs) (fp : List Char) (off len : Nat) :
    ∃ r ys, cache_get fp off len c = some r ∧ cache_holds r.2.2.2 ys ∧
      ys.length = xs.length ∧ r.2.2.2.capacity = c.capacity := by
  obtain ⟨l, hwf, hrel⟩ := h
  have hsplit := find_entry_split
    (fun e => e.filepath = fp && e.offset = off && e.length ≥ len)
    (fun x => x.1 = fp && x.2.1 = off && x.2.2.2 ≥ len) (fun _ => rfl)
    hwf.links hrel c.brk (cache_wf_fuel hwf)
  rw [← hwf.head_eq] at hsplit
  rcases hsplit with ⟨r1, _⟩ | ⟨l1, a, l2, xs1, x, xs2, g1, g2, g3, g4, g5, g6, g7, g8⟩
  · refine ⟨(ERR_NOT_FOUND, [], 0, c), xs, ?_, ⟨l, hwf, hrel⟩, rfl, rfl⟩
    unfold cache_get
    simp only [r1]
  · subst g1 g2
    obtain ⟨c2, hmv, hholds, hcap2, -, -⟩ := move_to_head_holds hwf g3 g4 g5
    obtain ⟨e, he, hex⟩ := g4
    refine ⟨(ERR_SUCCESS, e.data.take len, len, c2), _, ?_, hholds, ?_, hcap2⟩
    · unfold cache_get
      simp only [g8, he, hmv, Option.bind_eq_bind, Option.some_bind, Option.pure_def]
    · simp only [List.length_cons, List.length_append]
      omega

/-- One call of `cache_invalidate` on a cache that holds `xs`: the call returns and the cache
holds at most as many items as before. -/
theorem cache_invalidate_holds {c : Cache} {xs : List (List Char × Nat × List Nat × Nat)}
    (h : cache_holds c xs) (hs : c.size < 2 ^ 64) (fp : List Char) (off : Nat) :
    ∃ c2 ys, cache_invalidate fp off c = some (ERR_SUCCESS, c2) ∧ cache_holds c2 ys ∧
      ys.length ≤ xs.length ∧ c2.capacity = c.capacity ∧
      ∀ y ∈ ys, y ∈ xs := by
  obtain ⟨l, hwf, hrel⟩ := h
  have hsplit := find_entry_split
    (fun e => e.filepath = fp && e.offset = off)
    (fun x => x.1 = fp && x.2.1 = off) (fun _ => rfl)
    hwf.links hrel c.brk (cache_wf_fuel hwf)
  rw [← hwf.head_eq] at hsplit
  rcases hsplit with ⟨r1, _⟩ | ⟨l1, a, l2, xs1, x, xs2, g1, g2, g3, g4, g5, g6, g7, g8⟩
  · refine ⟨c, xs, ?_, ⟨l, hwf, hrel⟩, le_refl _, rfl, fun y hy => hy⟩
    unfold cache_invalidate
    simp only [r1]
  · subst g1 g2
    obtain ⟨c2, hinv, hwf2, hcap, -, hsz, hitems⟩ := cache_invalidate_at hwf hs fp off g8
    refine ⟨c2, xs1 ++ xs2, hinv, ⟨l1 ++ l2, hwf2, List.rel_append
        (forall2_transfer g3 (fun b hb => hitems b (List.mem_append_left _ hb)))
        (forall2_transfer g5 (fun b hb => hitems b (List.mem_append_right _ hb)))⟩,
      ?_, hcap, ?_⟩
    · simp only [List.length_cons, List.length_append]
      omega
    · intro y hy
      rcases List.mem_append.1 hy with g | g
      · exact List.mem_append_left _ g
      · exact List.mem_append_right _ (List.mem_cons_of_mem _ g)

/-- At a capacity of at least two every sequence of `cache_put`, `cache_get` and
`cache_invalidate` calls on a cache that holds at most `capacity` items returns and leaves a
cache that holds at most `capacity` items. -/
theorem run_cache_ops_holds (ops : List CacheOp) {c : Cache}
    {xs : List (List Char × Nat × List Nat × Nat)}
    (h : cache_holds c xs) (hcap : 2 ≤ c.capacity) (hc64 : c.capacity < 2 ^ 64)
    (hle : xs.length ≤ c.capacity) :
    ∃ s ys, run_cache_ops ops c = some s ∧ cache_holds s ys ∧ ys.length ≤ c.capacity ∧
      s.capacity = c.capacity := by
  induction ops generalizing c xs with
  | nil => exact ⟨c, xs, rfl, h, hle, rfl⟩
  | cons op ops ih =>
    have hstep : ∃ c2 ys, op.apply c = some c2 ∧ cache_holds c2 ys ∧
        ys.length ≤ c.capacity ∧ c2.capacity = c.capacity := by
      cases op with
      | put fp off data len =>
        obtain ⟨c2, ys, h1, h2, h3, h4⟩ := cache_put_holds h hcap hc64 hle fp off data len
        exact ⟨c2, ys, by simp [CacheOp.apply, h1], h2, h3, h4⟩
      | get fp off len =>
        obtain ⟨r, ys, h1, h2, h3, h4⟩ := cache_get_holds h fp off len
        exact ⟨r.2.2.2, ys, by simp [CacheOp.apply, h1], h2, by omega, h4⟩
      | invalidate fp off =>
        have hs : c.size < 2 ^ 64 := by
          obtain ⟨l, hwf, hrel⟩ := h
          rw [hwf.size_eq, hrel.length_eq]
          omega
        obtain ⟨c2, ys, h1, h2, h3, h4, -⟩ := cache_invalidate_holds h hs fp off
        exact ⟨c2, ys, by simp [CacheOp.apply, h1], h2, by omega, h4⟩
    obtain ⟨c2, ys, h1, h2, h3, h4⟩ := hstep
    obtain ⟨s, zs, g1, g2, g3, g4⟩ := ih h2 (by rw [h4]; exact hcap) (by rw [h4]; exact hc64)
      (by rw [h4]; exact h3)
    refine ⟨s, zs, ?_, g2, by rw [← h4]; exact g3, by rw [g4, h4]⟩
    simp only [run_cache_ops, h1, Option.some_bind, g1]

/-- What a well-formed list says in terms of the fields: `head` is `NULL` exactly when `tail` is
`NULL` and exactly when `size` is 0, and the walk from `head` along `next` meets allocated
cells only and visits `size` of them, with the keys of the items held. -/
theorem cache_wf_facts {c : Cache} {xs : List (List Char × Nat × List Nat × Nat)}
    (h : cache_holds c xs) :
    (c.head = none ↔ c.tail = none) ∧ (c.head = none ↔ c.size = 0) ∧
    cache_keys c c.brk c.head = some (xs.map item_key) ∧
    (xs.map item_key).length = c.size := by
  have hk := cache_keys_holds h
  obtain ⟨l, hwf, hrel⟩ := h
  have hlen := hrel.length_eq
  refine ⟨?_, ?_, hk, ?_⟩
  · rw [hwf.head_eq, hwf.tail_eq]
    cases l with
    | nil => simp
    | cons a rest => simp [List.getLast?_eq_none_iff]
  · rw [hwf.head_eq, hwf.size_eq]
    cases l <;> simp
  · rw [List.length_map, hwf.size_eq, hlen]

/-! ## Bytes, byte order and C strings -/

theorem store_bytes_length (little_endian : Bool) (n v : Nat) :
    (store_bytes little_endian n v).length = n := by
  unfold store_bytes
  split <;> simp

theorem store_bytes_two (little_endian : Bool) (v : Nat) :
    store_bytes little_endian 2 v
      = if little_endian then [v % 256, v / 256 % 256] else [v / 256 % 256, v % 256] := by
  cases little_endian <;> simp [store_bytes, List.range_succ]

theorem store_bytes_four (little_endian : Bool) (v : Nat) :
    store_bytes little_endian 4 v
      = if little_endian then [v % 256, v / 256 % 256, v / 65536 % 256, v / 16777216 % 256]
        else [v / 16777216 % 256, v / 65536 % 256, v / 256 % 256, v % 256] := by
  cases little_endian <;> simp [store_bytes, List.range_succ]

theorem store_bytes_eight (little_endian : Bool) (v : Nat) :
    store_bytes little_endian 8 v
      = if little_endian then
          [v % 256, v / 256 % 256, v / 65536 % 256, v / 16777216 % 256,
           v / 4294967296 % 256, v / 1099511627776 % 256, v / 281474976710656 % 256,
           v / 72057594037927936 % 256]
        else
          [v / 72057594037927936 % 256, v / 281474976710656 % 256, v / 1099511627776 % 256,
           v / 4294967296 % 256, v / 16777216 % 256, v / 65536 % 256, v / 256 % 256,
           v % 256] := by
  cases little_endian <;> simp [store_bytes, List.range_succ]

/-- A 4-byte object read back on the same host holds the value stored, modulo `2 ^ 32`. -/
theorem load_store_four (little_endian : Bool) (v : Nat) :
    load_bytes little_endian (store_bytes little_endian 4 v) = v % 2 ^ 32 := by
  rw [store_bytes_four]
  cases little_endian
  · simp only [Bool.false_eq_true, if_false, load_bytes, List.foldl]
    omega
  · simp only [if_true, load_bytes, List.foldr]
    omega

/-- An 8-byte object read back on the same host holds the value stored, modulo `2 ^ 64`. -/
theorem load_store_eight (little_endian : Bool) (v : Nat) :
    load_bytes little_endian (store_bytes little_endian 8 v) = v % 2 ^ 64 := by
  rw [store_bytes_eight]
  cases little_endian
  · simp only [Bool.false_eq_true, if_false, load_bytes, List.foldl]
    omega
  · simp only [if_true, load_bytes, List.foldr]
    omega

theorem bytes_of_sum_four (b0 b1 b2 b3 : Nat) (h0 : b0 < 256) (h1 : b1 < 256) (h2 : b2 < 256)
    (h3 : b3 < 256) :
    (b0 * 2 ^ 24 + b1 * 2 ^ 16 + b2 * 2 ^ 8 + b3) % 256 = b3 ∧
    (b0 * 2 ^ 24 + b1 * 2 ^ 16 + b2 * 2 ^ 8 + b3) / 256 % 256 = b2 ∧
    (b0 * 2 ^ 24 + b1 * 2 ^ 16 + b2 * 2 ^ 8 + b3) / 65536 % 256 = b1 ∧
    (b0 * 2 ^ 24 + b1 * 2 ^ 16 + b2 * 2 ^ 8 + b3) / 16777216 % 256 = b0 := by
  omega

theorem bytes_of_sum_two (b0 b1 : Nat) (h0 : b0 < 256) (h1 : b1 < 256) :
    (b0 * 256 + b1) % 256 = b1 ∧ (b0 * 256 + b1) / 256 % 256 = b0 := by
  omega

/-- The value `ntohl` returns on a little-endian host, byte by byte. -/
theorem ntohl_little_bytes (v : Nat) :
    ntohl true v % 256 = v / 16777216 % 256 ∧
    ntohl true v / 256 % 256 = v / 65536 % 256 ∧
    ntohl true v / 65536 % 256 = v / 256 % 256 ∧
    ntohl true v / 16777216 % 256 = v % 256 := by
  have h := bytes_of_sum_four (v % 256) (v / 2 ^ 8 % 256) (v / 2 ^ 16 % 256) (v / 2 ^ 24 % 256)
    (Nat.mod_lt _ (by decide)) (Nat.mod_lt _ (by decide)) (Nat.mod_lt _ (by decide))
    (Nat.mod_lt _ (by decide))
  simp only [ntohl, if_true]
  refine ⟨h.1, ?_, ?_, h.2.2.2⟩
  · rw [h.2.1]
    norm_num
  · rw [h.2.2.1]
    norm_num

/-- On the wire the bytes of `htonl(v)` are those of `v`, most significant first, whatever the
byte order of the host. -/
theorem store_htonl (little_endian : Bool) (v : Nat) :
    store_bytes little_endian 4 (htonl little_endian v)
      = [v / 16777216 % 256, v / 65536 % 256, v / 256 % 256, v % 256] := by
  rw [store_bytes_four]
  cases little_endian
  · simp only [Bool.false_eq_true, if_false, htonl, ntohl, List.cons.injEq, and_true]
    omega
  · have h := ntohl_little_bytes v
    simp only [if_true, htonl, h.1, h.2.1, h.2.2.1, h.2.2.2]

/-- On the wire the bytes of `htons(v)` are those of `v`, most significant first. -/
theorem store_htons (little_endian : Bool) (v : Nat) :
    store_bytes little_endian 2 (htons little_endian v) = [v / 256 % 256, v % 256] := by
  rw [store_bytes_two]
  cases little_endian
  · simp only [Bool.false_eq_true, if_false, htons, ntohs, List.cons.injEq, and_true]
    omega
  · have h := bytes_of_sum_two (v % 256) (v / 256 % 256) (Nat.mod_lt _ (by decide))
      (Nat.mod_lt _ (by decide))
    simp only [if_true, htons, ntohs, h.1, h.2]

/-- The round trip `ntohl(htonl(v))` on one host. -/
theorem ntohl_htonl (little_endian : Bool) (v : Nat) :
    ntohl little_endian (htonl little_endian v) = v % 2 ^ 32 := by
  cases little_endian
  · simp only [htonl, ntohl, Bool.false_eq_true, if_false]
    omega
  · have h := ntohl_little_bytes v
    have e : ∀ w, ntohl true w
        = w % 256 * 16777216 + w / 256 % 256 * 65536 + w / 65536 % 256 * 256
          + w / 16777216 % 256 := by
      intro w
      simp only [ntohl, if_true]
      norm_num
    rw [htonl, e (ntohl true v), h.1, h.2.1, h.2.2.1, h.2.2.2]
    omega

theorem ntohl_lt (little_endian : Bool) (v : Nat) : ntohl little_endian v < 2 ^ 32 := by
  cases little_endian
  · simp only [ntohl, Bool.false_eq_true, if_false]
    omega
  · simp only [ntohl, if_true]
    omega

/-- A C string read back from its bytes and terminator. -/
theorem c_string_c_bytes {s : List Char} (h : ∀ c ∈ s, c.toNat ≠ 0) (rest : List Nat) :
    c_string (c_bytes s ++ 0 :: rest) = s := by
  induction s with
  | nil => simp [c_string, c_bytes]
  | cons c cs ih =>
    have hc := h c (List.mem_cons_self _ _)
    have ih2 := ih (fun d hd => h d (List.mem_cons_of_mem _ hd))
    simp only [c_string, c_bytes, List.map_cons, List.cons_append] at ih2 ⊢
    rw [List.takeWhile_cons]
    simp only [ne_eq, hc, not_false_eq_true, decide_True, if_true, List.map_cons,
      Char.ofNat_toNat, ih2]

theorem c_bytes_length (s : List Char) : (c_bytes s).length = s.length := by
  simp [c_bytes]

/-- A C string read back from a field of `n` bytes that holds it with its terminator. -/
theorem c_string_field {s : List Char} (h : ∀ c ∈ s, c.toNat ≠ 0) (rest : List Nat) {n : Nat}
    (hn : s.length < n) : c_string ((c_bytes s ++ 0 :: rest).take n) = s := by
  have h1 : (c_bytes s ++ 0 :: rest).take n
      = c_bytes s ++ 0 :: rest.take (n - s.length - 1) := by
    rw [List.take_append_eq_append_take, c_bytes_length,
      List.take_of_length_le (by rw [c_bytes_length]; omega)]
    obtain ⟨k, hk⟩ : ∃ k, n - s.length = k + 1 := ⟨n - s.length - 1, by omega⟩
    rw [hk, List.take_succ_cons]
    simp
  rw [h1, c_string_c_bytes h]

/-! ## Registration of a storage server and location lookup -/

/-- The metadata found at the components `q` after `directory_register_file` on a valid path:
the new record at the path itself, the former one everywhere else. -/
theorem register_file_metadata {p : List Char} (hp : split_path p ≠ [] ∨ p = ['/'])
    (m : FileMetadata) (root : DirectoryEntry) (q : List (List Char)) :
    (resolve q (directory_register_file p m root).2).bind DirectoryEntry.metadata
      = if q = split_path p then some m else (resolve q root).bind DirectoryEntry.metadata := by
  rw [register_file_eq hp]
  have hr := create_resolves 0 (split_path p) root
  have h1 := resolve_update_at (fun e => e.metadata) (fun e cs => by simp)
    (f := fun e => e.set_metadata (some m)) (fun e => by simp) (fun e => by simp) hr q
  have h2 : ∀ x : Option DirectoryEntry,
      x.bind DirectoryEntry.metadata = (x.map (fun e => e.metadata)).bind id := by
    intro x
    cases x <;> rfl
  rw [h2, h1]
  by_cases hq : q = split_path p
  · obtain ⟨n, hn, -⟩ := create_walk_node 0 (split_path p) [] root
    rw [List.append_nil] at hn
    simp only [hq, if_true, hn, Option.map_some', metadata_set_metadata]
    rfl
  · simp only [hq, if_false]
    rw [← h2, create_walk_metadata]

/-- A registration with the same record keeps a node that already carries that record. -/
theorem registration_keeps (ip : List Char) (port size permissions : Nat)
    (paths : List (List Char)) (root : DirectoryEntry) (q : List (List Char))
    (h : (resolve q root).bind DirectoryEntry.metadata
      = some { storage_server_ip := ip, storage_server_port := port, size := size,
               permissions := permissions }) :
    (resolve q (handle_storage_server_registration ip port size permissions paths root)).bind
        DirectoryEntry.metadata
      = some { storage_server_ip := ip, storage_server_port := port, size := size,
               permissions := permissions } := by
  induction paths generalizing root with
  | nil => exact h
  | cons path rest ih =>
    unfold handle_storage_server_registration
    apply ih
    by_cases hp : split_path path ≠ [] ∨ path = ['/']
    · rw [register_file_metadata hp]
      by_cases hq : q = split_path path
      · simp [hq]
      · simp [hq, h]
    · unfold directory_register_file
      rw [lookup_internal_invalid hp]
      simpa using h

/-- After the registration loop every listed valid path carries the record of the registering
server. -/
theorem registration_metadata (ip : List Char) (port size permissions : Nat)
    (paths : List (List Char)) (root : DirectoryEntry) {p : List Char} (hmem : p ∈ paths)
    (hp : split_path p ≠ [] ∨ p = ['/']) :
    directory_get_metadata p
        (handle_storage_server_registration ip port size permissions paths root)
      = (ERR_SUCCESS, some { storage_server_ip := ip, storage_server_port := port,
                             size := size, permissions := permissions }) := by
  have key : (resolve (split_path p)
      (handle_storage_server_registration ip port size permissions paths root)).bind
        DirectoryEntry.metadata
      = some { storage_server_ip := ip, storage_server_port := port, size := size,
               permissions := permissions } := by
    induction paths generalizing root with
    | nil => cases hmem
    | cons path rest ih =>
      unfold handle_storage_server_registration
      by_cases hin : p ∈ rest
      · exact ih _ hin
      · have hpp : p = path := by
          rcases List.mem_cons.1 hmem with h | h
          · exact h
          · exact absurd h hin
        subst hpp
        apply registration_keeps
        rw [register_file_metadata hp]
        simp
  rw [get_metadata_eq hp, key]

/-- The two replies of the `GET_LOCATION` handler, for a request whose payload is the path `p`
with its terminator: a `LOCATION` frame when `directory_get_metadata` finds a record at `p`, an
`ERROR` frame with `ERR_FILE_NOT_FOUND` otherwise; the tree is left as it is. -/
theorem handle_client_request_eq (little_endian : Bool) (after : Nat → Nat)
    (header : MessageHeader) (p : List Char) (rest : List Nat) (root : DirectoryEntry)
    (hp : ∀ c ∈ p, c.toNat ≠ 0)
    (hsize : ntohl little_endian header.payload_size = p.length + 1) :
    handle_client_request little_endian after header (c_bytes p ++ 0 :: rest) root =
      match (directory_get_metadata p root).2 with
      | some m =>
        (MessageHeader.bytes little_endian
            { request_id := header.request_id, type := MSG_TYPE_LOCATION,
              payload_size := htonl little_endian 18 } ++
          (c_bytes m.storage_server_ip ++ 0 :: (List.range 16).map after).take 16 ++
          [m.storage_server_port / 256 % 256, m.storage_server_port % 256], root)
      | none =>
        (MessageHeader.bytes little_endian
            { request_id := header.request_id, type := MSG_TYPE_ERROR,
              payload_size := htonl little_endian 4 } ++ [255, 255, 255, 246], root) := by
  have htake : (c_bytes p ++ 0 :: rest).take (p.length + 1) = c_bytes p ++ [0] := by
    rw [List.take_append_eq_append_take, c_bytes_length,
      List.take_of_length_le (by rw [c_bytes_length]; omega)]
    simp
  have hpath : c_string (c_bytes p ++ [0]) = p := c_string_c_bytes hp []
  have hcode : store_bytes little_endian 4
      (htonl little_endian (to_uint32 ERR_FILE_NOT_FOUND.code)) = [255, 255, 255, 246] := by
    rw [store_htonl]
    decide
  unfold handle_client_request network_socket_receive
  simp only [hsize, htake, List.length_append, c_bytes_length, List.length_singleton,
    ne_eq, not_true_eq_false, if_false, hpath, directory_lookup_tree, hcode, store_htons,
    INET_ADDRSTRLEN]
  unfold directory_get_metadata
  by_cases hl : (directory_lookup p root).1 = ERR_SUCCESS
  · simp only [hl, if_true, ne_eq, not_true_eq_false, if_false, directory_lookup_tree]
    cases hm : (entry_at (directory_lookup p root).2.2 root).bind DirectoryEntry.metadata with
    | none => rfl
    | some m => rfl
  · simp only [hl, if_false, ne_eq, not_false_eq_true, if_true]

/-! ## Headers on the wire -/

theorem header_bytes_length (little_endian : Bool) (h : MessageHeader) :
    (MessageHeader.bytes little_endian h).length = 12 := by
  simp [MessageHeader.bytes, store_bytes_length]

/-- A header read back on a host of the same byte order. -/
theorem header_load_bytes (little_endian : Bool) (h : MessageHeader) (rest : List Nat) :
    MessageHeader.load little_endian ((MessageHeader.bytes little_endian h ++ rest).take 12)
      = { request_id := h.request_id % 2 ^ 32, type := h.type % 2 ^ 32,
          payload_size := h.payload_size % 2 ^ 32 } := by
  have h1 := load_store_four little_endian h.request_id
  have h2 := load_store_four little_endian h.type
  have h3 := load_store_four little_endian h.payload_size
  rw [store_bytes_four] at h1 h2 h3
  simp only [MessageHeader.bytes, MessageHeader.load, store_bytes_four]
  cases little_endian
  · simp only [Bool.false_eq_true, if_false] at h1 h2 h3 ⊢
    simp only [List.cons_append, List.nil_append, List.take_succ_cons, List.take_zero,
      List.drop_succ_cons, List.drop_zero, h1, h2, h3]
  · simp only [if_true] at h1 h2 h3 ⊢
    simp only [List.cons_append, List.nil_append, List.take_succ_cons, List.take_zero,
      List.drop_succ_cons, List.drop_zero, h1, h2, h3]

/-- Receiving 12 bytes from a stream that starts with a header. -/
theorem receive_header (little_endian : Bool) (h : MessageHeader) (rest : List Nat) :
    network_socket_receive (MessageHeader.bytes little_endian h ++ rest) 12
      = (12, (MessageHeader.bytes little_endian h ++ rest).take 12, rest) := by
  have hl := header_bytes_length little_endian h
  unfold network_socket_receive
  rw [List.take_append_eq_append_take, List.drop_append_eq_append_drop, hl,
    List.take_of_length_le (by omega), List.drop_of_length_le (by omega)]
  simp [hl]

/-- The conversion `(ssize_t)length` keeps a length below `2 ^ 63`. -/
theorem to_ssize_t_small {length : Nat} (h : length < 2 ^ 63) :
    to_ssize_t length = (length : Int) := by
  unfold to_ssize_t
  have h1 : length % 2 ^ 64 = length := Nat.mod_eq_of_lt (by omega)
  rw [h1, if_pos h]

/-- A send that completes returns the length as an `ssize_t`. -/
theorem network_socket_send_true (length : Nat) :
    network_socket_send true length = to_ssize_t length := by
  unfold network_socket_send
  rw [if_pos rfl]

theorem to_ssize_t_12 : to_ssize_t 12 = 12 := to_ssize_t_small (by norm_num)

theorem to_ssize_t_256 : to_ssize_t 256 = 256 := to_ssize_t_small (by norm_num)

theorem to_ssize_t_288 : to_ssize_t 288 = 288 := to_ssize_t_small (by norm_num)

/-! ## Request objects on the wire -/

theorem strncpy_bytes_length (n : Nat) (s : List Char) :
    (strncpy_bytes n s).length = n - 1 := by
  have h : (s.take (n - 1)).length ≤ n - 1 := by
    rw [List.length_take]
    omega
  simp only [strncpy_bytes, List.length_append, c_bytes_length, List.length_replicate]
  omega

theorem request_bytes_length (little_endian : Bool) (r : WriteRequest) (other : List Nat) :
    (WriteRequest.bytes little_endian r other).length = 288 := by
  simp [WriteRequest.bytes, header_bytes_length, strncpy_bytes_length, store_bytes_length]

/-- The part of a list between two known lengths. -/
theorem drop_take_segment {α : Type} (A D R : List α) {n k : Nat} (hA : A.length = n)
    (hD : D.length = k) : ((A ++ D ++ R).drop n).take k = D := by
  rw [List.append_assoc, List.drop_append_eq_append_drop, hA,
    List.drop_of_length_le (by omega), Nat.sub_self, List.drop_zero, List.nil_append,
    List.take_append_eq_append_take, hD, List.take_of_length_le (by omega), Nat.sub_self,
    List.take_zero, List.append_nil]

/-- The fields `offset` and `length` of a request object read back on a host of the same byte
order. -/
theorem request_load_bytes (little_endian : Bool) (r : WriteRequest) (other : List Nat) :
    (WriteRequest.load little_endian (WriteRequest.bytes little_endian r other)).offset
      = r.offset % 2 ^ 64 ∧
    (WriteRequest.load little_endian (WriteRequest.bytes little_endian r other)).length
      = r.length % 2 ^ 32 ∧
    (WriteRequest.load little_endian (WriteRequest.bytes little_endian r other)).header
      = { request_id := r.header.request_id % 2 ^ 32, type := r.header.type % 2 ^ 32,
          payload_size := r.header.payload_size % 2 ^ 32 } := by
  have hA : (MessageHeader.bytes little_endian r.header ++ strncpy_bytes 256 r.filepath ++
      (other ++ List.replicate 9 0).take 5).length = 272 := by
    simp [header_bytes_length, strncpy_bytes_length]
  have hO := drop_take_segment
    (MessageHeader.bytes little_endian r.header ++ strncpy_bytes 256 r.filepath ++
      (other ++ List.replicate 9 0).take 5)
    (store_bytes little_endian 8 r.offset)
    (store_bytes little_endian 4 r.length ++ ((other ++ List.replicate 9 0).drop 5).take 4)
    hA (store_bytes_length little_endian 8 r.offset)
  have hL := drop_take_segment
    (MessageHeader.bytes little_endian r.header ++ strncpy_bytes 256 r.filepath ++
      (other ++ List.replicate 9 0).take 5 ++ store_bytes little_endian 8 r.offset)
    (store_bytes little_endian 4 r.length)
    (((other ++ List.replicate 9 0).drop 5).take 4) (n := 280)
    (by rw [List.length_append, hA, store_bytes_length])
    (store_bytes_length little_endian 4 r.length)
  have hH := header_load_bytes little_endian r.header
    (strncpy_bytes 256 r.filepath ++
      (other ++ List.replicate 9 0).take 5 ++ store_bytes little_endian 8 r.offset ++
      store_bytes little_endian 4 r.length ++ ((other ++ List.replicate 9 0).drop 5).take 4)
  simp only [List.append_assoc] at hO hL hH
  simp only [WriteRequest.load, WriteRequest.bytes, List.append_assoc, hO, hL, hH,
    load_store_eight, load_store_four, and_self]

/-- Receiving `n` bytes from a stream that starts with a block of `n` bytes. -/
theorem receive_block (A rest : List Nat) {n : Nat} (hA : A.length = n) :
    network_socket_receive (A ++ rest) n = ((n : Int), A, rest) := by
  unfold network_socket_receive
  rw [List.take_append_eq_append_take, List.drop_append_eq_append_drop, hA,
    List.take_of_length_le (by omega), List.drop_of_length_le (by omega)]
  simp [hA]

/-! ## The client against the replies of the servers -/

/-- A failing `directory_get_metadata` stores no record. -/
theorem get_metadata_none {p : List Char} {root : DirectoryEntry}
    (hne : (directory_get_metadata p root).1 ≠ ERR_SUCCESS) :
    (directory_get_metadata p root).2 = none := by
  unfold directory_get_metadata at hne ⊢
  by_cases hl : (directory_lookup p root).1 = ERR_SUCCESS
  · simp only [hl, ne_eq, not_true_eq_false, if_false] at hne ⊢
    cases hm : (entry_at (directory_lookup p root).2.2 (directory_lookup p root).2.1).bind
        DirectoryEntry.metadata with
    | none => rfl
    | some m => simp [hm] at hne
  · simp only [hl, ne_eq, not_false_eq_true, if_true]

/-- What `get_storage_server` returns on the `ERROR` frame of the naming server for
`ERR_FILE_NOT_FOUND`. -/
theorem get_storage_server_not_found (little_endian : Bool) (r id : Nat) (filepath : List Char)
    (net : Network) (hsend : net.ns_send_ok 0 = true ∧ net.ns_send_ok 1 = true)
    (hreply : net.ns_reply =
      MessageHeader.bytes little_endian
          { request_id := r, type := MSG_TYPE_ERROR, payload_size := htonl little_endian 4 } ++
        [255, 255, 255, 246]) :
    (get_storage_server little_endian id filepath net).1
      = (if little_endian then -150994945 else ERR_FILE_NOT_FOUND.code) := by
  have hlen : to_ssize_t ((filepath.length + 1) % 2 ^ 32)
      = (((filepath.length + 1) % 2 ^ 32 : Nat) : Int) :=
    to_ssize_t_small (by omega)
  unfold get_storage_server
  rw [hreply, receive_header]
  simp only [hsend.1, hsend.2, network_socket_send_true, to_ssize_t_12, hlen, ne_eq,
    not_true_eq_false, if_false, header_load_bytes]
  have htype : MSG_TYPE_ERROR % 2 ^ 32 = MSG_TYPE_ERROR := by decide
  have hv : to_int32 (load_bytes little_endian [255, 255, 255, 246])
      = (if little_endian then -150994945 else ERR_FILE_NOT_FOUND.code) := by
    cases little_endian <;> decide
  simp only [htype, if_true, network_socket_receive, List.cons_append, List.nil_append,
    List.take_succ_cons, List.take_zero, List.length_cons, List.length_nil, hv]
  simp

/-- The first four bytes of every reply of the storage server that starts with a header whose
`request_id` is 0 read as `ERR_SUCCESS`. -/
theorem client_write_reads_request_id (little_endian : Bool) (filepath : List Char)
    (offset : Nat) (buffer : List Nat) (length : Nat) (net : Network) (s : ClientState)
    (type payload_size : Nat) (rest : List Nat)
    (hconn : (ensure_storage_connection little_endian filepath net s).1 = ERR_SUCCESS.code)
    (hsend : net.ss_send_ok 0 = true ∧ net.ss_send_ok 1 = true)
    (hreply : net.ss_reply =
      MessageHeader.bytes little_endian
        { request_id := 0, type := type, payload_size := payload_size } ++ rest) :
    (client_write little_endian filepath offset buffer length net s).1 = ERR_SUCCESS.code := by
  unfold client_write
  have h4 : network_socket_receive net.ss_reply 4 = (4, [0, 0, 0, 0], net.ss_reply.drop 4) := by
    rw [hreply]
    unfold network_socket_receive MessageHeader.bytes
    simp only [store_bytes_four]
    simp
  have hv : to_int32 (load_bytes little_endian [0, 0, 0, 0]) = ERR_SUCCESS.code := by
    cases little_endian <;> decide
  simp only [hconn, ne_eq, not_true_eq_false, if_false, hsend.1, hsend.2,
    network_socket_send_true, to_ssize_t_288, h4, hv]

/-! ## The bytes of `client_write` as the storage server receives them -/

/-- The bytes `client_write` sends when the connection is made and both sends complete: the
request object, then the data. -/
theorem client_write_sent (little_endian : Bool) (filepath : List Char) (offset : Nat)
    (buffer : List Nat) (length : Nat) (net : Network) (s : ClientState)
    (hconn : (ensure_storage_connection little_endian filepath net s).1 = ERR_SUCCESS.code)
    (hsend : net.ss_send_ok 0 = true ∧ net.ss_send_ok 1 = true) :
    (client_write little_endian filepath offset buffer length net s).2.1 =
      WriteRequest.bytes little_endian
        { header :=
            { request_id :=
                (generate_request_id (ensure_storage_connection little_endian filepath net s).2).1,
              type := MSG_TYPE_WRITE, payload_size := 0 },
          filepath := filepath.take 255, offset := offset % 2 ^ 64,
          length := length % 2 ^ 32 } [] ++ buffer.take length := by
  unfold client_write
  simp only [hconn, ne_eq, not_true_eq_false, if_false, hsend.1, hsend.2,
    network_socket_send_true, to_ssize_t_288]
  split_ifs <;> rfl

/-- Dropping `k` bytes from a string that is followed by zero bytes leaves the rest of the
string, again followed by a zero byte. -/
theorem drop_c_bytes_zeros (s : List Char) (n k : Nat) (rest : List Nat) (hn : 0 < n)
    (h : k < s.length + n) :
    ∃ tail, (c_bytes s ++ (List.replicate n 0 ++ rest)).drop k
      = c_bytes (s.drop k) ++ 0 :: tail := by
  rw [List.drop_append_eq_append_drop, c_bytes_length]
  have hd : (c_bytes s).drop k = c_bytes (s.drop k) := by
    simp [c_bytes, List.map_drop]
  rw [hd, List.drop_append_eq_append_drop, List.length_replicate, List.drop_replicate]
  obtain ⟨m, hm⟩ : ∃ m, n - (k - s.length) = m + 1 := ⟨n - (k - s.length) - 1, by omega⟩
  rw [hm, List.replicate_succ]
  exact ⟨_, by rw [List.cons_append]⟩

/-! ## A request object that arrives without a header in front of it -/

theorem request_bytes_eq (little_endian : Bool) (r : WriteRequest) (other : List Nat) :
    WriteRequest.bytes little_endian r other
      = MessageHeader.bytes little_endian r.header ++ request_body little_endian r other := by
  simp only [WriteRequest.bytes, request_body, List.append_assoc]

theorem request_body_length (little_endian : Bool) (r : WriteRequest) (other : List Nat) :
    (request_body little_endian r other).length = 276 := by
  have h := request_bytes_length little_endian r other
  rw [request_bytes_eq, List.length_append, header_bytes_length] at h
  omega

/-- What the storage server receives when a `WriteRequest` object of type `WRITE` arrives
without a header in front of it: the first 12 bytes are taken for the header, and the request
object is read from the 288 bytes behind them. With fewer than 12 bytes of data no request
object is received; otherwise the `filepath` read is the one sent without its first 12
characters. -/
theorem receive_write_bytes (little_endian : Bool) (r : WriteRequest) (data : List Nat)
    (htype : r.header.type = MSG_TYPE_WRITE) (hz : ∀ c ∈ r.filepath, c.toNat ≠ 0) :
    (data.length < 12 →
      receive_request little_endian (WriteRequest.bytes little_endian r [] ++ data)
        = Received.nothing) ∧
    (12 ≤ data.length →
      ∃ h q n d, receive_request little_endian (WriteRequest.bytes little_endian r [] ++ data)
          = Received.write h q n d ∧ q.filepath = (r.filepath.take 255).drop 12) := by
  have hX := request_body_length little_endian r []
  have ht : ¬ MSG_TYPE_WRITE = MSG_TYPE_READ := by decide
  have ht2 : MSG_TYPE_WRITE % 2 ^ 32 = MSG_TYPE_WRITE := by decide
  have hstart : receive_request little_endian (WriteRequest.bytes little_endian r [] ++ data)
      = if (network_socket_receive (request_body little_endian r [] ++ data) 288).1 ≠ 288 then
          Received.nothing
        else
          Received.write
            { request_id := r.header.request_id % 2 ^ 32, type := MSG_TYPE_WRITE,
              payload_size := r.header.payload_size % 2 ^ 32 }
            (WriteRequest.load little_endian
              (network_socket_receive (request_body little_endian r [] ++ data) 288).2.1)
            (network_socket_receive
              (network_socket_receive (request_body little_endian r [] ++ data) 288).2.2
              (ntohl little_endian (WriteRequest.load little_endian
                (network_socket_receive (request_body little_endian r [] ++ data)
                  288).2.1).length)).1
            (network_socket_receive
              (network_socket_receive (request_body little_endian r [] ++ data) 288).2.2
              (ntohl little_endian (WriteRequest.load little_endian
                (network_socket_receive (request_body little_endian r [] ++ data)
                  288).2.1).length)).2.1 := by
    unfold receive_request
    rw [request_bytes_eq, List.append_assoc, receive_header]
    simp only [ne_eq, not_true_eq_false, if_false, header_load_bytes, htype, ht2, if_neg ht,
      if_true]
  rw [hstart]
  constructor
  · intro hd
    have hcount : (network_socket_receive (request_body little_endian r [] ++ data) 288).1
        ≠ 288 := by
      unfold network_socket_receive
      simp only [List.length_take, List.length_append, hX]
      omega
    rw [if_pos hcount]
  · intro hd
    have hsplit : request_body little_endian r [] ++ data
        = (request_body little_endian r [] ++ data.take 12) ++ data.drop 12 := by
      rw [List.append_assoc, List.take_append_drop]
    have hrecv := receive_block (request_body little_endian r [] ++ data.take 12)
      (data.drop 12) (n := 288) (by
        rw [List.length_append, hX, List.length_take]
        omega)
    rw [← hsplit] at hrecv
    rw [hrecv]
    simp only [ne_eq, Nat.cast_ofNat, not_true_eq_false, if_false]
    refine ⟨_, _, _, _, rfl, ?_⟩
    have hlen : (r.filepath.take 255).length ≤ 255 := by
      rw [List.length_take]
      omega
    obtain ⟨tail, htail⟩ := drop_c_bytes_zeros (r.filepath.take 255)
      (255 - (r.filepath.take 255).length + 5) 12
      (store_bytes little_endian 8 r.offset ++
        (store_bytes little_endian 4 r.length ++ List.replicate 4 0) ++ data.take 12)
      (by omega) (by omega)
    have hbody : request_body little_endian r [] ++ data.take 12
        = c_bytes (r.filepath.take 255) ++
          (List.replicate (255 - (r.filepath.take 255).length + 5) 0 ++
            (store_bytes little_endian 8 r.offset ++
              (store_bytes little_endian 4 r.length ++ List.replicate 4 0) ++
              data.take 12)) := by
      simp only [request_body, strncpy_bytes, List.nil_append, List.append_assoc,
        List.replicate_add]
      rfl
    simp only [WriteRequest.load]
    rw [hbody, htail]
    exact c_string_c_bytes (fun c hc => hz c (List.mem_of_mem_take (List.mem_of_mem_drop hc)))
      tail

/-! ## The bytes of `client_read` as the storage server receives them -/

/-- The bytes `client_read` sends when the connection is made and both sends complete: the
header, then the request object. -/
theorem client_read_sent (little_endian : Bool) (filepath : List Char) (offset length : Nat)
    (other stale : List Nat) (net : Network) (s : ClientState)
    (hconn : (ensure_storage_connection little_endian filepath net s).1 = ERR_SUCCESS.code)
    (hsend : net.ss_send_ok 0 = true ∧ net.ss_send_ok 1 = true) :
    (client_read little_endian filepath offset length other stale net s).2.2.1 =
      MessageHeader.bytes little_endian
        { request_id :=
            (generate_request_id (ensure_storage_connection little_endian filepath net s).2).1,
          type := MSG_TYPE_READ, payload_size := 288 } ++
      WriteRequest.bytes little_endian
        { header :=
            { request_id :=
                (generate_request_id (ensure_storage_connection little_endian filepath net s).2).1,
              type := MSG_TYPE_READ, payload_size := htonl little_endian 288 },
          filepath := filepath.take 255,
          offset := htonl little_endian (offset % 2 ^ 32),
          length := htonl little_endian (length % 2 ^ 32) } other := by
  unfold client_read
  simp only [hconn, ne_eq, not_true_eq_false, if_false, hsend.1, hsend.2,
    network_socket_send_true, to_ssize_t_12, to_ssize_t_288]
  split_ifs <;> rfl

/-- A header of type `READ` followed by a request object is received by the storage server as
a `READ` with that request object. -/
theorem receive_read_bytes (little_endian : Bool) (h : MessageHeader) (r : WriteRequest)
    (other : List Nat) (htype : h.type = MSG_TYPE_READ) :
    receive_request little_endian
        (MessageHeader.bytes little_endian h ++ WriteRequest.bytes little_endian r other)
      = Received.read
          { request_id := h.request_id % 2 ^ 32, type := MSG_TYPE_READ,
            payload_size := h.payload_size % 2 ^ 32 }
          (WriteRequest.load little_endian (WriteRequest.bytes little_endian r other)) := by
  have ht : MSG_TYPE_READ % 2 ^ 32 = MSG_TYPE_READ := by decide
  have hrecv := receive_block (WriteRequest.bytes little_endian r other) [] (n := 288)
    (request_bytes_length little_endian r other)
  rw [List.append_nil] at hrecv
  unfold receive_request
  rw [receive_header]
  simp only [ne_eq, not_true_eq_false, if_false, header_load_bytes, htype, ht, if_true, hrecv,
    Nat.cast_ofNat]

/-- The arguments the `READ` handler decodes from a request object whose `offset` and `length`
were passed through `htonl`: the low 32 bits of both. -/
theorem read_arguments_htonl (little_endian : Bool) (r : WriteRequest) (other : List Nat)
    (offset length : Nat) (ho : r.offset = htonl little_endian offset)
    (hl : r.length = htonl little_endian length) :
    read_arguments little_endian
        (WriteRequest.load little_endian (WriteRequest.bytes little_endian r other))
      = (offset % 2 ^ 32, length % 2 ^ 32) := by
  obtain ⟨h1, h2, -⟩ := request_load_bytes little_endian r other
  have b1 : htonl little_endian offset < 2 ^ 32 := ntohl_lt little_endian offset
  have b2 : htonl little_endian length < 2 ^ 32 := ntohl_lt little_endian length
  unfold read_arguments
  rw [h1, h2, ho, hl, Nat.mod_eq_of_lt (show htonl little_endian offset < 2 ^ 64 by omega),
    Nat.mod_eq_of_lt b1, Nat.mod_eq_of_lt b2, ntohl_htonl, ntohl_htonl]

/-! ## The reply to `GET_FILE_INFO` as the client decodes it -/

/-- What `client_get_file_info` makes of a `GET_FILE_INFO_RESPONSE` header followed by a
response object whose two fields were passed through `htonl`: the low 32 bits of both. -/
theorem client_get_file_info_decodes (little_endian : Bool) (filepath : List Char)
    (stale : List Nat) (net : Network) (s : ClientState) (request_id file_size permissions : Nat)
    (hconn : (ensure_storage_connection little_endian filepath net s).1 = ERR_SUCCESS.code)
    (hsend : net.ss_send_ok 0 = true ∧ net.ss_send_ok 1 = true)
    (hreply : net.ss_reply =
      MessageHeader.bytes little_endian
        { request_id := request_id, type := MSG_TYPE_GET_FILE_INFO_RESPONSE,
          payload_size := htonl little_endian 12 } ++
      store_bytes little_endian 8 (htonl little_endian file_size) ++
      store_bytes little_endian 4 (htonl little_endian permissions)) :
    (client_get_file_info little_endian filepath stale net s).1 = ERR_SUCCESS.code ∧
    (client_get_file_info little_endian filepath stale net s).2.1
      = some (file_size % 2 ^ 32, permissions % 2 ^ 32) := by
  have ht : MSG_TYPE_GET_FILE_INFO_RESPONSE % 2 ^ 32 = MSG_TYPE_GET_FILE_INFO_RESPONSE := by
    decide
  have hne : ¬ MSG_TYPE_GET_FILE_INFO_RESPONSE = MSG_TYPE_ERROR := by decide
  have hrecv := receive_block
    (store_bytes little_endian 8 (htonl little_endian file_size) ++
      store_bytes little_endian 4 (htonl little_endian permissions)) [] (n := 12)
    (by simp [store_bytes_length])
  rw [List.append_nil] at hrecv
  have h8 : (store_bytes little_endian 8 (htonl little_endian file_size) ++
      store_bytes little_endian 4 (htonl little_endian permissions)).take 8
      = store_bytes little_endian 8 (htonl little_endian file_size) :=
    List.take_left' (store_bytes_length little_endian 8 _)
  have h4 : ((store_bytes little_endian 8 (htonl little_endian file_size) ++
      store_bytes little_endian 4 (htonl little_endian permissions)).drop 8).take 4
      = store_bytes little_endian 4 (htonl little_endian permissions) := by
    rw [List.drop_left' (store_bytes_length little_endian 8 _),
      List.take_of_length_le (by rw [store_bytes_length])]
  have b1 : htonl little_endian file_size < 2 ^ 32 := ntohl_lt little_endian file_size
  have b2 : htonl little_endian permissions < 2 ^ 32 := ntohl_lt little_endian permissions
  unfold client_get_file_info
  rw [hreply, List.append_assoc, receive_header]
  simp only [hconn, ne_eq, not_true_eq_false, if_false, hsend.1, hsend.2,
    network_socket_send_true, to_ssize_t_12, to_ssize_t_256, if_true, header_load_bytes, ht, if_neg hne, hrecv, Nat.cast_ofNat, h8, h4,
    load_store_eight, load_store_four,
    Nat.mod_eq_of_lt (show htonl little_endian file_size < 2 ^ 64 by omega),
    Nat.mod_eq_of_lt b1, Nat.mod_eq_of_lt b2, ntohl_htonl, and_self]

/-! ## The buffer of the `READ` handler -/

/-- A `READ` whose decoded length exceeds `MAX_BUFFER_SIZE`, on a file that holds that many
bytes from the decoded offset on, makes `fread` store past the end of the buffer. -/
theorem handle_read_overflow (little_endian : Bool) (server_data_dir : List Char)
    (files : List Char → Option (List Nat)) (request : WriteRequest) (content : List Nat)
    (hfile : files (full_filepath server_data_dir request.filepath) = some content)
    (hlength : MAX_BUFFER_SIZE < (read_arguments little_endian request).2)
    (hcontent : (read_arguments little_endian request).1 +
      (read_arguments little_endian request).2 ≤ content.length) :
    handle_read little_endian server_data_dir files true request = none := by
  unfold handle_read storage_read
  simp only [hfile, Bool.not_true, Bool.false_eq_true, if_false, List.length_take,
    List.length_drop]
  rw [if_pos]
  omega

/-! ## The directory functions without the locks, and the handlers for sends that return -/

/-- Without the locks: on every tree and for every path with at least one component, two
successive `directory_register_file` calls on the path both give `ERR_SUCCESS`, and
`directory_get_metadata` of the path then gives `ERR_SUCCESS` with the second record. -/
theorem register_file_twice_data (root : DirectoryEntry) (p : List Char)
    (m1 m2 : FileMetadata) (hp : split_path p ≠ []) :
    (directory_register_file p m1 root).1 = ERR_SUCCESS ∧
    (directory_register_file p m2 (directory_register_file p m1 root).2).1 = ERR_SUCCESS ∧
    directory_get_metadata p
      (directory_register_file p m2 (directory_register_file p m1 root).2).2
        = (ERR_SUCCESS, some m2) := by
  have hv : split_path p ≠ [] ∨ p = ['/'] := Or.inl hp
  refine ⟨by rw [register_file_eq hv], by rw [register_file_eq hv], ?_⟩
  obtain ⟨ptr, e, hr, he, hm⟩ :=
    register_file_resolves hv m2 (directory_register_file p m1 root).2
  exact get_metadata_of_resolves hv hr he hm

/-- Without the locks: when the path resolves to a node with at least one child,
`directory_delete` gives `ERR_INVALID_ARGUMENT` and the tree is unchanged. -/
theorem directory_delete_nonempty_data (t : DirectoryEntry) (p : List Char) (e : DirectoryEntry)
    (hl : (directory_lookup p t).1 = ERR_SUCCESS)
    (he : entry_at (directory_lookup p t).2.2 t = some e)
    (hc : 0 < e.children.length) :
    directory_delete p t = (ERR_INVALID_ARGUMENT, some t) :=
  directory_delete_nonempty_eq hl he hc

/-- Without the locks: in every tree reached from `directory_init`, when the path has a
component and resolves to a node without children, `directory_delete` gives `ERR_SUCCESS`,
afterwards `directory_lookup` of the path gives `ERR_NOT_FOUND`, and the parent node has exactly
one child fewer; and the scenario `create("/d")`, `create("/d/x")`, `delete("/d")`,
`delete("/d/x")`, `delete("/d")` gives `ERR_INVALID_ARGUMENT` and then `ERR_SUCCESS` twice. -/
theorem directory_delete_leaf_data :
    (∀ (ops : List DirOp) (t : DirectoryEntry) (p : List Char) (e : DirectoryEntry),
      run_ops ops directory_init = some t →
      split_path p ≠ [] →
      (directory_lookup p t).1 = ERR_SUCCESS →
      entry_at (directory_lookup p t).2.2 t = some e →
      e.children = [] →
      ∃ t' parent parent',
        directory_delete p t = (ERR_SUCCESS, some t') ∧
        (directory_lookup p t').1 = ERR_NOT_FOUND ∧
        entry_at (directory_lookup p t).2.2.dropLast t = some parent ∧
        entry_at (directory_lookup p t).2.2.dropLast t' = some parent' ∧
        parent'.children.length + 1 = parent.children.length) ∧
    (∃ t1 t2 t3 t4,
      directory_create "/d".toList directory_init = (ERR_SUCCESS, t1) ∧
      directory_create "/d/x".toList t1 = (ERR_SUCCESS, t2) ∧
      directory_delete "/d".toList t2 = (ERR_INVALID_ARGUMENT, some t2) ∧
      directory_delete "/d/x".toList t2 = (ERR_SUCCESS, some t3) ∧
      directory_delete "/d".toList t3 = (ERR_SUCCESS, some t4)) := by
  refine ⟨?_, ⟨_, _, _, _, rfl, rfl, rfl, rfl, rfl⟩⟩
  intro ops t p e hreach hp hl he hc
  have hu := names_unique_reachable hreach
  obtain ⟨hv, hr⟩ := directory_lookup_resolves hl
  obtain ⟨parent, parent', h1, h2, h3⟩ := parent_unlink_entry hp hr
  refine ⟨_, parent, parent', directory_delete_leaf_eq hp hl he hc, ?_, h1, h2, h3⟩
  unfold directory_lookup
  rw [lookup_internal_valid hv]
  exact resolve_none 0 (resolve_unlink_entry hu hp hr)

/-- Without the locks: for every tree, every parent path `a` and every two distinct component
names `b` and `c`, `directory_delete` of `a/b` leaves a tree, and `directory_get_metadata` of
`a/c` gives the same code and record on it as before the call. -/
theorem directory_delete_siblings_data (t : DirectoryEntry) (a b c : List Char)
    (hb : b ≠ []) (hbs : '/' ∉ b) (hc : c ≠ []) (hcs : '/' ∉ c) (hbc : b ≠ c) :
    ∃ t', (directory_delete (a ++ '/' :: b) t).2 = some t' ∧
      directory_get_metadata (a ++ '/' :: c) t' = directory_get_metadata (a ++ '/' :: c) t := by
  have hpb : split_path (a ++ '/' :: b) ≠ [] := by rw [split_path_append hbs hb]; simp
  have hpc : split_path (a ++ '/' :: c) ≠ [] := by rw [split_path_append hcs hc]; simp
  rcases directory_delete_cases hpb t with h | ⟨ptr, hr, h⟩
  · exact ⟨t, h, rfl⟩
  · refine ⟨_, h, ?_⟩
    rw [get_metadata_eq (Or.inl hpc), get_metadata_eq (Or.inl hpc), split_path_append hcs hc]
    rw [split_path_append hbs hb] at hr
    rw [resolve_unlink_sibling hbc hr]

/-- Without the locks: when the path has a component and no node exists at it,
`directory_register_file` gives `ERR_SUCCESS`; afterwards the path resolves to a node with
`is_directory = 0` whose metadata is the record passed, every proper prefix of the path
resolves, and every prefix node that did not exist before the call has `is_directory = 1` and
no metadata. -/
theorem register_file_fresh_data (t : DirectoryEntry) (p : List Char) (m : FileMetadata)
    (hp : split_path p ≠ []) (hnf : (directory_lookup p t).1 = ERR_NOT_FOUND) :
    ∃ t' e, directory_register_file p m t = (ERR_SUCCESS, t') ∧
      (directory_lookup p t').1 = ERR_SUCCESS ∧
      entry_at (directory_lookup p t').2.2 t' = some e ∧
      e.is_directory = 0 ∧ e.metadata = some m ∧
      ∀ q : List Char, (split_path q ≠ [] ∨ q = ['/']) →
        split_path q <+: split_path p → split_path q ≠ split_path p →
        (directory_lookup q t').1 = ERR_SUCCESS ∧
        ((directory_lookup q t).1 = ERR_NOT_FOUND →
          ∃ n, entry_at (directory_lookup q t').2.2 t' = some n ∧
            n.is_directory = 1 ∧ n.metadata = none) := by
  have hv : split_path p ≠ [] ∨ p = ['/'] := Or.inl hp
  have hres := create_resolves 0 (split_path p) t
  have hnone := resolve_none_of_not_found hnf
  obtain ⟨n, hn, hnew⟩ := create_walk_node 0 (split_path p) [] t
  rw [List.append_nil] at hn
  obtain ⟨hm, -, hd⟩ := hnew hnone
  obtain ⟨e, he, hed, hem⟩ := resolve_register hres m (split_path p) hn
  obtain ⟨hl, hat⟩ := directory_lookup_of_resolve hv he
  refine ⟨_, e, register_file_eq hv m t, hl, hat, ?_, ?_, ?_⟩
  · rw [hed, (hd rfl).1]; rfl
  · simpa using hem
  · intro q hq hpre hneq
    obtain ⟨rest, hrest⟩ := hpre
    have hrne : rest ≠ [] := by
      rintro rfl
      exact hneq (by simpa using hrest)
    obtain ⟨n2, hn2, hnew2⟩ := create_walk_node 0 (split_path q) rest t
    rw [hrest] at hn2
    obtain ⟨e2, he2, hed2, hem2⟩ := resolve_register hres m (split_path q) hn2
    obtain ⟨hl2, hat2⟩ := directory_lookup_of_resolve hq he2
    refine ⟨hl2, fun hqnf => ⟨e2, hat2, ?_, ?_⟩⟩
    · rw [hed2]
      exact (hnew2 (resolve_none_of_not_found hqnf)).2.1 hrne
    · rw [hem2, if_neg hneq]
      exact (hnew2 (resolve_none_of_not_found hqnf)).1

/-- Without the locks: for every tree and every path with at least one component, the first
`directory_create` gives `ERR_SUCCESS`, afterwards every prefix of the path resolves and each
prefix node that was missing has `is_directory = 1`; a second call gives `ERR_SUCCESS` and the
same tree. -/
theorem directory_create_twice_data (t : DirectoryEntry) (p : List Char)
    (hp : split_path p ≠ []) :
    ∃ t', directory_create p t = (ERR_SUCCESS, t') ∧
      directory_create p t' = (ERR_SUCCESS, t') ∧
      ∀ q : List Char, split_path q ≠ [] → split_path q <+: split_path p →
        (directory_lookup q t').1 = ERR_SUCCESS ∧
        ((directory_lookup q t).1 = ERR_NOT_FOUND →
          ∃ n, entry_at (directory_lookup q t').2.2 t' = some n ∧ n.is_directory = 1) := by
  have hv : split_path p ≠ [] ∨ p = ['/'] := Or.inl hp
  have hres := create_resolves 1 (split_path p) t
  refine ⟨_, directory_create_eq hv t, ?_, ?_⟩
  · rw [directory_create_eq hv, resolves_create 1 hres]
  · intro q hq hpre
    obtain ⟨rest, hrest⟩ := hpre
    obtain ⟨n, hn, hnew⟩ := create_walk_node 1 (split_path q) rest t
    rw [hrest] at hn
    obtain ⟨hl, hat⟩ := directory_lookup_of_resolve (Or.inl hq) hn
    refine ⟨hl, fun hqnf => ⟨n, hat, ?_⟩⟩
    obtain ⟨-, h1, h2⟩ := hnew (resolve_none_of_not_found hqnf)
    by_cases hr : rest = []
    · simpa using (h2 hr).1
    · exact h1 hr

/-- The handlers of REPLICATE_WRITE and REPLICATE_DELETE, for sends that return: no reply is
sent on the request socket; sends go only to secondaries alive on entry; and after a local
success every secondary that is alive is sent a REPLICATE_WRITE or REPLICATE_DELETE for the
path `server_data_dir/filepath`. -/
theorem replicate_handlers_sends (little_endian : Bool) (server_data_dir : List Char)
    (io : FileIO) (send : Nat → Nat → Int) (request : WriteRequest) (received : Int)
    (data : List Nat) (removed : Bool) (delete_request : DeleteRequest)
    (secondaries : List SecondaryServer) :
    (handle_replicate_write little_endian server_data_dir io send request received data
      secondaries).replies = [] ∧
    (handle_replicate_delete server_data_dir removed send delete_request secondaries).replies
      = [] ∧
    (∀ m ∈ (handle_replicate_write little_endian server_data_dir io send request received data
        secondaries).sent,
      ∃ (j : Nat) (s : SecondaryServer), secondaries[j]? = some s ∧ s.is_alive ≠ 0 ∧
        m.dest = j) ∧
    (∀ m ∈ (handle_replicate_delete server_data_dir removed send delete_request
        secondaries).sent,
      ∃ (j : Nat) (s : SecondaryServer), secondaries[j]? = some s ∧ s.is_alive ≠ 0 ∧
        m.dest = j) ∧
    (∀ (j : Nat) (s : SecondaryServer), secondaries[j]? = some s → s.is_alive ≠ 0 →
      (received = ntohl little_endian request.length →
        (io.fopen_update = true ∨ io.fopen_create = true) → io.fseek_ok = true →
        ntohl little_endian request.length ≤ io.fwrite_count →
        Sent.write_request j
          { header := { request_id := 0, type := MSG_TYPE_REPLICATE_WRITE, payload_size := 0 },
            filepath := full_filepath server_data_dir request.filepath,
            offset := ntohl little_endian (request.offset % 2 ^ 32),
            length := ntohl little_endian request.length % 2 ^ 32 }
          ∈ (handle_replicate_write little_endian server_data_dir io send request received data
              secondaries).sent) ∧
      (removed = true →
        Sent.delete_request j
          { header := { request_id := 0, type := MSG_TYPE_REPLICATE_DELETE, payload_size := 0 },
            filepath := full_filepath server_data_dir delete_request.filepath }
          ∈ (handle_replicate_delete server_data_dir removed send delete_request
              secondaries).sent)) := by
  have hpath : ∀ p : List Char, (full_filepath server_data_dir p).take 255
      = full_filepath server_data_dir p := by
    intro p
    simp [full_filepath, List.take_take]
  refine ⟨?_, rfl, ?_, ?_, ?_⟩
  · unfold handle_replicate_write
    simp only
    split <;> rfl
  · intro m hm
    unfold handle_replicate_write at hm
    simp only at hm
    split at hm
    · cases hm
    · unfold storage_write at hm
      split at hm
      · cases hm
      · split at hm
        · cases hm
        · split at hm
          · cases hm
          · obtain ⟨j, s, h1, h2, h3⟩ := replicate_write_loop_sent _ _ _ _ _ _ m hm
            refine ⟨j, s, h1, h2, ?_⟩
            rcases h3 with h3 | h3 <;> simp [h3, Sent.dest]
  · intro m hm
    unfold handle_replicate_delete storage_delete_file at hm
    simp only at hm
    split at hm
    · cases hm
    · obtain ⟨j, s, h1, h2, h3⟩ := replicate_delete_loop_sent _ _ _ _ m hm
      exact ⟨j, s, h1, h2, by simp [h3, Sent.dest]⟩
  · intro j s hj ha
    constructor
    · intro hrecv hopen hseek hwrite
      have hio1 : (!io.fopen_update && !io.fopen_create) = false := by
        rcases hopen with h | h <;> simp [h]
      have hio3 : ¬ io.fwrite_count < ntohl little_endian request.length := by omega
      have hmem := replicate_write_loop_sends send
        { header := { request_id := 0, type := MSG_TYPE_REPLICATE_WRITE, payload_size := 0 },
          filepath := full_filepath server_data_dir request.filepath,
          offset := ntohl little_endian (request.offset % 2 ^ 32),
          length := ntohl little_endian request.length % 2 ^ 32 }
        data (ntohl little_endian request.length) 0 secondaries j s hj ha
      simp only [Nat.zero_add] at hmem
      simp only [handle_replicate_write, storage_write, replication_replicate_write, hrecv,
        ne_eq, not_true_eq_false, if_false, hio1, hseek, hio3, Bool.not_true,
        Bool.false_eq_true, hpath]
      exact hmem
    · intro hrem
      have hmem := replicate_delete_loop_sends send
        { header := { request_id := 0, type := MSG_TYPE_REPLICATE_DELETE, payload_size := 0 },
          filepath := full_filepath server_data_dir delete_request.filepath }
        0 secondaries j s hj ha
      simp only [Nat.zero_add] at hmem
      simp only [handle_replicate_delete, storage_delete_file, replication_replicate_delete,
        hrem, Bool.not_true, Bool.false_eq_true, if_false, hpath]
      exact hmem

/-- Whatever values the sends return, `replication_replicate_write` and
`replication_replicate_delete` give `ERR_SUCCESS` and keep the number of secondaries. A
secondary with `is_alive = 0` on entry is left as it is and nothing is sent to it; a secondary
alive on entry one of whose sends does not return the full size has `is_alive = 0` afterwards,
and one whose sends all return the full size is left as it is. The code `storage_write` gives
is the same for any two behaviours of the sends. -/
theorem returned_send_errors_absorbed (send : Nat → Nat → Int) (filepath : List Char)
    (offset : Nat) (buffer : List Nat) (length : Nat) (secondaries : List SecondaryServer) :
    (replication_replicate_write send filepath offset buffer length secondaries).1
      = ERR_SUCCESS ∧
    (replication_replicate_delete send filepath secondaries).1 = ERR_SUCCESS ∧
    (replication_replicate_write send filepath offset buffer length secondaries).2.1.length
      = secondaries.length ∧
    (replication_replicate_delete send filepath secondaries).2.1.length = secondaries.length ∧
    (∀ (i : Nat) (s : SecondaryServer), secondaries[i]? = some s →
      (s.is_alive = 0 →
        (replication_replicate_write send filepath offset buffer length secondaries).2.1[i]?
          = some s ∧
        (replication_replicate_delete send filepath secondaries).2.1[i]? = some s ∧
        (∀ m ∈ (replication_replicate_write send filepath offset buffer length
            secondaries).2.2, m.dest ≠ i) ∧
        (∀ m ∈ (replication_replicate_delete send filepath secondaries).2.2, m.dest ≠ i)) ∧
      (s.is_alive ≠ 0 →
        (send i 0 ≠ SIZEOF_WRITE_REQUEST ∨ send i 1 ≠ to_ssize_t length) →
        (replication_replicate_write send filepath offset buffer length secondaries).2.1[i]?
          = some { s with is_alive := 0 }) ∧
      (s.is_alive ≠ 0 → send i 0 ≠ SIZEOF_DELETE_REQUEST →
        (replication_replicate_delete send filepath secondaries).2.1[i]?
          = some { s with is_alive := 0 }) ∧
      (send i 0 = SIZEOF_WRITE_REQUEST → send i 1 = to_ssize_t length →
        (replication_replicate_write send filepath offset buffer length secondaries).2.1[i]?
          = some s) ∧
      (send i 0 = SIZEOF_DELETE_REQUEST →
        (replication_replicate_delete send filepath secondaries).2.1[i]? = some s)) ∧
    (∀ (io : FileIO) (send2 : Nat → Nat → Int),
      (storage_write io send filepath offset buffer length secondaries).1
        = (storage_write io send2 filepath offset buffer length secondaries).1) := by
  have hlenw : ∀ (request : WriteRequest) (k : Nat) (l : List SecondaryServer),
      (replicate_write_loop send request buffer length k l).1.length = l.length := by
    intro request k l
    induction l generalizing k with
    | nil => simp [replicate_write_loop]
    | cons s rest ih =>
      unfold replicate_write_loop
      simp only
      split
      · split
        · simp [ih]
        · split <;> simp [ih]
      · simp [ih]
  have hlend : ∀ (request : DeleteRequest) (k : Nat) (l : List SecondaryServer),
      (replicate_delete_loop send request k l).1.length = l.length := by
    intro request k l
    induction l generalizing k with
    | nil => simp [replicate_delete_loop]
    | cons s rest ih =>
      unfold replicate_delete_loop
      simp only
      split
      · split <;> simp [ih]
      · simp [ih]
  refine ⟨rfl, rfl, hlenw _ 0 _, hlend _ 0 _, ?_, ?_⟩
  · intro i s hi
    have hw := fun request => replicate_write_loop_getElem? send request buffer length 0
      secondaries i
    have hd := fun request => replicate_delete_loop_getElem? send request 0 secondaries i
    simp only [Nat.zero_add, hi, Option.map_some'] at hw hd
    refine ⟨?_, ?_, ?_, ?_, ?_⟩
    · intro ha
      refine ⟨?_, ?_, ?_, ?_⟩
      · simp only [replication_replicate_write, hw]
        simp [ha]
      · simp only [replication_replicate_delete, hd]
        simp [ha]
      · intro m hm hdest
        obtain ⟨j, s2, h1, h2, h3⟩ := replicate_write_loop_sent _ _ _ _ _ _ m hm
        have hji : j = i := by
          rcases h3 with h3 | h3 <;> simp [h3, Sent.dest] at hdest <;> omega
        subst hji
        rw [hi] at h1
        simp only [Option.some.injEq] at h1
        subst h1
        exact h2 ha
      · intro m hm hdest
        obtain ⟨j, s2, h1, h2, h3⟩ := replicate_delete_loop_sent _ _ _ _ m hm
        have hji : j = i := by
          simp [h3, Sent.dest] at hdest
          omega
        subst hji
        rw [hi] at h1
        simp only [Option.some.injEq] at h1
        subst h1
        exact h2 ha
    · intro ha hfail
      simp only [replication_replicate_write, hw]
      simp [ha, hfail]
    · intro ha hfail
      simp only [replication_replicate_delete, hd]
      simp [ha, hfail]
    · intro h0 h1
      simp only [replication_replicate_write, hw]
      simp [h0, h1]
    · intro h0
      simp only [replication_replicate_delete, hd]
      simp [h0]
  · intro io send2
    unfold storage_write
    split
    · rfl
    · split
      · rfl
      · split <;> rfl

/-- The `GET_LOCATION` handler without the locks, for a request with identifier `r` whose
payload is the path `p` with its terminator. The tree is unchanged. If `directory_get_metadata`
finds a record `m` at `p`, the reply is a `LOCATION` header with identifier `r` and payload
size 18 in network order, the 16-byte host field and the port with its most significant byte
first; the host field reads back as `m.storage_server_ip` when that string is shorter than 16
bytes. Otherwise the reply is an `ERROR` header with identifier `r` followed by
`ERR_FILE_NOT_FOUND` (-10) in network order. After a registration from peer `ip` with port
`port` that lists the valid path `p`, the reply is the `LOCATION` frame of `ip` and `port`. -/
theorem get_location_reply_data (little_endian : Bool) (after : Nat → Nat) (header : MessageHeader)
    (p : List Char) (rest : List Nat) (root : DirectoryEntry)
    (hp : ∀ c ∈ p, c.toNat ≠ 0)
    (hsize : ntohl little_endian header.payload_size = p.length + 1) :
    (handle_client_request little_endian after header (c_bytes p ++ 0 :: rest) root).2 = root ∧
    (∀ m, directory_get_metadata p root = (ERR_SUCCESS, some m) →
      (handle_client_request little_endian after header (c_bytes p ++ 0 :: rest) root).1 =
        MessageHeader.bytes little_endian
            { request_id := header.request_id, type := MSG_TYPE_LOCATION,
              payload_size := htonl little_endian 18 } ++
          (c_bytes m.storage_server_ip ++ 0 :: (List.range 16).map after).take 16 ++
          [m.storage_server_port / 256 % 256, m.storage_server_port % 256] ∧
      (m.storage_server_ip.length < 16 → (∀ c ∈ m.storage_server_ip, c.toNat ≠ 0) →
        c_string ((c_bytes m.storage_server_ip ++ 0 :: (List.range 16).map after).take 16)
          = m.storage_server_ip)) ∧
    ((directory_get_metadata p root).1 ≠ ERR_SUCCESS →
      (handle_client_request little_endian after header (c_bytes p ++ 0 :: rest) root).1 =
        MessageHeader.bytes little_endian
            { request_id := header.request_id, type := MSG_TYPE_ERROR,
              payload_size := htonl little_endian 4 } ++ [255, 255, 255, 246]) ∧
    (∀ (ip : List Char) (port size permissions : Nat) (paths : List (List Char)),
      p ∈ paths → (split_path p ≠ [] ∨ p = ['/']) →
      (handle_client_request little_endian after header (c_bytes p ++ 0 :: rest)
          (handle_storage_server_registration ip port size permissions paths root)).1 =
        MessageHeader.bytes little_endian
            { request_id := header.request_id, type := MSG_TYPE_LOCATION,
              payload_size := htonl little_endian 18 } ++
          (c_bytes ip ++ 0 :: (List.range 16).map after).take 16 ++
          [port / 256 % 256, port % 256]) := by
  refine ⟨?_, ?_, ?_, ?_⟩
  · rw [handle_client_request_eq little_endian after header p rest root hp hsize]
    cases (directory_get_metadata p root).2 <;> rfl
  · intro m hm
    refine ⟨?_, fun hlen hz => c_string_field hz _ hlen⟩
    rw [handle_client_request_eq little_endian after header p rest root hp hsize, hm]
  · intro hne
    have hnone : (directory_get_metadata p root).2 = none := by
      unfold directory_get_metadata at hne ⊢
      by_cases hl : (directory_lookup p root).1 = ERR_SUCCESS
      · simp only [hl, ne_eq, not_true_eq_false, if_false] at hne ⊢
        cases hm : (entry_at (directory_lookup p root).2.2 (directory_lookup p root).2.1).bind
            DirectoryEntry.metadata with
        | none => rfl
        | some m => simp [hm] at hne
      · simp only [hl, ne_eq, not_false_eq_true, if_true]
    rw [handle_client_request_eq little_endian after header p rest root hp hsize, hnone]
  · intro ip port size permissions paths hmem hvalid
    rw [handle_client_request_eq little_endian after header p rest _ hp hsize,
      registration_metadata ip port size permissions paths root hmem hvalid]

/-! ## directory.c with its lock calls -/

/-! ## The tree with locks and the tree without -/

namespace Libc

@[simp] theorem name_set_lock (e : DirectoryEntry) (l : RwLock) :
    (e.set_lock l).name = e.name := by cases e; rfl

@[simp] theorem children_set_lock (e : DirectoryEntry) (l : RwLock) :
    (e.set_lock l).children = e.children := by cases e; rfl

@[simp] theorem lock_set_lock (e : DirectoryEntry) (l : RwLock) :
    (e.set_lock l).lock = l := by cases e; rfl

@[simp] theorem metadata_set_lock (e : DirectoryEntry) (l : RwLock) :
    (e.set_lock l).metadata = e.metadata := by cases e; rfl

@[simp] theorem lock_set_children (e : DirectoryEntry) (c : List DirectoryEntry) :
    (e.set_children c).lock = e.lock := by cases e; rfl

@[simp] theorem children_set_children_lock (e : DirectoryEntry) (c : List DirectoryEntry) :
    (e.set_children c).children = c := by cases e; rfl

@[simp] theorem name_set_children_lock (e : DirectoryEntry) (c : List DirectoryEntry) :
    (e.set_children c).name = e.name := by cases e; rfl

@[simp] theorem lock_set_metadata (e : DirectoryEntry) (m : Option FileMetadata) :
    (e.set_metadata m).lock = e.lock := by cases e; rfl

@[simp] theorem children_set_metadata_lock (e : DirectoryEntry) (m : Option FileMetadata) :
    (e.set_metadata m).children = e.children := by cases e; rfl

@[simp] theorem name_set_metadata_lock (e : DirectoryEntry) (m : Option FileMetadata) :
    (e.set_metadata m).name = e.name := by cases e; rfl

@[simp] theorem metadata_set_metadata_lock (e : DirectoryEntry) (m : Option FileMetadata) :
    (e.set_metadata m).metadata = m := by cases e; rfl

theorem data_list_eq_map (cs : List DirectoryEntry) : data_list cs = cs.map data := by
  induction cs with
  | nil => rfl
  | cons c cs ih => simp [data_list, ih]

@[simp] theorem data_name (e : DirectoryEntry) : (data e).name = e.name := by
  cases e; rfl

@[simp] theorem data_children (e : DirectoryEntry) : (data e).children = e.children.map data := by
  cases e
  simp [data, data_list_eq_map, NFS.DirectoryEntry.children, DirectoryEntry.children]

@[simp] theorem data_metadata (e : DirectoryEntry) : (data e).metadata = e.metadata := by
  cases e; rfl

@[simp] theorem data_is_directory (e : DirectoryEntry) :
    (data e).is_directory = e.is_directory := by
  cases e; rfl

@[simp] theorem data_set_lock (e : DirectoryEntry) (l : RwLock) :
    data (e.set_lock l) = data e := by cases e; rfl

@[simp] theorem data_set_children (e : DirectoryEntry) (c : List DirectoryEntry) :
    data (e.set_children c) = (data e).set_children (c.map data) := by
  cases e
  simp [data, data_list_eq_map, NFS.DirectoryEntry.set_children, DirectoryEntry.set_children]

@[simp] theorem data_set_metadata (e : DirectoryEntry) (m : Option FileMetadata) :
    data (e.set_metadata m) = (data e).set_metadata m := by cases e; rfl

@[simp] theorem data_new_child (token : List Char) (last : Bool) (d : Int) :
    data (new_child token last d) = NFS.new_child token last d := rfl

@[simp] theorem data_directory_init : data directory_init = NFS.directory_init := rfl

theorem find_child_data (cs : List DirectoryEntry) (token : List Char) :
    NFS.find_child (cs.map data) token
      = (find_child cs token).map (fun r => (r.1, data r.2)) := by
  induction cs with
  | nil => rfl
  | cons c cs ih =>
    simp only [List.map_cons, NFS.find_child, find_child, data_name]
    by_cases h : c.name = token
    · simp [h]
    · simp only [h, if_false, ih, Option.map_map]
      rfl

/-- The walk of `directory_lookup_internal` with the lock calls, when it returns, returns what
the walk on the tree without locks returns. -/
theorem lookup_loop_data (create : Bool) (d : Int) (tokens : List (List Char))
    (current : DirectoryEntry) (r : ErrorCode × DirectoryEntry × List Nat)
    (h : lookup_loop create d tokens current = some r) :
    NFS.lookup_loop create d tokens (data current) = (r.1, data r.2.1, r.2.2) := by
  induction tokens generalizing current r with
  | nil =>
    simp only [lookup_loop, Option.some.injEq] at h
    subst h
    simp [NFS.lookup_loop]
  | cons token rest ih =>
    unfold lookup_loop at h
    unfold NFS.lookup_loop
    rw [data_children, find_child_data]
    cases hw : pthread_rwlock_wrlock current.lock with
    | none => simp [hw] at h
    | some held =>
      simp only [hw] at h
      cases hf : find_child current.children token with
      | some jc =>
        obtain ⟨j, child⟩ := jc
        simp only [hf] at h
        cases hr : pthread_rwlock_rdlock child.lock with
        | none => simp [hr] at h
        | some l =>
          simp only [hr] at h
          cases hrec : lookup_loop create d rest (child.set_lock l) with
          | none => simp [hrec] at h
          | some r2 =>
            simp only [hrec, Option.some.injEq] at h
            subst h
            have := ih _ _ hrec
            rw [data_set_lock] at this
            simp [this, List.map_set]
      | none =>
        simp only [hf] at h
        by_cases hc : create = true
        · simp only [hc, if_true] at h ⊢
          cases hrec : lookup_loop true d rest (new_child token rest.isEmpty d) with
          | none => simp [hrec] at h
          | some r2 =>
            simp only [hrec, Option.some.injEq] at h
            subst h
            have := ih _ _ (hc ▸ hrec)
            rw [data_new_child] at this
            simp [hc] at this
            simp [this]
        · simp only [hc, if_false, Bool.false_eq_true, Option.some.injEq] at h ⊢
          subst h
          simp

end Libc

/-- Storing the element that is there leaves a list as it is. -/
theorem set_getElem?_same {α : Type} {l : List α} {i : Nat} {a : α} (h : l[i]? = some a) :
    l.set i a = l := by
  induction l generalizing i with
  | nil => rfl
  | cons x xs ih =>
    cases i with
    | zero =>
      simp only [List.getElem?_cons_zero, Option.some.injEq] at h
      simp [h]
    | succ k =>
      simp only [List.getElem?_cons_succ] at h
      simp [ih h]

theorem map_eraseIdx_comm {α β : Type} (f : α → β) (l : List α) (i : Nat) :
    (l.eraseIdx i).map f = (l.map f).eraseIdx i := by
  induction l generalizing i with
  | nil => rfl
  | cons x xs ih =>
    cases i with
    | zero => rfl
    | succ k => simp [List.eraseIdx, ih]

namespace Libc

theorem entry_at_data (ptr : List Nat) (e : DirectoryEntry) :
    NFS.entry_at ptr (data e) = (entry_at ptr e).map data := by
  induction ptr generalizing e with
  | nil => rfl
  | cons i rest ih =>
    simp only [NFS.entry_at, entry_at, data_children, List.getElem?_map]
    cases e.children[i]? with
    | none => rfl
    | some c => simpa using ih c

theorem update_at_data (f : DirectoryEntry → DirectoryEntry)
    (g : NFS.DirectoryEntry → NFS.DirectoryEntry) (hfg : ∀ x, data (f x) = g (data x))
    (ptr : List Nat) (e : DirectoryEntry) :
    data (update_at f ptr e) = NFS.update_at g ptr (data e) := by
  induction ptr generalizing e with
  | nil => exact hfg e
  | cons i rest ih =>
    simp only [NFS.update_at, update_at, data_children, List.getElem?_map]
    cases e.children[i]? with
    | none => rfl
    | some c => simp [ih c, List.map_set]

/-- A store to the lock of a node leaves the tree without locks as it is. -/
theorem update_at_lock_data (f : DirectoryEntry → DirectoryEntry)
    (hf : ∀ x, data (f x) = data x) (ptr : List Nat) (e : DirectoryEntry) :
    data (update_at f ptr e) = data e := by
  induction ptr generalizing e with
  | nil => exact hf e
  | cons i rest ih =>
    simp only [update_at]
    cases hc : e.children[i]? with
    | none => rfl
    | some c =>
      simp only [data_set_children, List.map_set, ih c]
      have h1 : (e.children.map data)[i]? = some (data c) := by
        rw [List.getElem?_map, hc]
        rfl
      rw [set_getElem?_same h1, ← data_children]
      exact NFS.set_children_children _

theorem unlink_entry_data (ptr : List Nat) (e : DirectoryEntry) :
    data (unlink_entry ptr e) = NFS.unlink_entry ptr (data e) := by
  induction ptr generalizing e with
  | nil => rfl
  | cons i rest ih =>
    cases rest with
    | nil => simp [unlink_entry, NFS.unlink_entry, map_eraseIdx_comm]
    | cons j rest2 =>
      simp only [NFS.unlink_entry, unlink_entry, data_children, List.getElem?_map]
      cases e.children[i]? with
      | none => rfl
      | some c => simp [ih c, List.map_set]

theorem directory_lookup_internal_data (path : List Char) (create : Bool) (d : Int)
    (root : DirectoryEntry) (r : ErrorCode × DirectoryEntry × List Nat)
    (h : directory_lookup_internal path create d root = some r) :
    NFS.directory_lookup_internal path create d (data root) = (r.1, data r.2.1, r.2.2) := by
  unfold directory_lookup_internal at h
  unfold NFS.directory_lookup_internal
  simp only at h ⊢
  split at h
  · rename_i hc
    simp only [Option.some.injEq] at h
    subst h
    simp [hc]
  · rename_i hc
    simp only [hc, if_false]
    exact lookup_loop_data _ _ _ _ _ h

theorem directory_lookup_data (path : List Char) (root : DirectoryEntry)
    (r : ErrorCode × DirectoryEntry × List Nat) (h : directory_lookup path root = some r) :
    NFS.directory_lookup path (data root) = (r.1, data r.2.1, r.2.2) :=
  directory_lookup_internal_data _ _ _ _ _ h

/-- A `directory_lookup` that returns leaves the tree without locks as it was. -/
theorem directory_lookup_keeps_data (path : List Char) (root : DirectoryEntry)
    (r : ErrorCode × DirectoryEntry × List Nat) (h : directory_lookup path root = some r) :
    data r.2.1 = data root := by
  have h1 := directory_lookup_data path root r h
  have h2 := NFS.directory_lookup_tree path (data root)
  rw [h1] at h2
  exact h2

theorem directory_create_data (path : List Char) (root : DirectoryEntry)
    (r : ErrorCode × DirectoryEntry) (h : directory_create path root = some r) :
    NFS.directory_create path (data root) = (r.1, data r.2) := by
  unfold directory_create at h
  cases hl : directory_lookup_internal path true 1 root with
  | none => simp [hl] at h
  | some r2 =>
    simp only [hl, Option.map_some', Option.some.injEq] at h
    subst h
    unfold NFS.directory_create
    simp [directory_lookup_internal_data _ _ _ _ _ hl]

theorem directory_register_file_data (path : List Char) (m : FileMetadata)
    (root : DirectoryEntry) (r : ErrorCode × DirectoryEntry)
    (h : directory_register_file path m root = some r) :
    NFS.directory_register_file path m (data root) = (r.1, data r.2) := by
  unfold directory_register_file at h
  cases hl : directory_lookup_internal path true 0 root with
  | none => simp [hl] at h
  | some r2 =>
    simp only [hl] at h
    unfold NFS.directory_register_file
    simp only [directory_lookup_internal_data _ _ _ _ _ hl]
    by_cases hc : r2.1 = ERR_SUCCESS
    · simp only [hc, ne_eq, not_true_eq_false, if_false, Option.some.injEq] at h ⊢
      subst h
      simp only [Prod.mk.injEq, true_and]
      exact (update_at_data _ _ (fun x => by simp) _ _).symm
    · simp only [hc, ne_eq, not_false_eq_true, if_true, Option.some.injEq] at h ⊢
      subst h
      rfl

end Libc

namespace Libc

theorem entry_at_dropLast {i : Nat} {rest : List Nat} {t e : DirectoryEntry}
    (h : entry_at (i :: rest) t = some e) : ∃ p, entry_at (i :: rest).dropLast t = some p := by
  induction rest generalizing i t with
  | nil => exact ⟨t, rfl⟩
  | cons j rest ih =>
    simp only [entry_at] at h
    cases hc : t.children[i]? with
    | none => simp [hc] at h
    | some c =>
      simp only [hc] at h
      obtain ⟨p, hp⟩ := ih (i := j) (t := c) (by simpa [entry_at] using h)
      refine ⟨p, ?_⟩
      simp only [List.dropLast_cons₂, entry_at, hc]
      exact hp

theorem directory_delete_data (path : List Char) (root : DirectoryEntry)
    (r : ErrorCode × Option DirectoryEntry) (h : directory_delete path root = some r) :
    NFS.directory_delete path (data root) = (r.1, r.2.map data) := by
  unfold directory_delete at h
  cases hl : directory_lookup path root with
  | none => simp [hl] at h
  | some r2 =>
    simp only [hl] at h
    unfold NFS.directory_delete
    simp only [directory_lookup_data _ _ _ hl, entry_at_data]
    by_cases hc : r2.1 = ERR_SUCCESS
    · simp only [hc, ne_eq, not_true_eq_false, if_false] at h ⊢
      cases he : entry_at r2.2.2 r2.2.1 with
      | none =>
        simp only [he, Option.some.injEq] at h
        subst h
        rfl
      | some entry =>
        simp only [he, Option.map_some', data_children, List.length_map] at h ⊢
        cases hw : pthread_rwlock_wrlock entry.lock with
        | none => simp [hw] at h
        | some held =>
          simp only [hw] at h
          by_cases hch : entry.children.length > 0
          · simp only [hch, if_true, Option.some.injEq] at h ⊢
            subst h
            simp only [Option.map_some', Prod.mk.injEq, Option.some.injEq, true_and]
            exact (update_at_lock_data _ (fun x => by simp) _ _).symm
          · simp only [hch, if_false] at h ⊢
            cases hp : r2.2.2 with
            | nil =>
              simp only [hp] at h
              split at h
              · simp only [Option.some.injEq] at h
                subst h
                rfl
              · cases h
            | cons i rest =>
              rw [hp] at he
              obtain ⟨parent, hparent⟩ := entry_at_dropLast he
              simp only [hp, hparent] at h
              cases hpw : pthread_rwlock_wrlock parent.lock with
              | none => simp [hpw] at h
              | some parent_held =>
                simp only [hpw] at h
                split at h
                · simp only [Option.some.injEq] at h
                  subst h
                  simp only [Option.map_some', Prod.mk.injEq, Option.some.injEq, true_and]
                  rw [update_at_lock_data _ (fun x => by simp), unlink_entry_data]
                · cases h
    · simp only [hc, ne_eq, not_false_eq_true, if_true, Option.some.injEq] at h ⊢
      subst h
      rfl

theorem directory_get_metadata_data (path : List Char) (root : DirectoryEntry)
    (r : ErrorCode × Option FileMetadata × DirectoryEntry)
    (h : directory_get_metadata path root = some r) :
    NFS.directory_get_metadata path (data root) = (r.1, r.2.1) ∧ data r.2.2 = data root := by
  unfold directory_get_metadata at h
  cases hl : directory_lookup path root with
  | none => simp [hl] at h
  | some r2 =>
    simp only [hl] at h
    have hkeep := directory_lookup_keeps_data _ _ _ hl
    unfold NFS.directory_get_metadata
    simp only [directory_lookup_data _ _ _ hl, entry_at_data]
    by_cases hc : r2.1 = ERR_SUCCESS
    · simp only [hc, ne_eq, not_true_eq_false, if_false] at h ⊢
      cases he : entry_at r2.2.2 r2.2.1 with
      | none =>
        simp only [he, Option.some.injEq] at h
        subst h
        exact ⟨rfl, hkeep⟩
      | some entry =>
        simp only [he, Option.map_some', Option.some_bind, data_metadata] at h ⊢
        cases hw : pthread_rwlock_rdlock entry.lock with
        | none => simp [hw] at h
        | some l =>
          simp only [hw] at h
          cases hm : entry.metadata with
          | none =>
            simp only [hm, Option.some.injEq] at h
            subst h
            exact ⟨rfl, (update_at_lock_data _ (fun x => by simp) _ _).trans hkeep⟩
          | some m =>
            simp only [hm, Option.some.injEq] at h
            subst h
            exact ⟨rfl, (update_at_lock_data _ (fun x => by simp) _ _).trans hkeep⟩
    · simp only [hc, ne_eq, not_false_eq_true, if_true, Option.some.injEq] at h ⊢
      subst h
      exact ⟨rfl, hkeep⟩

/-- A call that returns with a tree leaves, without its locks, the tree that the function
without the lock calls leaves. -/
theorem run_op_data (op : DirOp) (t t2 : DirectoryEntry) (h : run_op op t = Outcome.state t2) :
    op.apply (data t) = some (data t2) := by
  cases op with
  | create p =>
    unfold run_op at h
    cases hc : directory_create p t with
    | none => simp [hc] at h
    | some r =>
      simp only [hc, Outcome.state.injEq] at h
      subst h
      simp [DirOp.apply, directory_create_data _ _ _ hc]
  | register_file p m =>
    unfold run_op at h
    cases hc : directory_register_file p m t with
    | none => simp [hc] at h
    | some r =>
      simp only [hc, Outcome.state.injEq] at h
      subst h
      simp [DirOp.apply, directory_register_file_data _ _ _ _ hc]
  | delete p =>
    unfold run_op at h
    cases hc : directory_delete p t with
    | none => simp [hc] at h
    | some r =>
      obtain ⟨code, o⟩ := r
      cases o with
      | none => simp [hc] at h
      | some t3 =>
        simp only [hc, Outcome.state.injEq] at h
        subst h
        simp [DirOp.apply, directory_delete_data _ _ _ hc]

/-- Every tree that a sequence of calls with the lock calls leaves is, without its locks, the
tree that the sequence leaves without the lock calls. -/
theorem run_ops_data (ops : List DirOp) (t t2 : DirectoryEntry)
    (h : run_ops ops t = Outcome.state t2) : NFS.run_ops ops (data t) = some (data t2) := by
  induction ops generalizing t with
  | nil =>
    simp only [run_ops, Outcome.state.injEq] at h
    subst h
    rfl
  | cons op ops ih =>
    unfold run_ops at h
    cases ho : run_op op t with
    | blocked => simp [ho] at h
    | root_freed => simp [ho] at h
    | state t3 =>
      simp only [ho] at h
      simp only [NFS.run_ops, run_op_data op t t3 ho, Option.some_bind]
      exact ih t3 h

end Libc

/-! ## The self-deadlock of `directory_lookup_internal` -/

namespace Libc

/-- A node that was found has its lock read-locked at line 148 and, when a further component
follows, write-locked at line 103 of the next iteration by the same thread. On a lock that is
idle (`__readers` 0 or 1, no writer) the first call registers a reader and the second waits
for that reader to leave: the call does not return. -/
theorem lookup_loop_deadlock (create : Bool) (d : Int) (t t2 : List Char)
    (rest : List (List Char)) (current : DirectoryEntry) (j : Nat) (child : DirectoryEntry)
    (hf : find_child current.children t = some (j, child))
    (hl : child.lock = { readers := 0, cur_writer := false } ∨
      child.lock = { readers := 1, cur_writer := false }) :
    lookup_loop create d (t :: t2 :: rest) current = none := by
  unfold lookup_loop
  cases hw : pthread_rwlock_wrlock current.lock with
  | none => rfl
  | some held =>
    simp only [hf]
    have hr : pthread_rwlock_rdlock child.lock = some { readers := 8, cur_writer := false } := by
      rcases hl with h | h <;> rw [h] <;> rfl
    simp only [hr]
    unfold lookup_loop
    have hw2 : pthread_rwlock_wrlock (child.set_lock { readers := 8, cur_writer := false }).lock
        = none := by
      rw [lock_set_lock]
      rfl
    simp only [hw2]

/-- The walk with `create` set, started at a node that was just allocated: it returns
`ERR_SUCCESS`; when a component follows, the node is left with an idle lock in a write phase
(`__readers = 1`) and one child, named by that component, and that child is left in the same
way when a further component follows. -/
theorem lookup_loop_new_child (d : Int) (tokens : List (List Char)) (n : List Char)
    (last : Bool) (d0 : Int) :
    ∃ r, lookup_loop true d tokens (new_child n last d0) = some r ∧ r.1 = ERR_SUCCESS ∧
      r.2.1.name = n ∧ r.2.2.length = tokens.length ∧
      (∀ t rest, tokens = t :: rest →
        r.2.1.lock = { readers := 1, cur_writer := false } ∧
        ∃ c q, r.2.1.children = [c] ∧ r.2.2 = 0 :: q ∧ c.name = t ∧
          (rest ≠ [] → c.lock = { readers := 1, cur_writer := false })) := by
  induction tokens generalizing n last d0 with
  | nil =>
    refine ⟨_, rfl, rfl, rfl, rfl, ?_⟩
    intro t rest h
    cases h
  | cons t rest ih =>
    obtain ⟨r2, h1, h2, h3, h4, h5⟩ := ih t rest.isEmpty d
    refine ⟨(r2.1, ((new_child n last d0).set_lock { readers := 1, cur_writer := false }
      ).set_children [r2.2.1], 0 :: r2.2.2), ?_, h2, rfl, by simp [h4], ?_⟩
    · unfold lookup_loop
      have hw : pthread_rwlock_wrlock (new_child n last d0).lock
          = some { readers := 3, cur_writer := true } := by
        have hl : (new_child n last d0).lock = pthread_rwlock_init := rfl
        rw [hl]
        rfl
      have hf : find_child (new_child n last d0).children t = none := rfl
      simp only [hw, hf, if_true, h1]
      rfl
    · intro t' rest' heq
      simp only [List.cons.injEq] at heq
      obtain ⟨rfl, rfl⟩ := heq
      refine ⟨rfl, r2.2.1, r2.2.2, rfl, rfl, h3, ?_⟩
      intro hne
      cases rest with
      | nil => exact absurd rfl hne
      | cons t2 rest2 => exact (h5 t2 rest2 rfl).1

theorem directory_init_new_child : directory_init = new_child ['/'] true 1 := rfl

/-- A store through a pointer below a node leaves the name and the lock of the node. -/
theorem update_at_cons (f : DirectoryEntry → DirectoryEntry) (i : Nat) (q : List Nat)
    (e : DirectoryEntry) :
    (update_at f (i :: q) e).name = e.name ∧ (update_at f (i :: q) e).lock = e.lock := by
  simp only [update_at]
  cases e.children[i]? with
  | none => exact ⟨rfl, rfl⟩
  | some c => simp

end Libc

/-- A node at `a/b` under which a node `a/b/c` resolves has a child. -/
theorem resolve_has_child {a b c : List Char} {s n2 n3 : DirectoryEntry}
    (h2 : resolve [a, b] s = some n2) (h3 : resolve [a, b, c] s = some n3) :
    0 < n2.children.length := by
  rw [resolve_cons] at h2 h3
  cases hfa : find_child s.children a with
  | none => simp [hfa] at h2
  | some x =>
    simp only [hfa, Option.map_some', Option.some_bind] at h2 h3
    rw [resolve_cons] at h2 h3
    cases hfb : find_child x.2.children b with
    | none => simp [hfb] at h2
    | some y =>
      simp only [hfb, Option.map_some', Option.some_bind] at h2 h3
      simp only [resolve, Option.some.injEq] at h2
      subst h2
      rw [resolve_cons] at h3
      cases hy : y.2.children with
      | nil => simp [hy, find_child] at h3
      | cons z zs => simp

namespace Libc

/-- The first walk with `create` set along a path of two or more components on the tree of
`directory_init`: it returns `ERR_SUCCESS` and leaves the node of the first component as the
only child of the root, with an idle lock (`__readers = 1`). -/
theorem fresh_walk (d : Int) (a b : List Char) (rest : List (List Char)) :
    ∃ r c i q, lookup_loop true d (a :: b :: rest) directory_init = some r ∧
      r.1 = ERR_SUCCESS ∧ r.2.1.children = [c] ∧ c.name = a ∧
      c.lock = { readers := 1, cur_writer := false } ∧ r.2.2 = 0 :: i :: q := by
  obtain ⟨r, h1, h2, -, h4, h5⟩ := lookup_loop_new_child d (a :: b :: rest) ['/'] true 1
  obtain ⟨-, c, q, hch, hptr, hcn, hcl⟩ := h5 a (b :: rest) rfl
  rw [hptr] at h4
  cases q with
  | nil => simp at h4
  | cons i q2 =>
    exact ⟨r, c, i, q2, by rw [directory_init_new_child]; exact h1, h2, hch, hcn,
      hcl (by simp), hptr⟩

/-- A walk along a path of two or more components whose first component is the only child of
the node it starts at, when the lock of that child is idle: the walk does not return. -/
theorem walk_blocks (create : Bool) (d : Int) (a b : List Char) (rest : List (List Char))
    (s c : DirectoryEntry) (hch : s.children = [c]) (hn : c.name = a)
    (hl : c.lock = { readers := 1, cur_writer := false }) :
    lookup_loop create d (a :: b :: rest) s = none := by
  apply lookup_loop_deadlock create d a b rest s 0 c _ (Or.inr hl)
  rw [hch]
  simp [find_child, hn]

/-- The tree after a store through a pointer of two or more indices into a tree whose root has
one child: the root still has one child, with the name and the lock it had. -/
theorem update_at_deep (f : DirectoryEntry → DirectoryEntry) (i : Nat) (q : List Nat)
    (t c : DirectoryEntry) (hch : t.children = [c]) :
    ∃ c2, (update_at f (0 :: i :: q) t).children = [c2] ∧ c2.name = c.name ∧
      c2.lock = c.lock := by
  refine ⟨update_at f (i :: q) c, ?_, (update_at_cons f i q c).1, (update_at_cons f i q c).2⟩
  simp [update_at, hch]

/-- On a path with a component the walk of `directory_lookup_internal` is the loop over its
tokens. -/
theorem directory_lookup_internal_cons (create : Bool) (d : Int) (root : DirectoryEntry)
    {p : List Char} {a : List Char} {rest : List (List Char)} (hp : split_path p = a :: rest) :
    directory_lookup_internal p create d root = lookup_loop create d (a :: rest) root := by
  unfold directory_lookup_internal
  simp [hp]

/-- The first `directory_create` of a path of two or more components on the tree of
`directory_init`: it returns `ERR_SUCCESS` and leaves the node of the first component as the
only child of the root, with an idle lock. -/
theorem directory_create_fresh {p a b : List Char} {rest : List (List Char)}
    (hp : split_path p = a :: b :: rest) :
    ∃ s1 c, directory_create p directory_init = some (ERR_SUCCESS, s1) ∧ s1.children = [c] ∧
      c.name = a ∧ c.lock = { readers := 1, cur_writer := false } := by
  obtain ⟨r, c, i, q, h1, h2, hch, hcn, hcl, -⟩ := fresh_walk 1 a b rest
  refine ⟨r.2.1, c, ?_, hch, hcn, hcl⟩
  unfold directory_create
  rw [directory_lookup_internal_cons true 1 _ hp, h1, ← h2]
  rfl

/-- The first `directory_register_file` of a path of two or more components on the tree of
`directory_init`: it returns `ERR_SUCCESS` and leaves the node of the first component as the
only child of the root, with an idle lock. -/
theorem directory_register_file_fresh {p a b : List Char} {rest : List (List Char)}
    (hp : split_path p = a :: b :: rest) (m : FileMetadata) :
    ∃ s1 c, directory_register_file p m directory_init = some (ERR_SUCCESS, s1) ∧
      s1.children = [c] ∧ c.name = a ∧ c.lock = { readers := 1, cur_writer := false } := by
  obtain ⟨r, c, i, q, h1, h2, hch, hcn, hcl, hptr⟩ := fresh_walk 0 a b rest
  obtain ⟨c2, g1, g2, g3⟩ := update_at_deep
    (fun e => (e.set_metadata (some m)).set_lock (pthread_rwlock_unlock e.lock)) i q r.2.1 c hch
  refine ⟨_, c2, ?_, g1, g2.trans hcn, g3.trans hcl⟩
  unfold directory_register_file
  rw [directory_lookup_internal_cons true 0 _ hp, h1]
  simp [h2, hptr]

/-- Every call that walks a path of two or more components whose first component is the only
child of the root, when the lock of that child is idle, does not return. -/
theorem calls_block {q a b : List Char} {rest : List (List Char)} {s c : DirectoryEntry}
    (hq : split_path q = a :: b :: rest) (hch : s.children = [c]) (hn : c.name = a)
    (hl : c.lock = { readers := 1, cur_writer := false }) :
    directory_lookup q s = none ∧ directory_create q s = none ∧
    (∀ m, directory_register_file q m s = none) ∧ directory_delete q s = none ∧
    directory_get_metadata q s = none := by
  have h0 : directory_lookup q s = none := by
    unfold directory_lookup
    rw [directory_lookup_internal_cons false 0 _ hq, walk_blocks false 0 a b rest s c hch hn hl]
  refine ⟨h0, ?_, ?_, ?_, ?_⟩
  · unfold directory_create
    rw [directory_lookup_internal_cons true 1 _ hq, walk_blocks true 1 a b rest s c hch hn hl]
    rfl
  · intro m
    unfold directory_register_file
    rw [directory_lookup_internal_cons true 0 _ hq, walk_blocks true 0 a b rest s c hch hn hl]
  · unfold directory_delete
    rw [h0]
  · unfold directory_get_metadata
    rw [h0]

end Libc

namespace Libc

theorem set_lock_set_lock (e : DirectoryEntry) (l1 l2 : RwLock) :
    (e.set_lock l1).set_lock l2 = e.set_lock l2 := by
  cases e; rfl

theorem set_lock_lock (e : DirectoryEntry) : e.set_lock e.lock = e := by
  cases e; rfl

/-- A call sequence in two parts: the second part runs on the tree the first part left. -/
theorem run_ops_append (a b : List DirOp) (t : DirectoryEntry) :
    run_ops (a ++ b) t =
      match run_ops a t with
      | Outcome.state t2 => run_ops b t2
      | o => o := by
  induction a generalizing t with
  | nil => rfl
  | cons op a ih =>
    simp only [List.cons_append, run_ops]
    cases h : run_op op t with
    | blocked => rfl
    | root_freed => rfl
    | state t2 => exact ih t2

/-- The call `directory_lookup_internal("/", ..)` runs no iteration of the loop and unlocks the
root at line 155. -/
theorem directory_lookup_internal_root (create : Bool) (d : Int) (t : DirectoryEntry) :
    directory_lookup_internal ['/'] create d t
      = some (ERR_SUCCESS, t.set_lock (pthread_rwlock_unlock t.lock), []) := by
  unfold directory_lookup_internal
  simp [split_path, split_path_loop, lookup_loop]

/-- The call `directory_create("/")` unlocks the lock of the root once. -/
theorem directory_create_root (t : DirectoryEntry) :
    directory_create ['/'] t = some (ERR_SUCCESS, t.set_lock (pthread_rwlock_unlock t.lock)) := by
  unfold directory_create
  rw [directory_lookup_internal_root]
  rfl

/-- The tree after `n` calls `directory_create("/")`: the lock of the root was unlocked `n`
times. -/
theorem run_ops_create_root (n : Nat) (t : DirectoryEntry) :
    run_ops (List.replicate n (DirOp.create ['/'])) t
      = Outcome.state (t.set_lock (Nat.iterate pthread_rwlock_unlock n t.lock)) := by
  induction n generalizing t with
  | zero => simp [run_ops, set_lock_lock]
  | succ n ih =>
    rw [List.replicate_succ, run_ops]
    simp only [run_op, directory_create_root]
    rw [ih, set_lock_set_lock, lock_set_lock, Function.iterate_succ_apply]

/-- An unlock by a thread that is not the writer of the lock takes one reader off the count,
modulo `2 ^ 29`, whatever the count was. -/
theorem pthread_rwlock_unlock_reader (r : Nat) (h8 : r % 8 = 0) (hr : 16 ≤ r)
    (h32 : r < 4294967296) :
    pthread_rwlock_unlock { readers := r, cur_writer := false }
      = { readers := r - 8, cur_writer := false } := by
  unfold pthread_rwlock_unlock
  have e : (r + 2 ^ 32 - 8) % 2 ^ 32 = r - 8 := by
    norm_num
    omega
  simp only [Bool.false_eq_true, if_false, e]
  rw [if_neg (by omega)]

/-- The lock word of a never-locked lock after `n` unlocks, for `n` below `2 ^ 29`. -/
theorem pthread_rwlock_unlock_iterate (n : Nat) (hn : n < 536870912) :
    Nat.iterate pthread_rwlock_unlock n pthread_rwlock_init
      = { readers := (4294967296 - 8 * n) % 4294967296, cur_writer := false } := by
  induction n with
  | zero => rfl
  | succ n ih =>
    rw [Function.iterate_succ_apply', ih (by omega)]
    rcases Nat.eq_zero_or_pos n with h0 | hpos
    · subst h0
      decide
    · have e1 : (4294967296 - 8 * n) % 4294967296 = 4294967296 - 8 * n := by omega
      have e2 : (4294967296 - 8 * (n + 1)) % 4294967296 = 4294967296 - 8 * n - 8 := by omega
      rw [e1, e2]
      exact pthread_rwlock_unlock_reader _ (by omega) (by omega) (by omega)

end Libc

namespace Libc

theorem root_lock_inv_mono {K K2 : Nat} {l : RwLock} (h : root_lock_inv K l) (hk : K ≤ K2) :
    root_lock_inv K2 l := by
  obtain ⟨h1, h2, h3, k, h4, h5⟩ := h
  exact ⟨h1, h2, h3, k, le_trans h4 hk, h5⟩

theorem root_lock_inv_init : root_lock_inv 0 directory_init.lock :=
  ⟨rfl, by decide, by decide, 0, le_refl 0, by decide⟩

/-- An unlock of the root by a caller that does not hold it takes one reader off the count;
the count reaches zero only after `2 ^ 29` such unlocks. -/
theorem root_lock_inv_unlock {K : Nat} {l : RwLock} (h : root_lock_inv K l) :
    root_lock_inv (K + 1) (pthread_rwlock_unlock l) ∧
      ((pthread_rwlock_unlock l).readers / 8 = 0 → 536870912 ≤ K + 1) := by
  obtain ⟨r, w⟩ := l
  obtain ⟨h1, h2, h3, k, h4, h5⟩ := h
  simp only at h1 h2 h3 h5
  subst h1
  have e : (r + 2 ^ 32 - 8) % 2 ^ 32 = (r + 4294967288) % 4294967296 := by
    norm_num
    omega
  have hb : ∀ x : Nat, x % 8 ≤ 1 → x / 8 = 0 →
      clear_bit (if bit_set x 2 then or_bit x 1 else x) 4 = x := by
    intro x hx1 hx2
    have h2 : bit_set x 2 = false := by
      unfold bit_set
      simp only [decide_eq_false_iff_not]
      omega
    have h4 : bit_set x 4 = false := by
      unfold bit_set
      simp only [decide_eq_false_iff_not]
      omega
    simp [h2, clear_bit, h4]
  have hu : (pthread_rwlock_unlock { readers := r, cur_writer := false })
      = { readers := (r + 4294967288) % 4294967296, cur_writer := false } := by
    unfold pthread_rwlock_unlock
    simp only [Bool.false_eq_true, if_false, e]
    by_cases hz : (r + 4294967288) % 4294967296 / 8 = 0
    · rw [if_pos hz, hb _ (by omega) hz]
    · rw [if_neg hz]
  rw [hu]
  refine ⟨⟨rfl, by simp only; omega, by simp only; omega, k + 1, by omega, ?_⟩, ?_⟩
  · simp only
    omega
  · simp only
    omega

/-- A write lock of the root followed by the unlock of the holder leaves the reader count as
it was; and a second write lock right after succeeds only when the count is zero. -/
theorem root_lock_inv_wrlock {K : Nat} {l held : RwLock} (h : root_lock_inv K l)
    (hw : pthread_rwlock_wrlock l = some held) :
    root_lock_inv K (pthread_rwlock_unlock held) ∧
      (pthread_rwlock_wrlock (pthread_rwlock_unlock held) ≠ none → l.readers / 8 = 0) := by
  obtain ⟨r, w⟩ := l
  obtain ⟨h1, h2, h3, k, h4, h5⟩ := h
  simp only at h1 h2 h3 h5
  subst h1
  have b2 : bit_set r 2 = false := by
    unfold bit_set
    simp only [decide_eq_false_iff_not]
    omega
  unfold pthread_rwlock_wrlock at hw
  simp only [Bool.false_eq_true, if_false, b2] at hw
  by_cases b1 : bit_set r 1 = true
  · simp only [b1, if_true, Option.some.injEq] at hw
    subst hw
    have hodd : r % 2 = 1 := by
      unfold bit_set at b1
      simpa using b1
    have e1 : or_bit r 2 = r + 2 := by simp [or_bit, b2]
    by_cases hz : r / 8 = 0
    · have hr : r = 1 := by omega
      subst hr
      exact ⟨⟨rfl, by decide, by decide, k, h4, h5⟩, fun _ => rfl⟩
    · have hu : pthread_rwlock_unlock { readers := or_bit r 2, cur_writer := true }
          = { readers := r - 1, cur_writer := false } := by
        unfold pthread_rwlock_unlock
        have c1 : ¬ (r + 2) / 8 = 0 := by omega
        have c2 : bit_set (r + 2) 1 = true := by
          unfold bit_set
          simp only [decide_eq_true_eq]
          omega
        have c3 : bit_set (r + 2 - 1) 2 = true := by
          unfold bit_set
          simp only [decide_eq_true_eq]
          omega
        simp only [e1, if_true, if_neg c1, xor_bit, c2, c3]
        congr 1
      rw [hu]
      refine ⟨⟨rfl, by simp only; omega, by simp only; omega, k, h4, ?_⟩, ?_⟩
      · simp only
        have : (r - 1) / 8 = r / 8 := by omega
        rw [this]
        exact h5
      · intro hne
        exfalso
        apply hne
        unfold pthread_rwlock_wrlock
        have d2 : bit_set (r - 1) 2 = false := by
          unfold bit_set
          simp only [decide_eq_false_iff_not]
          omega
        have d1 : bit_set (r - 1) 1 = false := by
          unfold bit_set
          simp only [decide_eq_false_iff_not]
          omega
        have d0 : ¬ (r - 1) / 8 = 0 := by omega
        simp [d2, d1, d0]
  · have b1f : bit_set r 1 = false := by simpa using b1
    have heven : r % 2 = 0 := by
      unfold bit_set at b1f
      simp only [decide_eq_false_iff_not] at b1f
      omega
    by_cases hz : r / 8 = 0
    · have hr : r = 0 := by omega
      subst hr
      simp only [b1f, Bool.false_eq_true, if_false] at hw
      have : held = { readers := 3, cur_writer := true } := by
        have := Option.some.inj hw
        rw [← this]
        decide
      subst this
      exact ⟨⟨rfl, by decide, by decide, k, h4, h5⟩, fun _ => rfl⟩
    · simp [b1f, hz] at hw

/-- The effect of `directory_lookup_internal` on the lock of the root: either the path is `/`,
the call returns `ERR_SUCCESS` with the root and has unlocked the root once; or the root lock
was write-locked and unlocked by its holder, or not touched, and a call that returns
`ERR_SUCCESS` returns a node below the root. -/
theorem directory_lookup_internal_root_lock {K : Nat} {p : List Char} {create : Bool} {d : Int}
    {t : DirectoryEntry} {r : ErrorCode × DirectoryEntry × List Nat}
    (h : directory_lookup_internal p create d t = some r) (hinv : root_lock_inv K t.lock) :
    (r.1 = ERR_SUCCESS ∧ r.2.2 = [] ∧ r.2.1 = t.set_lock (pthread_rwlock_unlock t.lock)) ∨
    (root_lock_inv K r.2.1.lock ∧ (r.1 = ERR_SUCCESS → r.2.2 ≠ [])) := by
  unfold directory_lookup_internal at h
  simp only at h
  split_ifs at h with hv
  · right
    have := Option.some.inj h
    subst this
    exact ⟨hinv, fun hc => by cases hc⟩
  · cases htok : split_path p with
    | nil =>
      left
      rw [htok] at h
      simp only [lookup_loop, Option.some.injEq] at h
      subst h
      exact ⟨rfl, rfl, rfl⟩
    | cons tok rest =>
      right
      rw [htok] at h
      unfold lookup_loop at h
      cases hw : pthread_rwlock_wrlock t.lock with
      | none => simp [hw] at h
      | some held =>
        have hinv2 := (root_lock_inv_wrlock hinv hw).1
        simp only [hw] at h
        split at h
        · split at h
          · cases h
          · split at h
            · cases h
            · have := Option.some.inj h
              subst this
              exact ⟨by simpa using hinv2, fun _ => by simp⟩
        · split_ifs at h
          · split at h
            · cases h
            · have := Option.some.inj h
              subst this
              exact ⟨by simpa using hinv2, fun _ => by simp⟩
          · have := Option.some.inj h
            subst this
            exact ⟨by simpa using hinv2, fun hc => by cases hc⟩

theorem unlink_entry_lock (ptr : List Nat) (t : DirectoryEntry) :
    (unlink_entry ptr t).lock = t.lock := by
  cases ptr with
  | nil => rfl
  | cons i rest =>
    cases rest with
    | nil => simp [unlink_entry]
    | cons j q =>
      unfold unlink_entry
      split <;> simp

end Libc

namespace Libc

theorem directory_free_wrlock {e : DirectoryEntry} (h : directory_free e = true) :
    pthread_rwlock_wrlock e.lock ≠ none := by
  cases e with
  | mk n d m l cs =>
    unfold directory_free at h
    intro hc
    simp only [DirectoryEntry.lock] at hc
    simp [hc] at h

theorem directory_create_root_lock {K : Nat} {p : List Char} {t : DirectoryEntry}
    {r : ErrorCode × DirectoryEntry} (hinv : root_lock_inv K t.lock)
    (h : directory_create p t = some r) : root_lock_inv (K + 2) r.2.lock := by
  unfold directory_create at h
  cases hl : directory_lookup_internal p true 1 t with
  | none => simp [hl] at h
  | some r0 =>
    simp only [hl, Option.map_some', Option.some.injEq] at h
    subst h
    rcases directory_lookup_internal_root_lock hl hinv with ⟨-, -, h3⟩ | ⟨h1, -⟩
    · simp only [h3, lock_set_lock]
      exact root_lock_inv_mono (root_lock_inv_unlock hinv).1 (by omega)
    · exact root_lock_inv_mono h1 (by omega)

theorem directory_register_file_root_lock {K : Nat} {p : List Char} {m : FileMetadata}
    {t : DirectoryEntry} {r : ErrorCode × DirectoryEntry} (hinv : root_lock_inv K t.lock)
    (h : directory_register_file p m t = some r) : root_lock_inv (K + 2) r.2.lock := by
  unfold directory_register_file at h
  cases hl : directory_lookup_internal p true 0 t with
  | none => simp [hl] at h
  | some r0 =>
    simp only [hl] at h
    rcases directory_lookup_internal_root_lock hl hinv with ⟨h1, h2, h3⟩ | ⟨h1, h2⟩
    · simp only [h1, ne_eq, not_true_eq_false, if_false, h2, update_at,
        Option.some.injEq] at h
      subst h
      simp only [lock_set_lock, h3]
      exact (root_lock_inv_unlock (root_lock_inv_unlock hinv).1).1
    · by_cases hs : r0.1 = ERR_SUCCESS
      · simp only [hs, ne_eq, not_true_eq_false, if_false, Option.some.injEq] at h
        subst h
        obtain ⟨i, q, hq⟩ := List.exists_cons_of_ne_nil (h2 hs)
        simp only [hq, (update_at_cons _ i q r0.2.1).2]
        exact root_lock_inv_mono h1 (by omega)
      · simp only [ne_eq, hs, not_false_eq_true, if_true, Option.some.injEq] at h
        subst h
        exact root_lock_inv_mono h1 (by omega)

theorem directory_delete_root_lock {K : Nat} {p : List Char} {t : DirectoryEntry}
    {r : ErrorCode × Option DirectoryEntry} (hinv : root_lock_inv K t.lock)
    (h : directory_delete p t = some r) :
    (∀ t2, r.2 = some t2 → root_lock_inv (K + 2) t2.lock) ∧
    (r.2 = none → 536870912 ≤ K + 1) := by
  unfold directory_delete directory_lookup at h
  cases hl : directory_lookup_internal p false 0 t with
  | none => simp [hl] at h
  | some r0 =>
    simp only [hl] at h
    rcases directory_lookup_internal_root_lock hl hinv with ⟨h1, h2, h3⟩ | ⟨h1, h2⟩
    · have hu := root_lock_inv_unlock hinv
      have hinv1 : root_lock_inv (K + 1) r0.2.1.lock := by
        rw [h3, lock_set_lock]
        exact hu.1
      simp only [h1, ne_eq, not_true_eq_false, if_false, h2, entry_at, update_at] at h
      cases hw : pthread_rwlock_wrlock r0.2.1.lock with
      | none => simp [hw] at h
      | some held =>
        have hw2 := root_lock_inv_wrlock hinv1 hw
        simp only [hw] at h
        by_cases hc : r0.2.1.children.length > 0
        · simp only [hc, if_true, Option.some.injEq] at h
          subst h
          refine ⟨fun t2 h => ?_, fun h => by cases h⟩
          simp only [Option.some.injEq] at h
          subst h
          rw [lock_set_lock]
          exact root_lock_inv_mono hw2.1 (by omega)
        · simp only [hc, if_false] at h
          by_cases hf : directory_free (r0.2.1.set_lock (pthread_rwlock_unlock held)) = true
          · simp only [hf, if_true, Option.some.injEq] at h
            subst h
            refine ⟨fun t2 h => (by cases h), fun _ => ?_⟩
            have h5 := directory_free_wrlock hf
            rw [lock_set_lock] at h5
            have h6 := hw2.2 h5
            rw [h3, lock_set_lock] at h6
            exact hu.2 h6
          · simp [hf] at h
    · by_cases hs : r0.1 = ERR_SUCCESS
      · simp only [hs, ne_eq, not_true_eq_false, if_false] at h
        obtain ⟨i, q, hq⟩ := List.exists_cons_of_ne_nil (h2 hs)
        cases he : entry_at r0.2.2 r0.2.1 with
        | none =>
          simp only [he, Option.some.injEq] at h
          subst h
          refine ⟨fun t2 h => ?_, fun h => by cases h⟩
          simp only [Option.some.injEq] at h
          subst h
          exact root_lock_inv_mono h1 (by omega)
        | some entry =>
          simp only [he] at h
          cases hw : pthread_rwlock_wrlock entry.lock with
          | none => simp [hw] at h
          | some held =>
            simp only [hw] at h
            by_cases hc : entry.children.length > 0
            · simp only [hc, if_true, Option.some.injEq] at h
              subst h
              refine ⟨fun t2 h => ?_, fun h => by cases h⟩
              simp only [Option.some.injEq] at h
              subst h
              rw [hq, (update_at_cons _ i q r0.2.1).2]
              exact root_lock_inv_mono h1 (by omega)
            · simp only [hc, if_false, hq] at h
              cases hp : entry_at (i :: q).dropLast r0.2.1 with
              | none =>
                simp only [hp, Option.some.injEq] at h
                subst h
                refine ⟨fun t2 h => ?_, fun h => by cases h⟩
                simp only [Option.some.injEq] at h
                subst h
                exact root_lock_inv_mono h1 (by omega)
              | some parent =>
                simp only [hp] at h
                cases hpw : pthread_rwlock_wrlock parent.lock with
                | none => simp [hpw] at h
                | some parent_held =>
                  simp only [hpw] at h
                  by_cases hf :
                      directory_free (entry.set_lock (pthread_rwlock_unlock held)) = true
                  · simp only [hf, if_true, Option.some.injEq] at h
                    subst h
                    refine ⟨fun t2 h => ?_, fun h => by cases h⟩
                    simp only [Option.some.injEq] at h
                    subst h
                    cases hdl : (i :: q).dropLast with
                    | nil =>
                      rw [hdl] at hp
                      simp only [entry_at, Option.some.injEq] at hp
                      subst hp
                      simp only [update_at, lock_set_lock]
                      exact root_lock_inv_mono (root_lock_inv_wrlock h1 hpw).1 (by omega)
                    | cons j q2 =>
                      rw [(update_at_cons _ j q2 _).2, unlink_entry_lock]
                      exact root_lock_inv_mono h1 (by omega)
                  · simp [hf] at h
      · simp only [ne_eq, hs, not_false_eq_true, if_true, Option.some.injEq] at h
        subst h
        refine ⟨fun t2 h => ?_, fun h => by cases h⟩
        simp only [Option.some.injEq] at h
        subst h
        exact root_lock_inv_mono h1 (by omega)

/-- One call keeps the invariant of the root lock, with at most two more unlocks by a caller
that does not hold it; and it frees the root only when such unlocks have taken the reader count
through its whole range. -/
theorem run_op_root_lock {K : Nat} (op : DirOp) {t : DirectoryEntry}
    (hinv : root_lock_inv K t.lock) :
    (∀ t2, run_op op t = Outcome.state t2 → root_lock_inv (K + 2) t2.lock) ∧
    (run_op op t = Outcome.root_freed → 536870912 ≤ K + 1) := by
  cases op with
  | create p =>
    simp only [run_op]
    cases h : directory_create p t with
    | none => exact ⟨fun t2 h2 => (by cases h2), fun h2 => (by cases h2)⟩
    | some r =>
      refine ⟨fun t2 h2 => ?_, fun h2 => by cases h2⟩
      simp only [Outcome.state.injEq] at h2
      subst h2
      exact directory_create_root_lock hinv h
  | register_file p m =>
    simp only [run_op]
    cases h : directory_register_file p m t with
    | none => exact ⟨fun t2 h2 => (by cases h2), fun h2 => (by cases h2)⟩
    | some r =>
      refine ⟨fun t2 h2 => ?_, fun h2 => by cases h2⟩
      simp only [Outcome.state.injEq] at h2
      subst h2
      exact directory_register_file_root_lock hinv h
  | delete p =>
    simp only [run_op]
    cases h : directory_delete p t with
    | none => exact ⟨fun t2 h2 => (by cases h2), fun h2 => (by cases h2)⟩
    | some r =>
      obtain ⟨c, o⟩ := r
      have hd := directory_delete_root_lock hinv h
      cases o with
      | none => exact ⟨fun t2 h2 => (by cases h2), fun _ => hd.2 rfl⟩
      | some t3 =>
        refine ⟨fun t2 h2 => ?_, fun h2 => by cases h2⟩
        simp only [Outcome.state.injEq] at h2
        subst h2
        exact hd.1 _ rfl

/-- A call sequence frees the root only when it is long enough for unlocks by callers that do
not hold the root lock to have taken its reader count through the whole range. -/
theorem run_ops_root_freed {K : Nat} (ops : List DirOp) {t : DirectoryEntry}
    (hinv : root_lock_inv K t.lock) (h : run_ops ops t = Outcome.root_freed) :
    536870912 + 1 ≤ K + 2 * ops.length := by
  induction ops generalizing K t with
  | nil => cases h
  | cons op ops ih =>
    unfold run_ops at h
    have hop := run_op_root_lock op hinv
    cases ho : run_op op t with
    | blocked => simp [ho] at h
    | root_freed =>
      have := hop.2 ho
      simp only [List.length_cons]
      omega
    | state t2 =>
      simp only [ho] at h
      have := ih (hop.1 t2 ho) h
      simp only [List.length_cons]
      omega

end Libc

namespace Libc

/-- A `GET_LOCATION` handler call that returns on the tree with locks sends what the handler
sends on the tree without locks, and leaves nodes, order and metadata as they were. -/
theorem handle_client_request_data (little_endian : Bool) (after : Nat → Nat)
    (sigpipe : Nat → Bool) (header : MessageHeader) (stream : List Nat) (root : DirectoryEntry)
    (r : List Nat × DirectoryEntry)
    (h : handle_client_request little_endian after sigpipe header stream root = some r) :
    r.1 = (NFS.handle_client_request little_endian after header stream (data root)).1 ∧
      data r.2 = data root := by
  unfold handle_client_request at h
  unfold NFS.handle_client_request
  simp only at h ⊢
  by_cases h1 : (ntohl little_endian header.payload_size + 1) % 2 ^ 32 <
      (network_socket_receive stream (ntohl little_endian header.payload_size)).2.1.length
  · rw [if_pos h1] at h
    cases h
  rw [if_neg h1] at h
  by_cases h2 : (network_socket_receive stream (ntohl little_endian header.payload_size)).1 ≠
      (ntohl little_endian header.payload_size : Int)
  · rw [if_pos h2] at h
    have := Option.some.inj h
    subst this
    rw [if_pos h2]
    exact ⟨rfl, rfl⟩
  rw [if_neg h2] at h
  rw [if_neg h2]
  by_cases h3 : (ntohl little_endian header.payload_size + 1) % 2 ^ 32 ≤
      ntohl little_endian header.payload_size
  · rw [if_pos h3] at h
    cases h
  rw [if_neg h3] at h
  cases hl : directory_lookup
      (c_string (network_socket_receive stream (ntohl little_endian header.payload_size)).2.1)
      root with
  | none => simp [hl] at h
  | some l =>
    have hd := directory_lookup_data _ _ _ hl
    have hk := directory_lookup_keeps_data _ _ _ hl
    simp only [hl] at h
    simp only [hd, entry_at_data]
    have hmeta : ((entry_at l.2.2 l.2.1).map data).bind NFS.DirectoryEntry.metadata
        = (entry_at l.2.2 l.2.1).bind DirectoryEntry.metadata := by
      cases entry_at l.2.2 l.2.1 with
      | none => rfl
      | some e => simp [data_metadata]
    rw [hmeta]
    split at h
    · rename_i m hm
      split_ifs at h
      have := Option.some.inj h
      subst this
      simp only [hm]
      exact ⟨trivial, hk⟩
    · rename_i hm
      split_ifs at h
      have := Option.some.inj h
      subst this
      simp only [hm]
      exact ⟨trivial, hk⟩

/-- A registration that returns on the tree with locks leaves the nodes, order and metadata
that the registration on the tree without locks leaves. -/
theorem handle_storage_server_registration_data (ip : List Char) (port size permissions : Nat)
    (payloads : List (List Nat)) (root t : DirectoryEntry)
    (h : handle_storage_server_registration ip port size permissions payloads root = some t) :
    data t = NFS.handle_storage_server_registration ip port size permissions
      (payloads.map c_string) (data root) := by
  induction payloads generalizing root with
  | nil =>
    simp only [handle_storage_server_registration, Option.some.injEq] at h
    subst h
    rfl
  | cons payload rest ih =>
    unfold handle_storage_server_registration at h
    split_ifs at h
    cases hr : directory_register_file (c_string payload)
        { storage_server_ip := ip, storage_server_port := port, size := size,
          permissions := permissions } root with
    | none => simp [hr] at h
    | some r =>
      simp only [hr] at h
      have hd := directory_register_file_data _ _ _ _ hr
      rw [ih _ h, List.map_cons, NFS.handle_storage_server_registration, hd]

end Libc

namespace Libc

/-- The `GET_LOCATION` handler on a request whose payload is the path `p` with its terminator,
for a path short enough for the block allocated with `malloc(payload_size + 1)`: the call is
the locked `directory_lookup` of `p` followed by the sends of the reply. -/
theorem handle_client_request_path (little_endian : Bool) (after : Nat → Nat)
    (sigpipe : Nat → Bool) (header : MessageHeader) (p : List Char) (rest : List Nat)
    (root : DirectoryEntry) (hp : ∀ c ∈ p, c.toNat ≠ 0)
    (hsize : ntohl little_endian header.payload_size = p.length + 1)
    (hlen : p.length + 2 < 4294967296) (hl : directory_lookup p root = none) :
    handle_client_request little_endian after sigpipe header (c_bytes p ++ 0 :: rest) root
      = none := by
  have htake : (c_bytes p ++ 0 :: rest).take (p.length + 1) = c_bytes p ++ [0] := by
    rw [List.take_append_eq_append_take, c_bytes_length,
      List.take_of_length_le (by rw [c_bytes_length]; omega)]
    simp
  have hpath : c_string (c_bytes p ++ [0]) = p := c_string_c_bytes hp []
  have hmod : (p.length + 1 + 1) % 2 ^ 32 = p.length + 2 := by
    norm_num
    omega
  unfold handle_client_request network_socket_receive
  simp only [hsize, htake, List.length_append, c_bytes_length, List.length_singleton, hmod,
    hpath, hl]
  simp

/-- The `GET_LOCATION` handler on a request that announces a payload of `2 ^ 32 - 1` bytes:
`malloc(payload_size + 1)` is `malloc(0)`, and the first byte received is stored outside the
block. -/
theorem handle_client_request_wraps (little_endian : Bool) (after : Nat → Nat)
    (sigpipe : Nat → Bool) (header : MessageHeader) (stream : List Nat)
    (root : DirectoryEntry) (hne : stream ≠ [])
    (hsize : ntohl little_endian header.payload_size = 4294967295) :
    handle_client_request little_endian after sigpipe header stream root = none := by
  unfold handle_client_request network_socket_receive
  simp only [hsize]
  rw [if_pos]
  have : (4294967295 + 1) % 2 ^ 32 = 0 := by norm_num
  rw [this, List.length_take]
  have := List.length_pos.2 hne
  omega

end Libc

namespace Libc

/-- When every send returns, the write loop is the loop over returned values. -/
theorem replicate_write_loop_returns (send : Nat → Nat → Int) (request : WriteRequest)
    (buffer : List Nat) (length : Nat) (i : Nat) (secondaries : List SecondaryServer) :
    replicate_write_loop (fun j k => some (send j k)) request buffer length i secondaries
      = some (NFS.replicate_write_loop send request buffer length i secondaries) := by
  induction secondaries generalizing i with
  | nil => rfl
  | cons s rest ih =>
    unfold replicate_write_loop NFS.replicate_write_loop
    simp only [ih]
    split_ifs <;> rfl

/-- When every send returns, the delete loop is the loop over returned values. -/
theorem replicate_delete_loop_returns (send : Nat → Nat → Int) (request : DeleteRequest)
    (i : Nat) (secondaries : List SecondaryServer) :
    replicate_delete_loop (fun j k => some (send j k)) request i secondaries
      = some (NFS.replicate_delete_loop send request i secondaries) := by
  induction secondaries generalizing i with
  | nil => rfl
  | cons s rest ih =>
    unfold replicate_delete_loop NFS.replicate_delete_loop
    simp only [ih]
    split_ifs <;> rfl

/-- A `SIGPIPE` on a send to a secondary that is alive ends the write loop, wherever the
secondary stands in the list. -/
theorem replicate_write_loop_sigpipe (send : Nat → Nat → Option Int) (request : WriteRequest)
    (buffer : List Nat) (length : Nat) (i : Nat) (secondaries : List SecondaryServer) (j : Nat)
    (s : SecondaryServer) (hj : secondaries[j]? = some s) (ha : s.is_alive ≠ 0)
    (hs : send (i + j) 0 = none ∨
      (send (i + j) 0 = some SIZEOF_WRITE_REQUEST ∧ send (i + j) 1 = none)) :
    replicate_write_loop send request buffer length i secondaries = none := by
  induction secondaries generalizing i j with
  | nil => simp at hj
  | cons t rest ih =>
    cases j with
    | zero =>
      simp only [List.getElem?_cons_zero, Option.some.injEq] at hj
      subst hj
      unfold replicate_write_loop
      rw [if_pos ha]
      rcases hs with h0 | ⟨h0, h1⟩
      · simp only [Nat.add_zero] at h0
        simp [h0]
      · simp only [Nat.add_zero] at h0 h1
        simp [h0, h1]
    | succ j =>
      simp only [List.getElem?_cons_succ] at hj
      have hk : i + (j + 1) = i + 1 + j := by omega
      rw [hk] at hs
      have hrec := ih (i + 1) j hj hs
      unfold replicate_write_loop
      simp only [hrec, Option.map_none']
      split_ifs
      · split
        · rfl
        · split_ifs
          · rfl
          · split
            · rfl
            · split_ifs <;> rfl
      · rfl

/-- A `SIGPIPE` on the send to a secondary that is alive ends the delete loop. -/
theorem replicate_delete_loop_sigpipe (send : Nat → Nat → Option Int) (request : DeleteRequest)
    (i : Nat) (secondaries : List SecondaryServer) (j : Nat)
    (s : SecondaryServer) (hj : secondaries[j]? = some s) (ha : s.is_alive ≠ 0)
    (hs : send (i + j) 0 = none) :
    replicate_delete_loop send request i secondaries = none := by
  induction secondaries generalizing i j with
  | nil => simp at hj
  | cons t rest ih =>
    cases j with
    | zero =>
      simp only [List.getElem?_cons_zero, Option.some.injEq] at hj
      subst hj
      unfold replicate_delete_loop
      rw [if_pos ha]
      simp only [Nat.add_zero] at hs
      simp [hs]
    | succ j =>
      simp only [List.getElem?_cons_succ] at hj
      have hk : i + (j + 1) = i + 1 + j := by omega
      rw [hk] at hs
      have hrec := ih (i + 1) j hj hs
      unfold replicate_delete_loop
      simp only [hrec, Option.map_none']
      split_ifs
      · split
        · rfl
        · split_ifs <;> rfl
      · rfl

/-- When every send returns, the functions with the signal are those over returned values. -/
theorem replication_returns (send : Nat → Nat → Int) (filepath : List Char) (offset : Nat)
    (buffer : List Nat) (length : Nat) (secondaries : List SecondaryServer) :
    replication_replicate_write (fun j k => some (send j k)) filepath offset buffer length
        secondaries
      = some (NFS.replication_replicate_write send filepath offset buffer length secondaries) ∧
    replication_replicate_delete (fun j k => some (send j k)) filepath secondaries
      = some (NFS.replication_replicate_delete send filepath secondaries) ∧
    (∀ io : FileIO,
      storage_write io (fun j k => some (send j k)) filepath offset buffer length secondaries
        = some (NFS.storage_write io send filepath offset buffer length secondaries)) ∧
    (∀ removed : Bool,
      storage_delete_file removed (fun j k => some (send j k)) filepath secondaries
        = some (NFS.storage_delete_file removed send filepath secondaries)) := by
  have hw : replication_replicate_write (fun j k => some (send j k)) filepath offset buffer
      length secondaries
      = some (NFS.replication_replicate_write send filepath offset buffer length
          secondaries) := by
    unfold replication_replicate_write NFS.replication_replicate_write
    simp only [replicate_write_loop_returns, Option.map_some']
  have hd : replication_replicate_delete (fun j k => some (send j k)) filepath secondaries
      = some (NFS.replication_replicate_delete send filepath secondaries) := by
    unfold replication_replicate_delete NFS.replication_replicate_delete
    simp only [replicate_delete_loop_returns, Option.map_some']
  refine ⟨hw, hd, fun io => ?_, fun removed => ?_⟩
  · unfold storage_write NFS.storage_write
    rw [hw]
    split_ifs <;> rfl
  · unfold storage_delete_file NFS.storage_delete_file
    rw [hd]
    split_ifs <;> rfl

/-- When every send returns, to the secondaries and on the request socket, the dispatcher
cases with the signal are those over returned values. -/
theorem handlers_return (little_endian : Bool) (server_data_dir : List Char) (io : FileIO)
    (send : Nat → Nat → Int) (request : WriteRequest) (received : Int) (data : List Nat)
    (removed : Bool) (delete_request : DeleteRequest) (secondaries : List SecondaryServer) :
    handle_write little_endian server_data_dir io (fun j k => some (send j k))
        (fun _ => false) request received data secondaries
      = some (NFS.handle_write little_endian server_data_dir io send request received data
          secondaries) ∧
    handle_replicate_write little_endian server_data_dir io (fun j k => some (send j k))
        request received data secondaries
      = some (NFS.handle_replicate_write little_endian server_data_dir io send request
          received data secondaries) ∧
    handle_replicate_delete server_data_dir removed (fun j k => some (send j k))
        delete_request secondaries
      = some (NFS.handle_replicate_delete server_data_dir removed send delete_request
          secondaries) := by
  refine ⟨?_, ?_, ?_⟩
  · unfold handle_write NFS.handle_write
    simp only [(replication_returns send _ _ _ _ secondaries).2.2.1, Bool.or_self,
      Bool.false_eq_true, if_false]
    split_ifs <;> rfl
  · unfold handle_replicate_write NFS.handle_replicate_write
    simp only [(replication_returns send _ _ _ _ secondaries).2.2.1]
    split_ifs <;> rfl
  · unfold handle_replicate_delete NFS.handle_replicate_delete
    rw [(replication_returns send _ 0 [] 0 secondaries).2.2.2 removed]
    rfl

end Libc

/-! # The claims -/

/-- C1 fails on the code for every path of two or more components. On the tree of
`directory_init` the first `directory_register_file(p, m1)` returns `ERR_SUCCESS`, and the
second call never returns: its walk read-locks the node of the first component at line 148 and
write-locks the same lock at line 103 of the next iteration, where it waits for its own read
lock to be released. For the one-component path `/a.txt` and the two sample records both
calls return `ERR_SUCCESS` and `directory_get_metadata` then returns the second record. On
every tree, whenever the two registrations and the `directory_get_metadata` that follows
return, they return `ERR_SUCCESS` and the second record. -/
theorem register_file_twice_deadlocks (m1 m2 : FileMetadata) :
    (∀ (p a b : List Char) (rest : List (List Char)), split_path p = a :: b :: rest →
      ∃ s1, Libc.directory_register_file p m1 Libc.directory_init = some (ERR_SUCCESS, s1) ∧
        Libc.directory_register_file p m2 s1 = none) ∧
    ((Libc.directory_register_file "/a.txt".toList sample_metadata_1 Libc.directory_init).bind
      (fun r1 => (Libc.directory_register_file "/a.txt".toList sample_metadata_2 r1.2).bind
        (fun r2 => (Libc.directory_get_metadata "/a.txt".toList r2.2).map
          (fun r3 => (r1.1, r2.1, r3.1, r3.2.1))))
      = some (ERR_SUCCESS, ERR_SUCCESS, ERR_SUCCESS, some sample_metadata_2)) ∧
    (∀ (root : Libc.DirectoryEntry) (p : List Char) (r1 r2 : ErrorCode × Libc.DirectoryEntry)
      (r3 : ErrorCode × Option FileMetadata × Libc.DirectoryEntry),
      split_path p ≠ [] →
      Libc.directory_register_file p m1 root = some r1 →
      Libc.directory_register_file p m2 r1.2 = some r2 →
      Libc.directory_get_metadata p r2.2 = some r3 →
      r1.1 = ERR_SUCCESS ∧ r2.1 = ERR_SUCCESS ∧ r3.1 = ERR_SUCCESS ∧ r3.2.1 = some m2) := by
  refine ⟨?_, by decide, ?_⟩
  · intro p a b rest hp
    obtain ⟨s1, c, h1, hch, hcn, hcl⟩ := Libc.directory_register_file_fresh hp m1
    exact ⟨s1, h1, (Libc.calls_block hp hch hcn hcl).2.2.1 m2⟩
  · intro root p r1 r2 r3 hp h1 h2 h3
    have d1 := Libc.directory_register_file_data _ _ _ _ h1
    have d2 := Libc.directory_register_file_data _ _ _ _ h2
    have d3 := (Libc.directory_get_metadata_data _ _ _ h3).1
    obtain ⟨e1, e2, e3⟩ := register_file_twice_data (Libc.data root) p m1 m2 hp
    rw [d1] at e1 e2 e3
    simp only at e1 e2 e3
    rw [d2] at e2 e3
    simp only at e2 e3
    rw [d3] at e3
    simp only [Prod.mk.injEq] at e3
    exact ⟨e1, e2, e3.1, e3.2⟩

/-- Instance of C1: the second registration of `/a/b.txt` on the initial tree does not
return. -/
theorem register_file_twice_deadlocks_witness :
    split_path "/a/b.txt".toList = ["a".toList, "b.txt".toList] ∧
    ∃ s1, Libc.directory_register_file "/a/b.txt".toList sample_metadata_1 Libc.directory_init
        = some (ERR_SUCCESS, s1) ∧
      Libc.directory_register_file "/a/b.txt".toList sample_metadata_2 s1 = none :=
  ⟨by decide, (register_file_twice_deadlocks sample_metadata_1 sample_metadata_2).1
    "/a/b.txt".toList "a".toList "b.txt".toList [] (by decide)⟩

/-- C2 fails on the code. After `directory_create` of a path `a/b/c...` of three or more
components on the tree of `directory_init`, the node `a/b` has a child, and
`directory_delete("a/b")` never returns: its lookup read-locks the node `a` at line 148 and
write-locks the same lock at line 103 of the next iteration. For the one-component path `/d`
after `create("/d/x")` the call returns `ERR_INVALID_ARGUMENT` and leaves nodes, order and
metadata as they were. On every tree, whenever `directory_delete` of a path that resolves to a
node with a child returns, it returns `ERR_INVALID_ARGUMENT` and the nodes, their order and
their metadata are unchanged. -/
theorem directory_delete_nonempty_deadlocks :
    (∀ (p q a b c : List Char) (rest : List (List Char)),
      split_path p = a :: b :: c :: rest → split_path q = [a, b] →
      ∃ s1, Libc.directory_create p Libc.directory_init = some (ERR_SUCCESS, s1) ∧
        (directory_lookup q (Libc.data s1)).1 = ERR_SUCCESS ∧
        (∃ e, entry_at (directory_lookup q (Libc.data s1)).2.2 (Libc.data s1) = some e ∧
          0 < e.children.length) ∧
        Libc.directory_delete q s1 = none) ∧
    (∃ s1 s2, Libc.directory_create "/d/x".toList Libc.directory_init = some (ERR_SUCCESS, s1) ∧
      Libc.directory_delete "/d".toList s1 = some (ERR_INVALID_ARGUMENT, some s2) ∧
      Libc.data s2 = Libc.data s1) ∧
    (∀ (t : Libc.DirectoryEntry) (p : List Char) (e : DirectoryEntry)
      (r : ErrorCode × Option Libc.DirectoryEntry),
      (directory_lookup p (Libc.data t)).1 = ERR_SUCCESS →
      entry_at (directory_lookup p (Libc.data t)).2.2 (Libc.data t) = some e →
      0 < e.children.length →
      Libc.directory_delete p t = some r →
      r.1 = ERR_INVALID_ARGUMENT ∧ r.2.map Libc.data = some (Libc.data t)) := by
  refine ⟨?_, ⟨_, _, rfl, rfl, rfl⟩, ?_⟩
  · intro p q a b c rest hp hq
    obtain ⟨s1, n, h1, hch, hcn, hcl⟩ := Libc.directory_create_fresh hp
    have hd := Libc.directory_create_data _ _ _ h1
    have hv : split_path p ≠ [] ∨ p = ['/'] := Or.inl (by rw [hp]; simp)
    have hres := create_resolves 1 (split_path p) (Libc.data Libc.directory_init)
    have heq := directory_create_eq hv (Libc.data Libc.directory_init)
    rw [hd] at heq
    have hs1 : Libc.data s1
        = (lookup_loop true 1 (split_path p) (Libc.data Libc.directory_init)).2.1 :=
      (Prod.mk.inj heq).2
    obtain ⟨n2, hn2, -⟩ := create_walk_node 1 [a, b] (c :: rest)
      (Libc.data Libc.directory_init)
    obtain ⟨n3, hn3, -⟩ := create_walk_node 1 [a, b, c] rest
      (Libc.data Libc.directory_init)
    simp only [List.cons_append, List.nil_append, ← hp, ← hs1] at hn2 hn3
    obtain ⟨hl, hat⟩ := directory_lookup_of_resolve (Or.inl (by rw [hq]; simp)) (hq ▸ hn2)
    refine ⟨s1, h1, hl, ⟨n2, hat, ?_⟩, (Libc.calls_block hq hch hcn hcl).2.2.2.1⟩
    exact resolve_has_child hn2 hn3
  · intro t p e r hl he hc h
    have hd := Libc.directory_delete_data _ _ _ h
    rw [directory_delete_nonempty_data (Libc.data t) p e hl he hc] at hd
    exact ⟨(Prod.mk.inj hd).1.symm, (Prod.mk.inj hd).2.symm⟩

/-- Instance of C2: after `create("/a/b/c")` on the initial tree, `delete("/a/b")` does not
return. -/
theorem directory_delete_nonempty_deadlocks_witness :
    split_path "/a/b/c".toList = ["a".toList, "b".toList, "c".toList] ∧
    split_path "/a/b".toList = ["a".toList, "b".toList] ∧
    ∃ s1, Libc.directory_create "/a/b/c".toList Libc.directory_init = some (ERR_SUCCESS, s1) ∧
      (directory_lookup "/a/b".toList (Libc.data s1)).1 = ERR_SUCCESS ∧
      (∃ e, entry_at (directory_lookup "/a/b".toList (Libc.data s1)).2.2 (Libc.data s1)
          = some e ∧ 0 < e.children.length) ∧
      Libc.directory_delete "/a/b".toList s1 = none :=
  ⟨by decide, by decide, directory_delete_nonempty_deadlocks.1 "/a/b/c".toList "/a/b".toList
    "a".toList "b".toList "c".toList [] (by decide) (by decide)⟩

/-- C3 fails on the code. In the scenario of the specification, `create("/d")` and
`create("/d/x")` return `ERR_SUCCESS` and `delete("/d")` returns `ERR_INVALID_ARGUMENT`, but
`delete("/d/x")` never returns: its lookup read-locks `/d` at line 148 and write-locks the
same lock at line 103 of the next iteration. Deleting a leaf directly under the root blocks
too: after `create("/d")` alone, `delete("/d")` stops at line 178, because the unlock of line
155 on the never-locked node left its reader count at the top of its range. On every tree
reached from `directory_init`, whenever `directory_delete` of a path with a component that
resolves to a node without children returns, it returns `ERR_SUCCESS`, the parent has exactly
one child fewer, and a `directory_lookup` of the path that returns afterwards returns
`ERR_NOT_FOUND`. -/
theorem directory_delete_leaf_deadlocks :
    (∃ t1 t2 t3, Libc.directory_create "/d".toList Libc.directory_init = some (ERR_SUCCESS, t1) ∧
      Libc.directory_create "/d/x".toList t1 = some (ERR_SUCCESS, t2) ∧
      Libc.directory_delete "/d".toList t2 = some (ERR_INVALID_ARGUMENT, some t3) ∧
      Libc.directory_delete "/d/x".toList t3 = none) ∧
    (∃ t1, Libc.directory_create "/d".toList Libc.directory_init = some (ERR_SUCCESS, t1) ∧
      Libc.directory_delete "/d".toList t1 = none) ∧
    (∀ (ops : List DirOp) (t : Libc.DirectoryEntry) (p : List Char) (e : DirectoryEntry)
      (r : ErrorCode × Option Libc.DirectoryEntry),
      Libc.run_ops ops Libc.directory_init = Libc.Outcome.state t →
      split_path p ≠ [] →
      (directory_lookup p (Libc.data t)).1 = ERR_SUCCESS →
      entry_at (directory_lookup p (Libc.data t)).2.2 (Libc.data t) = some e →
      e.children = [] →
      Libc.directory_delete p t = some r →
      ∃ t2 parent parent2, r = (ERR_SUCCESS, some t2) ∧
        entry_at (directory_lookup p (Libc.data t)).2.2.dropLast (Libc.data t) = some parent ∧
        entry_at (directory_lookup p (Libc.data t)).2.2.dropLast (Libc.data t2)
          = some parent2 ∧
        parent2.children.length + 1 = parent.children.length ∧
        ∀ r2, Libc.directory_lookup p t2 = some r2 → r2.1 = ERR_NOT_FOUND) := by
  refine ⟨⟨_, _, _, rfl, rfl, rfl, rfl⟩, ⟨_, rfl, rfl⟩, ?_⟩
  intro ops t p e r hreach hp hl he hc h
  have hreach2 := Libc.run_ops_data _ _ _ hreach
  rw [Libc.data_directory_init] at hreach2
  obtain ⟨t2d, parent, parent2, g1, g2, g3, g4, g5⟩ :=
    directory_delete_leaf_data.1 ops (Libc.data t) p e hreach2 hp hl he hc
  have hd := Libc.directory_delete_data _ _ _ h
  rw [g1] at hd
  obtain ⟨c, o⟩ := r
  simp only [Prod.mk.injEq] at hd
  obtain ⟨hd1, hd2⟩ := hd
  cases o with
  | none => simp at hd2
  | some t2 =>
    simp only [Option.map_some', Option.some.injEq] at hd2
    subst hd2
    refine ⟨t2, parent, parent2, by rw [← hd1], g3, g4, g5, ?_⟩
    intro r2 h2
    have := Libc.directory_lookup_data _ _ _ h2
    rw [this] at g2
    exact g2

/-- Instance of C3: after `create("/d")` and a `delete("/d/zzz")` that returns
`ERR_NOT_FOUND`, `delete("/d")` returns `ERR_SUCCESS` and the root has no child left. -/
theorem directory_delete_leaf_deadlocks_witness :
    ∃ t, Libc.run_ops [.create "/d".toList, .delete "/d/zzz".toList] Libc.directory_init
        = Libc.Outcome.state t ∧
      ∃ t2 parent parent2,
        Libc.directory_delete "/d".toList t = some (ERR_SUCCESS, some t2) ∧
        entry_at (directory_lookup "/d".toList (Libc.data t)).2.2.dropLast (Libc.data t)
          = some parent ∧
        entry_at (directory_lookup "/d".toList (Libc.data t)).2.2.dropLast (Libc.data t2)
          = some parent2 ∧
        parent2.children.length + 1 = parent.children.length ∧
        ∀ r2, Libc.directory_lookup "/d".toList t2 = some r2 → r2.1 = ERR_NOT_FOUND :=
  ⟨_, rfl, by
    obtain ⟨t2, parent, parent2, h1, h2⟩ := directory_delete_leaf_deadlocks.2.2
      [.create "/d".toList, .delete "/d/zzz".toList] _ "/d".toList (.mk ['d'] 1 none [])
      _ rfl (by decide) (by decide) rfl rfl rfl
    exact ⟨t2, parent, parent2, h1.symm ▸ rfl, h2⟩⟩

/-- C4 fails on the code. After `create("/a")` on the tree of `directory_init`,
`directory_get_metadata("/a/c")` returns `ERR_NOT_FOUND`; `directory_delete("/a/b")` returns
`ERR_NOT_FOUND` too, but it leaves the lock of `/a` idle instead of with the reader count that
the unlock of line 155 had produced, and a `directory_get_metadata("/a/c")` made after it never
returns (read lock at line 148, write lock of the same lock at line 103). On every tree, for
every parent path `a` and every two distinct component names `b` and `c`, whenever
`directory_delete` of `a/b` and the two `directory_get_metadata` calls of `a/c`, before and
after it, return, the delete leaves a tree and the two calls return the same code and
record. -/
theorem directory_delete_sibling_deadlocks :
    (∃ t0 t1 t2, Libc.directory_create "/a".toList Libc.directory_init = some (ERR_SUCCESS, t0) ∧
      Libc.directory_get_metadata "/a/c".toList t0 = some (ERR_NOT_FOUND, none, t1) ∧
      Libc.directory_delete "/a/b".toList t0 = some (ERR_NOT_FOUND, some t2) ∧
      Libc.directory_get_metadata "/a/c".toList t2 = none) ∧
    (∀ (t : Libc.DirectoryEntry) (a b c : List Char)
      (r : ErrorCode × Option Libc.DirectoryEntry)
      (r1 : ErrorCode × Option FileMetadata × Libc.DirectoryEntry),
      b ≠ [] → '/' ∉ b → c ≠ [] → '/' ∉ c → b ≠ c →
      Libc.directory_delete (a ++ '/' :: b) t = some r →
      Libc.directory_get_metadata (a ++ '/' :: c) t = some r1 →
      ∃ t2, r.2 = some t2 ∧
        ∀ r2, Libc.directory_get_metadata (a ++ '/' :: c) t2 = some r2 →
          (r2.1, r2.2.1) = (r1.1, r1.2.1)) := by
  refine ⟨⟨_, _, _, rfl, rfl, rfl, rfl⟩, ?_⟩
  intro t a b c r r1 hb hbs hc hcs hbc h h1
  obtain ⟨td, g1, g2⟩ := directory_delete_siblings_data (Libc.data t) a b c hb hbs hc hcs hbc
  have hd := Libc.directory_delete_data _ _ _ h
  rw [hd] at g1
  obtain ⟨code, o⟩ := r
  cases o with
  | none => simp at g1
  | some t2 =>
    simp only [Option.map_some', Option.some.injEq] at g1
    subst g1
    refine ⟨t2, rfl, ?_⟩
    intro r2 h2
    rw [(Libc.directory_get_metadata_data _ _ _ h2).1,
      (Libc.directory_get_metadata_data _ _ _ h1).1] at g2
    exact g2

/-- Instance of C4: on the tree with the registered file `/c`, `delete("/b")` returns and
`get_metadata("/c")` returns the record before and after it. -/
theorem directory_delete_sibling_deadlocks_witness :
    Libc.directory_register_file "/c".toList sample_metadata_2 Libc.directory_init
      = some (ERR_SUCCESS, sample_registered) ∧
    Libc.directory_delete ([] ++ '/' :: "b".toList) sample_registered
      = some (ERR_NOT_FOUND, some sample_registered) ∧
    (Libc.directory_get_metadata ([] ++ '/' :: "c".toList) sample_registered).map
      (fun r => (r.1, r.2.1)) = some (ERR_SUCCESS, some sample_metadata_2) ∧
    ∃ t2, some sample_registered = some t2 ∧
      ∀ r2, Libc.directory_get_metadata ([] ++ '/' :: "c".toList) t2 = some r2 →
        (r2.1, r2.2.1) = (ERR_SUCCESS, some sample_metadata_2) :=
  ⟨rfl, rfl, rfl,
    directory_delete_sibling_deadlocks.2 sample_registered [] "b".toList "c".toList
      (ERR_NOT_FOUND, some sample_registered)
      (ERR_SUCCESS, some sample_metadata_2,
        .mk ['/'] 1 none ⟨1, false⟩
          [.mk ['c'] 0 (some sample_metadata_2) ⟨0xFFFFFFE0, false⟩ []])
      (by decide) (by decide) (by decide) (by decide) (by decide) rfl rfl⟩

/-- C5: path uniqueness. In every tree reached from `directory_init` by `directory_create`,
`directory_register_file` and `directory_delete` calls, no node has two children with the same
name, and for every path at most one node of the tree has that path. -/
theorem path_uniqueness (ops : List DirOp) (t : DirectoryEntry)
    (h : run_ops ops directory_init = some t) :
    names_unique t = true ∧ ∀ p : List Char, (nodes_at (split_path p) t).length ≤ 1 :=
  ⟨names_unique_reachable h, fun _ => nodes_at_length_le _ (names_unique_reachable h)⟩

/-- Instance of C5: the tree after a create, a registration and a delete. -/
theorem path_uniqueness_witness :
    run_ops [.create "/d".toList, .register_file "/d/x".toList sample_metadata_1,
      .delete "/d/x".toList] directory_init = some (.mk ['/'] 1 none [.mk ['d'] 1 none []]) ∧
    names_unique (.mk ['/'] 1 none [.mk ['d'] 1 none []]) = true ∧
    ∀ p : List Char,
      (nodes_at (split_path p) (.mk ['/'] 1 none [.mk ['d'] 1 none []])).length ≤ 1 :=
  ⟨rfl, path_uniqueness [.create "/d".toList, .register_file "/d/x".toList sample_metadata_1,
      .delete "/d/x".toList] (.mk ['/'] 1 none [.mk ['d'] 1 none []]) rfl⟩

/-- C6 fails on the code. After a first `directory_register_file` of a path `a/x...` of two or
more components on the tree of `directory_init`, a registration of any other path below `a`
never returns, whether a node exists at it or not: the walk read-locks the node `a` at line 148
and write-locks the same lock at line 103 of the next iteration. So it is for `/a/b` after
`/a/x` was registered, where no node exists at `/a/b`. On every tree, whenever
`directory_register_file` of a path with a component at which no node exists returns, it
returns `ERR_SUCCESS`, and then the path resolves to a node with `is_directory = 0` whose
metadata is the record passed, every proper prefix of the path resolves, and every prefix node
that did not exist before the call has `is_directory = 1` and no metadata. -/
theorem register_file_fresh_deadlocks (m : FileMetadata) :
    (∀ (p q a x b : List Char) (rest rest2 : List (List Char)) (m1 : FileMetadata),
      split_path p = a :: x :: rest → split_path q = a :: b :: rest2 →
      ∃ s1, Libc.directory_register_file p m1 Libc.directory_init = some (ERR_SUCCESS, s1) ∧
        Libc.directory_register_file q m s1 = none) ∧
    (∃ s1, Libc.directory_register_file "/a/x".toList sample_metadata_1 Libc.directory_init
        = some (ERR_SUCCESS, s1) ∧
      (directory_lookup "/a/b".toList (Libc.data s1)).1 = ERR_NOT_FOUND ∧
      Libc.directory_register_file "/a/b".toList m s1 = none) ∧
    (∀ (t : Libc.DirectoryEntry) (p : List Char) (r : ErrorCode × Libc.DirectoryEntry),
      split_path p ≠ [] →
      (directory_lookup p (Libc.data t)).1 = ERR_NOT_FOUND →
      Libc.directory_register_file p m t = some r →
      r.1 = ERR_SUCCESS ∧
      ∃ e, (directory_lookup p (Libc.data r.2)).1 = ERR_SUCCESS ∧
        entry_at (directory_lookup p (Libc.data r.2)).2.2 (Libc.data r.2) = some e ∧
        e.is_directory = 0 ∧ e.metadata = some m ∧
        ∀ q : List Char, (split_path q ≠ [] ∨ q = ['/']) →
          split_path q <+: split_path p → split_path q ≠ split_path p →
          (directory_lookup q (Libc.data r.2)).1 = ERR_SUCCESS ∧
          ((directory_lookup q (Libc.data t)).1 = ERR_NOT_FOUND →
            ∃ n, entry_at (directory_lookup q (Libc.data r.2)).2.2 (Libc.data r.2) = some n ∧
              n.is_directory = 1 ∧ n.metadata = none)) := by
  have hgen : ∀ (p q a x b : List Char) (rest rest2 : List (List Char)) (m1 : FileMetadata),
      split_path p = a :: x :: rest → split_path q = a :: b :: rest2 →
      ∃ s1, Libc.directory_register_file p m1 Libc.directory_init = some (ERR_SUCCESS, s1) ∧
        Libc.directory_register_file q m s1 = none := by
    intro p q a x b rest rest2 m1 hp hq
    obtain ⟨s1, c, h1, hch, hcn, hcl⟩ := Libc.directory_register_file_fresh hp m1
    exact ⟨s1, h1, (Libc.calls_block hq hch hcn hcl).2.2.1 m⟩
  refine ⟨hgen, ?_, ?_⟩
  · obtain ⟨s1, h1, h2⟩ := hgen "/a/x".toList "/a/b".toList "a".toList "x".toList "b".toList
      [] [] sample_metadata_1 (by decide) (by decide)
    refine ⟨s1, h1, ?_, h2⟩
    have hd := Libc.directory_register_file_data _ _ _ _ h1
    have : Libc.data s1
        = (directory_register_file "/a/x".toList sample_metadata_1
            (Libc.data Libc.directory_init)).2 := by rw [hd]
    rw [this]
    decide
  · intro t p r hp hnf h
    have hd := Libc.directory_register_file_data _ _ _ _ h
    obtain ⟨t2, e, g1, g2, g3, g4, g5, g6⟩ := register_file_fresh_data (Libc.data t) p m hp hnf
    rw [hd] at g1
    obtain ⟨k1, k2⟩ := Prod.mk.inj g1
    subst k2
    exact ⟨k1, e, g2, g3, g4, g5, g6⟩

/-- Instance of C6: registering `/a.txt` on the initial tree. -/
theorem register_file_fresh_deadlocks_witness :
    split_path "/a.txt".toList ≠ [] ∧
    (directory_lookup "/a.txt".toList (Libc.data Libc.directory_init)).1 = ERR_NOT_FOUND ∧
    Libc.directory_register_file "/a.txt".toList sample_metadata_1 Libc.directory_init
      = some (ERR_SUCCESS, sample_registered_file) ∧
    ∃ e : DirectoryEntry,
      (directory_lookup "/a.txt".toList (Libc.data sample_registered_file)).1 = ERR_SUCCESS ∧
      entry_at (directory_lookup "/a.txt".toList (Libc.data sample_registered_file)).2.2
        (Libc.data sample_registered_file) = some e ∧
      e.is_directory = 0 ∧ e.metadata = some sample_metadata_1 :=
  ⟨by decide, by decide, rfl, by
    obtain ⟨-, e, h1, h2, h3, h4, -⟩ := (register_file_fresh_deadlocks sample_metadata_1).2.2
      Libc.directory_init "/a.txt".toList (ERR_SUCCESS, sample_registered_file)
      (by decide) (by decide) rfl
    exact ⟨e, h1, h2, h3, h4⟩⟩

/-- C7 fails on the code for every path of two or more components. On the tree of
`directory_init` the first `directory_create(p)` returns `ERR_SUCCESS`, and the second call
never returns: its walk read-locks the node of the first component at line 148 and write-locks
the same lock at line 103 of the next iteration. For the one-component path `/d` the second
call returns `ERR_SUCCESS` and leaves the tree, lock words included, as the first call left it.
On every tree, whenever two successive `directory_create` calls of a path with a component
return, both return `ERR_SUCCESS`, the second leaves nodes, order and metadata as the first
left them, and after the first every prefix of the path resolves and each prefix node that was
missing has `is_directory = 1`. -/
theorem directory_create_twice_deadlocks :
    (∀ (p a b : List Char) (rest : List (List Char)), split_path p = a :: b :: rest →
      ∃ s1, Libc.directory_create p Libc.directory_init = some (ERR_SUCCESS, s1) ∧
        Libc.directory_create p s1 = none) ∧
    (∃ s1, Libc.directory_create "/d".toList Libc.directory_init = some (ERR_SUCCESS, s1) ∧
      Libc.directory_create "/d".toList s1 = some (ERR_SUCCESS, s1)) ∧
    (∀ (t : Libc.DirectoryEntry) (p : List Char) (r1 r2 : ErrorCode × Libc.DirectoryEntry),
      split_path p ≠ [] →
      Libc.directory_create p t = some r1 →
      Libc.directory_create p r1.2 = some r2 →
      r1.1 = ERR_SUCCESS ∧ r2.1 = ERR_SUCCESS ∧ Libc.data r2.2 = Libc.data r1.2 ∧
      ∀ q : List Char, split_path q ≠ [] → split_path q <+: split_path p →
        (directory_lookup q (Libc.data r1.2)).1 = ERR_SUCCESS ∧
        ((directory_lookup q (Libc.data t)).1 = ERR_NOT_FOUND →
          ∃ n, entry_at (directory_lookup q (Libc.data r1.2)).2.2 (Libc.data r1.2) = some n ∧
            n.is_directory = 1)) := by
  refine ⟨?_, ⟨_, rfl, rfl⟩, ?_⟩
  · intro p a b rest hp
    obtain ⟨s1, c, h1, hch, hcn, hcl⟩ := Libc.directory_create_fresh hp
    exact ⟨s1, h1, (Libc.calls_block hp hch hcn hcl).2.1⟩
  · intro t p r1 r2 hp h1 h2
    have d1 := Libc.directory_create_data _ _ _ h1
    have d2 := Libc.directory_create_data _ _ _ h2
    obtain ⟨t2, g1, g2, g3⟩ := directory_create_twice_data (Libc.data t) p hp
    rw [d1] at g1
    obtain ⟨k1, k2⟩ := Prod.mk.inj g1
    subst k2
    rw [d2] at g2
    obtain ⟨k3, k4⟩ := Prod.mk.inj g2
    exact ⟨k1, k3, k4, g3⟩

/-- Instance of C7: the second `create("/d/x")` on the initial tree does not return. -/
theorem directory_create_twice_deadlocks_witness :
    split_path "/d/x".toList = ["d".toList, "x".toList] ∧
    ∃ s1, Libc.directory_create "/d/x".toList Libc.directory_init = some (ERR_SUCCESS, s1) ∧
      Libc.directory_create "/d/x".toList s1 = none :=
  ⟨by decide, directory_create_twice_deadlocks.1 "/d/x".toList "d".toList "x".toList []
    (by decide)⟩

/-- C8 as stated fails: after `create("/d")` and `register_file("/d", m)` the node "/d" has
`is_directory = 1` and carries the record `m`, so it is not true that every directory node of
every reachable tree is without metadata. -/
theorem directory_with_metadata :
    ¬ ∀ (ops : List DirOp) (t : DirectoryEntry), run_ops ops directory_init = some t →
      all_nodes dir_no_metadata t = true := by
  intro h
  have := h [.create "/d".toList, .register_file "/d".toList sample_metadata_1] _ rfl
  revert this
  decide

/-- C8 amended: in every tree reached from `directory_init` by `directory_create`,
`directory_register_file` and `directory_delete` calls, a node (of kind directory or not, the
root included) has no metadata record unless some `directory_register_file` call of the sequence
was made on a path with the components of the path of that node. -/
theorem directory_metadata_only_by_registration (ops : List DirOp) (t : DirectoryEntry)
    (p : List Char) (n : DirectoryEntry)
    (hreach : run_ops ops directory_init = some t)
    (hl : (directory_lookup p t).1 = ERR_SUCCESS)
    (he : entry_at (directory_lookup p t).2.2 t = some n)
    (hnr : ∀ q m, DirOp.register_file q m ∈ ops → split_path q ≠ split_path p) :
    n.metadata = none := by
  have hinit : MetadataWithin [] directory_init := by
    intro q n hq hm
    cases q with
    | nil =>
      simp only [resolve, Option.some.injEq] at hq
      subst hq
      exact absurd rfl hm
    | cons u q => simp [resolve, directory_init, DirectoryEntry.children, find_child] at hq
  have hw := metadata_within_run_ops ops (by decide) hinit hreach
  obtain ⟨hv, hres⟩ := directory_lookup_resolves hl
  have hr := (resolves_resolve hres).1
  rw [he] at hr
  by_contra hm
  have := hw _ n hr hm
  rw [List.append_nil] at this
  obtain ⟨q, m, h1, h2⟩ := mem_registered_paths this
  exact hnr q m h1 h2

/-- Instance of C8 amended: the directory "/d" after `create("/d")` and a registration of the
other path "/f". -/
theorem directory_metadata_only_by_registration_witness :
    run_ops [.create "/d".toList, .register_file "/f".toList sample_metadata_1] directory_init
      = some (.mk ['/'] 1 none [.mk ['d'] 1 none [], .mk ['f'] 0 (some sample_metadata_1) []]) ∧
    (DirectoryEntry.mk ['d'] 1 none []).metadata = none :=
  ⟨rfl, directory_metadata_only_by_registration
    [.create "/d".toList, .register_file "/f".toList sample_metadata_1]
    (.mk ['/'] 1 none [.mk ['d'] 1 none [], .mk ['f'] 0 (some sample_metadata_1) []])
    "/d".toList (.mk ['d'] 1 none []) rfl (by decide) rfl
    (by
      intro q m hq
      simp only [List.mem_cons, List.mem_singleton, DirOp.register_file.injEq,
        List.not_mem_nil, or_false] at hq
      rcases hq with hq | hq
      · cases hq
      · rw [hq.1]
        decide)⟩

/-- C9 fails on the code. Each `directory_create("/")` runs no iteration of the lookup loop and
unlocks the never-locked root at line 155, which takes one reader off the 29-bit reader count
of its lock. After `2 ^ 29 - 1 = 536870911` such calls on the tree of `directory_init` the
count is 1, and `directory_delete("/")` then returns `ERR_SUCCESS` and frees the root node
(`entry->parent` is `NULL`, nothing is unlinked and `root` is not reset), so no tree is left for
a later `directory_lookup("/")` to return the root of. No call sequence of `2 ^ 28` calls or
fewer frees the root. On every tree that exists, `directory_lookup("/")` returns `ERR_SUCCESS`
with the root and leaves nodes, order and metadata as they were, and `directory_lookup("")`
returns `ERR_INVALID_ARGUMENT` and changes nothing. -/
theorem root_freed_after_reader_count_wraps :
    Libc.run_ops (List.replicate 536870911 (DirOp.create "/".toList) ++
      [DirOp.delete "/".toList]) Libc.directory_init = Libc.Outcome.root_freed ∧
    (∀ ops : List DirOp, ops.length ≤ 268435456 →
      Libc.run_ops ops Libc.directory_init ≠ Libc.Outcome.root_freed) ∧
    (∀ t : Libc.DirectoryEntry, ∃ t2,
      Libc.directory_lookup "/".toList t = some (ERR_SUCCESS, t2, []) ∧
      Libc.data t2 = Libc.data t) ∧
    (∀ t : Libc.DirectoryEntry,
      Libc.directory_lookup [] t = some (ERR_INVALID_ARGUMENT, t, [])) := by
  have e : "/".toList = ['/'] := rfl
  refine ⟨?_, ?_, ?_, fun t => rfl⟩
  · rw [e, Libc.run_ops_append, Libc.run_ops_create_root]
    have hl : Libc.directory_init.lock = Libc.pthread_rwlock_init := rfl
    rw [hl, Libc.pthread_rwlock_unlock_iterate 536870911 (by norm_num)]
    have hn : (4294967296 - 8 * 536870911) % 4294967296 = 8 := by norm_num
    rw [hn]
    rfl
  · intro ops hlen hfreed
    have := Libc.run_ops_root_freed ops Libc.root_lock_inv_init hfreed
    omega
  · intro t
    rw [e]
    refine ⟨t.set_lock (Libc.pthread_rwlock_unlock t.lock), ?_, Libc.data_set_lock _ _⟩
    unfold Libc.directory_lookup
    exact Libc.directory_lookup_internal_root false 0 t

/-- Instance of C9: the single call `directory_delete("/")` on the initial tree does not free
the root; it does not return. -/
theorem root_freed_after_reader_count_wraps_witness :
    [DirOp.delete "/".toList].length ≤ 268435456 ∧
    Libc.run_ops [DirOp.delete "/".toList] Libc.directory_init = Libc.Outcome.blocked ∧
    Libc.run_ops [DirOp.delete "/".toList] Libc.directory_init ≠ Libc.Outcome.root_freed :=
  ⟨by decide, rfl,
    root_freed_after_reader_count_wraps.2.1 [DirOp.delete "/".toList] (by decide)⟩

/-- C10 fails on the code at capacity 1: the first `cache_put` succeeds; `remove_tail`, run by
the second `cache_put`, frees that only entry and clears `tail` but leaves `head` pointing to the
freed cell; the second `cache_put` then stores through `cache->head`, a pointer to freed memory,
and has no defined result. -/
theorem cache_capacity_one_dangling_head :
    ∃ s1 s, cache_put "p".toList 0 [65] 1 (cache_init 1) = some (ERR_SUCCESS, s1) ∧
      remove_tail s1 = some s ∧ s.tail = none ∧ s.head = some 1 ∧ s.mem 1 = none ∧
      cache_put "p".toList 1 [66] 1 s1 = none :=
  ⟨_, _, rfl, rfl, rfl, rfl, rfl, rfl⟩

/-- The scenario of the specification at capacity 2: after `put(p,0,"A")`, `put(p,1,"B")` and
`put(p,2,"C")`, `get(p,0)` misses, `get(p,1)` and `get(p,2)` hit, and the entries from the head
are the keys 2 and 1. -/
theorem cache_capacity_two_scenario :
    ∃ s1 s2 s3, cache_put "p".toList 0 [65] 1 (cache_init 2) = some (ERR_SUCCESS, s1) ∧
      cache_put "p".toList 1 [66] 1 s1 = some (ERR_SUCCESS, s2) ∧
      cache_put "p".toList 2 [67] 1 s2 = some (ERR_SUCCESS, s3) ∧
      (cache_get "p".toList 0 1 s3).map (fun r => (r.1, r.2.1, r.2.2.1))
        = some (ERR_NOT_FOUND, [], 0) ∧
      (cache_get "p".toList 1 1 s3).map (fun r => (r.1, r.2.1, r.2.2.1))
        = some (ERR_SUCCESS, [66], 1) ∧
      (cache_get "p".toList 2 1 s3).map (fun r => (r.1, r.2.1, r.2.2.1))
        = some (ERR_SUCCESS, [67], 1) ∧
      cache_keys s3 s3.brk s3.head = some [("p".toList, 2), ("p".toList, 1)] := by
  refine ⟨_, _, _, rfl, rfl, rfl, ?_, ?_, ?_, ?_⟩ <;> decide

/-- The cache after `cache_init(2)` and the two calls of `sample_puts` holds the second item,
then the first. -/
theorem sample_cache_holds :
    ∃ s, cache_puts sample_puts (cache_init 2) = some s ∧ s.size = 2 ∧
      cache_holds s [("p".toList, 1, [66], 1), ("p".toList, 0, [65], 1)] := by
  obtain ⟨s, hs, -, hholds⟩ := cache_puts_holds sample_puts
    (⟨[], cache_wf_init 2, List.Forall₂.nil⟩ : cache_holds (cache_init 2) [])
    (by decide) (by decide) (by decide) (by decide) (by simp)
  have hxs : (((sample_puts.map stored_item).reverse ++ []).take (cache_init 2).capacity)
      = [("p".toList, 1, [66], 1), ("p".toList, 0, [65], 1)] := by decide
  rw [hxs] at hholds
  obtain ⟨l, hwf, hrel⟩ := hholds
  exact ⟨s, hs, by rw [hwf.size_eq, hrel.length_eq]; rfl, l, hwf, hrel⟩

/-- C11: on a cache that holds the items `xs`, `cache_get(path, offset, length)` returns, and it
returns `ERR_SUCCESS` exactly when some item has that path, that offset and a stored length of
at least `length`. On a hit the bytes copied are the first `length` bytes of the first such item
(the only item with that key when keys are distinct), `bytes_read` is `length`, and the cache
then holds the same items with that one first. On a miss the result is `ERR_NOT_FOUND` with
`bytes_read = 0` and the cache as it was. -/
theorem cache_get_contract {c : Cache} {xs : List (List Char × Nat × List Nat × Nat)}
    (h : cache_holds c xs) (filepath : List Char) (offset length : Nat) :
    (∃ r, cache_get filepath offset length c = some r ∧
      (r.1 = ERR_SUCCESS ↔
        ∃ x ∈ xs, x.1 = filepath ∧ x.2.1 = offset ∧ x.2.2.2 ≥ length)) ∧
    (∀ xs1 x xs2, xs = xs1 ++ x :: xs2 →
      x.1 = filepath → x.2.1 = offset → x.2.2.2 ≥ length →
      (∀ y ∈ xs1, ¬ (y.1 = filepath ∧ y.2.1 = offset ∧ y.2.2.2 ≥ length)) →
      ∃ c2, cache_get filepath offset length c
          = some (ERR_SUCCESS, x.2.2.1.take length, length, c2) ∧
        cache_holds c2 (x :: (xs1 ++ xs2))) ∧
    (∀ x ∈ xs, (xs.map item_key).Nodup → x.1 = filepath → x.2.1 = offset →
      x.2.2.2 ≥ length →
      ∃ c2, cache_get filepath offset length c
          = some (ERR_SUCCESS, x.2.2.1.take length, length, c2)) ∧
    ((∀ x ∈ xs, ¬ (x.1 = filepath ∧ x.2.1 = offset ∧ x.2.2.2 ≥ length)) →
      cache_get filepath offset length c = some (ERR_NOT_FOUND, [], 0, c)) := by
  obtain ⟨l, hwf, hrel⟩ := h
  have hsplit := find_entry_split
    (fun e => e.filepath = filepath && e.offset = offset && e.length ≥ length)
    (fun x => x.1 = filepath && x.2.1 = offset && x.2.2.2 ≥ length) (fun _ => rfl)
    hwf.links hrel c.brk (cache_wf_fuel hwf)
  rw [← hwf.head_eq] at hsplit
  have hmiss : (∀ x ∈ xs, ¬ (x.1 = filepath ∧ x.2.1 = offset ∧ x.2.2.2 ≥ length)) →
      cache_get filepath offset length c = some (ERR_NOT_FOUND, [], 0, c) := by
    intro hno
    rcases hsplit with ⟨r1, _⟩ | ⟨l1, a, l2, ys1, y, ys2, _, g2, _, _, _, g6, _, _⟩
    · unfold cache_get
      simp only [r1]
    · exfalso
      apply hno y (by rw [g2]; simp)
      simpa [and_assoc] using g6
  have hhit : ∀ xs1 x xs2, xs = xs1 ++ x :: xs2 →
      x.1 = filepath → x.2.1 = offset → x.2.2.2 ≥ length →
      (∀ y ∈ xs1, ¬ (y.1 = filepath ∧ y.2.1 = offset ∧ y.2.2.2 ≥ length)) →
      ∃ c2, cache_get filepath offset length c
          = some (ERR_SUCCESS, x.2.2.1.take length, length, c2) ∧
        cache_holds c2 (x :: (xs1 ++ xs2)) := by
    intro xs1 x xs2 hxs hx1 hx2 hx3 hfirst
    have hpx : (fun x : List Char × Nat × List Nat × Nat =>
        (x.1 = filepath && x.2.1 = offset && x.2.2.2 ≥ length : Bool)) x = true := by
      simp [hx1, hx2, hx3]
    rcases hsplit with ⟨_, r2⟩ | ⟨l1, a, l2, ys1, y, ys2, g1, g2, g3, g4, g5, g6, g7, g8⟩
    · have := r2 x (by rw [hxs]; simp)
      rw [hpx] at this
      cases this
    · have huniq := first_split_unique _ (hxs.symm.trans g2) hpx g6
        (fun z hz => by
          have := hfirst z hz
          simpa [and_assoc] using this) g7
      obtain ⟨rfl, rfl, rfl⟩ := huniq
      rw [g1] at hwf
      obtain ⟨c2, hmv, hholds, -, -, -⟩ := move_to_head_holds hwf g3 g4 g5
      obtain ⟨e, he, hex⟩ := g4
      refine ⟨c2, ?_, hholds⟩
      unfold cache_get
      simp only [g8, he, hmv, Option.bind_eq_bind, Option.some_bind, Option.pure_def]
      rw [← hex]
      rfl
  have hfirst_ex : (∃ x ∈ xs, x.1 = filepath ∧ x.2.1 = offset ∧ x.2.2.2 ≥ length) →
      ∃ xs1 x xs2, xs = xs1 ++ x :: xs2 ∧
        x.1 = filepath ∧ x.2.1 = offset ∧ x.2.2.2 ≥ length ∧
        ∀ y ∈ xs1, ¬ (y.1 = filepath ∧ y.2.1 = offset ∧ y.2.2.2 ≥ length) := by
    intro hex
    rcases hsplit with ⟨_, r2⟩ | ⟨l1, a, l2, ys1, y, ys2, g1, g2, g3, g4, g5, g6, g7, g8⟩
    · obtain ⟨x, hx, h1, h2, h3⟩ := hex
      have := r2 x hx
      simp [h1, h2, h3] at this
    · simp only [Bool.and_eq_true, decide_eq_true_eq] at g6
      refine ⟨ys1, y, ys2, g2, g6.1.1, g6.1.2, g6.2, ?_⟩
      intro z hz hc
      have := g7 z hz
      simp [hc.1, hc.2.1, hc.2.2] at this
  refine ⟨?_, hhit, ?_, hmiss⟩
  · by_cases hex : ∃ x ∈ xs, x.1 = filepath ∧ x.2.1 = offset ∧ x.2.2.2 ≥ length
    · obtain ⟨xs1, x, xs2, e1, e2, e3, e4, e5⟩ := hfirst_ex hex
      obtain ⟨c2, hget, _⟩ := hhit xs1 x xs2 e1 e2 e3 e4 e5
      exact ⟨_, hget, by simp [hex]⟩
    · refine ⟨_, hmiss (fun x hx hc => hex ⟨x, hx, hc⟩), ?_⟩
      simp [hex]
  · intro x hx hnd h1 h2 h3
    have := cache_get_hit ⟨l, hwf, hrel⟩ hnd hx h3
    rw [h1, h2] at this
    exact this

/-- Instance of C11 on the cache after the two calls of `sample_puts`: a get of one byte at
offset 0 of `p` hits and copies `A`, a get on `q` misses and leaves the cache as it is. -/
theorem cache_get_contract_witness :
    ∃ s, cache_puts sample_puts (cache_init 2) = some s ∧
      (∃ c2, cache_get "p".toList 0 1 s = some (ERR_SUCCESS, [65], 1, c2)) ∧
      cache_get "q".toList 0 1 s = some (ERR_NOT_FOUND, [], 0, s) := by
  obtain ⟨s, hs, -, hholds⟩ := sample_cache_holds
  obtain ⟨c2, h1, -⟩ := (cache_get_contract hholds "p".toList 0 1).2.1
    [("p".toList, 1, [66], 1)] ("p".toList, 0, [65], 1) [] rfl rfl rfl (by decide)
    (by decide)
  exact ⟨s, hs, ⟨c2, h1⟩, (cache_get_contract hholds "q".toList 0 1).2.2.2 (by decide)⟩

/-- C12: on a cache that holds the items `xs` with pairwise distinct keys, `cache_invalidate(path,
offset)` returns `ERR_SUCCESS`. When an item has that key, the cache afterwards holds the other
items in their former order with their data, the size is one less, and `cache_get(path, offset,
n)` misses for every `n`. When no item has that key the cache is unchanged. -/
theorem cache_invalidate_contract {c : Cache} {xs : List (List Char × Nat × List Nat × Nat)}
    (h : cache_holds c xs) (hnd : (xs.map item_key).Nodup) (hs : c.size < 2 ^ 64)
    (filepath : List Char) (offset : Nat) :
    (∀ xs1 x xs2, xs = xs1 ++ x :: xs2 → item_key x = (filepath, offset) →
      ∃ c2, cache_invalidate filepath offset c = some (ERR_SUCCESS, c2) ∧
        cache_holds c2 (xs1 ++ xs2) ∧ c2.size + 1 = c.size ∧ c2.capacity = c.capacity ∧
        ∀ n, cache_get filepath offset n c2 = some (ERR_NOT_FOUND, [], 0, c2)) ∧
    ((∀ x ∈ xs, item_key x ≠ (filepath, offset)) →
      cache_invalidate filepath offset c = some (ERR_SUCCESS, c) ∧
      ∀ n, cache_get filepath offset n c = some (ERR_NOT_FOUND, [], 0, c)) := by
  obtain ⟨l, hwf, hrel⟩ := h
  have hsplit := find_entry_split
    (fun e => e.filepath = filepath && e.offset = offset)
    (fun x => x.1 = filepath && x.2.1 = offset) (fun _ => rfl)
    hwf.links hrel c.brk (cache_wf_fuel hwf)
  rw [← hwf.head_eq] at hsplit
  constructor
  · intro xs1 x xs2 hxs hkey
    have hk : x.1 = filepath ∧ x.2.1 = offset := by
      simpa [item_key] using hkey
    have hpx : (fun x : List Char × Nat × List Nat × Nat =>
        (x.1 = filepath && x.2.1 = offset : Bool)) x = true := by
      simp [hk.1, hk.2]
    have hothers : ∀ z ∈ xs1 ++ xs2, item_key z ≠ (filepath, offset) := by
      intro z hz hzk
      rw [hxs, List.map_append, List.map_cons] at hnd
      have hp : (xs1.map item_key ++ item_key x :: xs2.map item_key).Perm
          (item_key x :: (xs1.map item_key ++ xs2.map item_key)) := List.perm_middle
      have hn := (List.nodup_cons.1 (hp.nodup_iff.1 hnd)).1
      apply hn
      rw [hkey, ← hzk, ← List.map_append]
      exact List.mem_map_of_mem _ hz
    rcases hsplit with ⟨_, r2⟩ | ⟨l1, a, l2, ys1, y, ys2, g1, g2, g3, g4, g5, g6, g7, g8⟩
    · have := r2 x (by rw [hxs]; simp)
      rw [hpx] at this
      cases this
    · have huniq := first_split_unique _ (hxs.symm.trans g2) hpx g6
        (fun z hz => by
          have := hothers z (List.mem_append_left _ hz)
          simpa [item_key] using this) g7
      obtain ⟨rfl, rfl, rfl⟩ := huniq
      rw [g1] at hwf
      obtain ⟨c2, hinv, hwf2, hcap, -, hsz, hitems⟩ :=
        cache_invalidate_at hwf hs filepath offset g8
      have hholds : cache_holds c2 (xs1 ++ xs2) :=
        ⟨l1 ++ l2, hwf2, List.rel_append
          (forall2_transfer g3 (fun b hb => hitems b (List.mem_append_left _ hb)))
          (forall2_transfer g5 (fun b hb => hitems b (List.mem_append_right _ hb)))⟩
      exact ⟨c2, hinv, hholds, hsz, hcap, fun n => cache_get_miss hholds filepath offset n
        hothers⟩
  · intro hno
    refine ⟨?_, fun n => cache_get_miss ⟨l, hwf, hrel⟩ filepath offset n hno⟩
    rcases hsplit with ⟨r1, _⟩ | ⟨l1, a, l2, ys1, y, ys2, _, g2, _, _, _, g6, _, _⟩
    · unfold cache_invalidate
      simp only [r1]
    · exfalso
      apply hno y (by rw [g2]; simp)
      simpa [item_key] using g6

/-- Instance of C12 on the cache after the two calls of `sample_puts`: invalidating offset 1 of
`p` succeeds and leaves a cache that holds the item at offset 0 only. -/
theorem cache_invalidate_contract_witness :
    ∃ s, cache_puts sample_puts (cache_init 2) = some s ∧
      ∃ c2, cache_invalidate "p".toList 1 s = some (ERR_SUCCESS, c2) ∧
        cache_holds c2 [("p".toList, 0, [65], 1)] ∧
        ∀ n, cache_get "p".toList 1 n c2 = some (ERR_NOT_FOUND, [], 0, c2) := by
  obtain ⟨s, hs, hsz, hholds⟩ := sample_cache_holds
  obtain ⟨c2, h1, h2, -, -, h3⟩ :=
    (cache_invalidate_contract hholds (by decide) (by rw [hsz]; decide) "p".toList 1).1
      [] ("p".toList, 1, [66], 1) [("p".toList, 0, [65], 1)] rfl rfl
  exact ⟨s, hs, c2, h1, h2, h3⟩

/-- C13: on a cache that holds the items `xs1 ++ x :: xs2`, where `x` is the first item with the
key `(path, offset)` (the only one when keys are distinct), `cache_put(path, offset, data,
length)` returns `ERR_SUCCESS` and the cache then holds the item `(path, offset, data, length)`
first, followed by the other items in their former order: the entry has the new data and
length and is the head, nothing is evicted, and size and capacity are unchanged. -/
theorem cache_put_existing {c : Cache} {xs1 xs2 : List (List Char × Nat × List Nat × Nat)}
    {x : List Char × Nat × List Nat × Nat} (h : cache_holds c (xs1 ++ x :: xs2))
    (filepath : List Char) (offset : Nat) (data : List Nat) (length : Nat)
    (hkey : item_key x = (filepath, offset))
    (hfirst : ∀ y ∈ xs1, item_key y ≠ (filepath, offset)) :
    ∃ c2, cache_put filepath offset data length c = some (ERR_SUCCESS, c2) ∧
      cache_holds c2 ((filepath, offset, data.take length, length) :: (xs1 ++ xs2)) ∧
      c2.size = c.size ∧ c2.capacity = c.capacity := by
  obtain ⟨l, hwf, hrel⟩ := h
  have hsplit := find_entry_split
    (fun e => e.filepath = filepath && e.offset = offset)
    (fun x => x.1 = filepath && x.2.1 = offset) (fun _ => rfl)
    hwf.links hrel c.brk (cache_wf_fuel hwf)
  rw [← hwf.head_eq] at hsplit
  have hk : x.1 = filepath ∧ x.2.1 = offset := by
    simpa [item_key] using hkey
  have hpx : (fun x : List Char × Nat × List Nat × Nat =>
      (x.1 = filepath && x.2.1 = offset : Bool)) x = true := by
    simp [hk.1, hk.2]
  rcases hsplit with ⟨_, r2⟩ | ⟨l1, a, l2, ys1, y, ys2, g1, g2, g3, g4, g5, g6, g7, g8⟩
  · have := r2 x (by simp)
    rw [hpx] at this
    cases this
  · have huniq := first_split_unique _ g2 hpx g6
      (fun z hz => by
        have := hfirst z hz
        simpa [item_key] using this) g7
    obtain ⟨rfl, rfl, rfl⟩ := huniq
    rw [g1] at hwf
    obtain ⟨ea, hea, hex⟩ := g4
    obtain ⟨c1, hmod, hwf1, hcap1, -, hsz1, hma, hmb⟩ :=
      modify_payload_wf hwf hea (data.take length) length
    have hnd := hwf.nodup
    have hal1 : a ∉ l1 := fun hm =>
      (List.nodup_append.1 hnd).2.2 hm (List.mem_cons_self _ _)
    have hal2 : a ∉ l2 := (List.nodup_cons.1 (List.nodup_append.1 hnd).2.1).1
    have t1 : List.Forall₂ (fun a x => ∃ e, c1.mem a = some e ∧ e.item = x) l1 xs1 :=
      forall2_transfer g3 (fun b hb e he =>
        ⟨e, by rw [hmb b (fun e => hal1 (e ▸ hb))]; exact he, rfl⟩)
    have t2 : List.Forall₂ (fun a x => ∃ e, c1.mem a = some e ∧ e.item = x) l2 xs2 :=
      forall2_transfer g5 (fun b hb e he =>
        ⟨e, by rw [hmb b (fun e => hal2 (e ▸ hb))]; exact he, rfl⟩)
    have hitem : ({ ea with data := data.take length, length := length } : CacheEntry).item
        = (filepath, offset, data.take length, length) := by
      have h1 : ea.filepath = filepath := by rw [← hk.1, ← hex]; rfl
      have h2 : ea.offset = offset := by rw [← hk.2, ← hex]; rfl
      simp [CacheEntry.item, h1, h2]
    obtain ⟨c2, hmv, hholds, hcap2, -, hsz2⟩ :=
      move_to_head_holds hwf1 t1 ⟨_, hma, hitem⟩ t2
    refine ⟨c2, ?_, hholds, by rw [hsz2, hsz1], by rw [hcap2, hcap1]⟩
    unfold cache_put
    simp only [g8, hmod, hmv, Option.bind_eq_bind, Option.some_bind, Option.pure_def]

/-- Instance of C13 on the cache after the two calls of `sample_puts`: a put of the byte `C` at
offset 0 of `p`, the key of the second item, succeeds and leaves a cache that holds the new
item first and the item at offset 1 after it. -/
theorem cache_put_existing_witness :
    ∃ s, cache_puts sample_puts (cache_init 2) = some s ∧
      ∃ c2, cache_put "p".toList 0 [67] 1 s = some (ERR_SUCCESS, c2) ∧
        cache_holds c2 [("p".toList, 0, [67], 1), ("p".toList, 1, [66], 1)] ∧
        c2.size = s.size := by
  obtain ⟨s, hs, -, hholds⟩ := sample_cache_holds
  have hh : cache_holds s ([("p".toList, 1, [66], 1)] ++ ("p".toList, 0, [65], 1) :: []) :=
    hholds
  obtain ⟨c2, h1, h2, h3, -⟩ :=
    cache_put_existing hh "p".toList 0 [67] 1 rfl (by decide)
  exact ⟨s, hs, c2, h1, h2, h3⟩

/-- C14 as stated fails: a heartbeat with a host of 256 bytes on the empty table appends a
record whose host is not the host passed but its first 255 bytes. -/
theorem heartbeat_long_host_truncated :
    ¬ ∀ (host port : List Char) (load now : Int) (servers : List StorageServer),
      (∀ s ∈ servers, ¬ (s.host = host ∧ s.port = port)) → servers.length < 100 →
      health_receive_heartbeat host port load now servers =
        servers ++ [{ host := host, port := port, last_heartbeat := now, load := load,
                      active := 1 }] := by
  intro h
  have h1 := h (List.replicate 256 'a') "9100".toList 0 0 []
    (fun s hs => by cases hs) (by decide)
  have hlen : (List.replicate 256 'a').length = 256 := List.length_replicate 256 'a'
  generalize List.replicate 256 'a' = host at h1 hlen
  have h2 := congrArg (fun l => l.map (fun s => s.host.length)) h1
  simp only [health_receive_heartbeat, heartbeat_update, MAX_SERVERS, List.length_nil,
    Nat.zero_lt_succ, if_true, List.nil_append, List.map_cons, List.map_nil, List.length_take,
    hlen, List.cons.injEq, and_true] at h2
  omega

/-- C14 amended: `health_receive_heartbeat(host, port, load)` at time `now`. If a record with
that host and port exists, the first such record gets `last_heartbeat = now`, `load` and
`active = 1` and nothing else changes. Otherwise, with fewer than 100 records, one record is
appended at the end, made of the first 255 bytes of `host`, the first 31 bytes of `port`, `now`,
`load` and `active = 1` (so of `host` and `port` themselves when they are that short).
Otherwise the table is unchanged. -/
theorem health_receive_heartbeat_cases (host port : List Char) (load now : Int) :
    (∀ (pre post : List StorageServer) (s : StorageServer),
      (∀ q ∈ pre, ¬ (q.host = host ∧ q.port = port)) → s.host = host → s.port = port →
      health_receive_heartbeat host port load now (pre ++ s :: post) =
        pre ++ { s with last_heartbeat := now, load := load, active := 1 } :: post) ∧
    (∀ servers : List StorageServer,
      (∀ q ∈ servers, ¬ (q.host = host ∧ q.port = port)) → servers.length < 100 →
      health_receive_heartbeat host port load now servers =
        servers ++ [{ host := host.take 255, port := port.take 31, last_heartbeat := now,
                      load := load, active := 1 }] ∧
      (host.length ≤ 255 → port.length ≤ 31 →
        health_receive_heartbeat host port load now servers =
          servers ++ [{ host := host, port := port, last_heartbeat := now, load := load,
                        active := 1 }])) ∧
    (∀ servers : List StorageServer,
      (∀ q ∈ servers, ¬ (q.host = host ∧ q.port = port)) → 100 ≤ servers.length →
      health_receive_heartbeat host port load now servers = servers) := by
  refine ⟨?_, ?_, ?_⟩
  · intro pre post s hpre hh hp
    unfold health_receive_heartbeat
    rw [heartbeat_update_split hpre ⟨hh, hp⟩]
  · intro servers hno hlen
    have hnone : heartbeat_update host port load now servers = none :=
      heartbeat_update_none.2 hno
    have hlt : servers.length < MAX_SERVERS := hlen
    have h1 : health_receive_heartbeat host port load now servers =
        servers ++ [{ host := host.take 255, port := port.take 31, last_heartbeat := now,
                      load := load, active := 1 }] := by
      unfold health_receive_heartbeat
      rw [hnone]
      simp only [hlt, if_true]
    refine ⟨h1, ?_⟩
    intro hh hp
    rw [h1, List.take_of_length_le hh, List.take_of_length_le hp]
  · intro servers hno hlen
    have hnone : heartbeat_update host port load now servers = none :=
      heartbeat_update_none.2 hno
    have hge : ¬ servers.length < MAX_SERVERS := by
      unfold MAX_SERVERS
      omega
    unfold health_receive_heartbeat
    rw [hnone]
    simp only [hge, if_false]

/-- Instance of C14 amended: a second heartbeat of 10.0.0.2:9200 updates its record in a table of
two, and a heartbeat of an unknown server appends a record. -/
theorem health_receive_heartbeat_cases_witness :
    health_receive_heartbeat "10.0.0.2".toList "9200".toList 3 40
        ([sample_server_1] ++ sample_server_2 :: [])
      = [sample_server_1] ++
          { sample_server_2 with last_heartbeat := 40, load := 3, active := 1 } :: [] ∧
    health_receive_heartbeat "10.0.0.3".toList "9300".toList 5 0 [sample_server_1]
      = [sample_server_1] ++ [sample_server_3] :=
  ⟨(health_receive_heartbeat_cases "10.0.0.2".toList "9200".toList 3 40).1
      [sample_server_1] [] sample_server_2 (by decide) rfl rfl,
   ((health_receive_heartbeat_cases "10.0.0.3".toList "9300".toList 5 0).2.1
      [sample_server_1] (by decide) (by decide)).2 (by decide) (by decide)⟩

/-- C15: on every table reached from the empty one by heartbeats and monitor passes,
`health_get_servers` returns `ERR_NOT_FOUND` exactly when no record has `active = 1`; otherwise
it returns `ERR_SUCCESS` with the records having `active = 1`, in table order, and their number;
in both cases the table is unchanged. -/
theorem health_get_servers_active (ops : List HealthOp) :
    ((health_get_servers (run_health ops [])).1 = ERR_NOT_FOUND ↔
      ∀ s ∈ run_health ops [], s.active ≠ 1) ∧
    ((health_get_servers (run_health ops [])).1 ≠ ERR_NOT_FOUND →
      health_get_servers (run_health ops []) =
        (ERR_SUCCESS, run_health ops [],
          some ((run_health ops []).filter (fun s => s.active = 1),
            ((run_health ops []).filter (fun s => s.active = 1)).length))) ∧
    (health_get_servers (run_health ops [])).2.1 = run_health ops [] := by
  have hok : active_flags_ok (run_health ops []) :=
    active_flags_run_health ops (fun s hs => by cases hs)
  have hf := filter_active_eq hok
  have ha := active_servers_eq_filter (run_health ops [])
  refine ⟨?_, ?_, ?_⟩
  · unfold health_get_servers
    rw [ha, hf]
    by_cases h0 : ((run_health ops []).filter (fun s => s.active = 1)).length = 0
    · simp only [h0, if_true, true_iff]
      intro s hs h1
      have : s ∈ (run_health ops []).filter (fun s => s.active = 1) :=
        List.mem_filter.2 ⟨hs, by simpa using h1⟩
      rw [List.length_eq_zero.1 h0] at this
      cases this
    · simp only [h0, if_false]
      constructor
      · intro h; cases h
      · intro h
        exfalso
        apply h0
        rw [List.length_eq_zero, List.filter_eq_nil_iff]
        intro s hs
        simpa using h s hs
  · intro hne
    unfold health_get_servers at hne ⊢
    rw [ha, hf] at hne ⊢
    by_cases h0 : ((run_health ops []).filter (fun s => s.active = 1)).length = 0
    · simp [h0] at hne
    · simp only [h0, if_false]
  · unfold health_get_servers
    simp only
    split <;> rfl

/-- Instance of C15: after heartbeats of two servers at times 0 and 1 and a monitor pass at
time 16 only the second record is active, and `health_get_servers` returns it. -/
theorem health_get_servers_active_witness :
    (health_get_servers (run_health sample_health_ops [])).1 ≠ ERR_NOT_FOUND ∧
    health_get_servers (run_health sample_health_ops []) =
      (ERR_SUCCESS, run_health sample_health_ops [],
        some ((run_health sample_health_ops []).filter (fun s => s.active = 1),
          ((run_health sample_health_ops []).filter (fun s => s.active = 1)).length)) ∧
    (run_health sample_health_ops []).filter (fun s => s.active = 1)
      = [⟨"10.0.0.2".toList, "9200".toList, 1, 5, 1⟩] :=
  ⟨by decide, (health_get_servers_active sample_health_ops).2.1 (by decide), by decide⟩

/-- C16 as stated fails: a record whose last heartbeat is exactly 15 s old stays active in a
monitor pass. -/
theorem monitor_keeps_fifteen_seconds :
    ¬ ∀ (servers : List StorageServer) (now : Int) (i : Nat) (r : StorageServer),
      servers[i]? = some r → r.active ≠ 0 → now - r.last_heartbeat ≥ 15 →
      ∃ r2, (health_monitor_pass now servers)[i]? = some r2 ∧ r2.active = 0 := by
  intro h
  obtain ⟨r2, h1, h2⟩ := h [sample_server_2] 15 0 sample_server_2 rfl (by decide) (by decide)
  have h3 : (health_monitor_pass 15 [sample_server_2])[0]? = some sample_server_2 := by decide
  rw [h3] at h1
  simp only [Option.some.injEq] at h1
  subst h1
  revert h2
  decide

/-- C16 amended: one monitor pass at time `now` keeps the number of records, marks inactive
every active record with `now - last_heartbeat > 15` and changes nothing else, so every record
that heartbeated at most 15 s ago is left as it is; and a later heartbeat with the host and port
of a record sets that record active again (with the new time and load) when no earlier record of
the table carries the same host and port. -/
theorem heartbeat_timeout (servers : List StorageServer) (now : Int) :
    (health_monitor_pass now servers).length = servers.length ∧
    (∀ (i : Nat) (r : StorageServer), servers[i]? = some r →
      (r.active ≠ 0 → now - r.last_heartbeat > 15 →
        (health_monitor_pass now servers)[i]? = some { r with active := 0 }) ∧
      (now - r.last_heartbeat ≤ 15 → (health_monitor_pass now servers)[i]? = some r) ∧
      (r.active = 0 → (health_monitor_pass now servers)[i]? = some r)) ∧
    (∀ (i : Nat) (r : StorageServer) (load later : Int),
      (health_monitor_pass now servers)[i]? = some r →
      (∀ (j : Nat) (q : StorageServer), j < i →
        (health_monitor_pass now servers)[j]? = some q →
        ¬ (q.host = r.host ∧ q.port = r.port)) →
      (health_receive_heartbeat r.host r.port load later (health_monitor_pass now servers))[i]?
        = some { r with last_heartbeat := later, load := load, active := 1 }) := by
  refine ⟨health_monitor_pass_length now servers, ?_, ?_⟩
  · intro i r hi
    rw [health_monitor_pass_getElem?, hi]
    refine ⟨?_, ?_, ?_⟩
    · intro ha ht
      have : now - r.last_heartbeat > HEARTBEAT_TIMEOUT := ht
      simp [ha, this]
    · intro ht
      have : ¬ now - r.last_heartbeat > HEARTBEAT_TIMEOUT := by
        unfold HEARTBEAT_TIMEOUT
        omega
      simp [this]
    · intro ha
      simp [ha]
  · intro i r load later hi hfirst
    exact heartbeat_first_match hi hfirst load later

/-- Instance of C16 amended: at time 16 the record last heard at time 0 is marked inactive, and
a heartbeat at time 20 sets it active again. -/
theorem heartbeat_timeout_witness :
    (health_monitor_pass 16 [sample_server_2])[0]? = some { sample_server_2 with active := 0 } ∧
    (health_receive_heartbeat "10.0.0.2".toList "9200".toList 2 20
        (health_monitor_pass 16 [sample_server_2]))[0]?
      = some { sample_server_2 with last_heartbeat := 20, load := 2, active := 1 } :=
  ⟨((heartbeat_timeout [sample_server_2] 16).2.1 0 sample_server_2 rfl).1 (by decide)
      (by decide),
   (heartbeat_timeout [sample_server_2] 16).2.2 0 { sample_server_2 with active := 0 } 2 20
      (by decide) (by intro j q hj; omega)⟩

/-- C17 fails on the code: with two active records of loads -1 and 5, in that order,
`select_storage_server` returns the second one, whose load is not the minimum. The first record
sets `min_load` to -1, the value the loop uses for "nothing selected yet", so the next active
record replaces it whatever its load. -/
theorem select_storage_server_sentinel :
    select_storage_server [sample_server_1, sample_server_2]
      = (ERR_SUCCESS, some (sample_server_2.host, sample_server_2.port)) ∧
    sample_server_1.load < sample_server_2.load := by
  decide

/-- C18 fails on the code: a client WRITE of "hello" at offset 0 of `a.txt`, applied by a server
with data directory `/tmp/ds` and one alive secondary, sends that secondary one REPLICATE_WRITE
whose filepath is `/tmp/ds/a.txt`, not the `a.txt` of the client's request; the secondary's
handler, with data directory `/tmp/rs`, then writes to `/tmp/rs//tmp/ds/a.txt`. On a
little-endian host the length 5 of the message is moreover read back as 83886080. -/
theorem replicate_write_sends_local_path :
    (∀ little_endian : Bool,
      (handle_write little_endian "/tmp/ds".toList sample_io sample_send_ok
          (sample_write_request little_endian) 5 sample_bytes [sample_secondary]).sent
        = [Sent.write_request 0 ⟨⟨0, MSG_TYPE_REPLICATE_WRITE, 0⟩, "/tmp/ds/a.txt".toList, 0, 5⟩,
           Sent.data 0 sample_bytes]) ∧
    (∀ little_endian : Bool,
      (sample_write_request little_endian).filepath = "a.txt".toList) ∧
    full_filepath "/tmp/rs".toList "/tmp/ds/a.txt".toList = "/tmp/rs//tmp/ds/a.txt".toList ∧
    ntohl true 5 = 83886080 := by
  decide

/-- C19 as stated fails: a REPLICATE_WRITE handled by a server that has an alive secondary of its
own is passed on to that secondary. -/
theorem replicate_write_is_passed_on :
    ¬ ∀ (little_endian : Bool) (server_data_dir : List Char) (io : FileIO)
        (send : Nat → Nat → Int) (request : WriteRequest) (received : Int) (data : List Nat)
        (secondaries : List SecondaryServer),
      (handle_replicate_write little_endian server_data_dir io send request received data
        secondaries).sent = [] := by
  intro h
  have h1 := h false "/tmp/rs".toList sample_io sample_send_ok (sample_replicate_request false)
    5 sample_bytes [sample_secondary]
  revert h1
  decide

/-- C19 amended: the handlers of REPLICATE_WRITE and REPLICATE_DELETE send no reply on the
request socket and apply the local write or delete through `storage_write` and
`storage_delete_file`, the functions a client request goes through; so after a local success
every secondary of the handling server that is alive is sent a REPLICATE_WRITE or
REPLICATE_DELETE for the path `server_data_dir/filepath`. Sends go only to secondaries alive on
entry. The list of sends to secondaries is empty exactly when no secondary is alive or the
local operation fails: for REPLICATE_WRITE when the data received are not the announced
length, both `fopen` calls fail, `fseek` fails or `fwrite` writes less than the length; for
REPLICATE_DELETE when `remove` fails. All this for sends that return a value: with these the
handlers that model the signal of `send` return what is described here. -/
theorem replicate_handlers_resend (little_endian : Bool) (server_data_dir : List Char)
    (io : FileIO) (send : Nat → Nat → Int) (request : WriteRequest) (received : Int)
    (data : List Nat) (removed : Bool) (delete_request : DeleteRequest)
    (secondaries : List SecondaryServer) :
    (handle_replicate_write little_endian server_data_dir io send request received data
      secondaries).replies = [] ∧
    (handle_replicate_delete server_data_dir removed send delete_request secondaries).replies
      = [] ∧
    (∀ m ∈ (handle_replicate_write little_endian server_data_dir io send request received data
        secondaries).sent,
      ∃ (j : Nat) (s : SecondaryServer), secondaries[j]? = some s ∧ s.is_alive ≠ 0 ∧
        m.dest = j) ∧
    (∀ m ∈ (handle_replicate_delete server_data_dir removed send delete_request
        secondaries).sent,
      ∃ (j : Nat) (s : SecondaryServer), secondaries[j]? = some s ∧ s.is_alive ≠ 0 ∧
        m.dest = j) ∧
    (∀ (j : Nat) (s : SecondaryServer), secondaries[j]? = some s → s.is_alive ≠ 0 →
      (received = ntohl little_endian request.length →
        (io.fopen_update = true ∨ io.fopen_create = true) → io.fseek_ok = true →
        ntohl little_endian request.length ≤ io.fwrite_count →
        Sent.write_request j
          { header := { request_id := 0, type := MSG_TYPE_REPLICATE_WRITE, payload_size := 0 },
            filepath := full_filepath server_data_dir request.filepath,
            offset := ntohl little_endian (request.offset % 2 ^ 32),
            length := ntohl little_endian request.length % 2 ^ 32 }
          ∈ (handle_replicate_write little_endian server_data_dir io send request received data
              secondaries).sent) ∧
      (removed = true →
        Sent.delete_request j
          { header := { request_id := 0, type := MSG_TYPE_REPLICATE_DELETE, payload_size := 0 },
            filepath := full_filepath server_data_dir delete_request.filepath }
          ∈ (handle_replicate_delete server_data_dir removed send delete_request
              secondaries).sent)) ∧
    ((handle_replicate_write little_endian server_data_dir io send request received data
        secondaries).sent = [] ↔
      ((∀ s ∈ secondaries, s.is_alive = 0) ∨
        received ≠ ntohl little_endian request.length ∨
        (io.fopen_update = false ∧ io.fopen_create = false) ∨ io.fseek_ok = false ∨
        io.fwrite_count < ntohl little_endian request.length)) ∧
    ((handle_replicate_delete server_data_dir removed send delete_request secondaries).sent
        = [] ↔
      ((∀ s ∈ secondaries, s.is_alive = 0) ∨ removed = false)) ∧
    Libc.handle_replicate_write little_endian server_data_dir io (fun j k => some (send j k))
        request received data secondaries
      = some (handle_replicate_write little_endian server_data_dir io send request received
          data secondaries) ∧
    Libc.handle_replicate_delete server_data_dir removed (fun j k => some (send j k))
        delete_request secondaries
      = some (handle_replicate_delete server_data_dir removed send delete_request
          secondaries) := by
  obtain ⟨c1, c2, c3, c4, c5⟩ := replicate_handlers_sends little_endian server_data_dir io send
    request received data removed delete_request secondaries
  have hr := Libc.handlers_return little_endian server_data_dir io send request received data
    removed delete_request secondaries
  refine ⟨c1, c2, c3, c4, c5, ⟨fun hnil => ?_, fun h => ?_⟩, ⟨fun hnil => ?_, fun h => ?_⟩,
    hr.2.1, hr.2.2⟩
  · by_contra hcon
    simp only [not_or, not_forall, not_and, ne_eq, not_not, not_lt] at hcon
    obtain ⟨⟨s, hs, ha⟩, hrecv, hopen, hseek, hwrite⟩ := hcon
    obtain ⟨j, hj⟩ := List.getElem?_of_mem hs
    have hopen2 : io.fopen_update = true ∨ io.fopen_create = true := by
      by_cases hu : io.fopen_update = true
      · exact Or.inl hu
      · right
        have := hopen (by simpa using hu)
        simpa using this
    have hmem := (c5 j s hj ha).1 hrecv hopen2 (by simpa using hseek) hwrite
    rw [hnil] at hmem
    cases hmem
  · rcases h with h | h | h | h | h
    · rw [List.eq_nil_iff_forall_not_mem]
      intro m hm
      obtain ⟨j, s, hj, ha, -⟩ := c3 m hm
      exact ha (h s (List.getElem?_mem hj))
    · simp [handle_replicate_write, h]
    · unfold handle_replicate_write
      simp only
      split_ifs
      · rfl
      · simp [storage_write, h.1, h.2]
    · unfold handle_replicate_write
      simp only
      split_ifs
      · rfl
      · simp [storage_write, h]
    · unfold handle_replicate_write
      simp only
      split_ifs
      · rfl
      · unfold storage_write
        split_ifs <;> rfl
  · by_contra hcon
    simp only [not_or, not_forall, ne_eq] at hcon
    obtain ⟨⟨s, hs, ha⟩, hrem⟩ := hcon
    obtain ⟨j, hj⟩ := List.getElem?_of_mem hs
    have hmem := (c5 j s hj ha).2 (by simpa using hrem)
    rw [hnil] at hmem
    cases hmem
  · rcases h with h | h
    · rw [List.eq_nil_iff_forall_not_mem]
      intro m hm
      obtain ⟨j, s, hj, ha, -⟩ := c4 m hm
      exact ha (h s (List.getElem?_mem hj))
    · simp [handle_replicate_delete, storage_delete_file, h]

/-- Instance of C19 amended: a server with data directory `/tmp/rs` and one alive secondary that
handles a REPLICATE_WRITE of 5 bytes for `a.txt` sends that secondary a REPLICATE_WRITE for
`/tmp/rs/a.txt`; when both `fopen` calls fail it sends nothing. -/
theorem replicate_handlers_resend_witness :
    Sent.write_request 0 ⟨⟨0, MSG_TYPE_REPLICATE_WRITE, 0⟩, "/tmp/rs/a.txt".toList, 0, 5⟩
      ∈ (handle_replicate_write false "/tmp/rs".toList sample_io sample_send_ok
          (sample_replicate_request false) 5 sample_bytes [sample_secondary]).sent ∧
    (handle_replicate_write false "/tmp/rs".toList sample_io_fail sample_send_ok
      (sample_replicate_request false) 5 sample_bytes [sample_secondary]).sent = [] :=
  ⟨((replicate_handlers_resend false "/tmp/rs".toList sample_io sample_send_ok
      (sample_replicate_request false) 5 sample_bytes true ⟨⟨0, 11, 0⟩, "a.txt".toList⟩
      [sample_secondary]).2.2.2.2.1 0 sample_secondary rfl (by decide)).1
    (by decide) (by decide) (by decide) (by decide),
   (replicate_handlers_resend false "/tmp/rs".toList sample_io_fail sample_send_ok
      (sample_replicate_request false) 5 sample_bytes true ⟨⟨0, 11, 0⟩, "a.txt".toList⟩
      [sample_secondary]).2.2.2.2.2.1.2 (Or.inr (Or.inr (Or.inl ⟨rfl, rfl⟩)))⟩

/-- C20 fails on the code when the connection to a secondary has been shut down by its peer.
`network_socket_send` calls `send(fd, .., 0)`, which then raises `SIGPIPE`; the storage server
installs handlers for `SIGINT` and `SIGTERM` only, so the process is terminated:
`replication_replicate_write` and `replication_replicate_delete` do not return `ERR_SUCCESS`,
the secondary is not marked, `storage_write` and `storage_delete_file` do not return after the
local operation, and the `WRITE` handler sends the client no reply. When every send returns a
value, the functions return what the functions over returned values return, and of these: both
replicate functions return `ERR_SUCCESS` and keep the number of secondaries; a secondary with
`is_alive = 0` on entry is left as it is and nothing is sent to it; a secondary alive on entry
one of whose sends does not return the full size has `is_alive = 0` afterwards, and one whose
sends all return the full size is left as it is; the code `storage_write` returns is the same
for any two behaviours of the sends. -/
theorem replication_send_sigpipe (filepath : List Char) (offset : Nat) (buffer : List Nat)
    (length : Nat) (secondaries : List SecondaryServer) :
    (∀ (send : Nat → Nat → Option Int) (i : Nat) (s : SecondaryServer),
      secondaries[i]? = some s → s.is_alive ≠ 0 →
      (send i 0 = none ∨ (send i 0 = some SIZEOF_WRITE_REQUEST ∧ send i 1 = none)) →
      Libc.replication_replicate_write send filepath offset buffer length secondaries = none ∧
      (∀ io : FileIO, (io.fopen_update = true ∨ io.fopen_create = true) →
        io.fseek_ok = true → length ≤ io.fwrite_count →
        Libc.storage_write io send filepath offset buffer length secondaries = none)) ∧
    (∀ (send : Nat → Nat → Option Int) (i : Nat) (s : SecondaryServer),
      secondaries[i]? = some s → s.is_alive ≠ 0 → send i 0 = none →
      Libc.replication_replicate_delete send filepath secondaries = none ∧
      Libc.storage_delete_file true send filepath secondaries = none) ∧
    (∀ (little_endian : Bool) (server_data_dir : List Char) (io : FileIO)
      (send : Nat → Nat → Option Int) (sigpipe : Nat → Bool) (request : WriteRequest)
      (data : List Nat) (i : Nat) (s : SecondaryServer),
      secondaries[i]? = some s → s.is_alive ≠ 0 →
      (send i 0 = none ∨ (send i 0 = some SIZEOF_WRITE_REQUEST ∧ send i 1 = none)) →
      (io.fopen_update = true ∨ io.fopen_create = true) → io.fseek_ok = true →
      ntohl little_endian request.length ≤ io.fwrite_count →
      Libc.handle_write little_endian server_data_dir io send sigpipe request
        (ntohl little_endian request.length) data secondaries = none) ∧
    (∀ send : Nat → Nat → Int,
      Libc.replication_replicate_write (fun j k => some (send j k)) filepath offset buffer
          length secondaries
        = some (replication_replicate_write send filepath offset buffer length secondaries) ∧
      Libc.replication_replicate_delete (fun j k => some (send j k)) filepath secondaries
        = some (replication_replicate_delete send filepath secondaries) ∧
      (∀ io : FileIO,
        Libc.storage_write io (fun j k => some (send j k)) filepath offset buffer length
            secondaries
          = some (storage_write io send filepath offset buffer length secondaries)) ∧
      (replication_replicate_write send filepath offset buffer length secondaries).1
        = ERR_SUCCESS ∧
      (replication_replicate_delete send filepath secondaries).1 = ERR_SUCCESS ∧
      (replication_replicate_write send filepath offset buffer length secondaries).2.1.length
        = secondaries.length ∧
      (replication_replicate_delete send filepath secondaries).2.1.length = secondaries.length ∧
      (∀ (i : Nat) (s : SecondaryServer), secondaries[i]? = some s →
        (s.is_alive = 0 →
          (replication_replicate_write send filepath offset buffer length secondaries).2.1[i]?
            = some s ∧
          (replication_replicate_delete send filepath secondaries).2.1[i]? = some s ∧
          (∀ m ∈ (replication_replicate_write send filepath offset buffer length
              secondaries).2.2, m.dest ≠ i) ∧
          (∀ m ∈ (replication_replicate_delete send filepath secondaries).2.2, m.dest ≠ i)) ∧
        (s.is_alive ≠ 0 →
          (send i 0 ≠ SIZEOF_WRITE_REQUEST ∨ send i 1 ≠ to_ssize_t length) →
          (replication_replicate_write send filepath offset buffer length secondaries).2.1[i]?
            = some { s with is_alive := 0 }) ∧
        (s.is_alive ≠ 0 → send i 0 ≠ SIZEOF_DELETE_REQUEST →
          (replication_replicate_delete send filepath secondaries).2.1[i]?
            = some { s with is_alive := 0 }) ∧
        (send i 0 = SIZEOF_WRITE_REQUEST → send i 1 = to_ssize_t length →
          (replication_replicate_write send filepath offset buffer length secondaries).2.1[i]?
            = some s) ∧
        (send i 0 = SIZEOF_DELETE_REQUEST →
          (replication_replicate_delete send filepath secondaries).2.1[i]? = some s)) ∧
      (∀ (io : FileIO) (send2 : Nat → Nat → Int),
        (storage_write io send filepath offset buffer length secondaries).1
          = (storage_write io send2 filepath offset buffer length secondaries).1)) := by
  have hio : ∀ (io : FileIO) (n : Nat), (io.fopen_update = true ∨ io.fopen_create = true) →
      io.fseek_ok = true → n ≤ io.fwrite_count →
      ∀ (send : Nat → Nat → Option Int) (p : List Char) (o : Nat) (b : List Nat),
      Libc.storage_write io send p o b n secondaries
        = (Libc.replication_replicate_write send p o b n secondaries).map
            (fun r => (ERR_SUCCESS, r.2.1, r.2.2)) := by
    intro io n h1 h2 h3 send p o b
    unfold Libc.storage_write
    have c1 : (!io.fopen_update && !io.fopen_create) = false := by
      rcases h1 with h | h <;> simp [h]
    have c3 : ¬ io.fwrite_count < n := by omega
    simp [c1, h2, c3]
  have hw : ∀ (send : Nat → Nat → Option Int) (p : List Char) (o : Nat) (b : List Nat)
      (n i : Nat) (s : SecondaryServer), secondaries[i]? = some s → s.is_alive ≠ 0 →
      (send i 0 = none ∨ (send i 0 = some SIZEOF_WRITE_REQUEST ∧ send i 1 = none)) →
      Libc.replication_replicate_write send p o b n secondaries = none := by
    intro send p o b n i s hi ha hs
    unfold Libc.replication_replicate_write
    simp only
    rw [Libc.replicate_write_loop_sigpipe send _ b n 0 secondaries i s hi ha
      (by simpa using hs)]
    rfl
  refine ⟨?_, ?_, ?_, ?_⟩
  · intro send i s hi ha hs
    refine ⟨hw send _ _ _ _ i s hi ha hs, fun io h1 h2 h3 => ?_⟩
    rw [hio io length h1 h2 h3, hw send _ _ _ _ i s hi ha hs]
    rfl
  · intro send i s hi ha hs
    have hd : Libc.replication_replicate_delete send filepath secondaries = none := by
      unfold Libc.replication_replicate_delete
      simp only
      rw [Libc.replicate_delete_loop_sigpipe send _ 0 secondaries i s hi ha (by simpa using hs)]
      rfl
    refine ⟨hd, ?_⟩
    unfold Libc.storage_delete_file
    rw [hd]
    rfl
  · intro little_endian server_data_dir io send sigpipe request data i s hi ha hs h1 h2 h3
    unfold Libc.handle_write
    simp only [ne_eq, not_true_eq_false, if_false]
    rw [hio io _ h1 h2 h3, hw send _ _ _ _ i s hi ha hs]
    rfl
  · intro send
    have hr := Libc.replication_returns send filepath offset buffer length secondaries
    exact ⟨hr.1, hr.2.1, hr.2.2.1,
      returned_send_errors_absorbed send filepath offset buffer length secondaries⟩

/-- Instance of C20: a write of 5 bytes on a server with one alive secondary whose peer has
shut the connection down. The send of the request returns 288 and the send of the data raises
`SIGPIPE`: `replication_replicate_write`, `storage_write` and the `WRITE` handler do not
return. -/
theorem replication_send_sigpipe_witness :
    Libc.replication_replicate_write sample_send_sigpipe "/tmp/ds/a.txt".toList 0 sample_bytes 5
      [sample_secondary] = none ∧
    Libc.storage_write sample_io sample_send_sigpipe "/tmp/ds/a.txt".toList 0 sample_bytes 5
      [sample_secondary] = none ∧
    Libc.handle_write false "/tmp/ds".toList sample_io sample_send_sigpipe (fun _ => false)
      (sample_write_request false) 5 sample_bytes [sample_secondary] = none :=
  ⟨((replication_send_sigpipe "/tmp/ds/a.txt".toList 0 sample_bytes 5 [sample_secondary]).1
      sample_send_sigpipe 0 sample_secondary rfl (by decide) (Or.inr ⟨rfl, rfl⟩)).1,
   ((replication_send_sigpipe "/tmp/ds/a.txt".toList 0 sample_bytes 5 [sample_secondary]).1
      sample_send_sigpipe 0 sample_secondary rfl (by decide) (Or.inr ⟨rfl, rfl⟩)).2
      sample_io (Or.inl rfl) rfl (by decide),
   (replication_send_sigpipe "/tmp/ds/a.txt".toList 0 sample_bytes 5 [sample_secondary]).2.2.1
      false "/tmp/ds".toList sample_io sample_send_sigpipe (fun _ => false)
      (sample_write_request false) sample_bytes 0 sample_secondary rfl (by decide) (Or.inr ⟨rfl, rfl⟩) (Or.inl rfl) rfl
      (by decide)⟩

/-- C21 fails on the code for every path of two or more components. After an `SS_REGISTER`
that lists such a path `p` on the tree of `directory_init`, the `GET_LOCATION` handler called
for `p` never replies: `directory_lookup` read-locks the node of the first component at line
148 and write-locks the same lock at line 103 of the next iteration. A request that announces a
payload of `2 ^ 32 - 1` bytes has no defined reply either: `payload_size + 1` is 0 in
`uint32_t`, so `malloc(payload_size + 1)` is `malloc(0)` and the bytes received are stored
outside the block. Whenever the handler returns on a request whose payload is the path `p` with
its terminator, nodes, order and metadata of the tree are unchanged; the reply is a `LOCATION`
header with identifier `r` and payload size 18 in network order, the 16-byte host field and the
port with its most significant byte first when a record is stored at `p`, and an `ERROR` header
with identifier `r` followed by `ERR_FILE_NOT_FOUND` (-10) in network order otherwise; and after
a registration from peer `ip` with port `port` that listed `p` and returned, the reply is the
`LOCATION` frame of `ip` and `port`. -/
theorem get_location_deadlocks (little_endian : Bool) (after : Nat → Nat)
    (sigpipe : Nat → Bool) (header : MessageHeader) (p : List Char) (rest : List Nat)
    (hp : ∀ c ∈ p, c.toNat ≠ 0)
    (hsize : ntohl little_endian header.payload_size = p.length + 1) :
    (∀ (ip : List Char) (port size permissions : Nat) (a b : List Char)
      (more : List (List Char)),
      split_path p = a :: b :: more → p.length + 2 < 4294967296 →
      ∃ t, Libc.handle_storage_server_registration ip port size permissions [c_bytes p ++ [0]]
          Libc.directory_init = some t ∧
        Libc.handle_client_request little_endian after sigpipe header (c_bytes p ++ 0 :: rest) t
          = none) ∧
    (p.length + 1 = 4294967295 → ∀ root : Libc.DirectoryEntry,
      Libc.handle_client_request little_endian after sigpipe header (c_bytes p ++ 0 :: rest)
        root = none) ∧
    (∀ (root : Libc.DirectoryEntry) (r : List Nat × Libc.DirectoryEntry),
      Libc.handle_client_request little_endian after sigpipe header (c_bytes p ++ 0 :: rest)
        root = some r →
      Libc.data r.2 = Libc.data root ∧
      (∀ m, directory_get_metadata p (Libc.data root) = (ERR_SUCCESS, some m) →
        r.1 = MessageHeader.bytes little_endian
            { request_id := header.request_id, type := MSG_TYPE_LOCATION,
              payload_size := htonl little_endian 18 } ++
          (c_bytes m.storage_server_ip ++ 0 :: (List.range 16).map after).take 16 ++
          [m.storage_server_port / 256 % 256, m.storage_server_port % 256]) ∧
      ((directory_get_metadata p (Libc.data root)).1 ≠ ERR_SUCCESS →
        r.1 = MessageHeader.bytes little_endian
            { request_id := header.request_id, type := MSG_TYPE_ERROR,
              payload_size := htonl little_endian 4 } ++ [255, 255, 255, 246])) ∧
    (∀ (ip : List Char) (port size permissions : Nat) (payloads : List (List Nat))
      (root t : Libc.DirectoryEntry) (r : List Nat × Libc.DirectoryEntry),
      p ∈ payloads.map c_string → (split_path p ≠ [] ∨ p = ['/']) →
      Libc.handle_storage_server_registration ip port size permissions payloads root
        = some t →
      Libc.handle_client_request little_endian after sigpipe header (c_bytes p ++ 0 :: rest) t
        = some r →
      r.1 = MessageHeader.bytes little_endian
          { request_id := header.request_id, type := MSG_TYPE_LOCATION,
            payload_size := htonl little_endian 18 } ++
        (c_bytes ip ++ 0 :: (List.range 16).map after).take 16 ++
        [port / 256 % 256, port % 256]) := by
  refine ⟨?_, ?_, ?_, ?_⟩
  · intro ip port size permissions a b more hsp hlen
    obtain ⟨s1, c, h1, hch, hcn, hcl⟩ := Libc.directory_register_file_fresh hsp
      { storage_server_ip := ip, storage_server_port := port, size := size,
        permissions := permissions }
    refine ⟨s1, ?_, ?_⟩
    · have hmod : ¬ ((c_bytes p ++ [0]).length + 1) % 2 ^ 32 ≤ (c_bytes p ++ [0]).length := by
        rw [List.length_append, c_bytes_length, List.length_singleton]
        norm_num
        omega
      simp only [Libc.handle_storage_server_registration, if_neg hmod, c_string_c_bytes hp [],
        h1]
    · exact Libc.handle_client_request_path little_endian after sigpipe header p rest s1 hp
        hsize hlen (Libc.calls_block hsp hch hcn hcl).1
  · intro hmax root
    exact Libc.handle_client_request_wraps little_endian after sigpipe header _ root
      (by simp) (by rw [hsize, hmax])
  · intro root r h
    obtain ⟨h1, h2⟩ := Libc.handle_client_request_data _ _ _ _ _ _ _ h
    obtain ⟨-, g2, g3, -⟩ := get_location_reply_data little_endian after header p rest
      (Libc.data root) hp hsize
    refine ⟨h2, fun m hm => ?_, fun hne => ?_⟩
    · rw [h1]
      exact (g2 m hm).1
    · rw [h1]
      exact g3 hne
  · intro ip port size permissions payloads root t r hmem hvalid hreg h
    obtain ⟨h1, -⟩ := Libc.handle_client_request_data _ _ _ _ _ _ _ h
    obtain ⟨-, -, -, g4⟩ := get_location_reply_data little_endian after header p rest
      (Libc.data root) hp hsize
    rw [h1, Libc.handle_storage_server_registration_data _ _ _ _ _ _ _ hreg]
    exact g4 ip port size permissions _ hmem hvalid

/-- Instance of C21 on a little-endian naming server. After a registration from 10.0.0.1 with
port 9100 that lists `dir/a.txt`, the handler called for `dir/a.txt` does not return. After one
that lists `a.txt`, a `GET_LOCATION` for `a.txt` with identifier 7 is answered by the
`LOCATION` frame of 10.0.0.1 and port 9100 (bytes 35 and 140). -/
theorem get_location_deadlocks_witness :
    (∃ t, Libc.handle_storage_server_registration "10.0.0.1".toList 9100 0 0
        [c_bytes "dir/a.txt".toList ++ [0]] Libc.directory_init = some t ∧
      Libc.handle_client_request true (fun _ => 0) (fun _ => false)
        sample_location_header_deep (c_bytes "dir/a.txt".toList ++ 0 :: []) t = none) ∧
    Libc.handle_storage_server_registration "10.0.0.1".toList 9100 0 0
      [c_bytes "a.txt".toList ++ [0]] Libc.directory_init = some sample_registered_location ∧
    Libc.handle_client_request true (fun _ => 0) (fun _ => false) sample_location_header
      (c_bytes "a.txt".toList ++ 0 :: []) sample_registered_location
        = some sample_location_reply ∧
    sample_location_reply.1 = MessageHeader.bytes true
        { request_id := 7, type := MSG_TYPE_LOCATION, payload_size := htonl true 18 } ++
      (c_bytes "10.0.0.1".toList ++ 0 :: (List.range 16).map (fun _ => 0)).take 16 ++
      [9100 / 256 % 256, 9100 % 256] :=
  ⟨(get_location_deadlocks true (fun _ => 0) (fun _ => false) sample_location_header_deep
      "dir/a.txt".toList [] (by decide) (by decide)).1 "10.0.0.1".toList 9100 0 0
      "dir".toList "a.txt".toList [] (by decide) (by decide),
   rfl, rfl,
   (get_location_deadlocks true (fun _ => 0) (fun _ => false) sample_location_header
      "a.txt".toList [] (by decide) (by decide)).2.2.2 "10.0.0.1".toList 9100 0 0
      [c_bytes "a.txt".toList ++ [0]] Libc.directory_init sample_registered_location
      sample_location_reply (by decide) (by decide) (by rfl) (by rfl)⟩

/-- C22 fails: `client_write` sends the `WriteRequest` object and the data, without the separate
`MessageHeader` that `client_read` sends first. The storage server takes the first 12 bytes of
the object for that header and reads the request object from the 288 bytes behind them. For a
write of fewer than 12 bytes of data, such as `WRITE("a.txt", 0, "hello")`, the server never
receives a complete request object, so no `WRITE` is handled. For 12 bytes of data or more the
`WRITE` handler is entered with a `filepath` that is the one sent without its first 12
characters, which differs from every path the client can have written. -/
theorem client_write_misframed (little_endian : Bool) (filepath : List Char) (offset : Nat)
    (buffer : List Nat) (length : Nat) (net : Network) (s : ClientState)
    (hpath : filepath ≠ []) (hz : ∀ c ∈ filepath, c.toNat ≠ 0)
    (hconn : (ensure_storage_connection little_endian filepath net s).1 = ERR_SUCCESS.code)
    (hsend : net.ss_send_ok 0 = true ∧ net.ss_send_ok 1 = true) :
    (client_write little_endian filepath offset buffer length net s).2.1.length
      = 288 + (buffer.take length).length ∧
    ((buffer.take length).length < 12 →
      receive_request little_endian
        (client_write little_endian filepath offset buffer length net s).2.1
        = Received.nothing) ∧
    (12 ≤ (buffer.take length).length →
      ∃ h q n d, receive_request little_endian
          (client_write little_endian filepath offset buffer length net s).2.1
          = Received.write h q n d ∧
        q.filepath = (filepath.take 255).drop 12 ∧ q.filepath ≠ filepath) := by
  rw [client_write_sent little_endian filepath offset buffer length net s hconn hsend]
  have hrecv := receive_write_bytes little_endian
    { header :=
        { request_id :=
            (generate_request_id (ensure_storage_connection little_endian filepath net s).2).1,
          type := MSG_TYPE_WRITE, payload_size := 0 },
      filepath := filepath.take 255, offset := offset % 2 ^ 64, length := length % 2 ^ 32 }
    (buffer.take length) rfl (fun c hc => hz c (List.mem_of_mem_take hc))
  refine ⟨by rw [List.length_append, request_bytes_length], hrecv.1, fun hd => ?_⟩
  obtain ⟨h, q, n, d, hq, hf⟩ := hrecv.2 hd
  simp only [List.take_take, Nat.min_self] at hf
  refine ⟨h, q, n, d, hq, hf, fun heq => ?_⟩
  have hl := congrArg List.length (hf.symm.trans heq)
  have hpos : 0 < filepath.length := List.length_pos.2 hpath
  rw [List.length_drop, List.length_take] at hl
  omega

/-- Instance of C22 on a little-endian host: the 293 bytes that `client_write("a.txt", 0,
"hello", 5)` sends are not received as a request by the storage server. -/
theorem client_write_misframed_witness :
    (client_write true "a.txt".toList 0 sample_bytes 5 (sample_network sample_write_reply)
      sample_client).2.1.length = 293 ∧
    receive_request true
      (client_write true "a.txt".toList 0 sample_bytes 5 (sample_network sample_write_reply)
        sample_client).2.1 = Received.nothing :=
  ⟨(client_write_misframed true "a.txt".toList 0 sample_bytes 5
      (sample_network sample_write_reply) sample_client (by decide) (by decide) (by decide)
      ⟨rfl, rfl⟩).1,
   (client_write_misframed true "a.txt".toList 0 sample_bytes 5
      (sample_network sample_write_reply) sample_client (by decide) (by decide) (by decide)
      ⟨rfl, rfl⟩).2.1 (by decide)⟩

/-- C23 fails for offsets of more than 32 bits: `client_read` stores `htonl(offset)` in the
64-bit field `offset` and the `READ` handler decodes it with `ntohl`, both of which work on 32
bits. For every offset and length the handler receives the request of `client_read` as a `READ`
and passes to `storage_read` the offset modulo `2 ^ 32` and the length modulo `2 ^ 32`: the
values the client was called with when both are below `2 ^ 32`, and a different offset for
every offset from `2 ^ 32` on. -/
theorem client_read_offset_truncated (little_endian : Bool) (filepath : List Char)
    (offset length : Nat) (other stale : List Nat) (net : Network) (s : ClientState)
    (hconn : (ensure_storage_connection little_endian filepath net s).1 = ERR_SUCCESS.code)
    (hsend : net.ss_send_ok 0 = true ∧ net.ss_send_ok 1 = true) :
    ∃ h q, receive_request little_endian
          (client_read little_endian filepath offset length other stale net s).2.2.1
        = Received.read h q ∧
      read_arguments little_endian q = (offset % 2 ^ 32, length % 2 ^ 32) ∧
      (offset < 2 ^ 32 → length < 2 ^ 32 →
        read_arguments little_endian q = (offset, length)) ∧
      (2 ^ 32 ≤ offset → (read_arguments little_endian q).1 ≠ offset) := by
  rw [client_read_sent little_endian filepath offset length other stale net s hconn hsend,
    receive_read_bytes little_endian _ _ other rfl]
  have hargs := read_arguments_htonl little_endian
    { header :=
        { request_id :=
            (generate_request_id (ensure_storage_connection little_endian filepath net s).2).1,
          type := MSG_TYPE_READ, payload_size := htonl little_endian 288 },
      filepath := filepath.take 255,
      offset := htonl little_endian (offset % 2 ^ 32),
      length := htonl little_endian (length % 2 ^ 32) } other (offset % 2 ^ 32)
    (length % 2 ^ 32) rfl rfl
  rw [Nat.mod_mod, Nat.mod_mod] at hargs
  refine ⟨_, _, rfl, hargs, fun ho hl => ?_, fun ho => ?_⟩
  · rw [hargs, Nat.mod_eq_of_lt ho, Nat.mod_eq_of_lt hl]
  · rw [hargs]
    have := Nat.mod_lt offset (show 0 < 2 ^ 32 by norm_num)
    show offset % 2 ^ 32 ≠ offset
    omega

/-- Instance of C23 on a little-endian host: for `client_read("a.txt", 4294967296, .., 5)` the
`READ` handler passes offset 0 and length 5 to `storage_read`. -/
theorem client_read_offset_truncated_witness :
    ∃ h q, receive_request true
          (client_read true "a.txt".toList 4294967296 5 [] [] (sample_network [])
            sample_client).2.2.1
        = Received.read h q ∧
      read_arguments true q = (0, 5) := by
  obtain ⟨h, q, h1, h2, -⟩ := client_read_offset_truncated true "a.txt".toList 4294967296 5 []
    [] (sample_network []) sample_client (by decide) ⟨rfl, rfl⟩
  exact ⟨h, q, h1, h2⟩

/-- C24 fails for sizes of more than 32 bits: the `GET_FILE_INFO` handler stores
`htonl(file_size)` in the 64-bit field `file_size` and `client_get_file_info` decodes it with
`ntohl`, both of which work on 32 bits. For a file of which `stat` reports the size `st_size`
and the mode `st_mode`, the client returns `ERR_SUCCESS` with the permissions `st_mode & 0777`
and the size modulo `2 ^ 32`: the size itself when it is below `2 ^ 32`, and a different value
for every size from `2 ^ 32` on. -/
theorem file_info_size_truncated (little_endian : Bool) (server_data_dir : List Char)
    (stat : List Char → Option (Nat × Nat)) (header : MessageHeader) (path : List Char)
    (filepath : List Char) (stale : List Nat) (net : Network) (s : ClientState)
    (st_size st_mode : Nat)
    (hstat : stat ((server_data_dir ++ '/' :: path).take 511) = some (st_size, st_mode))
    (hsize : st_size < 2 ^ 64) (hmode : st_mode < 2 ^ 32)
    (hconn : (ensure_storage_connection little_endian filepath net s).1 = ERR_SUCCESS.code)
    (hsend : net.ss_send_ok 0 = true ∧ net.ss_send_ok 1 = true)
    (hreply : net.ss_reply =
      handle_get_file_info little_endian server_data_dir stat header (some path)) :
    (client_get_file_info little_endian filepath stale net s).1 = ERR_SUCCESS.code ∧
    (client_get_file_info little_endian filepath stale net s).2.1
      = some (st_size % 2 ^ 32, st_mode &&& 511) ∧
    (st_size < 2 ^ 32 →
      (client_get_file_info little_endian filepath stale net s).2.1
        = some (st_size, st_mode &&& 511)) ∧
    (2 ^ 32 ≤ st_size →
      (client_get_file_info little_endian filepath stale net s).2.1
        ≠ some (st_size, st_mode &&& 511)) := by
  have hperm : (st_mode &&& 511) % 2 ^ 32 = st_mode &&& 511 :=
    Nat.mod_eq_of_lt (lt_of_le_of_lt Nat.and_le_right (by norm_num))
  have hr : net.ss_reply =
      MessageHeader.bytes little_endian
        { request_id := header.request_id, type := MSG_TYPE_GET_FILE_INFO_RESPONSE,
          payload_size := htonl little_endian 12 } ++
      store_bytes little_endian 8 (htonl little_endian (st_size % 2 ^ 32)) ++
      store_bytes little_endian 4 (htonl little_endian (st_mode &&& 511)) := by
    rw [hreply]
    unfold handle_get_file_info storage_get_file_info
    simp only [hstat, Nat.mod_eq_of_lt hsize, Nat.mod_eq_of_lt hmode, ne_eq,
      not_true_eq_false, if_false]
  obtain ⟨h1, h2⟩ := client_get_file_info_decodes little_endian filepath stale net s
    header.request_id (st_size % 2 ^ 32) (st_mode &&& 511) hconn hsend hr
  rw [Nat.mod_mod, hperm] at h2
  refine ⟨h1, h2, fun hlt => ?_, fun hge => ?_⟩
  · rw [h2, Nat.mod_eq_of_lt hlt]
  · rw [h2]
    intro heq
    have h3 : st_size % 2 ^ 32 = st_size := by
      simpa using heq
    have := Nat.mod_lt st_size (show 0 < 2 ^ 32 by norm_num)
    omega

/-- Instance of C24 on a little-endian host: for a file of `2 ^ 32` bytes with the mode
`0100644`, `client_get_file_info` returns `ERR_SUCCESS` with size 0 and permissions `0644`. -/
theorem file_info_size_truncated_witness :
    (client_get_file_info true "a.txt".toList []
      (sample_network (handle_get_file_info true "data".toList sample_stat
        { request_id := 2, type := MSG_TYPE_GET_FILE_INFO, payload_size := 256 }
        (some "a.txt".toList))) sample_client).2.1 = some (0, 420) :=
  (file_info_size_truncated true "data".toList sample_stat
    { request_id := 2, type := MSG_TYPE_GET_FILE_INFO, payload_size := 256 } "a.txt".toList
    "a.txt".toList [] (sample_network (handle_get_file_info true "data".toList sample_stat
      { request_id := 2, type := MSG_TYPE_GET_FILE_INFO, payload_size := 256 }
      (some "a.txt".toList))) sample_client 4294967296 33188 rfl (by decide) (by decide)
    (by decide) ⟨rfl, rfl⟩ rfl).2.1

/-- C25 fails: when the `WRITE` handler of the storage server answers with
`send_error_response(e)`, an `ERROR` header followed by the code `e`, `client_write` reads the
first four bytes of the reply into `response_code` and returns them. These are the field
`request_id` of the header, which is 0: `client_write` returns `ERR_SUCCESS`, not `e`, although
the reply was not a `WRITE` header. -/
theorem client_write_ignores_error_frame (little_endian : Bool) (server_data_dir : List Char)
    (io : FileIO) (send : Nat → Nat → Int) (request : WriteRequest) (received : Int)
    (data : List Nat) (secondaries : List SecondaryServer) (filepath : List Char)
    (offset : Nat) (buffer : List Nat) (length : Nat) (net : Network) (s : ClientState)
    (e : ErrorCode) (he : e ≠ ERR_SUCCESS)
    (hfail : (handle_write little_endian server_data_dir io send request received data
      secondaries).replies = send_error_response e)
    (hconn : (ensure_storage_connection little_endian filepath net s).1 = ERR_SUCCESS.code)
    (hsend : net.ss_send_ok 0 = true ∧ net.ss_send_ok 1 = true)
    (hreply : net.ss_reply = replies_bytes little_endian
      (handle_write little_endian server_data_dir io send request received data
        secondaries).replies) :
    (client_write little_endian filepath offset buffer length net s).1 = ERR_SUCCESS.code ∧
    (client_write little_endian filepath offset buffer length net s).1 ≠ e.code := by
  have h0 : (client_write little_endian filepath offset buffer length net s).1
      = ERR_SUCCESS.code := by
    apply client_write_reads_request_id little_endian filepath offset buffer length net s
      MSG_TYPE_ERROR 0 (store_bytes little_endian 4 (to_uint32 e.code)) hconn hsend
    rw [hreply, hfail]
    simp [send_error_response, replies_bytes, Reply.bytes]
  refine ⟨h0, ?_⟩
  rw [h0]
  cases e <;> first | exact absurd rfl he | decide

/-- Instance of C25 on a little-endian host: `fopen` fails on the storage server, which answers
the write of `hello` to `a.txt` with the `ERROR` frame of `ERR_IO_ERROR`; `client_write`
returns `ERR_SUCCESS`. -/
theorem client_write_ignores_error_frame_witness :
    (handle_write true "data".toList sample_io_fail sample_send_ok (sample_write_request true)
      5 sample_bytes []).replies = send_error_response ERR_IO_ERROR ∧
    (client_write true "a.txt".toList 0 sample_bytes 5
      (sample_network (replies_bytes true (send_error_response ERR_IO_ERROR)))
      sample_client).1 = ERR_SUCCESS.code :=
  ⟨by decide,
   (client_write_ignores_error_frame true "data".toList sample_io_fail sample_send_ok
      (sample_write_request true) 5 sample_bytes [] "a.txt".toList 0 sample_bytes 5
      (sample_network (replies_bytes true (send_error_response ERR_IO_ERROR))) sample_client
      ERR_IO_ERROR (by decide) (by decide) (by decide) ⟨rfl, rfl⟩ (by decide)).1⟩

/-- C26 fails on a little-endian host: for a path at which `directory_get_metadata` finds no
record, the `GET_LOCATION` handler of the naming server answers with its `ERROR` frame, in which
`ERR_FILE_NOT_FOUND` was passed through `htonl`; `get_storage_server` returns the four bytes of
the code as it finds them, without `ntohl`: on a little-endian host the value is -150994945, on
a big-endian host it is -10. The same value is returned by `ensure_storage_connection`,
`client_read`, `client_write` and `client_get_file_info`. -/
theorem location_error_code_byte_order (little_endian : Bool) (after : Nat → Nat)
    (header : MessageHeader) (filepath : List Char) (rest : List Nat) (root : DirectoryEntry)
    (net : Network) (s : ClientState)
    (hp : ∀ c ∈ filepath, c.toNat ≠ 0)
    (hsize : ntohl little_endian header.payload_size = filepath.length + 1)
    (hmiss : (directory_get_metadata filepath root).1 ≠ ERR_SUCCESS)
    (hsend : net.ns_send_ok 0 = true ∧ net.ns_send_ok 1 = true)
    (hreply : net.ns_reply =
      (handle_client_request little_endian after header (c_bytes filepath ++ 0 :: rest)
        root).1) :
    (get_storage_server little_endian (generate_request_id s).1 filepath net).1
      = (if little_endian then -150994945 else ERR_FILE_NOT_FOUND.code) ∧
    (ensure_storage_connection little_endian filepath net s).1
      = (if little_endian then -150994945 else ERR_FILE_NOT_FOUND.code) ∧
    (∀ offset length other stale,
      (client_read little_endian filepath offset length other stale net s).1
        = (if little_endian then -150994945 else ERR_FILE_NOT_FOUND.code)) ∧
    (∀ offset buffer length,
      (client_write little_endian filepath offset buffer length net s).1
        = (if little_endian then -150994945 else ERR_FILE_NOT_FOUND.code)) ∧
    (∀ stale,
      (client_get_file_info little_endian filepath stale net s).1
        = (if little_endian then -150994945 else ERR_FILE_NOT_FOUND.code)) := by
  rw [handle_client_request_eq little_endian after header filepath rest root hp hsize,
    get_metadata_none hmiss] at hreply
  have hget := fun id =>
    get_storage_server_not_found little_endian header.request_id id filepath net hsend hreply
  have hens : (ensure_storage_connection little_endian filepath net s).1
      = (if little_endian then -150994945 else ERR_FILE_NOT_FOUND.code) := by
    unfold ensure_storage_connection
    simp only [hget]
    cases little_endian <;> simp [ErrorCode.code]
  have hne : (ensure_storage_connection little_endian filepath net s).1 ≠ ERR_SUCCESS.code := by
    rw [hens]
    cases little_endian <;> decide
  refine ⟨hget _, hens, ?_, ?_, ?_⟩
  · intro offset length other stale
    unfold client_read
    simp only [if_pos hne]
    exact hens
  · intro offset buffer length
    unfold client_write
    simp only [if_pos hne]
    exact hens
  · intro stale
    unfold client_get_file_info
    simp only [if_pos hne]
    exact hens

/-- Instance of C26: on a little-endian host, with the empty tree at the naming server,
`client_write` of `hello` to `a.txt` returns -150994945 and not `ERR_FILE_NOT_FOUND`. -/
theorem location_error_code_byte_order_witness :
    (client_write true "a.txt".toList 0 sample_bytes 5 sample_network_not_found
        sample_client).1 = -150994945 ∧
    (-150994945 : Int) ≠ ERR_FILE_NOT_FOUND.code :=
  ⟨(location_error_code_byte_order true (fun _ => 0) sample_location_header "a.txt".toList []
      directory_init sample_network_not_found sample_client (by decide) (by decide)
      (by decide) ⟨rfl, rfl⟩ rfl).2.2.2.1 0 sample_bytes 5, by decide⟩

/-- C27 does not hold of the code: `client_write` makes no call into `cache.c`. On a
little-endian host, with `hello` cached for offset 0 of `a.txt`, a `client_write` of `HELLO` to
that offset that the storage server answers with its `WRITE` header returns `ERR_SUCCESS`, and
a following `cache_get("a.txt", 0, 5)` still hits and yields `hello`. -/
theorem client_write_keeps_cached_entry :
    ∃ c1, cache_put "a.txt".toList 0 sample_bytes 5 (cache_init 2) = some (ERR_SUCCESS, c1) ∧
      (client_write true "a.txt".toList 0 [72, 69, 76, 76, 79] 5
        (sample_network sample_write_reply)
        { request_counter := 1, cache := c1 }).1 = ERR_SUCCESS.code ∧
      (cache_get "a.txt".toList 0 5
        (client_write true "a.txt".toList 0 [72, 69, 76, 76, 79] 5
          (sample_network sample_write_reply)
          { request_counter := 1, cache := c1 }).2.2.cache).map (fun r => (r.1, r.2.1, r.2.2.1))
        = some (ERR_SUCCESS, sample_bytes, 5) := by
  refine ⟨_, rfl, ?_, ?_⟩ <;> decide

/-- C27 as the code has it: `client_write` leaves the client cache as it was, whatever it
returns. On a cache that holds the items `xs` with pairwise distinct keys, the cache after
`client_write(path, offset, data)` holds the same items; an item with the key `(path, offset)`
is still served by `cache_get(path, offset, n)` for every `n` up to its length, and
`cache_get(path, offset, n)` misses after the write only when no item had the key before it. -/
theorem client_write_leaves_cache (little_endian : Bool) (filepath : List Char) (offset : Nat)
    (buffer : List Nat) (length : Nat) (net : Network) (s : ClientState)
    {xs : List (List Char × Nat × List Nat × Nat)} (h : cache_holds s.cache xs)
    (hnd : (xs.map item_key).Nodup) :
    (client_write little_endian filepath offset buffer length net s).2.2.cache = s.cache ∧
    cache_holds (client_write little_endian filepath offset buffer length net s).2.2.cache xs ∧
    (∀ x ∈ xs, item_key x = (filepath, offset) → ∀ n, n ≤ x.2.2.2 →
      ∃ c2, cache_get filepath offset n
          (client_write little_endian filepath offset buffer length net s).2.2.cache
        = some (ERR_SUCCESS, x.2.2.1.take n, n, c2)) ∧
    ((∀ x ∈ xs, item_key x ≠ (filepath, offset)) → ∀ n,
      cache_get filepath offset n
          (client_write little_endian filepath offset buffer length net s).2.2.cache
        = some (ERR_NOT_FOUND, [], 0, s.cache)) := by
  have hc : (client_write little_endian filepath offset buffer length net s).2.2.cache
      = s.cache := by
    unfold client_write ensure_storage_connection generate_request_id
    simp only
    split_ifs <;> rfl
  rw [hc]
  refine ⟨rfl, h, ?_, fun hno n => cache_get_miss h filepath offset n hno⟩
  intro x hx hkey n hn
  have hk : x.1 = filepath ∧ x.2.1 = offset := by
    simpa [item_key] using hkey
  obtain ⟨c2, hget⟩ := cache_get_hit h hnd hx hn
  rw [hk.1, hk.2] at hget
  exact ⟨c2, hget⟩

/-- Instance of the amended C27: on the cache after the two calls of `sample_puts`, a
`client_write` to offset 1 of `p` leaves the cache as it was, and `cache_get("p", 1, 1)` still
yields the byte `B`. -/
theorem client_write_leaves_cache_witness :
    ∃ s, cache_puts sample_puts (cache_init 2) = some s ∧
      (client_write true "p".toList 1 [67] 1 (sample_network sample_write_reply)
        { request_counter := 1, cache := s }).2.2.cache = s ∧
      ∃ c2, cache_get "p".toList 1 1
          (client_write true "p".toList 1 [67] 1 (sample_network sample_write_reply)
            { request_counter := 1, cache := s }).2.2.cache
        = some (ERR_SUCCESS, [66], 1, c2) := by
  obtain ⟨s, hs, -, hholds⟩ := sample_cache_holds
  have h := client_write_leaves_cache true "p".toList 1 [67] 1
    (sample_network sample_write_reply) { request_counter := 1, cache := s } hholds (by decide)
  exact ⟨s, hs, h.1, h.2.2.1 ("p".toList, 1, [66], 1) (by simp) rfl 1 (by decide)⟩

/-- C28 fails at capacity 1. After `cache_init(1)` and `cache_put("p", 0, "A", 1)` the second
`cache_put("p", 1, "B", 1)` calls `remove_tail`, which frees the only entry and sets `tail` to
`NULL` and `size` to 0 but leaves `head` pointing at the freed entry: `head` is not `NULL`
while `tail` is, and the walk from `head` meets a freed cell. The store `cache->head->prev =
entry` that follows goes through the dangling pointer, so the call sequence has no defined
result. From capacity 2 on (below `2 ^ 64`) the property holds: every sequence of `cache_put`,
`cache_get` and `cache_invalidate` calls after `cache_init(C)` returns, and leaves `head` `NULL`
exactly when `tail` is `NULL` and exactly when `size` is 0, a walk from `head` along `next` that
meets allocated cells only and visits `size` of them, and `size` at most `C`. -/
theorem lru_list_broken_at_capacity_one :
    (∃ s1 s, run_cache_ops [CacheOp.put "p".toList 0 [65] 1] (cache_init 1) = some s1 ∧
      remove_tail s1 = some s ∧ s.head = some 1 ∧ s.tail = none ∧ s.size = 0 ∧
      s.mem 1 = none ∧ cache_keys s s.brk s.head = none) ∧
    run_cache_ops [CacheOp.put "p".toList 0 [65] 1, CacheOp.put "p".toList 1 [66] 1]
      (cache_init 1) = none ∧
    (∀ (C : Nat) (ops : List CacheOp), 2 ≤ C → C < 2 ^ 64 →
      ∃ s ks, run_cache_ops ops (cache_init C) = some s ∧
        (s.head = none ↔ s.tail = none) ∧ (s.head = none ↔ s.size = 0) ∧
        cache_keys s s.brk s.head = some ks ∧ ks.length = s.size ∧ s.size ≤ C) := by
  refine ⟨⟨_, _, rfl, rfl, rfl, rfl, rfl, rfl, rfl⟩, rfl, ?_⟩
  intro C ops h2 h64
  obtain ⟨s, ys, hs, hholds, hlen, -⟩ := run_cache_ops_holds ops
    (⟨[], cache_wf_init C, List.Forall₂.nil⟩ : cache_holds (cache_init C) []) h2 h64
    (Nat.zero_le _)
  obtain ⟨f1, f2, f3, f4⟩ := cache_wf_facts hholds
  refine ⟨s, _, hs, f1, f2, f3, f4, ?_⟩
  rw [← f4, List.length_map]
  exact hlen

/-- Instance of C28 at capacity 2: the calls of `sample_cache_ops` after `cache_init(2)` return
and leave a list of one entry with `head` and `tail` set and `size` 1. -/
theorem lru_list_broken_at_capacity_one_witness :
    ∃ s ks, run_cache_ops sample_cache_ops (cache_init 2) = some s ∧
      (s.head = none ↔ s.tail = none) ∧ (s.head = none ↔ s.size = 0) ∧
      cache_keys s s.brk s.head = some ks ∧ ks.length = s.size ∧ s.size ≤ 2 :=
  lru_list_broken_at_capacity_one.2.2 2 sample_cache_ops (by decide) (by decide)

/-- C29 fails: the `READ` handler passes the decoded `request.length` to `storage_read` without
comparing it with `MAX_BUFFER_SIZE`. For every `client_read` with an offset below `2 ^ 32` and a
length between 4097 and `2 ^ 32 - 1`, the handler receives the request as a `READ`, decodes that
length, and, when the file holds that many bytes from the offset on, `fread` stores more than
4096 bytes into `buffer[MAX_BUFFER_SIZE]`. -/
theorem read_length_unchecked (little_endian : Bool) (filepath : List Char)
    (offset length : Nat) (other stale : List Nat) (net : Network) (s : ClientState)
    (server_data_dir : List Char) (files : List Char → Option (List Nat))
    (content : List Nat)
    (hconn : (ensure_storage_connection little_endian filepath net s).1 = ERR_SUCCESS.code)
    (hsend : net.ss_send_ok 0 = true ∧ net.ss_send_ok 1 = true)
    (hoffset : offset < 2 ^ 32) (hover : MAX_BUFFER_SIZE < length) (hlength : length < 2 ^ 32)
    (hfile : ∀ p, files p = some content) (hcontent : offset + length ≤ content.length) :
    ∃ h q, receive_request little_endian
          (client_read little_endian filepath offset length other stale net s).2.2.1
        = Received.read h q ∧
      (read_arguments little_endian q).2 = length ∧
      MAX_BUFFER_SIZE < (read_arguments little_endian q).2 ∧
      handle_read little_endian server_data_dir files true q = none := by
  rw [client_read_sent little_endian filepath offset length other stale net s hconn hsend,
    receive_read_bytes little_endian _ _ other rfl]
  have hargs := read_arguments_htonl little_endian
    { header :=
        { request_id :=
            (generate_request_id (ensure_storage_connection little_endian filepath net s).2).1,
          type := MSG_TYPE_READ, payload_size := htonl little_endian 288 },
      filepath := filepath.take 255,
      offset := htonl little_endian (offset % 2 ^ 32),
      length := htonl little_endian (length % 2 ^ 32) } other (offset % 2 ^ 32)
    (length % 2 ^ 32) rfl rfl
  rw [Nat.mod_mod, Nat.mod_mod] at hargs
  have e1 := Nat.mod_eq_of_lt hoffset
  have e2 := Nat.mod_eq_of_lt hlength
  refine ⟨_, _, rfl, ?_, ?_, ?_⟩
  · rw [hargs]
    exact e2
  · rw [hargs]
    exact lt_of_lt_of_eq hover e2.symm
  · apply handle_read_overflow little_endian server_data_dir files _ content (hfile _)
    · rw [hargs]
      exact lt_of_lt_of_eq hover e2.symm
    · rw [hargs]
      show offset % 2 ^ 32 + length % 2 ^ 32 ≤ content.length
      rw [e1, e2]
      exact hcontent

/-- Instance of C29 on a little-endian host: `client_read("a.txt", 0, .., 8192)` on a file of
8192 bytes makes the `READ` handler decode the length 8192 and store past the end of its
buffer of 4096 bytes. -/
theorem read_length_unchecked_witness :
    ∃ h q, receive_request true
          (client_read true "a.txt".toList 0 8192 [] [] (sample_network [])
            sample_client).2.2.1
        = Received.read h q ∧
      (read_arguments true q).2 = 8192 ∧
      handle_read true "data".toList sample_files true q = none := by
  obtain ⟨h, q, h1, h2, -, h3⟩ := read_length_unchecked true "a.txt".toList 0 8192 [] []
    (sample_network []) sample_client "data".toList sample_files (List.replicate 8192 0)
    (by decide) ⟨rfl, rfl⟩ (by decide) (by decide) (by decide) (fun _ => rfl)
    (le_of_eq (by rw [List.length_replicate]))
  exact ⟨h, q, h1, h2, h3⟩

/-- C30: path resolution depends only on the sequence of non-empty components. The tokens that
`split_path` produces are the non-empty pieces of the string between `/` characters. For every
tree and every two strings with the same non-empty list of components, `directory_lookup`,
`directory_create`, `directory_register_file`, `directory_get_metadata` and `directory_delete`
return the same code, the same result and the same tree for both strings. A string without
components other than "/" makes each of them return `ERR_INVALID_ARGUMENT` and leaves the tree
as it is. -/
theorem path_resolution_by_components (p q : List Char) (root : DirectoryEntry)
    (m : FileMetadata) :
    split_path p = spec_components p ∧
    (spec_components p = spec_components q → spec_components p ≠ [] →
      directory_lookup p root = directory_lookup q root ∧
      directory_create p root = directory_create q root ∧
      directory_register_file p m root = directory_register_file q m root ∧
      directory_get_metadata p root = directory_get_metadata q root ∧
      directory_delete p root = directory_delete q root) ∧
    (spec_components p = [] → p ≠ ['/'] →
      directory_lookup p root = (ERR_INVALID_ARGUMENT, root, []) ∧
      directory_create p root = (ERR_INVALID_ARGUMENT, root) ∧
      directory_register_file p m root = (ERR_INVALID_ARGUMENT, root) ∧
      directory_get_metadata p root = (ERR_INVALID_ARGUMENT, none) ∧
      directory_delete p root = (ERR_INVALID_ARGUMENT, some root)) := by
  refine ⟨split_path_eq_components p, ?_, ?_⟩
  · intro hpq hne
    have hq : spec_components q ≠ [] := hpq ▸ hne
    have hint : ∀ (c : Bool) (d : Int),
        directory_lookup_internal p c d root = directory_lookup_internal q c d root := by
      intro c d
      unfold directory_lookup_internal
      simp only [split_path_eq_components, List.length_eq_zero, hne, hq, false_and, if_false,
        hpq]
    have hl : directory_lookup p root = directory_lookup q root := hint false 0
    refine ⟨hl, ?_, ?_, ?_, ?_⟩
    · unfold directory_create
      rw [hint]
    · unfold directory_register_file
      rw [hint]
    · unfold directory_get_metadata
      rw [hl]
    · unfold directory_delete
      rw [hl]
  · intro hnil hroot
    have hint : ∀ (c : Bool) (d : Int),
        directory_lookup_internal p c d root = (ERR_INVALID_ARGUMENT, root, []) := by
      intro c d
      unfold directory_lookup_internal
      simp [split_path_eq_components, hnil, hroot]
    have hl : directory_lookup p root = (ERR_INVALID_ARGUMENT, root, []) := hint false 0
    refine ⟨hl, ?_, ?_, ?_, ?_⟩
    · unfold directory_create
      rw [hint]
    · unfold directory_register_file
      rw [hint]
      simp
    · unfold directory_get_metadata
      rw [hl]
      simp
    · unfold directory_delete
      rw [hl]
      simp

/-- Instance of C30: the strings "a/b" and "/a//b/" have the components `a`, `b`, and
registering a file under either gives the same tree; the string "//" has no component and is
rejected. -/
theorem path_resolution_by_components_witness :
    directory_register_file "a/b".toList sample_metadata_1 directory_init
      = directory_register_file "/a//b/".toList sample_metadata_1 directory_init ∧
    directory_lookup "//".toList directory_init = (ERR_INVALID_ARGUMENT, directory_init, []) :=
  ⟨((path_resolution_by_components "a/b".toList "/a//b/".toList directory_init
      sample_metadata_1).2.1 (by decide) (by decide)).2.2.1,
   ((path_resolution_by_components "//".toList "//".toList directory_init
      sample_metadata_1).2.2 (by decide) (by decide)).1⟩

end NFS
